import Mathlib

/-! # Stream-output transcoder (`modules/stream_out/transcode.c`)

A shallow embedding of the transcoding module: the stream descriptors, the
session record `sout_stream_id_t`, session creation (`Add`,
`transcode_audio_ffmpeg_new`, `transcode_video_ffmpeg_new`), the per-unit
engines (`transcode_audio_ffmpeg_process`, `transcode_video_ffmpeg_process`)
and `Send`.

Conventions of the embedding

* C `int` and `mtime_t` values are `Int`; signed overflow is undefined in C
  and is not modelled.  Division is C division (`Int.tdiv`).
* Buffer cursors (`i_buffer_pos`, `i_buffer_in_pos`, capacities) are `Nat`.
* A byte buffer is the list of its bytes, the whole capacity included.
* libavcodec, libvorbis and the downstream stream chain are not part of the
  module: they are parameters (`libavcodec`, `sout_out_t`).  A codec keeps
  its private state in `priv_data`, which every call hands back.
* Loops that the C code does not bound take a fuel argument; running out of
  fuel is `none` (`Flow.next` for the loop of the video engine).
* Calls that leave the module during session creation, in the video engine
  and in `Send` are recorded, in order, in a list of `Event`s.
-/

namespace Transcode

/-! ## libc on byte buffers -/

/-- Byte copy `memcpy( &mem[off], src, |src| )`. -/
def memcpy (mem : List Nat) (off : Nat) (src : List Nat) : List Nat :=
  mem.take off ++ src ++ mem.drop (off + src.length)

/-- Overlap-safe `memmove( &mem[dst], &mem[src], n )`: the source bytes are
read before any byte is written. -/
def memmove (mem : List Nat) (dst src n : Nat) : List Nat :=
  memcpy mem dst ((mem.drop src).take n)

/-- Resize `realloc( mem, n )`; bytes gained are unspecified in C, zero here. -/
def realloc (mem : List Nat) (n : Nat) : List Nat :=
  mem.take n ++ List.replicate (n - mem.length) 0

/-- Fresh memory `malloc( n )`; its bytes are unspecified in C, zero here. -/
def malloc (n : Nat) : List Nat := List.replicate n 0

/-! ## VLC core types used by the module -/

/-- Modelled from the spec: the `VLC_FOURCC` packing of `vlc_common.h` (not
under src/), four characters packed into one 32-bit identifier. -/
def VLC_FOURCC (a b c d : Char) : Nat :=
  a.toNat + 256 * b.toNat + 65536 * c.toNat + 16777216 * d.toNat

/-- Modelled from the spec: status code of `vlc/vlc.h` (not under src/);
success is zero. -/
def VLC_SUCCESS : Int := 0

/-- Modelled from the spec: status code of `vlc/vlc.h` (not under src/); the
generic error is a non-zero code. -/
def VLC_EGENERIC : Int := -666

/-- Modelled from the spec: elementary stream categories of `vlc/input.h`
(not under src/). -/
inductive es_cat_t where
  | UNKNOWN_ES
  | VIDEO_ES
  | AUDIO_ES
  | SPU_ES
deriving DecidableEq

export es_cat_t (UNKNOWN_ES VIDEO_ES AUDIO_ES SPU_ES)

/-- Fields of `sout_format_t` that the module reads or writes. -/
structure sout_format_t where
  i_cat : es_cat_t
  i_fourcc : Nat
  i_sample_rate : Int
  i_channels : Int
  i_block_align : Int
  i_width : Int
  i_height : Int
  i_bitrate : Int
  i_extra_data : Int
  p_extra_data : List Nat
deriving DecidableEq

/-- Fields of `sout_buffer_t` that the module reads or writes; `i_size` is
the length of `p_buffer`. -/
structure sout_buffer_t where
  p_buffer : List Nat
  i_dts : Int
  i_pts : Int
  i_length : Int
deriving DecidableEq

/-- Byte count `i_size` of a unit. -/
def sout_buffer_t.i_size (b : sout_buffer_t) : Nat := b.p_buffer.length

/-! ## libavcodec interface -/

/-- Codec identifiers of libavcodec named by the module; `CODEC_ID_NONE` is
the value 0. -/
inductive CodecID where
  | CODEC_ID_NONE
  | CODEC_ID_MP2
  | CODEC_ID_MP3LAME
  | CODEC_ID_AC3
  | CODEC_ID_WMAV1
  | CODEC_ID_WMAV2
  | CODEC_ID_VORBIS
  | CODEC_ID_PCM_ALAW
  | CODEC_ID_MPEG1VIDEO
  | CODEC_ID_MPEG2VIDEO
  | CODEC_ID_MPEG4
  | CODEC_ID_MSMPEG4V1
  | CODEC_ID_MSMPEG4V2
  | CODEC_ID_MSMPEG4V3
  | CODEC_ID_H263
  | CODEC_ID_H263I
  | CODEC_ID_HUFFYUV
  | CODEC_ID_WMV1
  | CODEC_ID_WMV2
  | CODEC_ID_MJPEG
  | CODEC_ID_MJPEGB
  | CODEC_ID_DVVIDEO
  | CODEC_ID_SVQ1
  | CODEC_ID_SVQ3
  | CODEC_ID_RAWVIDEO
deriving DecidableEq

open CodecID

/-- Pixel formats of libavcodec named by the module; `PIX_FMT_YUV420P` is
the value 0. -/
inductive PixelFormat where
  | PIX_FMT_YUV420P
  | PIX_FMT_YUV422
  | PIX_FMT_RGB24
  | PIX_FMT_YUV422P
  | PIX_FMT_YUV444P
  | PIX_FMT_RGBA32
  | PIX_FMT_RGB565
  | PIX_FMT_RGB555
  | PIX_FMT_GRAY8
deriving DecidableEq

open PixelFormat

/-- A codec handle `AVCodec*` as returned by `avcodec_find_decoder` and
`avcodec_find_encoder` (`none` is `NULL`). -/
structure AVCodec where
  id : CodecID
  encoder : Bool
deriving DecidableEq

/-- The `coded_frame` fields read after `avcodec_encode_video`. -/
structure CodedFrame where
  pts : Int
  pict_type : Int
deriving DecidableEq

/-- Fields of `AVCodecContext` that the module reads or writes. -/
structure AVCodecContext where
  bit_rate : Int
  bit_rate_tolerance : Int
  flags : Int
  sample_rate : Int
  channels : Int
  block_align : Int
  frame_size : Int
  extradata_size : Int
  extradata : List Nat
  width : Int
  height : Int
  pix_fmt : PixelFormat
  frame_rate : Int
  frame_rate_base : Int
  gop_size : Int
  max_b_frames : Int
  b_frame_strategy : Int
  qmin : Int
  qmax : Int
  mb_decision : Int
  workaround_bugs : Int
  error_resilience : Int
  get_buffer_hooked : Bool
  delay : Int
  coded_frame : CodedFrame
  priv_data : List Nat
deriving DecidableEq

/-- What `avcodec_open` leaves behind: its return value, and the fields the
codec fills in when it is opened. -/
structure OpenResult where
  ret : Int
  frame_size : Int
  delay : Int
  priv_data : List Nat
deriving DecidableEq

/-- What `avcodec_decode_audio` hands back: the used-byte count, the sample
bytes it wrote at the output pointer (their count is the value left in
`*frame_size_ptr`) and the codec's private state. -/
structure AudioDecoded where
  i_used : Int
  samples : List Nat
  priv_data : List Nat
deriving DecidableEq

/-- What `avcodec_encode_audio` hands back: the coded size, the contents of
the output buffer and the codec's private state. -/
structure AudioEncoded where
  i_out_size : Int
  p_buffer_out : List Nat
  priv_data : List Nat
deriving DecidableEq

/-- A decoded or wrapped picture (`AVFrame`): the layout `avpicture_fill`
gave it, the size of the buffer behind `data[0]`, its payload, and the timing
fields the module reads. -/
structure AVFrame where
  pix_fmt : PixelFormat
  width : Int
  height : Int
  buf_size : Int
  data : List Nat
  pts : Int
  repeat_pict : Int
  pict_type : Int
deriving DecidableEq

/-- What `avcodec_decode_video` hands back.  The decoder may refresh the
stream parameters of its context (`ctx`), and stamps the picture through the
`get_buffer` hook, which reads `p_sys->i_input_pts`. -/
structure VideoDecoded where
  i_used : Int
  b_gotpicture : Bool
  frame : AVFrame
  ctx : AVCodecContext
deriving DecidableEq

/-- What `avcodec_encode_video` hands back. -/
structure VideoEncoded where
  i_out : Int
  p_buffer : List Nat
  coded_frame : CodedFrame
  priv_data : List Nat
deriving DecidableEq

/-- A packet of libvorbis with the block size `vorbis_packet_blocksize`
reports for it. -/
structure VorbisPacket where
  packet : List Nat
  blocksize : Int
deriving DecidableEq

/-- The scaler context built by `img_resample_full_init`, kept as the
arguments it was built from. -/
structure ImgReSampleContext where
  owidth : Int
  oheight : Int
  iwidth : Int
  iheight : Int
  topBand : Int
  bottomBand : Int
  leftBand : Int
  rightBand : Int
deriving DecidableEq

/-- Preprocessor symbols that select code of the translation unit. -/
structure build_t where
  WORDS_BIGENDIAN : Bool
  HAVE_VORBIS_VORBISENC_H : Bool
deriving DecidableEq

/-- The libavcodec and libvorbis entry points and constants the module uses.
They are outside the module and stay parameters of every definition. -/
structure libavcodec where
  LIBAVCODEC_BUILD : Nat
  AVCODEC_MAX_AUDIO_FRAME_SIZE : Nat
  FF_INPUT_BUFFER_PADDING_SIZE : Nat
  FF_MAX_B_FRAMES : Int
  FF_BUG_AUTODETECT : Int
  FF_MB_DECISION_SIMPLE : Int
  FF_MB_DECISION_BITS : Int
  FF_MB_DECISION_RD : Int
  CODEC_FLAG_HQ : Int
  FRAME_RATE_BASE : Int
  FF_I_TYPE : Int
  FF_P_TYPE : Int
  avcodec_alloc_context : AVCodecContext
  avcodec_alloc_frame : AVFrame
  avcodec_find_decoder : CodecID → Option AVCodec
  avcodec_find_encoder : CodecID → Option AVCodec
  avcodec_open : AVCodecContext → Option AVCodec → OpenResult
  avcodec_decode_audio : AVCodecContext → Int → List Nat → AudioDecoded
  avcodec_encode_audio : AVCodecContext → Nat → List Nat → AudioEncoded
  avcodec_decode_video : AVCodecContext → AVFrame → List Nat → Int → Int → VideoDecoded
  avcodec_encode_video : AVCodecContext → Nat → AVFrame → VideoEncoded
  avpicture_get_size : PixelFormat → Int → Int → Int
  avpicture_deinterlace : AVFrame → AVFrame → PixelFormat → Int → Int → List Nat
  img_convert : AVFrame → PixelFormat → AVFrame → PixelFormat → Int → Int → List Nat
  img_resample : Option ImgReSampleContext → AVFrame → AVFrame → List Nat
  vorbis_setup : Int → Int → Int → List Nat
  vorbis_analysis_headerout : List Nat → List Nat × List Nat × List Nat
  vorbis_analysis : List Nat → Int → Int → Int → List Nat → List VorbisPacket × List Nat

/-- Per-pipeline state `sout_stream_sys_t`: the configuration read by `Open`
and the timing fields shared by the sessions of the pipeline. -/
structure sout_stream_sys_t where
  i_acodec : Nat
  i_sample_rate : Int
  i_channels : Int
  i_abitrate : Int
  i_vcodec : Nat
  i_vbitrate : Int
  i_vtolerance : Int
  i_width : Int
  i_height : Int
  i_b_frames : Int
  i_key_int : Int
  i_qmin : Int
  i_qmax : Int
  i_hq : Int
  b_deinterlace : Bool
  i_crop_top : Int
  i_crop_bottom : Int
  i_crop_right : Int
  i_crop_left : Int
  i_input_pts : Int
  i_output_pts : Int
  i_last_ref_pts : Int
  i_buggy_pts_detect : Int
deriving DecidableEq

/-- Per-stream session `sout_stream_id_t`.  `id` is the handle of the
downstream stream (`none` is `NULL`); `ff_dec` and `ff_enc` are the codec
handles; the three staging buffers are kept with their cursors. -/
structure sout_stream_id_t where
  b_transcode : Bool
  f_src : sout_format_t
  f_dst : sout_format_t
  id : Option Nat
  ff_dec : Option AVCodec
  ff_dec_c : AVCodecContext
  b_enc_inited : Bool
  ff_enc : Option AVCodec
  ff_enc_c : AVCodecContext
  i_dts : Int
  i_length : Int
  i_buffer_in : Nat
  i_buffer_in_pos : Nat
  p_buffer_in : List Nat
  i_buffer : Nat
  i_buffer_pos : Nat
  p_buffer : List Nat
  i_buffer_out : Nat
  i_buffer_out_pos : Nat
  p_buffer_out : List Nat
  p_ff_pic : Option AVFrame
  p_ff_pic_tmp0 : Option AVFrame
  p_ff_pic_tmp1 : Option AVFrame
  p_ff_pic_tmp2 : Option AVFrame
  p_vresample : Option ImgReSampleContext
  vorbis_state : List Nat
  i_last_block_size : Int
  i_samples_delay : Int
  b_headers_sent : Bool
deriving DecidableEq

/-! ## The world outside the module -/

/-- The pictures of a video session that the local pointer `frame` of
`transcode_video_ffmpeg_process` can designate. -/
inductive FrameSlot where
  | p_ff_pic
  | p_ff_pic_tmp0
  | p_ff_pic_tmp1
  | p_ff_pic_tmp2
deriving DecidableEq

/-- A call that leaves the module, with what it returned: the calls of the
downstream stream chain (`pf_add`, `pf_send`, `pf_del`), `sout_BufferDelete`,
and the libavcodec calls of session creation and of the video engine. -/
inductive Event where
  | pf_add (fmt : sout_format_t) (ret : Option Nat)
  | pf_send (id : Option Nat) (chain : List sout_buffer_t) (ret : Int)
  | pf_del (id : Nat)
  | sout_BufferDelete (buf : sout_buffer_t)
  | avcodec_open (ctx : AVCodecContext) (codec : Option AVCodec) (ret : Int)
  | avcodec_close (ctx : AVCodecContext)
  | avcodec_decode_video (ctx : AVCodecContext) (i_data : Int) (i_used : Int)
      (b_gotpicture : Bool)
  | avpicture_fill (picture : FrameSlot) (pix_fmt : PixelFormat) (width height : Int)
  | avcodec_encode_video (ctx : AVCodecContext) (frame : AVFrame) (i_out : Int)
deriving DecidableEq

/-- The next element of the stream chain, `p_sys->p_out`.  What a call
returns may depend on everything that happened before it, so each entry
point is handed the calls made so far. -/
structure sout_out_t where
  pf_add : List Event → sout_format_t → Option Nat
  pf_send : List Event → Option Nat → List sout_buffer_t → Int

/-! ## Audio engine: `transcode_audio_ffmpeg_process` -/

/-- The value of a byte read through an `int8_t` pointer. -/
def int8 (b : Nat) : Int :=
  if b % 256 < 128 then ((b % 256 : Nat) : Int) else ((b % 256 : Nat) : Int) - 256

/-- The two bytes an `int16_t` store of the C value `v` leaves in memory (the
value is cut to 16 bits), in host byte order. -/
def store16 (bld : build_t) (v : Int) : List Nat :=
  if bld.WORDS_BIGENDIAN then [(v % 65536).toNat / 256, (v % 65536).toNat % 256]
  else [(v % 65536).toNat % 256, (v % 65536).toNat / 256]

/-- The loop `*sout++ = ( *sin++ ) << 8` of the 's8' branch. -/
def s8_samples (bld : build_t) : List Nat → List Nat
  | [] => []
  | b :: t => store16 bld (int8 b * 256) ++ s8_samples bld t

/-- The loop `*sout++ = ( *sin++ - 128 ) << 8` of the 'u8' branch (`sin` is
an `int8_t` pointer there as well). -/
def u8_samples (bld : build_t) : List Nat → List Nat
  | [] => []
  | b :: t => store16 bld ((int8 b - 128) * 256) ++ u8_samples bld t

/-- The loop `tmp[1] = *sin++; tmp[0] = *sin++; *sout++ = *(int16_t*)tmp`:
every byte pair is exchanged. -/
def swab16 : List Nat → List Nat
  | a :: b :: t => b :: a :: swab16 t
  | _ => []

/-- Lines 806-815: whether the timestamp computation at the head of the call
divides by zero.  The divisors are `f_dst.i_sample_rate` on the Vorbis
branch, and `ff_dec_c->channels` and `ff_dec_c->sample_rate` otherwise; an
integer division by zero raises SIGFPE and the call does not return. -/
@[reducible] def audio_dts_traps (bld : build_t) (s : sout_stream_id_t) : Prop :=
  if bld.HAVE_VORBIS_VORBISENC_H ∧ s.f_dst.i_fourcc = VLC_FOURCC 'v' 'o' 'r' 'b' then
    s.f_dst.i_sample_rate = 0
  else s.ff_dec_c.channels = 0 ∨ s.ff_dec_c.sample_rate = 0

/-- Lines 812-815 and 806-809: the timestamp of the first unit the call will
emit, pushed back by the duration of the samples still buffered.  The value
is that of the C expression when `audio_dts_traps` does not hold, which is
the only case in which `transcode_audio_ffmpeg_process` evaluates it. -/
def audio_start_dts (bld : build_t) (s : sout_stream_id_t) (inb : sout_buffer_t) : Int :=
  if bld.HAVE_VORBIS_VORBISENC_H ∧ s.f_dst.i_fourcc = VLC_FOURCC 'v' 'o' 'r' 'b' then
    inb.i_dts - Int.tdiv (1000000 * s.i_samples_delay) s.f_dst.i_sample_rate
  else
    inb.i_dts -
      Int.tdiv (1000000 * Int.tdiv (((s.i_buffer_pos / 2 : Nat) : Int)) s.ff_dec_c.channels)
        s.ff_dec_c.sample_rate

/-- Lines 817-825: append the unit to the input staging buffer, growing the
buffer when the unit does not fit. -/
def audio_gather (s : sout_stream_id_t) (inb : sout_buffer_t) : sout_stream_id_t :=
  let s1 : sout_stream_id_t :=
    if s.i_buffer_in_pos + inb.i_size > s.i_buffer_in then
      { s with
        i_buffer_in := s.i_buffer_in_pos + inb.i_size + 1024
        p_buffer_in := realloc s.p_buffer_in (s.i_buffer_in_pos + inb.i_size + 1024) }
    else s
  { s1 with
    p_buffer_in := memcpy s1.p_buffer_in s1.i_buffer_in_pos inb.p_buffer
    i_buffer_in_pos := s1.i_buffer_in_pos + inb.i_size }

/-- Lines 804-825: the session when the `do ... while` loop is entered, the
timestamp set and the unit gathered. -/
def audio_enter (bld : build_t) (s : sout_stream_id_t) (inb : sout_buffer_t) :
    sout_stream_id_t :=
  audio_gather { s with i_dts := audio_start_dts bld s inb } inb

/-- How the decode loop of lines 834-875 was left. -/
inductive DecodeExit where
  | error
  | drained
  | full
deriving DecidableEq

/-- Lines 839-844: one call of `avcodec_decode_audio`, on the pending bytes
of the input staging buffer. -/
def audio_decode_call (lib : libavcodec) (s : sout_stream_id_t) : AudioDecoded :=
  lib.avcodec_decode_audio s.ff_dec_c ((s.i_buffer : Int) - (s.i_buffer_pos : Int))
    (s.p_buffer_in.take s.i_buffer_in_pos)

/-- Lines 841-848: the session once the decoder call has stored its samples
at `&p_buffer[i_buffer_pos]` and the fill level has been advanced. -/
def audio_after_decode (lib : libavcodec) (s : sout_stream_id_t) : sout_stream_id_t :=
  { s with
    ff_dec_c := { s.ff_dec_c with priv_data := (audio_decode_call lib s).priv_data }
    p_buffer := memcpy s.p_buffer s.i_buffer_pos (audio_decode_call lib s).samples
    i_buffer_pos := s.i_buffer_pos + (audio_decode_call lib s).samples.length }

/-- Lines 856-862: the used bytes are removed from the input staging
buffer. -/
def audio_consume (lib : libavcodec) (s : sout_stream_id_t) : sout_stream_id_t :=
  { audio_after_decode lib s with
    p_buffer_in := memmove s.p_buffer_in 0 (audio_decode_call lib s).i_used.toNat
      (s.i_buffer_in - (audio_decode_call lib s).i_used.toNat)
    i_buffer_in_pos := s.i_buffer_in_pos - (audio_decode_call lib s).i_used.toNat }

/-- Lines 834-875: the `for( ;; )` loop around `avcodec_decode_audio`. -/
def audio_decode_loop (lib : libavcodec) :
    Nat → sout_stream_id_t → Option (sout_stream_id_t × DecodeExit)
  | 0, _ => none
  | fuel + 1, s =>
    if (audio_decode_call lib s).i_used < 0 then
      some ({ audio_after_decode lib s with i_buffer_in_pos := 0 }, DecodeExit.error)
    else if (audio_decode_call lib s).i_used < (s.i_buffer_in_pos : Int) then
      if (audio_consume lib s).i_buffer_pos ≥ lib.AVCODEC_MAX_AUDIO_FRAME_SIZE then
        some (audio_consume lib s, DecodeExit.full)
      else audio_decode_loop lib fuel (audio_consume lib s)
    else
      some ({ audio_after_decode lib s with i_buffer_in_pos := 0 }, DecodeExit.drained)

/-- Lines 879-950: what the raw branch stores through `sout`: the used-byte
count `i_used`, the sample count `i_samples`, and the bytes stored. -/
def raw_samples (bld : build_t) (s : sout_stream_id_t) : Nat × Nat × List Nat :=
  if s.f_src.i_fourcc = VLC_FOURCC 's' '8' ' ' ' ' then
    (min ((s.i_buffer - s.i_buffer_pos) / 2) s.i_buffer_in_pos,
     min ((s.i_buffer - s.i_buffer_pos) / 2) s.i_buffer_in_pos,
     s8_samples bld (s.p_buffer_in.take (min ((s.i_buffer - s.i_buffer_pos) / 2) s.i_buffer_in_pos)))
  else if s.f_src.i_fourcc = VLC_FOURCC 'u' '8' ' ' ' ' then
    (min ((s.i_buffer - s.i_buffer_pos) / 2) s.i_buffer_in_pos,
     min ((s.i_buffer - s.i_buffer_pos) / 2) s.i_buffer_in_pos,
     u8_samples bld (s.p_buffer_in.take (min ((s.i_buffer - s.i_buffer_pos) / 2) s.i_buffer_in_pos)))
  else if s.f_src.i_fourcc = VLC_FOURCC 's' '1' '6' 'l' then
    (min ((s.i_buffer - s.i_buffer_pos) / 2) (s.i_buffer_in_pos / 2) * 2,
     min ((s.i_buffer - s.i_buffer_pos) / 2) (s.i_buffer_in_pos / 2),
     if bld.WORDS_BIGENDIAN then
       swab16 (s.p_buffer_in.take (min ((s.i_buffer - s.i_buffer_pos) / 2) (s.i_buffer_in_pos / 2) * 2))
     else s.p_buffer_in.take (min ((s.i_buffer - s.i_buffer_pos) / 2) (s.i_buffer_in_pos / 2) * 2))
  else if s.f_src.i_fourcc = VLC_FOURCC 's' '1' '6' 'b' then
    (min ((s.i_buffer - s.i_buffer_pos) / 2) (s.i_buffer_in_pos / 2) * 2,
     min ((s.i_buffer - s.i_buffer_pos) / 2) (s.i_buffer_in_pos / 2),
     if bld.WORDS_BIGENDIAN then
       s.p_buffer_in.take (min ((s.i_buffer - s.i_buffer_pos) / 2) (s.i_buffer_in_pos / 2) * 2)
     else swab16 (s.p_buffer_in.take (min ((s.i_buffer - s.i_buffer_pos) / 2) (s.i_buffer_in_pos / 2) * 2)))
  else (0, 0, [])

/-- Lines 877-960: the decoder-less branch, sample-format normalisation
followed by the removal of the used bytes from the input staging buffer. -/
def audio_raw_decode (bld : build_t) (s : sout_stream_id_t) : sout_stream_id_t :=
  { s with
    p_buffer := memcpy s.p_buffer s.i_buffer_pos (raw_samples bld s).2.2
    i_buffer_pos := s.i_buffer_pos + 2 * (raw_samples bld s).2.1
    p_buffer_in :=
      if (raw_samples bld s).1 < s.i_buffer_in_pos then
        memmove s.p_buffer_in 0 (raw_samples bld s).1 (s.i_buffer_in - (raw_samples bld s).1)
      else s.p_buffer_in
    i_buffer_in_pos := s.i_buffer_in_pos - (raw_samples bld s).1 }

/-- Lines 832-960: the decode stage of one pass; the flag returned is the new
value of `b_again`. -/
def audio_decode_stage (bld : build_t) (lib : libavcodec) (fuel : Nat)
    (s : sout_stream_id_t) (b_again : Bool) : Option (sout_stream_id_t × Bool) :=
  match s.ff_dec with
  | some _ =>
    match audio_decode_loop lib fuel s with
    | none => none
    | some (s1, DecodeExit.full) => some (s1, true)
    | some (s1, _) => some (s1, b_again)
  | none => some (audio_raw_decode bld s, b_again)

/-- The assignment `p_buffer[dst] = p_buffer[src]` on `int16_t` samples that
start at byte offset `base`. -/
def copy_sample (mem : List Nat) (base : Nat) (dst src : Int) : List Nat :=
  memmove mem (base + 2 * dst.toNat) (base + 2 * src.toNat) 2

/-- Lines 1072-1078: the in-place 'dumb downmixing' loops. -/
def downmix (mem : List Nat) (base : Nat) (frame_size dst_channels src_channels : Int) :
    List Nat :=
  (List.range frame_size.toNat).foldl
    (fun (m : List Nat) (i : Nat) => (List.range dst_channels.toNat).foldl
      (fun (m : List Nat) (j : Nat) => copy_sample m base ((i : Int) * dst_channels + (j : Int))
        ((i : Int) * src_channels + (j : Int))) m) mem

/-- Line 1057: `i_frame_size`, the byte size of one encoder frame of decoded
samples. -/
def i_frame_size (s : sout_stream_id_t) : Int :=
  s.ff_enc_c.frame_size * 2 * s.ff_dec_c.channels

/-- Lines 1096-1098: the duration given to every unit of the libavcodec
path.  The value is that of the C expression when `ff_enc_c->sample_rate` is
not 0; `audio_encode_loop` does not evaluate it otherwise, the division
raising SIGFPE. -/
def audio_unit_length (s : sout_stream_id_t) : Int :=
  Int.tdiv (1000000 * s.ff_enc_c.frame_size) s.ff_enc_c.sample_rate

/-- Lines 1069-1079: the frame at `p_buffer` is downmixed in place when the
decoder and encoder channel counts differ.  `i_buffer_pos` is the local of
that name (the fill level when the encode loop was entered). -/
def audio_downmix_frame (i_buffer_pos : Nat) (s : sout_stream_id_t) : sout_stream_id_t :=
  if s.ff_dec_c.channels ≠ s.ff_enc_c.channels then
    { s with
      p_buffer := downmix s.p_buffer (i_buffer_pos - s.i_buffer_pos)
        s.ff_enc_c.frame_size s.f_dst.i_channels s.f_src.i_channels }
  else s

/-- Lines 1083-1084: one call of `avcodec_encode_audio`; the encoder is
handed the `frame_size` samples per encoder channel that start at
`p_buffer`. -/
def audio_encode_call (lib : libavcodec) (i_buffer_pos : Nat) (s : sout_stream_id_t) :
    AudioEncoded :=
  lib.avcodec_encode_audio (audio_downmix_frame i_buffer_pos s).ff_enc_c s.i_buffer_out
    (((audio_downmix_frame i_buffer_pos s).p_buffer.drop (i_buffer_pos - s.i_buffer_pos)).take
      (s.ff_enc_c.frame_size * 2 * s.ff_enc_c.channels).toNat)

/-- The session once the encoder call has returned. -/
def audio_after_encode (lib : libavcodec) (i_buffer_pos : Nat) (s : sout_stream_id_t) :
    sout_stream_id_t :=
  { audio_downmix_frame i_buffer_pos s with
    ff_enc_c := { s.ff_enc_c with priv_data := (audio_encode_call lib i_buffer_pos s).priv_data }
    p_buffer_out := (audio_encode_call lib i_buffer_pos s).p_buffer_out }

/-- Lines 1093-1102: the unit built from a coded frame. -/
def audio_unit (lib : libavcodec) (i_buffer_pos : Nat) (s : sout_stream_id_t) :
    sout_buffer_t :=
  { p_buffer := (audio_encode_call lib i_buffer_pos s).p_buffer_out.take
      (audio_encode_call lib i_buffer_pos s).i_out_size.toNat
    i_length := audio_unit_length s
    i_dts := s.i_dts
    i_pts := s.i_dts }

/-- Lines 1091 and 1105: the frame is taken off the fill level and the
running timestamp is advanced. -/
def audio_emit (lib : libavcodec) (i_buffer_pos : Nat) (s : sout_stream_id_t) :
    sout_stream_id_t :=
  { audio_after_encode lib i_buffer_pos s with
    i_buffer_pos := ((s.i_buffer_pos : Int) - i_frame_size s).toNat
    i_dts := s.i_dts + audio_unit_length s }

/-- Lines 1055-1111: the `for( ;; )` loop around `avcodec_encode_audio`.  The
result is `none` when the loop has not been left within the iterations
allowed, and when a unit is to be stamped while `ff_enc_c->sample_rate` is 0:
the division of lines 1096-1098 raises SIGFPE and the call does not
return. -/
def audio_encode_loop (lib : libavcodec) (i_buffer_pos : Nat) :
    Nat → sout_stream_id_t → List sout_buffer_t →
      Option (sout_stream_id_t × List sout_buffer_t)
  | 0, _, _ => none
  | fuel + 1, s, out =>
    if (s.i_buffer_pos : Int) < i_frame_size s then some (s, out)
    else if (audio_encode_call lib i_buffer_pos s).i_out_size ≤ 0 then
      some (audio_after_encode lib i_buffer_pos s, out)
    else if s.ff_enc_c.sample_rate = 0 then none
    else
      audio_encode_loop lib i_buffer_pos fuel (audio_emit lib i_buffer_pos s)
        (out ++ [audio_unit lib i_buffer_pos s])

/-- A Vorbis header packet as queued by lines 982-991. -/
def vorbis_header_unit (packet : List Nat) : sout_buffer_t :=
  { p_buffer := packet, i_length := 0, i_dts := 0, i_pts := 0 }

/-- Lines 1022-1047: one packet flushed by libvorbis becomes one unit.  The
duration is that of the C expression when `f_dst.i_sample_rate` is not 0;
`audio_encode_stage` does not reach a packet otherwise (see
`vorbis_traps`). -/
def vorbis_packet_unit (acc : sout_stream_id_t × List sout_buffer_t) (pkt : VorbisPacket) :
    sout_stream_id_t × List sout_buffer_t :=
  let i_block_size : Int := if pkt.blocksize < 0 then 0 else pkt.blocksize
  let i_samples : Int := (acc.1.i_last_block_size + i_block_size) / 4
  let i_length : Int := Int.tdiv (1000000 * i_samples) acc.1.f_dst.i_sample_rate
  ({ acc.1 with
     i_last_block_size := i_block_size
     i_samples_delay := acc.1.i_samples_delay - i_samples
     i_dts := acc.1.i_dts + i_length },
   acc.2 ++ [{ p_buffer := pkt.packet, i_length := i_length
               i_dts := acc.1.i_dts, i_pts := acc.1.i_dts }])

/-- Lines 996 and 1033-1035: whether the libvorbis encode branch divides by
zero: the sample count is divided by `f_src.i_channels`, and the duration of
every packet flushed by `f_dst.i_sample_rate`.  The division raises SIGFPE
and the call does not return. -/
@[reducible] def vorbis_traps (lib : libavcodec) (s : sout_stream_id_t) : Prop :=
  s.f_src.i_channels = 0 ∨
  (s.f_dst.i_sample_rate = 0 ∧
    (lib.vorbis_analysis s.vorbis_state
      (Int.tdiv (Int.tdiv (s.i_buffer_pos : Int) s.f_src.i_channels) 2)
      s.f_src.i_channels s.f_dst.i_channels (s.p_buffer.take s.i_buffer_pos)).1 ≠ [])

/-- Lines 969-1051: the libvorbis encode branch.  The sample conversion to
float and the analysis loops run inside libvorbis (`vorbis_analysis`), which
is handed the sample count, both channel counts and the buffered samples.
The result is that of the C code when `vorbis_traps` does not hold, which is
the only case in which `audio_encode_stage` evaluates it. -/
def vorbis_encode (lib : libavcodec) (s : sout_stream_id_t) (out : List sout_buffer_t) :
    sout_stream_id_t × List sout_buffer_t :=
  let out1 : List sout_buffer_t :=
    if s.b_headers_sent then out
    else out ++ [vorbis_header_unit (lib.vorbis_analysis_headerout s.vorbis_state).1,
                 vorbis_header_unit (lib.vorbis_analysis_headerout s.vorbis_state).2.1,
                 vorbis_header_unit (lib.vorbis_analysis_headerout s.vorbis_state).2.2]
  let i_samples : Int := Int.tdiv (Int.tdiv (s.i_buffer_pos : Int) s.f_src.i_channels) 2
  let r := lib.vorbis_analysis s.vorbis_state i_samples s.f_src.i_channels s.f_dst.i_channels
    (s.p_buffer.take s.i_buffer_pos)
  r.1.foldl vorbis_packet_unit
    ({ s with
       b_headers_sent := true
       i_samples_delay := s.i_samples_delay + i_samples
       i_buffer_pos := 0
       vorbis_state := r.2 }, out1)

/-- Lines 962-1111: the encode stage of one pass; `none` when it does not
end, the encode loop not being left or a division by zero raising SIGFPE. -/
def audio_encode_stage (bld : build_t) (lib : libavcodec) (fuel : Nat)
    (s : sout_stream_id_t) (out : List sout_buffer_t) :
    Option (sout_stream_id_t × List sout_buffer_t) :=
  if bld.HAVE_VORBIS_VORBISENC_H then
    if s.i_buffer_pos = 0 then some (s, out)
    else if s.f_dst.i_fourcc = VLC_FOURCC 'v' 'o' 'r' 'b' then
      if vorbis_traps lib s then none else some (vorbis_encode lib s out)
    else audio_encode_loop lib s.i_buffer_pos fuel s out
  else audio_encode_loop lib s.i_buffer_pos fuel s out

/-- Lines 1113-1119: move the unconsumed samples to the front of the buffer;
`i_buffer_pos` is the fill level before the encode stage. -/
def audio_compact (i_buffer_pos : Nat) (s : sout_stream_id_t) : sout_stream_id_t :=
  if s.i_buffer_pos ≠ 0 then
    { s with p_buffer := memmove s.p_buffer 0 (i_buffer_pos - s.i_buffer_pos) s.i_buffer_pos }
  else s

/-- One pass of the body of the `do ... while( b_again )` loop, lines
828-1120. -/
def audio_pass (bld : build_t) (lib : libavcodec) (fuel : Nat) (s : sout_stream_id_t)
    (out : List sout_buffer_t) (b_again : Bool) :
    Option (sout_stream_id_t × List sout_buffer_t × Bool) :=
  match audio_decode_stage bld lib fuel s b_again with
  | none => none
  | some (s1, b1) =>
    match audio_encode_stage bld lib fuel s1 out with
    | none => none
    | some (s2, out2) => some (audio_compact s1.i_buffer_pos s2, out2, b1)

/-- Lines 827-1121: the `do ... while( b_again )` loop; the second fuel
argument counts its passes. -/
def audio_do_while (bld : build_t) (lib : libavcodec) (fuel : Nat) :
    Nat → sout_stream_id_t → List sout_buffer_t → Bool →
      Option (sout_stream_id_t × List sout_buffer_t)
  | 0, _, _, _ => none
  | n + 1, s, out, b_again =>
    match audio_pass bld lib fuel s out b_again with
    | none => none
    | some (s1, out1, b1) =>
      if b1 then audio_do_while bld lib fuel n s1 out1 b1 else some (s1, out1)

/-- The function `transcode_audio_ffmpeg_process` (lines 795-1124): the
status returned, the session afterwards and the chain left in `*out`.  `none`
when the call does not return: it has not left one of its loops within `fuel`
iterations, or an integer division by zero has raised SIGFPE (lines 806-815,
996, 1033-1035 and 1096-1098). -/
def transcode_audio_ffmpeg_process (bld : build_t) (lib : libavcodec) (fuel : Nat)
    (s : sout_stream_id_t) (inb : sout_buffer_t) :
    Option (Int × sout_stream_id_t × List sout_buffer_t) :=
  if audio_dts_traps bld s then none
  else
  match audio_do_while bld lib fuel fuel (audio_enter bld s inb) [] false with
  | none => none
  | some (s1, out) => some (VLC_SUCCESS, s1, out)

/-! ## Notions used in the statements -/

/-- The timing fields of a unit: `(i_dts, i_pts, i_length)`. -/
def timing (u : sout_buffer_t) : Int × Int × Int := (u.i_dts, u.i_pts, u.i_length)

/-- The stream and codec parameters of two session states agree. -/
def same_setup (s s' : sout_stream_id_t) : Prop :=
  s'.f_src = s.f_src ∧ s'.f_dst = s.f_dst ∧ s'.ff_dec = s.ff_dec ∧
  s'.ff_dec_c.channels = s.ff_dec_c.channels ∧
  s'.ff_dec_c.sample_rate = s.ff_dec_c.sample_rate ∧
  s'.ff_enc_c.frame_size = s.ff_enc_c.frame_size ∧
  s'.ff_enc_c.channels = s.ff_enc_c.channels ∧
  s'.ff_enc_c.sample_rate = s.ff_enc_c.sample_rate ∧
  s'.i_buffer = s.i_buffer ∧ s'.i_buffer_out = s.i_buffer_out

/-- The buffers of a session are as large as their capacity fields say and
the cursors are within them. -/
def wf_buffers (s : sout_stream_id_t) : Prop :=
  s.p_buffer.length = s.i_buffer ∧ s.i_buffer_pos ≤ s.i_buffer ∧
  s.p_buffer_in.length = s.i_buffer_in ∧ s.i_buffer_in_pos ≤ s.i_buffer_in

/-- The first `i_buffer_pos` bytes of the decoded-samples buffer. -/
def decoded (s : sout_stream_id_t) : List Nat := s.p_buffer.take s.i_buffer_pos

/-- The first `i_buffer_in_pos` bytes of the input staging buffer. -/
def staged (s : sout_stream_id_t) : List Nat := s.p_buffer_in.take s.i_buffer_in_pos

/-- The payloads of a chain of units, one after the other. -/
def payloads (out : List sout_buffer_t) : List Nat :=
  (out.map (fun u => u.p_buffer)).flatten

/-- The source is raw 16-bit PCM ('s16l' or 's16b'). -/
def is_raw16 (s : sout_stream_id_t) : Prop :=
  s.f_src.i_fourcc = VLC_FOURCC 's' '1' '6' 'l' ∨ s.f_src.i_fourcc = VLC_FOURCC 's' '1' '6' 'b'

/-- What the raw 16-bit branches do to the bytes they take: a plain copy
when the source has the byte order of the host, an exchange of every byte
pair otherwise. -/
def sample_conv (bld : build_t) (s : sout_stream_id_t) (l : List Nat) : List Nat :=
  if s.f_src.i_fourcc = VLC_FOURCC 's' '1' '6' 'l' then
    if bld.WORDS_BIGENDIAN then swab16 l else l
  else
    if bld.WORDS_BIGENDIAN then l else swab16 l

/-- The encode stage of this session runs the libavcodec loop, not the
Vorbis branch. -/
def libavcodec_path (bld : build_t) (s : sout_stream_id_t) : Prop :=
  ¬ (bld.HAVE_VORBIS_VORBISENC_H = true ∧ s.f_dst.i_fourcc = VLC_FOURCC 'v' 'o' 'r' 'b')

/-- No integer division of `transcode_audio_ffmpeg_process` has a zero
divisor in this session: on the Vorbis branch the destination sample rate
(lines 806-809 and 1033-1035) and the source channel count (line 996),
otherwise the decoder context's channel count and sample rate (lines 812-815)
and the encoder context's sample rate (lines 1096-1098). -/
def divisors_nonzero (bld : build_t) (s : sout_stream_id_t) : Prop :=
  if bld.HAVE_VORBIS_VORBISENC_H = true ∧ s.f_dst.i_fourcc = VLC_FOURCC 'v' 'o' 'r' 'b' then
    s.f_dst.i_sample_rate ≠ 0 ∧ s.f_src.i_channels ≠ 0
  else s.ff_dec_c.channels ≠ 0 ∧ s.ff_dec_c.sample_rate ≠ 0 ∧ s.ff_enc_c.sample_rate ≠ 0

/-- A sequence of units pushed through `transcode_audio_ffmpeg_process` one
after the other, as `Send` does: the session afterwards and the units
emitted, in emission order. -/
def audio_feed (bld : build_t) (lib : libavcodec) (fuel : Nat) :
    sout_stream_id_t → List sout_buffer_t → Option (sout_stream_id_t × List sout_buffer_t)
  | s, [] => some (s, [])
  | s, u :: us =>
    match transcode_audio_ffmpeg_process bld lib fuel s u with
    | none => none
    | some (_, s1, out) =>
      match audio_feed bld lib fuel s1 us with
      | none => none
      | some (s2, outs) => some (s2, out ++ outs)

/-! ## Concrete codecs and sessions used to exercise the definitions -/

/-- A context with every field zero. -/
def ctx_zero : AVCodecContext :=
  { bit_rate := 0, bit_rate_tolerance := 0, flags := 0, sample_rate := 0, channels := 0,
    block_align := 0, frame_size := 0, extradata_size := 0, extradata := [], width := 0,
    height := 0, pix_fmt := PIX_FMT_YUV420P, frame_rate := 0, frame_rate_base := 0,
    gop_size := 0, max_b_frames := 0, b_frame_strategy := 0, qmin := 0, qmax := 0,
    mb_decision := 0, workaround_bugs := 0, error_resilience := 0,
    get_buffer_hooked := false, delay := 0, coded_frame := { pts := 0, pict_type := 0 },
    priv_data := [] }

/-- A picture with every field zero. -/
def frame_zero : AVFrame :=
  { pix_fmt := PIX_FMT_YUV420P, width := 0, height := 0, buf_size := 0, data := [],
    pts := 0, repeat_pict := 0, pict_type := 0 }

/-- A format with every field zero. -/
def fmt_zero : sout_format_t :=
  { i_cat := UNKNOWN_ES, i_fourcc := 0, i_sample_rate := 0, i_channels := 0,
    i_block_align := 0, i_width := 0, i_height := 0, i_bitrate := 0, i_extra_data := 0,
    p_extra_data := [] }

/-- A libavcodec whose calls all do nothing, with the constants of the
library headers of the time. -/
def lib_zero : libavcodec :=
  { LIBAVCODEC_BUILD := 4676
    AVCODEC_MAX_AUDIO_FRAME_SIZE := 131072
    FF_INPUT_BUFFER_PADDING_SIZE := 8
    FF_MAX_B_FRAMES := 8
    FF_BUG_AUTODETECT := 1
    FF_MB_DECISION_SIMPLE := 0
    FF_MB_DECISION_BITS := 1
    FF_MB_DECISION_RD := 2
    CODEC_FLAG_HQ := 1
    FRAME_RATE_BASE := 10000
    FF_I_TYPE := 1
    FF_P_TYPE := 2
    avcodec_alloc_context := ctx_zero
    avcodec_alloc_frame := frame_zero
    avcodec_find_decoder := fun c => some { id := c, encoder := false }
    avcodec_find_encoder := fun c => some { id := c, encoder := true }
    avcodec_open := fun c _ => { ret := 0, frame_size := c.frame_size, delay := c.delay,
                                 priv_data := c.priv_data }
    avcodec_decode_audio := fun c _ _ => { i_used := 0, samples := [], priv_data := c.priv_data }
    avcodec_encode_audio := fun c _ _ => { i_out_size := 0, p_buffer_out := [],
                                           priv_data := c.priv_data }
    avcodec_decode_video := fun c f _ _ _ => { i_used := 0, b_gotpicture := false, frame := f,
                                               ctx := c }
    avcodec_encode_video := fun c _ _ => { i_out := 0, p_buffer := [],
                                           coded_frame := c.coded_frame,
                                           priv_data := c.priv_data }
    avpicture_get_size := fun _ w h => w * h
    avpicture_deinterlace := fun _ src _ _ _ => src.data
    img_convert := fun _ _ src _ _ _ => src.data
    img_resample := fun _ _ src => src.data
    vorbis_setup := fun _ _ _ => []
    vorbis_analysis_headerout := fun _ => ([], [], [])
    vorbis_analysis := fun st _ _ _ _ => ([], st) }

/-- A little-endian build without libvorbis. -/
def bld_le : build_t := { WORDS_BIGENDIAN := false, HAVE_VORBIS_VORBISENC_H := false }

/-- A session record with every field zero or empty. -/
def id_zero : sout_stream_id_t :=
  { b_transcode := false, f_src := fmt_zero, f_dst := fmt_zero, id := none, ff_dec := none,
    ff_dec_c := ctx_zero, b_enc_inited := false, ff_enc := none, ff_enc_c := ctx_zero,
    i_dts := 0, i_length := 0, i_buffer_in := 0, i_buffer_in_pos := 0, p_buffer_in := [],
    i_buffer := 0, i_buffer_pos := 0, p_buffer := [], i_buffer_out := 0,
    i_buffer_out_pos := 0, p_buffer_out := [], p_ff_pic := none, p_ff_pic_tmp0 := none,
    p_ff_pic_tmp1 := none, p_ff_pic_tmp2 := none, p_vresample := none, vorbis_state := [],
    i_last_block_size := 0, i_samples_delay := 0, b_headers_sent := false }

/-- A run of `n` zero bytes (silence, or a buffer fresh from `malloc`). -/
def zeros (n : Nat) : List Nat := List.replicate n 0

/-- A unit with the given payload and zero timing fields. -/
def unit_of (bytes : List Nat) : sout_buffer_t :=
  { p_buffer := bytes, i_dts := 0, i_pts := 0, i_length := 0 }

/-- An audio decoder that uses one pending byte per call and yields a full
`AVCODEC_MAX_AUDIO_FRAME_SIZE` of samples for it; with nothing pending it
uses nothing and yields nothing. -/
def decoder_max_frame (c : AVCodecContext) (_ : Int) (buf : List Nat) : AudioDecoded :=
  if buf = [] then { i_used := 0, samples := [], priv_data := c.priv_data }
  else { i_used := 1, samples := zeros 131072, priv_data := c.priv_data }

/-- An audio encoder that codes every frame into one byte. -/
def encoder_one_byte (c : AVCodecContext) (_ : Nat) (_ : List Nat) : AudioEncoded :=
  { i_out_size := 1, p_buffer_out := [0], priv_data := c.priv_data }

/-- The library of the buffer-full scenario. -/
def lib_full : libavcodec :=
  { lib_zero with
    avcodec_decode_audio := decoder_max_frame
    avcodec_encode_audio := encoder_one_byte }

/-- An MPEG audio session as `transcode_audio_ffmpeg_new` leaves it: stereo
44100 Hz, encoder frames of 1152 samples, the three buffers of
`2 * AVCODEC_MAX_AUDIO_FRAME_SIZE` bytes, all empty. -/
def id_mpga : sout_stream_id_t :=
  { id_zero with
    b_transcode := true
    f_src := { fmt_zero with i_cat := AUDIO_ES, i_fourcc := VLC_FOURCC 'm' 'p' 'g' 'a',
                             i_sample_rate := 44100, i_channels := 2 }
    f_dst := { fmt_zero with i_cat := AUDIO_ES, i_fourcc := VLC_FOURCC 'm' 'p' 'g' 'a',
                             i_sample_rate := 44100, i_channels := 2, i_bitrate := 64000 }
    id := some 1
    ff_dec := some { id := CODEC_ID_MP2, encoder := false }
    ff_dec_c := { ctx_zero with sample_rate := 44100, channels := 2 }
    ff_enc := some { id := CODEC_ID_MP2, encoder := true }
    ff_enc_c := { ctx_zero with sample_rate := 44100, channels := 2, frame_size := 1152,
                                bit_rate := 64000 }
    i_buffer_in := 262144, p_buffer_in := zeros 262144
    i_buffer := 262144, p_buffer := zeros 262144
    i_buffer_out := 262144, p_buffer_out := zeros 262144 }

/-- An identity ('copy') audio encoder: the coded frame is the frame it was
handed, byte for byte. -/
def encoder_copy (c : AVCodecContext) (_ : Nat) (frame : List Nat) : AudioEncoded :=
  { i_out_size := frame.length, p_buffer_out := frame, priv_data := c.priv_data }

/-- A libavcodec with the copy encoder and an audio frame bound of 8 bytes. -/
def lib_copy : libavcodec :=
  { lib_zero with AVCODEC_MAX_AUDIO_FRAME_SIZE := 8, avcodec_encode_audio := encoder_copy }

/-- A raw 's16l' mono 8000 Hz session over `lib_copy`: encoder frames of two
samples (four bytes), buffers of 16 bytes, all empty. -/
def id_pcm_small : sout_stream_id_t :=
  { id_zero with
    b_transcode := true
    f_src := { fmt_zero with i_cat := AUDIO_ES, i_fourcc := VLC_FOURCC 's' '1' '6' 'l',
                             i_sample_rate := 8000, i_channels := 1 }
    f_dst := { fmt_zero with i_cat := AUDIO_ES, i_fourcc := VLC_FOURCC 's' '1' '6' 'l',
                             i_sample_rate := 8000, i_channels := 1, i_bitrate := 64000 }
    id := some 1
    ff_dec_c := { ctx_zero with sample_rate := 8000, channels := 1 }
    ff_enc := some { id := CODEC_ID_PCM_ALAW, encoder := true }
    ff_enc_c := { ctx_zero with sample_rate := 8000, channels := 1, frame_size := 2,
                                bit_rate := 64000 }
    i_buffer_in := 16, p_buffer_in := zeros 16
    i_buffer := 16, p_buffer := zeros 16
    i_buffer_out := 16, p_buffer_out := zeros 16 }

/-- A unit of ten bytes stamped 5000. -/
def unit_ten : sout_buffer_t :=
  { p_buffer := [1, 2, 3, 4, 5, 6, 7, 8, 9, 10], i_dts := 5000, i_pts := 5000, i_length := 0 }

/-- The session `id_pcm_small` after `unit_ten`: two frames coded, one
sample left at the front of the decoded-samples buffer. -/
def id_pcm_small_after : sout_stream_id_t :=
  { id_pcm_small with
    i_dts := 5500
    p_buffer_in := [1, 2, 3, 4, 5, 6, 7, 8, 9, 10, 0, 0, 0, 0, 0, 0]
    i_buffer_pos := 2
    p_buffer := [9, 10, 3, 4, 5, 6, 7, 8, 9, 10, 0, 0, 0, 0, 0, 0]
    p_buffer_out := [5, 6, 7, 8] }

/-- An audio decoder that rejects the byte 255 (negative used-byte count,
nothing written) and turns any other byte into one frame of two samples. -/
def decoder_reject_255 (c : AVCodecContext) (_ : Int) (buf : List Nat) : AudioDecoded :=
  match buf with
  | [] => { i_used := 0, samples := [], priv_data := c.priv_data }
  | b :: _ =>
    if b = 255 then { i_used := -1, samples := [], priv_data := c.priv_data }
    else { i_used := 1, samples := [b, b, b, b], priv_data := c.priv_data }

/-- The library `lib_copy` with the decoder `decoder_reject_255`. -/
def lib_reject : libavcodec :=
  { lib_copy with avcodec_decode_audio := decoder_reject_255 }

/-- The small session with an MPEG audio decoder in front. -/
def id_dec_small : sout_stream_id_t :=
  { id_pcm_small with
    f_src := { id_pcm_small.f_src with i_fourcc := VLC_FOURCC 'm' 'p' 'g' 'a' }
    ff_dec := some { id := CODEC_ID_MP2, encoder := false } }

/-- A raw 's16l' mono 8000 Hz session as `transcode_audio_ffmpeg_new` leaves
it, with encoder frames of `frame_size` samples and the three buffers of
`2 * AVCODEC_MAX_AUDIO_FRAME_SIZE = 262144` bytes, all empty. -/
def id_pcm_8k (frame_size : Int) : sout_stream_id_t :=
  { id_zero with
    b_transcode := true
    f_src := { fmt_zero with i_cat := AUDIO_ES, i_fourcc := VLC_FOURCC 's' '1' '6' 'l',
                             i_sample_rate := 8000, i_channels := 1 }
    f_dst := { fmt_zero with i_cat := AUDIO_ES, i_fourcc := VLC_FOURCC 'm' 'p' 'g' 'a',
                             i_sample_rate := 8000, i_channels := 1, i_bitrate := 64000 }
    id := some 1
    ff_dec_c := { ctx_zero with sample_rate := 8000, channels := 1 }
    ff_enc := some { id := CODEC_ID_MP2, encoder := true }
    ff_enc_c := { ctx_zero with sample_rate := 8000, channels := 1, frame_size := frame_size,
                                bit_rate := 64000 }
    i_buffer_in := 262144, p_buffer_in := zeros 262144
    i_buffer := 262144, p_buffer := zeros 262144
    i_buffer_out := 262144, p_buffer_out := zeros 262144 }

/-! ## Format and codec registry -/

/-- The table `fourcc_to_ff_code` of lines 522-572, with its terminating
zero entry. -/
def fourcc_to_ff_code (lib : libavcodec) : List (Nat × CodecID) :=
  [ (VLC_FOURCC 'm' 'p' 'g' 'a', CODEC_ID_MP2),
    (VLC_FOURCC 'm' 'p' '3' ' ', CODEC_ID_MP3LAME),
    (VLC_FOURCC 'a' '5' '2' ' ', CODEC_ID_AC3),
    (VLC_FOURCC 'a' 'c' '3' ' ', CODEC_ID_AC3),
    (VLC_FOURCC 'w' 'm' 'a' '1', CODEC_ID_WMAV1),
    (VLC_FOURCC 'w' 'm' 'a' '2', CODEC_ID_WMAV2),
    (VLC_FOURCC 'v' 'o' 'r' 'b', CODEC_ID_VORBIS),
    (VLC_FOURCC 'a' 'l' 'a' 'w', CODEC_ID_PCM_ALAW),
    (VLC_FOURCC 'm' 'p' 'g' 'v', CODEC_ID_MPEG1VIDEO),
    (VLC_FOURCC 'm' 'p' '1' 'v', CODEC_ID_MPEG1VIDEO) ] ++
  (if lib.LIBAVCODEC_BUILD ≥ 4676 then [(VLC_FOURCC 'm' 'p' '2' 'v', CODEC_ID_MPEG2VIDEO)]
   else []) ++
  [ (VLC_FOURCC 'm' 'p' '4' 'v', CODEC_ID_MPEG4),
    (VLC_FOURCC 'D' 'I' 'V' '1', CODEC_ID_MSMPEG4V1),
    (VLC_FOURCC 'D' 'I' 'V' '2', CODEC_ID_MSMPEG4V2),
    (VLC_FOURCC 'D' 'I' 'V' '3', CODEC_ID_MSMPEG4V3),
    (VLC_FOURCC 'H' '2' '6' '3', CODEC_ID_H263),
    (VLC_FOURCC 'I' '2' '6' '3', CODEC_ID_H263I),
    (VLC_FOURCC 'h' 'u' 'f' 'f', CODEC_ID_HUFFYUV),
    (VLC_FOURCC 'W' 'M' 'V' '1', CODEC_ID_WMV1),
    (VLC_FOURCC 'W' 'M' 'V' '2', CODEC_ID_WMV2),
    (VLC_FOURCC 'M' 'J' 'P' 'G', CODEC_ID_MJPEG),
    (VLC_FOURCC 'm' 'j' 'p' 'b', CODEC_ID_MJPEGB),
    (VLC_FOURCC 'd' 'v' 's' 'l', CODEC_ID_DVVIDEO),
    (VLC_FOURCC 'S' 'V' 'Q' '1', CODEC_ID_SVQ1) ] ++
  (if lib.LIBAVCODEC_BUILD ≥ 4666 then [(VLC_FOURCC 'S' 'V' 'Q' '3', CODEC_ID_SVQ3)]
   else []) ++
  [ (VLC_FOURCC 'I' '4' '2' '0', CODEC_ID_RAWVIDEO),
    (VLC_FOURCC 'I' '4' '2' '2', CODEC_ID_RAWVIDEO),
    (VLC_FOURCC 'I' '4' '4' '4', CODEC_ID_RAWVIDEO),
    (VLC_FOURCC 'R' 'V' '1' '5', CODEC_ID_RAWVIDEO),
    (VLC_FOURCC 'R' 'V' '1' '6', CODEC_ID_RAWVIDEO),
    (VLC_FOURCC 'R' 'V' '2' '4', CODEC_ID_RAWVIDEO),
    (VLC_FOURCC 'R' 'V' '3' '2', CODEC_ID_RAWVIDEO),
    (VLC_FOURCC 'Y' 'U' 'Y' '2', CODEC_ID_RAWVIDEO),
    (0, CODEC_ID_NONE) ]

/-- The loop of `get_ff_codec` over the remaining entries: it stops at the
first entry whose `i_fcc` is 0 and returns 0 (`CODEC_ID_NONE`). -/
def get_ff_codec_loop : List (Nat × CodecID) → Nat → CodecID
  | [], _ => CODEC_ID_NONE
  | e :: t, i_fcc =>
    if e.1 = 0 then CODEC_ID_NONE
    else if e.1 = i_fcc then e.2
    else get_ff_codec_loop t i_fcc

/-- The function `get_ff_codec` (lines 574-587). -/
def get_ff_codec (lib : libavcodec) (i_fcc : Nat) : CodecID :=
  get_ff_codec_loop (fourcc_to_ff_code lib) i_fcc

/-- The function `get_ff_chroma` (lines 589-614); the default is the value
0, which is `PIX_FMT_YUV420P`. -/
def get_ff_chroma (i_chroma : Nat) : PixelFormat :=
  if i_chroma = VLC_FOURCC 'I' '4' '2' '0' then PIX_FMT_YUV420P
  else if i_chroma = VLC_FOURCC 'I' '4' '2' '2' then PIX_FMT_YUV422P
  else if i_chroma = VLC_FOURCC 'I' '4' '4' '4' then PIX_FMT_YUV444P
  else if i_chroma = VLC_FOURCC 'R' 'V' '1' '5' then PIX_FMT_RGB555
  else if i_chroma = VLC_FOURCC 'R' 'V' '1' '6' then PIX_FMT_RGB565
  else if i_chroma = VLC_FOURCC 'R' 'V' '2' '4' then PIX_FMT_RGB24
  else if i_chroma = VLC_FOURCC 'R' 'V' '3' '2' then PIX_FMT_RGBA32
  else if i_chroma = VLC_FOURCC 'G' 'R' 'E' 'Y' then PIX_FMT_GRAY8
  else if i_chroma = VLC_FOURCC 'Y' 'U' 'Y' '2' then PIX_FMT_YUV422
  else PIX_FMT_YUV420P

/-! ## Audio session creation: `transcode_audio_ffmpeg_new` -/

/-- The context once `avcodec_open` has returned: the codec has filled in
`frame_size`, `delay` and its private state. -/
def ctx_opened (ctx : AVCodecContext) (r : OpenResult) : AVCodecContext :=
  { ctx with frame_size := r.frame_size, delay := r.delay, priv_data := r.priv_data }

/-- Lines 628-632 and 651-655: the decoder context filled from the source
format. -/
def audio_new_dec_ctx (lib : libavcodec) (id : sout_stream_id_t) : AVCodecContext :=
  { lib.avcodec_alloc_context with
    sample_rate := id.f_src.i_sample_rate
    channels := id.f_src.i_channels
    block_align := id.f_src.i_block_align
    bit_rate := id.f_src.i_bitrate }

/-- Lines 621-664: raw PCM gets a bare context and no decoder; any other
source has its decoder looked up and opened.  The first component is
`VLC_SUCCESS` when the function goes on to line 666. -/
def audio_new_decoder (lib : libavcodec) (id : sout_stream_id_t) (tr : List Event) :
    Int × sout_stream_id_t × List Event :=
  if id.f_src.i_fourcc = VLC_FOURCC 's' '1' '6' 'l' ∨
     id.f_src.i_fourcc = VLC_FOURCC 's' '1' '6' 'b' ∨
     id.f_src.i_fourcc = VLC_FOURCC 's' '8' ' ' ' ' ∨
     id.f_src.i_fourcc = VLC_FOURCC 'u' '8' ' ' ' ' then
    (VLC_SUCCESS, { id with ff_dec := none, ff_dec_c := audio_new_dec_ctx lib id }, tr)
  else if get_ff_codec lib id.f_src.i_fourcc = CODEC_ID_NONE then (VLC_EGENERIC, id, tr)
  else
    match lib.avcodec_find_decoder (get_ff_codec lib id.f_src.i_fourcc) with
    | none => (VLC_EGENERIC, { id with ff_dec := none }, tr)
    | some c =>
      let ctx := { audio_new_dec_ctx lib id with
                   extradata_size := id.f_src.i_extra_data
                   extradata := id.f_src.p_extra_data }
      let r := lib.avcodec_open ctx (some c)
      (if r.ret ≠ 0 then VLC_EGENERIC else VLC_SUCCESS,
       { id with ff_dec := some c, ff_dec_c := ctx_opened ctx r },
       tr ++ [Event.avcodec_open ctx (some c) r.ret])

/-- Lines 667-680: the three staging buffers, and the sanity check that
clamps the destination channel count (`__MIN`). -/
def audio_new_buffers (lib : libavcodec) (id : sout_stream_id_t) : sout_stream_id_t :=
  { id with
    i_buffer_in := 2 * lib.AVCODEC_MAX_AUDIO_FRAME_SIZE
    i_buffer_in_pos := 0
    p_buffer_in := malloc (2 * lib.AVCODEC_MAX_AUDIO_FRAME_SIZE)
    i_buffer := 2 * lib.AVCODEC_MAX_AUDIO_FRAME_SIZE
    i_buffer_pos := 0
    p_buffer := malloc (2 * lib.AVCODEC_MAX_AUDIO_FRAME_SIZE)
    i_buffer_out := 2 * lib.AVCODEC_MAX_AUDIO_FRAME_SIZE
    i_buffer_out_pos := 0
    p_buffer_out := malloc (2 * lib.AVCODEC_MAX_AUDIO_FRAME_SIZE)
    f_dst := { id.f_dst with
               i_channels := if id.f_dst.i_channels < id.f_src.i_channels
                             then id.f_dst.i_channels else id.f_src.i_channels } }

/-- Lines 685-707: the libvorbis encoder state is set up; the results of the
three setup calls are ignored. -/
def audio_new_vorbis (lib : libavcodec) (id : sout_stream_id_t) : sout_stream_id_t :=
  { id with
    vorbis_state := lib.vorbis_setup id.f_dst.i_channels id.f_dst.i_sample_rate
                      id.f_dst.i_bitrate
    b_headers_sent := false
    i_last_block_size := 0
    i_samples_delay := 0 }

/-- Lines 733-736: the encoder context filled from the destination format. -/
def audio_new_enc_ctx (lib : libavcodec) (id : sout_stream_id_t) : AVCodecContext :=
  { lib.avcodec_alloc_context with
    bit_rate := id.f_dst.i_bitrate
    sample_rate := id.f_dst.i_sample_rate
    channels := id.f_dst.i_channels }

/-- Line 738: the first `avcodec_open` of the encoder. -/
def audio_new_open1 (lib : libavcodec) (id : sout_stream_id_t) : OpenResult :=
  lib.avcodec_open (audio_new_enc_ctx lib id) id.ff_enc

/-- Line 742: the encoder context forced to stereo after the first open. -/
def audio_new_stereo_ctx (lib : libavcodec) (id : sout_stream_id_t) : AVCodecContext :=
  { ctx_opened (audio_new_enc_ctx lib id) (audio_new_open1 lib id) with channels := 2 }

/-- Line 744: the second `avcodec_open` of the encoder. -/
def audio_new_open2 (lib : libavcodec) (id : sout_stream_id_t) : OpenResult :=
  lib.avcodec_open (audio_new_stereo_ctx lib id) id.ff_enc

/-- Lines 733-758: the encoder context is filled from the destination format
and opened; when that fails with more than two channels, both channel counts
are forced to 2 and the encoder is opened once more. -/
def audio_new_encoder_open (lib : libavcodec) (id : sout_stream_id_t) (tr : List Event) :
    Int × sout_stream_id_t × List Event :=
  if (audio_new_open1 lib id).ret ≠ 0 then
    if (ctx_opened (audio_new_enc_ctx lib id) (audio_new_open1 lib id)).channels > 2 then
      (if (audio_new_open2 lib id).ret ≠ 0 then VLC_EGENERIC else VLC_SUCCESS,
       { id with
         ff_enc_c := ctx_opened (audio_new_stereo_ctx lib id) (audio_new_open2 lib id)
         f_dst := { id.f_dst with i_channels := 2 } },
       tr ++ [Event.avcodec_open (audio_new_enc_ctx lib id) id.ff_enc (audio_new_open1 lib id).ret,
              Event.avcodec_open (audio_new_stereo_ctx lib id) id.ff_enc
                (audio_new_open2 lib id).ret])
    else
      (VLC_EGENERIC,
       { id with ff_enc_c := ctx_opened (audio_new_enc_ctx lib id) (audio_new_open1 lib id) },
       tr ++ [Event.avcodec_open (audio_new_enc_ctx lib id) id.ff_enc
                (audio_new_open1 lib id).ret])
  else
    (VLC_SUCCESS,
     { id with ff_enc_c := ctx_opened (audio_new_enc_ctx lib id) (audio_new_open1 lib id) },
     tr ++ [Event.avcodec_open (audio_new_enc_ctx lib id) id.ff_enc (audio_new_open1 lib id).ret])

/-- Lines 713-758: the encoder is looked up, `mp3 ` is renamed `mpga`, and
the encoder is opened. -/
def audio_new_encoder (lib : libavcodec) (id : sout_stream_id_t) (tr : List Event) :
    Int × sout_stream_id_t × List Event :=
  if get_ff_codec lib id.f_dst.i_fourcc = CODEC_ID_NONE then (VLC_EGENERIC, id, tr)
  else
    match lib.avcodec_find_encoder (get_ff_codec lib id.f_dst.i_fourcc) with
    | none => (VLC_EGENERIC, { id with ff_enc := none }, tr)
    | some c =>
      audio_new_encoder_open lib
        { id with
          ff_enc := some c
          f_dst := { id.f_dst with
                     i_fourcc := if id.f_dst.i_fourcc = VLC_FOURCC 'm' 'p' '3' ' '
                                 then VLC_FOURCC 'm' 'p' 'g' 'a' else id.f_dst.i_fourcc } }
        tr

/-- The function `transcode_audio_ffmpeg_new` (lines 616-759): its return
value, the session it leaves, and the calls made. -/
def transcode_audio_ffmpeg_new (bld : build_t) (lib : libavcodec) (id : sout_stream_id_t)
    (tr : List Event) : Int × sout_stream_id_t × List Event :=
  if (audio_new_decoder lib id tr).1 ≠ VLC_SUCCESS then audio_new_decoder lib id tr
  else if bld.HAVE_VORBIS_VORBISENC_H = true ∧
      (audio_new_buffers lib (audio_new_decoder lib id tr).2.1).f_dst.i_fourcc =
        VLC_FOURCC 'v' 'o' 'r' 'b' then
    (VLC_SUCCESS,
     audio_new_vorbis lib (audio_new_buffers lib (audio_new_decoder lib id tr).2.1),
     (audio_new_decoder lib id tr).2.2)
  else
    audio_new_encoder lib (audio_new_buffers lib (audio_new_decoder lib id tr).2.1)
      (audio_new_decoder lib id tr).2.2

/-! ## Video session creation: `transcode_video_ffmpeg_new` -/

/-- Lines 1137-1204: a raw source gets a bare context and no decoder; any
other source has its decoder looked up and opened, and an MPEG-4 decoder is
fed the extradata once.  `stack` is the uninitialised local `frame` of line
1190.  The first component is `VLC_SUCCESS` when the function goes on to line
1207. -/
def video_new_decoder (lib : libavcodec) (sys : sout_stream_sys_t) (stack : AVFrame)
    (id : sout_stream_id_t) (tr : List Event) : Int × sout_stream_id_t × List Event :=
  if id.f_src.i_fourcc = VLC_FOURCC 'I' '4' '2' '0' ∨
     id.f_src.i_fourcc = VLC_FOURCC 'I' '4' '2' '2' ∨
     id.f_src.i_fourcc = VLC_FOURCC 'I' '4' '4' '4' ∨
     id.f_src.i_fourcc = VLC_FOURCC 'Y' 'U' 'Y' '2' ∨
     id.f_src.i_fourcc = VLC_FOURCC 'R' 'V' '1' '5' ∨
     id.f_src.i_fourcc = VLC_FOURCC 'R' 'V' '1' '6' ∨
     id.f_src.i_fourcc = VLC_FOURCC 'R' 'V' '2' '4' ∨
     id.f_src.i_fourcc = VLC_FOURCC 'R' 'V' '3' '2' ∨
     id.f_src.i_fourcc = VLC_FOURCC 'G' 'R' 'E' 'Y' then
    (VLC_SUCCESS,
     { id with
       ff_dec := none
       ff_dec_c := { lib.avcodec_alloc_context with
                     width := id.f_src.i_width
                     height := id.f_src.i_height
                     pix_fmt := get_ff_chroma id.f_src.i_fourcc } }, tr)
  else if get_ff_codec lib id.f_src.i_fourcc = CODEC_ID_NONE then (VLC_EGENERIC, id, tr)
  else
    match lib.avcodec_find_decoder (get_ff_codec lib id.f_src.i_fourcc) with
    | none => (VLC_EGENERIC, { id with ff_dec := none }, tr)
    | some c =>
      let ctx := { lib.avcodec_alloc_context with
                   width := id.f_src.i_width
                   height := id.f_src.i_height
                   extradata_size := id.f_src.i_extra_data
                   extradata := id.f_src.p_extra_data
                   workaround_bugs := lib.FF_BUG_AUTODETECT
                   error_resilience := -1
                   get_buffer_hooked := true }
      let r := lib.avcodec_open ctx (some c)
      let tr1 := tr ++ [Event.avcodec_open ctx (some c) r.ret]
      if r.ret < 0 then
        (VLC_EGENERIC, { id with ff_dec := some c, ff_dec_c := ctx_opened ctx r }, tr1)
      else if get_ff_codec lib id.f_src.i_fourcc = CODEC_ID_MPEG4 ∧
          (ctx_opened ctx r).extradata_size > 0 then
        let d := lib.avcodec_decode_video (ctx_opened ctx r) stack (ctx_opened ctx r).extradata
                   (ctx_opened ctx r).extradata_size sys.i_input_pts
        (VLC_SUCCESS, { id with ff_dec := some c, ff_dec_c := d.ctx },
         tr1 ++ [Event.avcodec_decode_video (ctx_opened ctx r) (ctx_opened ctx r).extradata_size
                   d.i_used d.b_gotpicture])
      else
        (VLC_SUCCESS, { id with ff_dec := some c, ff_dec_c := ctx_opened ctx r }, tr1)

/-- Lines 1228-1274: the encoder context built from the destination format,
the decoder context and the configuration.  (`b_quant_factor`, a constant
2.0, is not kept.) -/
def video_new_enc_ctx (lib : libavcodec) (sys : sout_stream_sys_t) (id : sout_stream_id_t)
    (i_ff_codec : CodecID) : AVCodecContext :=
  let c0 := { lib.avcodec_alloc_context with
              width := id.f_dst.i_width
              height := id.f_dst.i_height
              bit_rate := id.f_dst.i_bitrate }
  let c1 :=
    if id.ff_dec ≠ none then
      { c0 with
        frame_rate := id.ff_dec_c.frame_rate
        frame_rate_base := if lib.LIBAVCODEC_BUILD ≥ 4662 then id.ff_dec_c.frame_rate_base
                           else c0.frame_rate_base }
    else if lib.LIBAVCODEC_BUILD ≥ 4662 then { c0 with frame_rate := 25, frame_rate_base := 1 }
    else { c0 with frame_rate := 25 * lib.FRAME_RATE_BASE }
  let c2 := { c1 with
              gop_size := if sys.i_key_int ≥ 0 then sys.i_key_int else 50
              max_b_frames := if sys.i_b_frames < lib.FF_MAX_B_FRAMES then sys.i_b_frames
                              else lib.FF_MAX_B_FRAMES
              b_frame_strategy := 0
              bit_rate_tolerance := if sys.i_vtolerance ≥ 0 then sys.i_vtolerance
                                    else c1.bit_rate_tolerance
              qmin := sys.i_qmin
              qmax := sys.i_qmax }
  let c3 :=
    if lib.LIBAVCODEC_BUILD ≥ 4673 then { c2 with mb_decision := sys.i_hq }
    else if sys.i_hq ≠ 0 then { c2 with flags := Int.lor c2.flags lib.CODEC_FLAG_HQ }
    else c2
  if i_ff_codec = CODEC_ID_RAWVIDEO then { c3 with pix_fmt := get_ff_chroma id.f_dst.i_fourcc }
  else c3

/-- Lines 1208-1298: the encoder is looked up, `mp1v` and `mp2v` are renamed
`mpgv`, the encoder context is prepared but not opened, and the buffers and
pictures of the session are set up. -/
def video_new_encoder (lib : libavcodec) (sys : sout_stream_sys_t) (id : sout_stream_id_t)
    (tr : List Event) : Int × sout_stream_id_t × sout_stream_sys_t × List Event :=
  if get_ff_codec lib id.f_dst.i_fourcc = CODEC_ID_NONE then (VLC_EGENERIC, id, sys, tr)
  else
    match lib.avcodec_find_encoder (get_ff_codec lib id.f_dst.i_fourcc) with
    | none => (VLC_EGENERIC, { id with ff_enc := none }, sys, tr)
    | some c =>
      let id1 := { id with
                   ff_enc := some c
                   f_dst := { id.f_dst with
                              i_fourcc := if id.f_dst.i_fourcc = VLC_FOURCC 'm' 'p' '1' 'v' ∨
                                             id.f_dst.i_fourcc = VLC_FOURCC 'm' 'p' '2' 'v'
                                          then VLC_FOURCC 'm' 'p' 'g' 'v'
                                          else id.f_dst.i_fourcc } }
      (VLC_SUCCESS,
       { id1 with
         ff_enc_c := video_new_enc_ctx lib sys id1 (get_ff_codec lib id.f_dst.i_fourcc)
         b_enc_inited := false
         i_buffer_in := 0
         i_buffer_in_pos := 0
         p_buffer_in := []
         i_buffer := 3 * 1024 * 1024
         i_buffer_pos := 0
         p_buffer := malloc (3 * 1024 * 1024)
         i_buffer_out := 0
         i_buffer_out_pos := 0
         p_buffer_out := []
         p_ff_pic := some lib.avcodec_alloc_frame
         p_ff_pic_tmp0 := none
         p_ff_pic_tmp1 := none
         p_ff_pic_tmp2 := none
         p_vresample := none },
       { sys with i_last_ref_pts := 0, i_buggy_pts_detect := 0 },
       tr)

/-- The function `transcode_video_ffmpeg_new` (lines 1130-1299): its return
value, the session and the pipeline state it leaves, and the calls made. -/
def transcode_video_ffmpeg_new (lib : libavcodec) (sys : sout_stream_sys_t) (stack : AVFrame)
    (id : sout_stream_id_t) (tr : List Event) :
    Int × sout_stream_id_t × sout_stream_sys_t × List Event :=
  if (video_new_decoder lib sys stack id tr).1 ≠ VLC_SUCCESS then
    ((video_new_decoder lib sys stack id tr).1, (video_new_decoder lib sys stack id tr).2.1, sys,
     (video_new_decoder lib sys stack id tr).2.2)
  else
    video_new_encoder lib sys (video_new_decoder lib sys stack id tr).2.1
      (video_new_decoder lib sys stack id tr).2.2

/-- The function `transcode_video_ffmpeg_close` (lines 1301-1341): the calls
it makes.  The decoder is closed when there is one, the encoder when it was
opened; the rest of the function frees memory. -/
def transcode_video_ffmpeg_close (id : sout_stream_id_t) (tr : List Event) : List Event :=
  (if id.ff_dec ≠ none then tr ++ [Event.avcodec_close id.ff_dec_c] else tr) ++
  (if id.b_enc_inited = true then [Event.avcodec_close id.ff_enc_c] else [])

/-! ## Session creation: `Add` -/

/-- Lines 374-394: the record handed to `transcode_audio_ffmpeg_new`, with
the source format copied and the destination format built from the
configuration. -/
def add_audio_session (sys : sout_stream_sys_t) (mem : sout_stream_id_t)
    (p_fmt : sout_format_t) : sout_stream_id_t :=
  { mem with
    i_dts := 0
    id := none
    f_src := p_fmt
    f_dst := { mem.f_dst with
               i_cat := AUDIO_ES
               i_fourcc := sys.i_acodec
               i_sample_rate := if sys.i_sample_rate > 0 then sys.i_sample_rate
                                else p_fmt.i_sample_rate
               i_channels := if sys.i_channels > 0 then sys.i_channels else p_fmt.i_channels
               i_bitrate := if sys.i_abitrate > 0 then sys.i_abitrate else 64000
               i_block_align := 0
               i_extra_data := 0
               p_extra_data := [] } }

/-- Lines 374-375 and 421-430: the record handed to
`transcode_video_ffmpeg_new`. -/
def add_video_session (sys : sout_stream_sys_t) (mem : sout_stream_id_t)
    (p_fmt : sout_format_t) : sout_stream_id_t :=
  { mem with
    i_dts := 0
    id := none
    f_src := p_fmt
    f_dst := { mem.f_dst with
               i_cat := VIDEO_ES
               i_fourcc := sys.i_vcodec
               i_width := sys.i_width
               i_height := sys.i_height
               i_bitrate := if sys.i_vbitrate > 0 then sys.i_vbitrate else 800 * 1000
               i_extra_data := 0
               p_extra_data := [] } }

/-- Lines 397-413: the audio chain is built, then the stream is registered
downstream. -/
def add_audio (out : sout_out_t) (bld : build_t) (lib : libavcodec) (sys : sout_stream_sys_t)
    (mem : sout_stream_id_t) (p_fmt : sout_format_t) (tr : List Event) :
    Option sout_stream_id_t × sout_stream_sys_t × List Event :=
  match transcode_audio_ffmpeg_new bld lib (add_audio_session sys mem p_fmt) tr with
  | (ret, id, tr1) =>
    if ret ≠ 0 then (none, sys, tr1)
    else
      (if out.pf_add tr1 id.f_dst = none then none
       else some { id with id := out.pf_add tr1 id.f_dst, b_transcode := true },
       sys, tr1 ++ [Event.pf_add id.f_dst (out.pf_add tr1 id.f_dst)])

/-- Lines 433-443: the video chain is built; the stream is not registered
downstream (the call is under `#if 0`). -/
def add_video (lib : libavcodec) (sys : sout_stream_sys_t) (mem : sout_stream_id_t)
    (stack : AVFrame) (p_fmt : sout_format_t) (tr : List Event) :
    Option sout_stream_id_t × sout_stream_sys_t × List Event :=
  match transcode_video_ffmpeg_new lib sys stack (add_video_session sys mem p_fmt) tr with
  | (ret, id, sys1, tr1) =>
    if ret ≠ 0 then (none, sys1, tr1)
    else (some { id with b_transcode := true }, sys1, tr1)

/-- Lines 447-455: a stream that is not transcoded is registered downstream
with its own format. -/
def add_passthrough (out : sout_out_t) (sys : sout_stream_sys_t) (mem : sout_stream_id_t)
    (p_fmt : sout_format_t) (tr : List Event) :
    Option sout_stream_id_t × sout_stream_sys_t × List Event :=
  (if out.pf_add tr p_fmt = none then none
   else some { mem with i_dts := 0, id := out.pf_add tr p_fmt, b_transcode := false },
   sys, tr ++ [Event.pf_add p_fmt (out.pf_add tr p_fmt)])

/-- The function `Add` (lines 368-459).  `mem` is the record as `malloc`
returned it and `stack` the uninitialised local of
`transcode_video_ffmpeg_new`; the result is the session (`none` is `NULL`),
the pipeline state and the calls made. -/
def Add (out : sout_out_t) (bld : build_t) (lib : libavcodec) (sys : sout_stream_sys_t)
    (mem : sout_stream_id_t) (stack : AVFrame) (p_fmt : sout_format_t) (tr : List Event) :
    Option sout_stream_id_t × sout_stream_sys_t × List Event :=
  if p_fmt.i_cat = AUDIO_ES ∧ sys.i_acodec ≠ 0 then add_audio out bld lib sys mem p_fmt tr
  else if p_fmt.i_cat = VIDEO_ES ∧ sys.i_vcodec ≠ 0 then add_video lib sys mem stack p_fmt tr
  else add_passthrough out sys mem p_fmt tr

/-! ## Concrete configurations used to exercise session creation -/

/-- A configuration with every option unset. -/
def sys_zero : sout_stream_sys_t :=
  { i_acodec := 0, i_sample_rate := 0, i_channels := 0, i_abitrate := 0, i_vcodec := 0,
    i_vbitrate := 0, i_vtolerance := 0, i_width := 0, i_height := 0, i_b_frames := 0,
    i_key_int := 0, i_qmin := 0, i_qmax := 0, i_hq := 0, b_deinterlace := false,
    i_crop_top := 0, i_crop_bottom := 0, i_crop_right := 0, i_crop_left := 0,
    i_input_pts := 0, i_output_pts := 0, i_last_ref_pts := 0, i_buggy_pts_detect := 0 }

/-- A downstream chain that accepts every stream under the handle 1 and
every unit. -/
def out_ok : sout_out_t :=
  { pf_add := fun _ _ => some 1, pf_send := fun _ _ _ => VLC_SUCCESS }

/-- A libavcodec whose codecs refuse more than two channels. -/
def lib_stereo : libavcodec :=
  { lib_zero with
    avcodec_open := fun c _ => { ret := if c.channels > 2 then -1 else 0, frame_size := 1152,
                                 delay := 0, priv_data := c.priv_data } }

/-- Scenario D: transcoding to `mpga` with the channel count left to the
source. -/
def sys_mpga : sout_stream_sys_t := { sys_zero with i_acodec := VLC_FOURCC 'm' 'p' 'g' 'a' }

/-- Scenario D: a six-channel 16-bit PCM source at 48 kHz. -/
def fmt_pcm_6ch : sout_format_t :=
  { fmt_zero with
    i_cat := AUDIO_ES, i_fourcc := VLC_FOURCC 's' '1' '6' 'l', i_sample_rate := 48000,
    i_channels := 6, i_block_align := 12, i_bitrate := 4608000 }

/-- Scenario D: the session as it stands at line 733, with the buffers
allocated, the encoder found and the destination still at six channels. -/
def id_6ch : sout_stream_id_t :=
  { audio_new_buffers lib_stereo (add_audio_session sys_mpga id_zero fmt_pcm_6ch) with
    ff_dec_c := audio_new_dec_ctx lib_stereo (add_audio_session sys_mpga id_zero fmt_pcm_6ch)
    ff_enc := some { id := CODEC_ID_MP2, encoder := true } }

/-- Scenario D: the session `Add` returns. -/
def id_6ch_added : sout_stream_id_t :=
  { (audio_new_encoder_open lib_stereo id_6ch []).2.1 with id := some 1, b_transcode := true }

/-! ## Video engine: `transcode_video_ffmpeg_process` -/

/-- The session, the pipeline state and the locals of
`transcode_video_ffmpeg_process` at a point of its `for( ;; )` loop.  `frame`
tells which picture the local pointer `frame` designates and `pic` is that
picture; `out` is the chain `*out` and `tr` the calls made so far. -/
structure video_state_t where
  id : sout_stream_id_t
  sys : sout_stream_sys_t
  i_data : Int
  p_data : List Nat
  frame : FrameSlot
  pic : AVFrame
  out : List sout_buffer_t
  tr : List Event

/-- How an iteration of the loop ends: it goes round again, the function
returns a status, or a `NULL` picture is dereferenced. -/
inductive Flow where
  | next
  | ret (status : Int)
  | stuck
deriving DecidableEq

/-- A write through the local pointer `frame`: the picture it designates is
replaced in the session. -/
def set_frame (id : sout_stream_id_t) (slot : FrameSlot) (f : AVFrame) : sout_stream_id_t :=
  match slot with
  | FrameSlot.p_ff_pic => { id with p_ff_pic := some f }
  | FrameSlot.p_ff_pic_tmp0 => { id with p_ff_pic_tmp0 := some f }
  | FrameSlot.p_ff_pic_tmp1 => { id with p_ff_pic_tmp1 := some f }
  | FrameSlot.p_ff_pic_tmp2 => { id with p_ff_pic_tmp2 := some f }

/-- Lines 1363-1383: the decoder is called on the pending bytes, or the raw
payload is wrapped as a picture stamped with the input pts.  `pic0` is the
picture `id->p_ff_pic`.  The result is `i_used`, `b_gotpicture` and the state
after the call. -/
def video_decode (lib : libavcodec) (inb : sout_buffer_t) (pic0 : AVFrame)
    (st : video_state_t) : Int × Bool × video_state_t :=
  if st.id.ff_dec ≠ none then
    let d := lib.avcodec_decode_video st.id.ff_dec_c pic0 st.p_data st.i_data inb.i_pts
    (d.i_used, d.b_gotpicture,
     { st with
       sys := { st.sys with i_input_pts := inb.i_pts }
       id := { st.id with ff_dec_c := d.ctx, p_ff_pic := some d.frame }
       frame := FrameSlot.p_ff_pic
       pic := d.frame
       tr := st.tr ++ [Event.avcodec_decode_video st.id.ff_dec_c st.i_data d.i_used
                         d.b_gotpicture] })
  else
    let f := { pic0 with
               pix_fmt := st.id.ff_dec_c.pix_fmt
               width := st.id.ff_dec_c.width
               height := st.id.ff_dec_c.height
               buf_size := st.i_data
               data := st.p_data
               pts := inb.i_pts }
    (st.i_data, true,
     { st with
       sys := { st.sys with i_input_pts := inb.i_pts }
       id := { st.id with p_ff_pic := some f }
       frame := FrameSlot.p_ff_pic
       pic := f
       tr := st.tr ++ [Event.avpicture_fill FrameSlot.p_ff_pic st.id.ff_dec_c.pix_fmt
                         st.id.ff_dec_c.width st.id.ff_dec_c.height] })

/-- Lines 1390-1391: the used bytes are taken off the pending input. -/
def video_advance (i_used : Int) (st : video_state_t) : video_state_t :=
  { st with i_data := st.i_data - i_used, p_data := st.p_data.drop i_used.toNat }

/-- Lines 1400-1403: a positive pts of the decoded picture becomes the
running output pts. -/
def video_take_pts (st : video_state_t) : video_state_t :=
  if st.pic.pts > 0 then { st with sys := { st.sys with i_output_pts := st.pic.pts } } else st

/-- Lines 1409-1413: an unset encoder width is derived from the decoder
width and the left and right crop margins, and copied to `f_dst`. -/
def video_lazy_width (sys : sout_stream_sys_t) (id : sout_stream_id_t) : sout_stream_id_t :=
  if id.ff_enc_c.width ≤ 0 then
    { id with
      f_dst := { id.f_dst with
                 i_width := id.ff_dec_c.width - sys.i_crop_left - sys.i_crop_right }
      ff_enc_c := { id.ff_enc_c with
                    width := id.ff_dec_c.width - sys.i_crop_left - sys.i_crop_right } }
  else id

/-- Lines 1414-1418: an unset encoder height is derived from the decoder
height and the top and bottom crop margins, and copied to `f_dst`. -/
def video_lazy_height (sys : sout_stream_sys_t) (id : sout_stream_id_t) : sout_stream_id_t :=
  if id.ff_enc_c.height ≤ 0 then
    { id with
      f_dst := { id.f_dst with
                 i_height := id.ff_dec_c.height - sys.i_crop_top - sys.i_crop_bottom }
      ff_enc_c := { id.ff_enc_c with
                    height := id.ff_dec_c.height - sys.i_crop_top - sys.i_crop_bottom } }
  else id

/-- Lines 1409-1418. -/
def video_lazy_dims (sys : sout_stream_sys_t) (id : sout_stream_id_t) : sout_stream_id_t :=
  video_lazy_height sys (video_lazy_width sys id)

/-- Line 1420: the `avcodec_open` of the encoder, on the context with the
dimensions filled in. -/
def video_lazy_open (lib : libavcodec) (sys : sout_stream_sys_t) (id : sout_stream_id_t) :
    OpenResult :=
  lib.avcodec_open (video_lazy_dims sys id).ff_enc_c (video_lazy_dims sys id).ff_enc

/-- The session after line 1420. -/
def video_lazy_opened (lib : libavcodec) (sys : sout_stream_sys_t) (id : sout_stream_id_t) :
    sout_stream_id_t :=
  { video_lazy_dims sys id with
    ff_enc_c := ctx_opened (video_lazy_dims sys id).ff_enc_c (video_lazy_open lib sys id) }

/-- Lines 1405-1434: on the first picture the dimensions are completed, the
encoder is opened and the stream is registered downstream.  The first
component is the status the function returns with, if it returns here. -/
def video_lazy_init (lib : libavcodec) (out : sout_out_t) (st : video_state_t) :
    Option Int × video_state_t :=
  if st.id.b_enc_inited = true then (none, st)
  else if (video_lazy_open lib st.sys st.id).ret ≠ 0 then
    (some VLC_EGENERIC,
     { st with
       id := video_lazy_opened lib st.sys st.id
       tr := st.tr ++ [Event.avcodec_open (video_lazy_dims st.sys st.id).ff_enc_c
                         (video_lazy_dims st.sys st.id).ff_enc
                         (video_lazy_open lib st.sys st.id).ret] })
  else
    let tr1 := st.tr ++ [Event.avcodec_open (video_lazy_dims st.sys st.id).ff_enc_c
                           (video_lazy_dims st.sys st.id).ff_enc
                           (video_lazy_open lib st.sys st.id).ret]
    let id1 := video_lazy_opened lib st.sys st.id
    let h := out.pf_add tr1 id1.f_dst
    if h = none then
      (some VLC_EGENERIC,
       { st with
         id := { id1 with id := h, b_transcode := false }
         tr := transcode_video_ffmpeg_close { id1 with id := h }
                 (tr1 ++ [Event.pf_add id1.f_dst h]) })
    else
      (none,
       { st with
         id := { id1 with id := h, b_enc_inited := true }
         tr := tr1 ++ [Event.pf_add id1.f_dst h] })

/-- Lines 1438-1460: deinterlacing into `p_ff_pic_tmp0`, which is allocated
on first use: its buffer has the size of a picture in the decoder's pixel
format and `avpicture_fill` lays it out in the encoder's. -/
def video_deinterlace (lib : libavcodec) (st : video_state_t) : video_state_t :=
  if st.sys.b_deinterlace = true then
    let fresh := { lib.avcodec_alloc_frame with
                   pix_fmt := st.id.ff_enc_c.pix_fmt
                   width := st.id.ff_dec_c.width
                   height := st.id.ff_dec_c.height
                   buf_size := lib.avpicture_get_size st.id.ff_dec_c.pix_fmt
                                 st.id.ff_dec_c.width st.id.ff_dec_c.height
                   data := malloc (lib.avpicture_get_size st.id.ff_dec_c.pix_fmt
                                     st.id.ff_dec_c.width st.id.ff_dec_c.height).toNat }
    let tmp := st.id.p_ff_pic_tmp0.getD fresh
    let f := { tmp with
               data := lib.avpicture_deinterlace tmp st.pic st.id.ff_dec_c.pix_fmt
                         st.id.ff_dec_c.width st.id.ff_dec_c.height }
    { st with
      id := { st.id with p_ff_pic_tmp0 := some f }
      frame := FrameSlot.p_ff_pic_tmp0
      pic := f
      tr := if st.id.p_ff_pic_tmp0 = none then
              st.tr ++ [Event.avpicture_fill FrameSlot.p_ff_pic_tmp0 st.id.ff_enc_c.pix_fmt
                          st.id.ff_dec_c.width st.id.ff_dec_c.height]
            else st.tr }
  else st

/-- Lines 1463-1485: pixel-format conversion into `p_ff_pic_tmp1`, which is
allocated on first use. -/
def video_convert (lib : libavcodec) (st : video_state_t) : video_state_t :=
  if st.id.ff_dec_c.pix_fmt ≠ st.id.ff_enc_c.pix_fmt then
    let fresh := { lib.avcodec_alloc_frame with
                   pix_fmt := st.id.ff_enc_c.pix_fmt
                   width := st.id.ff_dec_c.width
                   height := st.id.ff_dec_c.height
                   buf_size := lib.avpicture_get_size st.id.ff_enc_c.pix_fmt
                                 st.id.ff_dec_c.width st.id.ff_dec_c.height
                   data := malloc (lib.avpicture_get_size st.id.ff_enc_c.pix_fmt
                                     st.id.ff_dec_c.width st.id.ff_dec_c.height).toNat }
    let tmp := st.id.p_ff_pic_tmp1.getD fresh
    let f := { tmp with
               data := lib.img_convert tmp st.id.ff_enc_c.pix_fmt st.pic st.id.ff_dec_c.pix_fmt
                         st.id.ff_dec_c.width st.id.ff_dec_c.height }
    { st with
      id := { st.id with p_ff_pic_tmp1 := some f }
      frame := FrameSlot.p_ff_pic_tmp1
      pic := f
      tr := if st.id.p_ff_pic_tmp1 = none then
              st.tr ++ [Event.avpicture_fill FrameSlot.p_ff_pic_tmp1 st.id.ff_enc_c.pix_fmt
                          st.id.ff_dec_c.width st.id.ff_dec_c.height]
            else st.tr }
  else st

/-- Lines 1488-1520: resizing and cropping into `p_ff_pic_tmp2`; the picture
and the resampling context are set up on first use.  The last disjunct of
the test is `p_sys->i_crop_right`, without a comparison. -/
def video_resize (lib : libavcodec) (st : video_state_t) : video_state_t :=
  if st.id.ff_dec_c.width ≠ st.id.ff_enc_c.width ∨
     st.id.ff_dec_c.height ≠ st.id.ff_enc_c.height ∨
     st.sys.i_crop_top > 0 ∨ st.sys.i_crop_bottom > 0 ∨
     st.sys.i_crop_left > 0 ∨ st.sys.i_crop_right ≠ 0 then
    let fresh := { lib.avcodec_alloc_frame with
                   pix_fmt := st.id.ff_enc_c.pix_fmt
                   width := st.id.ff_enc_c.width
                   height := st.id.ff_enc_c.height
                   buf_size := lib.avpicture_get_size st.id.ff_enc_c.pix_fmt
                                 st.id.ff_enc_c.width st.id.ff_enc_c.height
                   data := malloc (lib.avpicture_get_size st.id.ff_enc_c.pix_fmt
                                     st.id.ff_enc_c.width st.id.ff_enc_c.height).toNat }
    let tmp := st.id.p_ff_pic_tmp2.getD fresh
    let ctx := if st.id.p_ff_pic_tmp2 = none then
                 some { owidth := st.id.ff_enc_c.width, oheight := st.id.ff_enc_c.height,
                        iwidth := st.id.ff_dec_c.width, iheight := st.id.ff_dec_c.height,
                        topBand := st.sys.i_crop_top, bottomBand := st.sys.i_crop_bottom,
                        leftBand := st.sys.i_crop_left, rightBand := st.sys.i_crop_right }
               else st.id.p_vresample
    let f := { tmp with data := lib.img_resample ctx tmp st.pic }
    { st with
      id := { st.id with p_ff_pic_tmp2 := some f, p_vresample := ctx }
      frame := FrameSlot.p_ff_pic_tmp2
      pic := f
      tr := if st.id.p_ff_pic_tmp2 = none then
              st.tr ++ [Event.avpicture_fill FrameSlot.p_ff_pic_tmp2 st.id.ff_enc_c.pix_fmt
                          st.id.ff_enc_c.width st.id.ff_enc_c.height]
            else st.tr }
  else st

/-- Lines 1522-1537: the picture handed to the encoder is stamped, the
running output pts is advanced by the duration of the picture, and the
picture type is left to the encoder. -/
def video_stamp (st : video_state_t) : video_state_t :=
  let f := { st.pic with
             pts := if st.id.f_dst.i_fourcc = VLC_FOURCC 'm' 'p' 'g' 'v'
                    then st.sys.i_output_pts else 0
             pict_type := 0 }
  { st with
    pic := f
    id := set_frame st.id st.frame f
    sys := if st.id.ff_dec_c.frame_rate > 0 then
             { st.sys with
               i_output_pts := st.sys.i_output_pts +
                 Int.tdiv (1000000 * (2 + st.pic.repeat_pict) * st.id.ff_dec_c.frame_rate_base)
                   (2 * st.id.ff_dec_c.frame_rate) }
           else st.sys }

/-- Line 1539: the call of `avcodec_encode_video` on the current picture. -/
def video_encode_call (lib : libavcodec) (st : video_state_t) : VideoEncoded :=
  lib.avcodec_encode_video st.id.ff_enc_c st.id.i_buffer st.pic

/-- Lines 1550-1587: the unit built from a coded picture of `i_out` bytes.
`coded` is `id->ff_enc_c->coded_frame` after the call. -/
def video_unit (lib : libavcodec) (inb : sout_buffer_t) (st : video_state_t) : sout_buffer_t :=
  let e := video_encode_call lib st
  if e.coded_frame.pts ≠ 0 ∧ st.sys.i_buggy_pts_detect ≠ e.coded_frame.pts then
    { p_buffer := e.p_buffer.take e.i_out.toNat
      i_length := inb.i_length
      i_pts := e.coded_frame.pts
      i_dts := if st.id.ff_enc_c.delay = 0 ∨
                  (e.coded_frame.pict_type ≠ lib.FF_I_TYPE ∧
                   e.coded_frame.pict_type ≠ lib.FF_P_TYPE) then e.coded_frame.pts
               else if st.sys.i_last_ref_pts ≠ 0 then st.sys.i_last_ref_pts
               else e.coded_frame.pts }
  else
    { p_buffer := e.p_buffer.take e.i_out.toNat
      i_length := inb.i_length
      i_dts := inb.i_dts
      i_pts := inb.i_dts }

/-- Lines 1550-1578: the timing fields of the pipeline after a coded picture
of positive size. -/
def video_unit_sys (lib : libavcodec) (st : video_state_t) : sout_stream_sys_t :=
  let e := video_encode_call lib st
  if e.coded_frame.pts ≠ 0 ∧ st.sys.i_buggy_pts_detect ≠ e.coded_frame.pts then
    if st.id.ff_enc_c.delay = 0 ∨
       (e.coded_frame.pict_type ≠ lib.FF_I_TYPE ∧ e.coded_frame.pict_type ≠ lib.FF_P_TYPE) then
      { st.sys with i_buggy_pts_detect := e.coded_frame.pts }
    else
      { st.sys with i_buggy_pts_detect := e.coded_frame.pts, i_last_ref_pts := e.coded_frame.pts }
  else st.sys

/-- Lines 1539-1590: the picture is encoded and a coded picture of positive
size is chained to `*out`. -/
def video_encode (lib : libavcodec) (inb : sout_buffer_t) (st : video_state_t) :
    video_state_t :=
  { st with
    id := { st.id with
            p_buffer := (video_encode_call lib st).p_buffer
            ff_enc_c := { st.id.ff_enc_c with
                          coded_frame := (video_encode_call lib st).coded_frame
                          priv_data := (video_encode_call lib st).priv_data } }
    sys := if (video_encode_call lib st).i_out > 0 then video_unit_sys lib st else st.sys
    out := if (video_encode_call lib st).i_out > 0 then st.out ++ [video_unit lib inb st]
           else st.out
    tr := st.tr ++ [Event.avcodec_encode_video st.id.ff_enc_c st.pic
                      (video_encode_call lib st).i_out] }

/-- Lines 1437-1595: what an iteration does with a picture once the encoder
is open. -/
def video_picture (lib : libavcodec) (inb : sout_buffer_t) (st : video_state_t) :
    video_state_t :=
  video_encode lib inb (video_stamp (video_resize lib (video_convert lib
    (video_deinterlace lib st))))

/-- One iteration of the `for( ;; )` loop (lines 1362-1595). -/
def video_iteration (lib : libavcodec) (out : sout_out_t) (inb : sout_buffer_t)
    (st : video_state_t) : Flow × video_state_t :=
  match st.id.p_ff_pic with
  | none => (Flow.stuck, st)
  | some pic0 =>
    if (video_decode lib inb pic0 st).1 < 0 then
      (Flow.ret VLC_EGENERIC, (video_decode lib inb pic0 st).2.2)
    else if (video_decode lib inb pic0 st).2.1 = false then
      (Flow.ret VLC_SUCCESS,
       video_advance (video_decode lib inb pic0 st).1 (video_decode lib inb pic0 st).2.2)
    else
      match video_lazy_init lib out (video_take_pts
              (video_advance (video_decode lib inb pic0 st).1
                (video_decode lib inb pic0 st).2.2)) with
      | (some status, st1) => (Flow.ret status, st1)
      | (none, st1) =>
        (if (video_picture lib inb st1).i_data ≤ 0 then Flow.ret VLC_SUCCESS else Flow.next,
         video_picture lib inb st1)

/-- The `for( ;; )` loop of lines 1360-1596, run for at most `fuel`
iterations; `Flow.next` in the result says that the loop is still running. -/
def video_loop (lib : libavcodec) (out : sout_out_t) (inb : sout_buffer_t) :
    Nat → video_state_t → Flow × video_state_t
  | 0, st => (Flow.next, st)
  | fuel + 1, st =>
    match video_iteration lib out inb st with
    | (Flow.next, st1) => video_loop lib out inb fuel st1
    | r => r

/-- What a call of `transcode_video_ffmpeg_process` leaves: the status it
returned (`none` when it has not returned), the session, the pipeline state,
the chain `*out` and the calls made. -/
structure video_result_t where
  ret : Option Int
  id : sout_stream_id_t
  sys : sout_stream_sys_t
  out : List sout_buffer_t
  tr : List Event

/-- Lines 1355-1358: the locals at the head of the loop.  The local `frame`
is not yet set; the picture slot is given the value it takes at line 1363. -/
def video_entry (lib : libavcodec) (sys : sout_stream_sys_t) (id : sout_stream_id_t)
    (inb : sout_buffer_t) (tr : List Event) : video_state_t :=
  { id := id, sys := sys, i_data := inb.i_size, p_data := inb.p_buffer,
    frame := FrameSlot.p_ff_pic, pic := id.p_ff_pic.getD lib.avcodec_alloc_frame,
    out := [], tr := tr }

/-- The function `transcode_video_ffmpeg_process` (lines 1343-1599). -/
def transcode_video_ffmpeg_process (lib : libavcodec) (out : sout_out_t) (fuel : Nat)
    (sys : sout_stream_sys_t) (id : sout_stream_id_t) (inb : sout_buffer_t)
    (tr : List Event) : video_result_t :=
  match video_loop lib out inb fuel (video_entry lib sys id inb tr) with
  | (Flow.ret status, st) =>
    { ret := some status, id := st.id, sys := st.sys, out := st.out, tr := st.tr }
  | (_, st) => { ret := none, id := st.id, sys := st.sys, out := st.out, tr := st.tr }

/-! ## Per-unit entry point: `Send` -/

/-- What a call of `Send` leaves: the status it returned (`none` when it
has not returned), the session, the pipeline state and the calls made. -/
structure send_result_t where
  ret : Option Int
  id : sout_stream_id_t
  sys : sout_stream_sys_t
  tr : List Event

/-- Lines 499-505: the input unit is released and the chain, when there is
one, is sent downstream; the status of the engine is not looked at. -/
def send_transcoded (out : sout_out_t) (sys : sout_stream_sys_t) (id : sout_stream_id_t)
    (p_buffer : sout_buffer_t) (p_buffer_out : List sout_buffer_t) (tr : List Event) :
    send_result_t :=
  if p_buffer_out ≠ [] then
    { ret := some (out.pf_send (tr ++ [Event.sout_BufferDelete p_buffer]) id.id p_buffer_out)
      id := id
      sys := sys
      tr := tr ++ [Event.sout_BufferDelete p_buffer,
                   Event.pf_send id.id p_buffer_out
                     (out.pf_send (tr ++ [Event.sout_BufferDelete p_buffer]) id.id
                        p_buffer_out)] }
  else
    { ret := some VLC_SUCCESS, id := id, sys := sys
      tr := tr ++ [Event.sout_BufferDelete p_buffer] }

/-- The function `Send` (lines 483-516).  A transcoding session whose source
is neither audio nor video would read the local `p_buffer_out` without its
having been set; that call has no defined result. -/
def Send (out : sout_out_t) (bld : build_t) (lib : libavcodec) (fuel : Nat)
    (sys : sout_stream_sys_t) (id : sout_stream_id_t) (p_buffer : sout_buffer_t)
    (tr : List Event) : send_result_t :=
  if id.b_transcode = true then
    if id.f_src.i_cat = AUDIO_ES then
      match transcode_audio_ffmpeg_process bld lib fuel id p_buffer with
      | none => { ret := none, id := id, sys := sys, tr := tr }
      | some (_, id1, p_buffer_out) => send_transcoded out sys id1 p_buffer p_buffer_out tr
    else if id.f_src.i_cat = VIDEO_ES then
      match (transcode_video_ffmpeg_process lib out fuel sys id p_buffer tr).ret with
      | none =>
        { ret := none
          id := (transcode_video_ffmpeg_process lib out fuel sys id p_buffer tr).id
          sys := (transcode_video_ffmpeg_process lib out fuel sys id p_buffer tr).sys
          tr := (transcode_video_ffmpeg_process lib out fuel sys id p_buffer tr).tr }
      | some _ =>
        send_transcoded out
          (transcode_video_ffmpeg_process lib out fuel sys id p_buffer tr).sys
          (transcode_video_ffmpeg_process lib out fuel sys id p_buffer tr).id p_buffer
          (transcode_video_ffmpeg_process lib out fuel sys id p_buffer tr).out
          (transcode_video_ffmpeg_process lib out fuel sys id p_buffer tr).tr
    else { ret := none, id := id, sys := sys, tr := tr }
  else if id.id ≠ none then
    { ret := some (out.pf_send tr id.id [p_buffer]), id := id, sys := sys
      tr := tr ++ [Event.pf_send id.id [p_buffer] (out.pf_send tr id.id [p_buffer])] }
  else
    { ret := some VLC_EGENERIC, id := id, sys := sys
      tr := tr ++ [Event.sout_BufferDelete p_buffer] }

/-- A sequence of `Send` calls on one session, each with at most `fuel`
iterations for its loops; the sequence stops at a call that does not return.
The result keeps the status of the last call made (`VLC_SUCCESS` when no call
was made). -/
def send_all (out : sout_out_t) (bld : build_t) (lib : libavcodec) (fuel : Nat) :
    sout_stream_sys_t → sout_stream_id_t → List Event → List sout_buffer_t → send_result_t
  | sys, id, tr, [] => { ret := some VLC_SUCCESS, id := id, sys := sys, tr := tr }
  | sys, id, tr, [u] => Send out bld lib fuel sys id u tr
  | sys, id, tr, u :: v :: rest =>
    match (Send out bld lib fuel sys id u tr).ret with
    | none => Send out bld lib fuel sys id u tr
    | some _ =>
      send_all out bld lib fuel (Send out bld lib fuel sys id u tr).sys
        (Send out bld lib fuel sys id u tr).id (Send out bld lib fuel sys id u tr).tr
        (v :: rest)

/-! ## Notions used in the statements about downstream registration -/

/-- Whether a call is the downstream `pf_add`. -/
def is_pf_add : Event → Bool
  | Event.pf_add _ _ => true
  | _ => false

/-- How a call changes the answer to "has the most recent decoding step of
the `Send` call in progress produced a picture?": a decoder call answers with
its `b_gotpicture`, wrapping a raw payload into `p_ff_pic` answers yes, and
`sout_BufferDelete`, which ends the work on a unit, answers no. -/
def pend_step (b : Bool) : Event → Bool
  | Event.avcodec_decode_video _ _ _ b_gotpicture => b_gotpicture
  | Event.avpicture_fill FrameSlot.p_ff_pic _ _ _ => true
  | Event.sout_BufferDelete _ => false
  | _ => b

/-- Whether, at the end of the calls `tr`, a `Send` call is in progress whose
most recent decoding step produced a picture. -/
def picture_pending (tr : List Event) : Bool := tr.foldl pend_step false

/-- Where a video session stands with the downstream chain: not registered
yet (with the answer of `pend_step`), registered under a handle, refused by
`pf_add`, or in breach of the registration discipline. -/
inductive reg_t where
  | fresh (picture : Bool)
  | added (h : Nat)
  | refused
  | bad
deriving DecidableEq

/-- The registration discipline as a transition function: `pf_add` is
allowed once, while a picture is pending; `pf_send` is allowed only after a
`pf_add` that returned a handle, and only with that handle. -/
def reg_step : reg_t → Event → reg_t
  | reg_t.fresh b, Event.pf_add _ (some h) => if b = true then reg_t.added h else reg_t.bad
  | reg_t.fresh b, Event.pf_add _ none => if b = true then reg_t.refused else reg_t.bad
  | reg_t.fresh _, Event.pf_send _ _ _ => reg_t.bad
  | reg_t.fresh b, e => reg_t.fresh (pend_step b e)
  | reg_t.added _, Event.pf_add _ _ => reg_t.bad
  | reg_t.added h, Event.pf_send i _ _ => if i = some h then reg_t.added h else reg_t.bad
  | reg_t.added h, _ => reg_t.added h
  | reg_t.refused, Event.pf_add _ _ => reg_t.bad
  | reg_t.refused, Event.pf_send _ _ _ => reg_t.bad
  | reg_t.refused, _ => reg_t.refused
  | reg_t.bad, _ => reg_t.bad

/-- What the registration discipline asks of a session in a given standing:
the flags `b_transcode` and `b_enc_inited` and the handle `id` agree with
it. -/
def reg_inv (id : sout_stream_id_t) : reg_t → Prop
  | reg_t.fresh _ => id.b_transcode = true ∧ id.f_src.i_cat = VIDEO_ES ∧ id.b_enc_inited = false
  | reg_t.added h =>
    id.b_transcode = true ∧ id.f_src.i_cat = VIDEO_ES ∧ id.b_enc_inited = true ∧
      id.id = some h
  | reg_t.refused => id.b_transcode = false ∧ id.id = none
  | reg_t.bad => False

/-- A session and the chain `*out` agree with a standing: the session does
(`reg_inv`), and the chain is empty unless the stream is registered. -/
def reg_ok (id : sout_stream_id_t) (chain : List sout_buffer_t) (s : reg_t) : Prop :=
  reg_inv id s ∧ ((∀ h, s ≠ reg_t.added h) → chain = [])

/-- A step of the video engine that leaves the registration alone: the flags
and the handle are kept, and the calls it adds do not move `reg_step`. -/
def reg_quiet (st st' : video_state_t) : Prop :=
  st'.id.b_transcode = st.id.b_transcode ∧ st'.id.f_src.i_cat = st.id.f_src.i_cat ∧
  st'.id.b_enc_inited = st.id.b_enc_inited ∧ st'.id.id = st.id.id ∧
  ∃ evs, st'.tr = st.tr ++ evs ∧ ∀ s, evs.foldl reg_step s = s

/-- The parts of a session that `Send` dispatches on are kept: the mode flag
`b_transcode`, the category of the source and the downstream handle. -/
def same_mode (s s' : sout_stream_id_t) : Prop :=
  s'.b_transcode = s.b_transcode ∧ s'.f_src.i_cat = s.f_src.i_cat ∧ s'.id = s.id

/-! ## Concrete video sessions -/

/-- Scenarios B and C: a raw planar 4:2:0 source of 320x240. -/
def fmt_i420 : sout_format_t :=
  { fmt_zero with
    i_cat := VIDEO_ES, i_fourcc := VLC_FOURCC 'I' '4' '2' '0', i_width := 320, i_height := 240 }

/-- Scenario B: transcoding to `mp4v`, width and height unset, no crop. -/
def sys_mp4v : sout_stream_sys_t := { sys_zero with i_vcodec := VLC_FOURCC 'm' 'p' '4' 'v' }

/-- Scenario C: as Scenario B, with a margin of 8 cropped on every side. -/
def sys_crop8 : sout_stream_sys_t :=
  { sys_mp4v with i_crop_top := 8, i_crop_bottom := 8, i_crop_left := 8, i_crop_right := 8 }

/-- A libavcodec whose video encoder codes every picture in one byte. -/
def lib_video : libavcodec :=
  { lib_zero with
    avcodec_encode_video := fun c _ _ => { i_out := 1, p_buffer := 7 :: malloc (3 * 1024 * 1024 - 1),
                                           coded_frame := c.coded_frame,
                                           priv_data := c.priv_data } }

/-- One raw 320x240 picture in planar 4:2:0: 115200 bytes. -/
def unit_i420 : sout_buffer_t :=
  { p_buffer := zeros 115200, i_dts := 40000, i_pts := 40000, i_length := 40000 }

/-- The video session `Add` builds for a configuration from `fmt_i420`. -/
def id_i420 (sys : sout_stream_sys_t) : sout_stream_id_t :=
  { (transcode_video_ffmpeg_new lib_video sys frame_zero
       (add_video_session sys id_zero fmt_i420) []).2.1 with b_transcode := true }

/-- The state of `transcode_video_ffmpeg_process` at line 1405 for the first
picture of the session `id_i420 sys`. -/
def st_i420 (sys : sout_stream_sys_t) : video_state_t :=
  video_take_pts (video_advance
    (video_decode lib_video unit_i420 frame_zero
      (video_entry lib_video sys (id_i420 sys) unit_i420 [])).1
    (video_decode lib_video unit_i420 frame_zero
      (video_entry lib_video sys (id_i420 sys) unit_i420 [])).2.2)

/-- The state of `transcode_video_ffmpeg_process` at line 1592 for the first
picture of the session `id_i420 sys`, with the downstream chain `out_ok`. -/
def st_i420_coded (sys : sout_stream_sys_t) : video_state_t :=
  video_picture lib_video unit_i420 (video_lazy_init lib_video out_ok (st_i420 sys)).2

/-- Scenario B: the destination format handed to `pf_add`. -/
def fmt_b : sout_format_t :=
  { fmt_zero with
    i_cat := VIDEO_ES, i_fourcc := VLC_FOURCC 'm' 'p' '4' 'v', i_width := 320, i_height := 240,
    i_bitrate := 800000 }

/-- Scenario B: the encoder context handed to `avcodec_open`. -/
def ctx_b : AVCodecContext :=
  { ctx_zero with
    width := 320, height := 240, bit_rate := 800000, frame_rate := 25, frame_rate_base := 1 }

/-- Scenario B: the picture handed to the encoder, the payload of the unit
laid out as 320x240 planar 4:2:0. -/
def pic_b : AVFrame :=
  { frame_zero with
    pix_fmt := PIX_FMT_YUV420P, width := 320, height := 240, buf_size := unit_i420.i_size,
    data := unit_i420.p_buffer }

/-- Scenario B: the coded unit. -/
def unit_b : sout_buffer_t :=
  { p_buffer := [7], i_dts := 40000, i_pts := 40000, i_length := 40000 }

/-- Scenario B: the calls of the first `Send`. -/
def trace_b : List Event :=
  [Event.avpicture_fill FrameSlot.p_ff_pic PIX_FMT_YUV420P 320 240,
   Event.avcodec_open ctx_b (some { id := CODEC_ID_MPEG4, encoder := true }) 0,
   Event.pf_add fmt_b (some 1),
   Event.avcodec_encode_video ctx_b pic_b 1,
   Event.sout_BufferDelete unit_i420,
   Event.pf_send (some 1) [unit_b] VLC_SUCCESS]

/-! ## Concrete sessions for a chain that refuses, and for two sessions -/

/-- A downstream chain that refuses every stream. -/
def out_refuse : sout_out_t :=
  { pf_add := fun _ _ => none, pf_send := fun _ _ _ => VLC_SUCCESS }

/-- The session `id_i420 sys_mp4v` after the `Send` in which `out_refuse`
refused the stream: the encoder context completed and opened, the handle
`NULL`, and `b_transcode` cleared. -/
def id_i420_refused : sout_stream_id_t :=
  { video_lazy_opened lib_video (st_i420 sys_mp4v).sys (st_i420 sys_mp4v).id with
    id := none, b_transcode := false }

/-! ## A small video session: one 2x2 picture -/

/-- A raw planar 4:2:0 source of 2x2. -/
def fmt_i420_small : sout_format_t :=
  { fmt_zero with
    i_cat := VIDEO_ES, i_fourcc := VLC_FOURCC 'I' '4' '2' '0', i_width := 2, i_height := 2 }

/-- One raw 2x2 picture in planar 4:2:0 (6 bytes), presented one picture
period after it is decoded. -/
def unit_small : sout_buffer_t :=
  { p_buffer := [16, 16, 16, 16, 128, 128], i_dts := 40000, i_pts := 80000, i_length := 40000 }

/-- The video session `Add` builds from `fmt_i420_small` with libavcodec
`lib` and the configuration `sys_mp4v`. -/
def id_small (lib : libavcodec) : sout_stream_id_t :=
  { (transcode_video_ffmpeg_new lib sys_mp4v frame_zero
       (add_video_session sys_mp4v id_zero fmt_i420_small) []).2.1 with b_transcode := true }

/-- The state of `transcode_video_ffmpeg_process` at line 1539, before the
encoder is called on the first picture of `id_small lib_video`. -/
def st_small_enc : video_state_t :=
  video_stamp (video_resize lib_video (video_convert lib_video (video_deinterlace lib_video
    (video_lazy_init lib_video out_ok (video_take_pts (video_advance
      (video_decode lib_video unit_small frame_zero
        (video_entry lib_video sys_mp4v (id_small lib_video) unit_small [])).1
      (video_decode lib_video unit_small frame_zero
        (video_entry lib_video sys_mp4v (id_small lib_video) unit_small [])).2.2))).2)))

/-- A libavcodec whose video encoder codes every picture in one byte and
reports the coded picture as an I picture with the pts of the picture it was
given plus 50000. -/
def lib_coded : libavcodec :=
  { lib_zero with
    avcodec_encode_video := fun c _ f =>
      { i_out := 1, p_buffer := 7 :: malloc (3 * 1024 * 1024 - 1),
        coded_frame := { pts := f.pts + 50000, pict_type := 1 },
        priv_data := c.priv_data } }

/-- A state at line 1539 with the encoder's reordering delay and the last
reference pts as given. -/
def st_coded (delay last_ref : Int) : video_state_t :=
  { id := { id_small lib_coded with
            ff_enc_c := { (id_small lib_coded).ff_enc_c with delay := delay }
            b_enc_inited := true
            id := some 1 }
    sys := { sys_mp4v with i_last_ref_pts := last_ref }
    i_data := 0
    p_data := []
    frame := FrameSlot.p_ff_pic
    pic := { frame_zero with pts := 40000 }
    out := []
    tr := [] }

/-- A downstream chain that hands out the handles 1, 2, ... in the order of
the `pf_add` calls, and accepts every unit. -/
def out_count : sout_out_t :=
  { pf_add := fun tr _ => some (tr.countP is_pf_add + 1), pf_send := fun _ _ _ => VLC_SUCCESS }

/-- A libavcodec whose `avcodec_open` always fails. -/
def lib_noopen : libavcodec :=
  { lib_zero with
    avcodec_open := fun c _ => { ret := -1, frame_size := c.frame_size, delay := c.delay,
                                 priv_data := c.priv_data } }

/-- Two sessions on one pipeline: the `Send` of a unit on session A when no
other session has been served. -/
def send_a_alone : send_result_t :=
  Send out_count bld_le lib_coded 1 sys_mp4v (id_small lib_coded) unit_small []

/-- Two sessions on one pipeline: the `Send` of a unit on session B, made
after both sessions were added and before A is served. -/
def send_b_first : send_result_t :=
  Send out_count bld_le lib_coded 1 sys_mp4v (id_small lib_coded) unit_small []

/-- Two sessions on one pipeline: the `Send` of the same unit on session A
after B has been served. -/
def send_a_after_b : send_result_t :=
  Send out_count bld_le lib_coded 1 send_b_first.sys (id_small lib_coded) unit_small
    send_b_first.tr

/-! ## Pipeline creation: `Open` -/

/-- The calls the specification asks of a sequence of `Send` calls on a
session that is not transcoded: each unit goes downstream once, alone and as
it came, under the handle `h`, and nothing else is called. -/
def passthrough_calls (out : sout_out_t) (h : Option Nat) :
    List Event → List sout_buffer_t → List Event
  | tr, [] => tr
  | tr, u :: rest =>
    passthrough_calls out h (tr ++ [Event.pf_send h [u] (out.pf_send tr h [u])]) rest

/-- The status the specification asks of the last of a sequence of `Send`
calls on a session that is not transcoded: what the downstream `pf_send`
returned for the last unit. -/
def passthrough_status (out : sout_out_t) (h : Option Nat) :
    List Event → List sout_buffer_t → Int
  | _, [] => VLC_SUCCESS
  | tr, [u] => out.pf_send tr h [u]
  | tr, u :: v :: rest =>
    passthrough_status out h (tr ++ [Event.pf_send h [u] (out.pf_send tr h [u])]) (v :: rest)

/-- Whether a call is the downstream `pf_send`. -/
def is_pf_send : Event → Bool
  | Event.pf_send _ _ _ => true
  | _ => false

/-- A downstream chain that accepts every stream under the handle 1, accepts
the first unit sent and fails on every later one. -/
def out_once : sout_out_t :=
  { pf_add := fun _ _ => some 1
    pf_send := fun tr _ _ => if tr.any is_pf_send then VLC_EGENERIC else VLC_SUCCESS }

/-- The session `Add` returns for a stream it does not transcode, on a chain
that gives the handle 1. -/
def id_pass : sout_stream_id_t := { id_zero with i_dts := 0, id := some 1, b_transcode := false }

/-! ## Concrete sessions for the picture stages -/

/-- The video session `Add` builds from the source format `fmt` with
libavcodec `lib` and the pipeline state `sys`. -/
def id_video_of (lib : libavcodec) (sys : sout_stream_sys_t) (fmt : sout_format_t) :
    sout_stream_id_t :=
  { (transcode_video_ffmpeg_new lib sys frame_zero
       (add_video_session sys id_zero fmt) []).2.1 with b_transcode := true }

/-- Transcoding to `mp4v` at 2x2, the size of the source, with `croptop=-1`. -/
def sys_croptop_neg : sout_stream_sys_t :=
  { sys_mp4v with i_width := 2, i_height := 2, i_crop_top := -1 }

/-- Transcoding to `mp4v` at 2x2, the size of the source, with
`cropright=-1`. -/
def sys_cropright_neg : sout_stream_sys_t :=
  { sys_mp4v with i_width := 2, i_height := 2, i_crop_right := -1 }

/-- A raw planar 4:2:2 source of 2x2. -/
def fmt_i422_small : sout_format_t :=
  { fmt_zero with
    i_cat := VIDEO_ES, i_fourcc := VLC_FOURCC 'I' '4' '2' '2', i_width := 2, i_height := 2 }

/-- One raw 2x2 picture in planar 4:2:2 (8 bytes). -/
def unit_i422_small : sout_buffer_t :=
  { p_buffer := [16, 16, 16, 16, 128, 128, 128, 128], i_dts := 40000, i_pts := 80000,
    i_length := 40000 }

/-- The library `lib_video` with the picture sizes of libavcodec for the
planar formats: 12 bits per pixel in 4:2:0, 16 in 4:2:2, 24 in 4:4:4. -/
def lib_sizes : libavcodec :=
  { lib_video with
    avpicture_get_size := fun p w h =>
      match p with
      | PIX_FMT_YUV420P => w * h * 3 / 2
      | PIX_FMT_YUV422P => w * h * 2
      | PIX_FMT_YUV444P => w * h * 3
      | _ => w * h * 4 }

/-- Transcoding to `mp4v` with deinterlacing. -/
def sys_deint : sout_stream_sys_t := { sys_mp4v with b_deinterlace := true }

/-- An MPEG video source of 2x2. -/
def fmt_mpgv_small : sout_format_t :=
  { fmt_zero with
    i_cat := VIDEO_ES, i_fourcc := VLC_FOURCC 'm' 'p' 'g' 'v', i_width := 2, i_height := 2 }

/-- A libavcodec whose video decoder turns every unit into one 2x2 picture at
25 pictures per second, stamped with the input pts and flagged as repeating
one field (`repeat_pict = 1`). -/
def lib_telecine : libavcodec :=
  { lib_video with
    avcodec_decode_video := fun c f data n pts =>
      { i_used := n, b_gotpicture := true
        frame := { f with
                   pix_fmt := PIX_FMT_YUV420P, width := 2, height := 2, buf_size := n
                   data := data, pts := pts, repeat_pict := 1 }
        ctx := { c with width := 2, height := 2, frame_rate := 25, frame_rate_base := 1 } } }

/-- A libavcodec whose video decoder uses one byte per call and yields no
picture. -/
def lib_partial : libavcodec :=
  { lib_video with
    avcodec_decode_video := fun c f _ _ _ =>
      { i_used := 1, b_gotpicture := false, frame := f, ctx := c } }

/-! ## Notions used in the statements about the video engine -/

/-- The picture a call hands to `avcodec_encode_video`, if it is such a
call. -/
def encoded_frame : Event → Option AVFrame
  | Event.avcodec_encode_video _ f _ => some f
  | _ => none

/-- The pictures handed to `avcodec_encode_video` by the calls `tr`, in
order. -/
def encoded_frames (tr : List Event) : List AVFrame := tr.filterMap encoded_frame

/-- The parts of a video session that the engine never writes: the
destination fourcc, the category of the source and the size of the coded
picture buffer. -/
def same_video (s s' : sout_stream_id_t) : Prop :=
  s'.f_dst.i_fourcc = s.f_dst.i_fourcc ∧ s'.f_src.i_cat = s.f_src.i_cat ∧
  s'.i_buffer = s.i_buffer

/-- Transcoding to `mp1v`, width and height unset, no crop. -/
def sys_mp1v : sout_stream_sys_t := { sys_zero with i_vcodec := VLC_FOURCC 'm' 'p' '1' 'v' }

/-- The value of two bytes of memory read as an `int16_t`, in host byte
order (0 for anything but two bytes). -/
def load16 (bld : build_t) : List Nat → Int
  | [a, b] =>
    if bld.WORDS_BIGENDIAN then
      (if a * 256 + b < 32768 then ((a * 256 + b : Nat) : Int)
       else ((a * 256 + b : Nat) : Int) - 65536)
    else
      (if b * 256 + a < 32768 then ((b * 256 + a : Nat) : Int)
       else ((b * 256 + a : Nat) : Int) - 65536)
  | _ => 0

/-- A raw unsigned 8-bit mono session over `lib_copy`, with two bytes
staged. -/
def id_u8_small : sout_stream_id_t :=
  { id_pcm_small with
    f_src := { id_pcm_small.f_src with i_fourcc := VLC_FOURCC 'u' '8' ' ' ' ' }
    i_buffer_in_pos := 2
    p_buffer_in := [200, 5, 0, 0, 0, 0, 0, 0, 0, 0, 0, 0, 0, 0, 0, 0] }

/-- The two bytes of the sample `p_buffer[k]`, for `int16_t` samples that
start at byte offset `base` of `mem`. -/
def sample_at (mem : List Nat) (base k : Nat) : List Nat := (mem.drop (base + 2 * k)).take 2

/-- An audio encoder that fails on its first call (size 0) and from then on
codes a frame as the frame itself; it remembers the first call in its private
state. -/
def encoder_retry (c : AVCodecContext) (_ : Nat) (frame : List Nat) : AudioEncoded :=
  if c.priv_data = [] then { i_out_size := 0, p_buffer_out := [], priv_data := [1] }
  else { i_out_size := frame.length, p_buffer_out := frame, priv_data := c.priv_data }

/-- A libavcodec with the encoder `encoder_retry` and an audio frame bound of
8 bytes. -/
def lib_retry : libavcodec :=
  { lib_zero with AVCODEC_MAX_AUDIO_FRAME_SIZE := 8, avcodec_encode_audio := encoder_retry }

/-- A raw 's16l' stereo session downmixed to mono, with encoder frames of
three samples (12 bytes of stereo input) and buffers of 16 bytes, all
empty. -/
def id_stereo_small : sout_stream_id_t :=
  { id_zero with
    b_transcode := true
    f_src := { fmt_zero with i_cat := AUDIO_ES, i_fourcc := VLC_FOURCC 's' '1' '6' 'l',
                             i_sample_rate := 8000, i_channels := 2 }
    f_dst := { fmt_zero with i_cat := AUDIO_ES, i_fourcc := VLC_FOURCC 'a' 'l' 'a' 'w',
                             i_sample_rate := 8000, i_channels := 1, i_bitrate := 64000 }
    id := some 1
    ff_dec_c := { ctx_zero with sample_rate := 8000, channels := 2 }
    ff_enc := some { id := CODEC_ID_PCM_ALAW, encoder := true }
    ff_enc_c := { ctx_zero with sample_rate := 8000, channels := 1, frame_size := 3,
                                bit_rate := 64000 }
    i_buffer_in := 16, p_buffer_in := zeros 16
    i_buffer := 16, p_buffer := zeros 16
    i_buffer_out := 16, p_buffer_out := zeros 16 }

/-- Three stereo sample pairs: left 1, 3, 5 and right 2, 4, 6. -/
def unit_stereo : sout_buffer_t :=
  { p_buffer := [1, 0, 2, 0, 3, 0, 4, 0, 5, 0, 6, 0], i_dts := 0, i_pts := 0, i_length := 0 }

/-- One more stereo sample pair: left 7, right 8. -/
def unit_stereo_next : sout_buffer_t :=
  { p_buffer := [7, 0, 8, 0], i_dts := 375, i_pts := 375, i_length := 0 }

/-- The session `id_stereo_small` at the head of the encode loop of the call
that carries `unit_stereo`: the unit is gathered and its samples are in the
decoded-samples buffer. -/
def id_stereo_decoded : sout_stream_id_t :=
  audio_raw_decode bld_le (audio_enter bld_le id_stereo_small unit_stereo)

/-! ## Notions used in the statements about coded pictures and their units -/

/-- Calls that neither hand a picture to the encoder nor send units
downstream. -/
def no_output : Event → Bool
  | Event.avcodec_encode_video _ _ _ => false
  | Event.pf_send _ _ _ => false
  | _ => true

/-- The coded picture that an encoder call left in `coded_frame`, when the
call returned a positive size; `ib` is the size of the coded picture buffer
the session hands to the encoder. -/
def coded_frame_of (lib : libavcodec) (ib : Nat) : Event → Option CodedFrame
  | Event.avcodec_encode_video ctx f _ =>
    if (lib.avcodec_encode_video ctx ib f).i_out > 0 then
      some (lib.avcodec_encode_video ctx ib f).coded_frame
    else none
  | _ => none

/-- The sequence of encoded frames of the calls `tr`. -/
def coded_frames (lib : libavcodec) (ib : Nat) (tr : List Event) : List CodedFrame :=
  tr.filterMap (coded_frame_of lib ib)

/-- Whether a coded picture is a reference picture (an I or a P picture). -/
def is_ref (lib : libavcodec) (c : CodedFrame) : Bool :=
  decide (c.pict_type = lib.FF_I_TYPE ∨ c.pict_type = lib.FF_P_TYPE)

/-- The coded pts of the reference pictures of a sequence of encoded frames,
in order. -/
def ref_pts (lib : libavcodec) (l : List CodedFrame) : List Int :=
  (l.filter (is_ref lib)).map (fun c => c.pts)

/-- The coded pts of the reference pictures encoded by the calls `tr` are
strictly increasing. -/
def refs_increasing (lib : libavcodec) (ib : Nat) (tr : List Event) : Prop :=
  (ref_pts lib (coded_frames lib ib tr)).Pairwise (fun a b => a < b)

/-- The units a call sends downstream. -/
def sent_chain : Event → List sout_buffer_t
  | Event.pf_send _ chain _ => chain
  | _ => []

/-- The units sent downstream by the calls `tr`, in order. -/
def sent_units (tr : List Event) : List sout_buffer_t := (tr.map sent_chain).flatten

/-- What the timing of a video session looks like after the calls `evs`:
the last reference pts is 0 or the coded pts of a reference picture encoded
by `evs`, and every unit of the chain has its dts at or before its pts. -/
def pts_inv (lib : libavcodec) (ib : Nat) (evs : List Event) (sys : sout_stream_sys_t)
    (chain : List sout_buffer_t) : Prop :=
  (sys.i_last_ref_pts = 0 ∨ sys.i_last_ref_pts ∈ ref_pts lib (coded_frames lib ib evs)) ∧
  ∀ u ∈ chain, u.i_dts ≤ u.i_pts

/-- A step of the video engine that keeps `pts_inv`: the size of the coded
picture buffer is kept, the calls it adds send nothing downstream, and when
the reference pts of the calls made are increasing, `pts_inv` before the step
gives `pts_inv` after it. -/
def pts_step (lib : libavcodec) (st st' : video_state_t) : Prop :=
  st'.id.i_buffer = st.id.i_buffer ∧
  ∃ new, st'.tr = st.tr ++ new ∧ sent_units new = [] ∧
    ∀ evs, refs_increasing lib st.id.i_buffer (evs ++ new) →
      pts_inv lib st.id.i_buffer evs st.sys st.out →
      pts_inv lib st.id.i_buffer (evs ++ new) st'.sys st'.out

/-- A step of the video engine that touches neither the timing of the units
nor the encoder. -/
def pts_quiet (st st' : video_state_t) : Prop :=
  st'.id.i_buffer = st.id.i_buffer ∧ st'.sys.i_last_ref_pts = st.sys.i_last_ref_pts ∧
  st'.out = st.out ∧ ∃ new, st'.tr = st.tr ++ new ∧ ∀ e ∈ new, no_output e = true

/-- A libavcodec whose video encoder codes every picture in one byte and
reports an I picture with the pts of the picture it was given plus 50000,
after a reordering delay of one picture. -/
def lib_delay : libavcodec :=
  { lib_coded with
    avcodec_open := fun c _ => { ret := 0, frame_size := c.frame_size, delay := 1,
                                 priv_data := c.priv_data } }

/-- Transcoding to `mpgv`, width and height unset, no crop. -/
def sys_mpgv : sout_stream_sys_t := { sys_zero with i_vcodec := VLC_FOURCC 'm' 'p' 'g' 'v' }

/-- The picture after `unit_small`, one picture period later. -/
def unit_small_next : sout_buffer_t :=
  { unit_small with i_dts := 80000, i_pts := 120000 }

/-! ## The writes of the decoder-less audio path -/

/-- The two buffers of an audio session that `transcode_audio_ffmpeg_process`
writes to: the input staging buffer and the decoded-samples buffer. -/
inductive AudioBuf where
  | p_buffer_in
  | p_buffer
deriving DecidableEq

/-- A write of `len` bytes at byte offset `off` of a buffer whose capacity is
`cap` bytes at that moment. -/
structure Write where
  buf : AudioBuf
  off : Nat
  len : Nat
  cap : Nat
deriving DecidableEq

/-- Line 823: the `memcpy` of the unit behind the staged bytes, into the
buffer as line 821 may have grown it. -/
def gather_writes (s : sout_stream_id_t) (inb : sout_buffer_t) : List Write :=
  [{ buf := AudioBuf.p_buffer_in, off := s.i_buffer_in_pos, len := inb.i_size
     cap := (audio_gather s inb).i_buffer_in }]

/-- Lines 879-958: the sample stores through `sout`, which start at
`&p_buffer[i_buffer_pos]`, and the `memmove` of line 955. -/
def raw_decode_writes (bld : build_t) (s : sout_stream_id_t) : List Write :=
  [{ buf := AudioBuf.p_buffer, off := s.i_buffer_pos, len := (raw_samples bld s).2.2.length
     cap := s.i_buffer }] ++
  (if (raw_samples bld s).1 < s.i_buffer_in_pos then
     [{ buf := AudioBuf.p_buffer_in, off := 0, len := s.i_buffer_in - (raw_samples bld s).1
        cap := s.i_buffer_in }]
   else [])

/-- Line 1076: the sample stores `p_buffer[i*dst+j] = ...` of the downmix
loops, for `int16_t` samples that start at byte offset `base`. -/
def downmix_writes (base : Nat) (frame_size dst_channels : Int) (cap : Nat) : List Write :=
  ((List.range frame_size.toNat).map (fun (i : Nat) =>
    (List.range dst_channels.toNat).map (fun (j : Nat) =>
      ({ buf := AudioBuf.p_buffer
         off := base + 2 * ((i : Int) * dst_channels + (j : Int)).toNat
         len := 2, cap := cap } : Write)))).flatten

/-- Lines 1069-1079: the writes of one iteration of the encode loop. -/
def frame_writes (i_buffer_pos : Nat) (s : sout_stream_id_t) : List Write :=
  if s.ff_dec_c.channels ≠ s.ff_enc_c.channels then
    downmix_writes (i_buffer_pos - s.i_buffer_pos) s.ff_enc_c.frame_size s.f_dst.i_channels
      s.i_buffer
  else []

/-- Lines 1055-1111: the writes of the encode loop into the decoded-samples
buffer, iteration after iteration. -/
def audio_encode_loop_writes (lib : libavcodec) (i_buffer_pos : Nat) :
    Nat → sout_stream_id_t → List Write
  | 0, _ => []
  | fuel + 1, s =>
    if (s.i_buffer_pos : Int) < i_frame_size s then []
    else if (audio_encode_call lib i_buffer_pos s).i_out_size ≤ 0 then
      frame_writes i_buffer_pos s
    else if s.ff_enc_c.sample_rate = 0 then frame_writes i_buffer_pos s
    else
      frame_writes i_buffer_pos s ++
        audio_encode_loop_writes lib i_buffer_pos fuel (audio_emit lib i_buffer_pos s)

/-- Lines 962-1111: the writes of the encode stage; the Vorbis branch only
reads the decoded samples. -/
def audio_encode_stage_writes (bld : build_t) (lib : libavcodec) (fuel : Nat)
    (s : sout_stream_id_t) : List Write :=
  if bld.HAVE_VORBIS_VORBISENC_H then
    if s.i_buffer_pos = 0 then []
    else if s.f_dst.i_fourcc = VLC_FOURCC 'v' 'o' 'r' 'b' then []
    else audio_encode_loop_writes lib s.i_buffer_pos fuel s
  else audio_encode_loop_writes lib s.i_buffer_pos fuel s

/-- Lines 1114-1119: the `memmove` of the remaining samples to the front. -/
def compact_writes (s : sout_stream_id_t) : List Write :=
  if s.i_buffer_pos ≠ 0 then
    [{ buf := AudioBuf.p_buffer, off := 0, len := s.i_buffer_pos, cap := s.i_buffer }]
  else []

/-- The writes of a call of `transcode_audio_ffmpeg_process` on a
decoder-less session into the input staging buffer and the decoded-samples
buffer, in order; a call that stops on a division by zero has made the
writes before it. -/
def audio_raw_writes (bld : build_t) (lib : libavcodec) (fuel : Nat) (s : sout_stream_id_t)
    (inb : sout_buffer_t) : List Write :=
  if audio_dts_traps bld s then []
  else
  gather_writes s inb ++
  raw_decode_writes bld (audio_enter bld s inb) ++
  audio_encode_stage_writes bld lib fuel (audio_raw_decode bld (audio_enter bld s inb)) ++
  (match audio_encode_stage bld lib fuel (audio_raw_decode bld (audio_enter bld s inb)) [] with
   | some (s2, _) => compact_writes s2
   | none => [])

/-- The session parameters that make the downmix stay inside a frame: the
channel counts agree, or the destination has no more channels than the
decoder context. -/
def channels_fit (s : sout_stream_id_t) : Prop :=
  s.ff_dec_c.channels = s.ff_enc_c.channels ∨ s.f_dst.i_channels ≤ s.ff_dec_c.channels

/-- The library `lib_retry` with an `avcodec_open` that succeeds and sets
frames of three samples. -/
def lib_frames3 : libavcodec :=
  { lib_retry with
    avcodec_open := fun c _ => { ret := 0, frame_size := 3, delay := c.delay,
                                 priv_data := c.priv_data } }

/-- A configuration that transcodes audio to mono 'alaw'. -/
def sys_alaw_mono : sout_stream_sys_t :=
  { sys_zero with i_acodec := VLC_FOURCC 'a' 'l' 'a' 'w', i_channels := 1 }

/-- A stereo 16-bit little-endian PCM source at 8 kHz. -/
def fmt_pcm_stereo : sout_format_t :=
  { fmt_zero with i_cat := AUDIO_ES, i_fourcc := VLC_FOURCC 's' '1' '6' 'l',
                  i_sample_rate := 8000, i_channels := 2 }

/-! # Theorems -/

/-! ## Byte buffers -/

@[simp] theorem zeros_length (n : Nat) : (zeros n).length = n := by
  simp [zeros]

/-- The size of a unit of zero bytes. -/
theorem unit_of_length (n : Nat) : (unit_of (zeros n)).p_buffer.length = n := zeros_length n

/-- The one-byte encoder returns a positive size. -/
theorem lib_full_positive (c : AVCodecContext) (n : Nat) (f : List Nat) :
    0 < (lib_full.avcodec_encode_audio c n f).i_out_size := by
  simp [lib_full, encoder_one_byte]

/-! ## The `b_again` flag -/

/-- A pass entered with `b_again` set leaves it set: no statement of the loop
body clears the flag. -/
theorem audio_pass_keeps_again (bld : build_t) (lib : libavcodec) (fuel : Nat)
    (s s1 : sout_stream_id_t) (out out1 : List sout_buffer_t) (b1 : Bool)
    (h : audio_pass bld lib fuel s out true = some (s1, out1, b1)) : b1 = true := by
  unfold audio_pass audio_decode_stage at h
  cases hd : s.ff_dec with
  | none =>
    simp only [hd] at h
    cases he : audio_encode_stage bld lib fuel (audio_raw_decode bld s) out with
    | none => simp [he] at h
    | some p => simp [he] at h; exact h.2.2
  | some c =>
    simp only [hd] at h
    cases hl : audio_decode_loop lib fuel s with
    | none => simp [hl] at h
    | some p =>
      obtain ⟨s2, e⟩ := p
      cases e <;> simp only [hl] at h <;>
      · cases he : audio_encode_stage bld lib fuel s2 out with
        | none => simp [he] at h
        | some q => simp [he] at h; exact h.2.2

/-- Once `b_again` is set the `do ... while` loop has no exit: whatever the
number of passes allowed, it has not returned. -/
theorem audio_do_while_again (bld : build_t) (lib : libavcodec) (fuel : Nat) :
    ∀ (n : Nat) (s : sout_stream_id_t) (out : List sout_buffer_t),
      audio_do_while bld lib fuel n s out true = none := by
  intro n
  induction n with
  | zero => intro s out; rfl
  | succ n ih =>
    intro s out
    unfold audio_do_while
    cases hp : audio_pass bld lib fuel s out true with
    | none => rfl
    | some p =>
      obtain ⟨s1, out1, b1⟩ := p
      have hb := audio_pass_keeps_again bld lib fuel s s1 out out1 b1 hp
      subst hb
      simp [ih]

/-- The divisors are session parameters. -/
theorem divisors_nonzero_of_same_setup {bld : build_t} {s s' : sout_stream_id_t}
    (h : same_setup s s') (hn : divisors_nonzero bld s) : divisors_nonzero bld s' := by
  unfold divisors_nonzero at hn ⊢
  rw [h.1, h.2.1, h.2.2.2.1, h.2.2.2.2.1, h.2.2.2.2.2.2.2.1]
  exact hn

/-- With nonzero divisors the timestamp computation at the head of the call
does not trap. -/
theorem divisors_nonzero_start {bld : build_t} {s : sout_stream_id_t}
    (hn : divisors_nonzero bld s) : ¬ audio_dts_traps bld s := by
  unfold divisors_nonzero at hn
  unfold audio_dts_traps
  by_cases hv : bld.HAVE_VORBIS_VORBISENC_H = true ∧ s.f_dst.i_fourcc = VLC_FOURCC 'v' 'o' 'r' 'b'
  · rw [if_pos hv] at hn ⊢; exact hn.1
  · rw [if_neg hv] at hn ⊢
    intro h
    rcases h with h | h
    · exact hn.1 h
    · exact hn.2.1 h

/-- On the libavcodec path the divisors are the decoder context's channel
count and sample rate and the encoder context's sample rate. -/
theorem divisors_nonzero_of_rates {bld : build_t} {s : sout_stream_id_t}
    (hv : libavcodec_path bld s) (h1 : s.ff_dec_c.channels ≠ 0)
    (h2 : s.ff_dec_c.sample_rate ≠ 0) (h3 : s.ff_enc_c.sample_rate ≠ 0) :
    divisors_nonzero bld s := by
  unfold libavcodec_path at hv
  unfold divisors_nonzero
  rw [if_neg hv]
  exact ⟨h1, h2, h3⟩

/-- With nonzero divisors the encoder's sample rate is not 0 on the
libavcodec path. -/
theorem divisors_nonzero_rate {bld : build_t} {s : sout_stream_id_t}
    (hn : divisors_nonzero bld s)
    (hv : ¬ (bld.HAVE_VORBIS_VORBISENC_H = true ∧
      s.f_dst.i_fourcc = VLC_FOURCC 'v' 'o' 'r' 'b')) : s.ff_enc_c.sample_rate ≠ 0 := by
  unfold divisors_nonzero at hn
  rw [if_neg hv] at hn
  exact hn.2.2

/-- With nonzero divisors the Vorbis branch does not trap. -/
theorem divisors_nonzero_vorbis {bld : build_t} {s : sout_stream_id_t} (lib : libavcodec)
    (hn : divisors_nonzero bld s)
    (hv : bld.HAVE_VORBIS_VORBISENC_H = true ∧ s.f_dst.i_fourcc = VLC_FOURCC 'v' 'o' 'r' 'b') :
    ¬ vorbis_traps lib s := by
  unfold divisors_nonzero at hn
  rw [if_pos hv] at hn
  intro h
  rcases h with h | h
  · exact hn.2 h
  · exact hn.1 h.1

/-- A zero divisor at the head of the call: the call raises SIGFPE and does
not return, however many iterations are allowed. -/
theorem zero_rate_call_traps (bld : build_t) (lib : libavcodec) (fuel : Nat)
    (s : sout_stream_id_t) (inb : sout_buffer_t) (h : audio_dts_traps bld s) :
    transcode_audio_ffmpeg_process bld lib fuel s inb = none := by
  unfold transcode_audio_ffmpeg_process
  rw [if_pos h]

/-- A call whose first pass does not set `b_again` returns what its two
stages and the compaction leave. -/
theorem process_of_stages (bld : build_t) (lib : libavcodec) (fuel : Nat)
    (s sd s2 : sout_stream_id_t) (inb : sout_buffer_t) (out : List sout_buffer_t)
    (hn : ¬ audio_dts_traps bld s) (hfuel : 0 < fuel)
    (hd : audio_decode_stage bld lib fuel (audio_enter bld s inb) false = some (sd, false))
    (he : audio_encode_stage bld lib fuel sd [] = some (s2, out)) :
    transcode_audio_ffmpeg_process bld lib fuel s inb =
      some (VLC_SUCCESS, audio_compact sd.i_buffer_pos s2, out) := by
  unfold transcode_audio_ffmpeg_process
  rw [if_neg hn]
  cases fuel with
  | zero => exact absurd hfuel (Nat.lt_irrefl 0)
  | succ n =>
    unfold audio_do_while audio_pass
    simp [hd, he]

/-- A decoder call that leaves input pending and brings the fill level to
`AVCODEC_MAX_AUDIO_FRAME_SIZE` ends the decode stage with `b_again` set. -/
theorem audio_decode_stage_full (bld : build_t) (lib : libavcodec) (fuel : Nat)
    (s : sout_stream_id_t) (b : Bool) (c : AVCodec) (hd : s.ff_dec = some c)
    (h0 : 0 ≤ (audio_decode_call lib s).i_used)
    (h1 : (audio_decode_call lib s).i_used < (s.i_buffer_in_pos : Int))
    (h2 : lib.AVCODEC_MAX_AUDIO_FRAME_SIZE ≤
      s.i_buffer_pos + (audio_decode_call lib s).samples.length) :
    ∃ s1, audio_decode_stage bld lib (fuel + 1) s b = some (s1, true) := by
  unfold audio_decode_stage
  simp only [hd]
  unfold audio_decode_loop
  have h2' : (audio_consume lib s).i_buffer_pos ≥ lib.AVCODEC_MAX_AUDIO_FRAME_SIZE := h2
  simp only [not_lt.mpr h0, h1, if_true, if_false, h2']
  exact ⟨_, rfl⟩

/-- A call whose first decode stage meets the buffer-full condition never
returns. -/
theorem process_never_returns_of_full (bld : build_t) (lib : libavcodec) (fuel : Nat)
    (s : sout_stream_id_t) (inb : sout_buffer_t)
    (h : ∃ s1, audio_decode_stage bld lib fuel
      (audio_enter bld s inb) false = some (s1, true)) :
    transcode_audio_ffmpeg_process bld lib fuel s inb = none := by
  obtain ⟨s1, h⟩ := h
  unfold transcode_audio_ffmpeg_process
  by_cases ht : audio_dts_traps bld s
  · rw [if_pos ht]
  rw [if_neg ht]
  cases fuel with
  | zero => rfl
  | succ n =>
    unfold audio_do_while audio_pass
    rw [h]
    cases he : audio_encode_stage bld lib (n + 1) s1 [] with
    | none => simp [he]
    | some q => simp [he, audio_do_while_again]

/-- C1, at the failing input: an MPEG audio session whose decoder uses one
byte per call (between 1 and all of the pending bytes) and whose encoder
always returns a positive size is fed one unit of two bytes.  The first
decoder call fills the decoded-samples buffer to
`AVCODEC_MAX_AUDIO_FRAME_SIZE` with one byte still pending, `b_again` is set,
and the call has not returned after any number of loop iterations. -/
theorem buffer_full_call_never_returns :
    (∀ (c : AVCodecContext) (n : Int) (buf : List Nat), buf ≠ [] →
      1 ≤ (lib_full.avcodec_decode_audio c n buf).i_used ∧
      (lib_full.avcodec_decode_audio c n buf).i_used ≤ buf.length) ∧
    (∀ (c : AVCodecContext) (n : Nat) (frame : List Nat),
      0 < (lib_full.avcodec_encode_audio c n frame).i_out_size) ∧
    ∀ fuel : Nat,
      transcode_audio_ffmpeg_process bld_le lib_full fuel id_mpga (unit_of [0, 0]) = none := by
  refine ⟨?_, ?_, ?_⟩
  · intro c n buf hb
    cases buf with
    | nil => exact absurd rfl hb
    | cons a t => simp [lib_full, decoder_max_frame]
  · intro c n frame
    simp [lib_full, encoder_one_byte]
  · intro fuel
    cases fuel with
    | zero => rfl
    | succ n =>
      apply process_never_returns_of_full
      generalize hG : audio_enter bld_le id_mpga (unit_of [0, 0]) = G
      have hbuf : G.p_buffer_in.take G.i_buffer_in_pos = [0, 0] := by
        rw [← hG]
        simp [audio_enter, audio_gather, id_mpga, id_zero, unit_of, sout_buffer_t.i_size, memcpy]
      have hpos : G.i_buffer_pos = 0 := by
        rw [← hG]
        simp [audio_enter, audio_gather, id_mpga, id_zero, unit_of, sout_buffer_t.i_size]
      have hin : G.i_buffer_in_pos = 2 := by
        rw [← hG]
        simp [audio_enter, audio_gather, id_mpga, id_zero, unit_of, sout_buffer_t.i_size]
      have hdec : G.ff_dec = some ⟨CODEC_ID_MP2, false⟩ := by
        rw [← hG]
        simp [audio_enter, audio_gather, id_mpga, id_zero, unit_of, sout_buffer_t.i_size]
      have hs : ∀ (c : AVCodecContext) (k : Int),
          (lib_full.avcodec_decode_audio c k [0, 0]).samples = zeros 131072 := by
        intro c k
        simp only [lib_full, decoder_max_frame]
        rfl
      refine audio_decode_stage_full bld_le lib_full n G false ⟨CODEC_ID_MP2, false⟩ hdec ?_ ?_ ?_
      · unfold audio_decode_call; rw [hbuf]; simp [lib_full, decoder_max_frame]
      · unfold audio_decode_call; rw [hbuf, hin]; simp [lib_full, decoder_max_frame]
      · have e : (audio_decode_call lib_full G).samples = zeros 131072 := by
          unfold audio_decode_call; rw [hbuf]; exact hs _ _
        rw [e, hpos, zeros_length]
        exact Nat.le_of_eq (Nat.zero_add _).symm

/-! ## Frame lemmas of the audio engine -/

/-- `same_setup` is reflexive. -/
theorem same_setup_refl (s : sout_stream_id_t) : same_setup s s := by
  simp [same_setup]

/-- `same_setup` is transitive. -/
theorem same_setup_trans {a b c : sout_stream_id_t} (h1 : same_setup a b)
    (h2 : same_setup b c) : same_setup a c := by
  unfold same_setup at *
  obtain ⟨a1, a2, a3, a4, a5, a6, a7, a8, a9, a10⟩ := h1
  obtain ⟨b1, b2, b3, b4, b5, b6, b7, b8, b9, b10⟩ := h2
  exact ⟨b1.trans a1, b2.trans a2, b3.trans a3, b4.trans a4, b5.trans a5, b6.trans a6,
    b7.trans a7, b8.trans a8, b9.trans a9, b10.trans a10⟩

/-- The decode loop touches neither the parameters nor the running timestamp. -/
theorem audio_decode_loop_frame (lib : libavcodec) :
    ∀ (fuel : Nat) (s s' : sout_stream_id_t) (e : DecodeExit),
      audio_decode_loop lib fuel s = some (s', e) →
      same_setup s s' ∧ s'.i_dts = s.i_dts ∧ s'.i_buffer_in = s.i_buffer_in := by
  intro fuel
  induction fuel with
  | zero => intro s s' e h; simp [audio_decode_loop] at h
  | succ n ih =>
    intro s s' e h
    unfold audio_decode_loop at h
    split_ifs at h with h1 h2 h3
    · simp at h; obtain ⟨rfl, _⟩ := h
      simp [same_setup, audio_after_decode]
    · simp at h; obtain ⟨rfl, _⟩ := h
      simp [same_setup, audio_consume, audio_after_decode]
    · obtain ⟨i1, i2, i3⟩ := ih _ _ _ h
      refine ⟨same_setup_trans ?_ i1, i2.trans ?_, i3.trans ?_⟩ <;>
        simp [same_setup, audio_consume, audio_after_decode]
    · simp at h; obtain ⟨rfl, _⟩ := h
      simp [same_setup, audio_after_decode]

/-- The decode stage touches neither the parameters nor the running timestamp. -/
theorem audio_decode_stage_frame (bld : build_t) (lib : libavcodec) (fuel : Nat)
    (s s' : sout_stream_id_t) (b b' : Bool)
    (h : audio_decode_stage bld lib fuel s b = some (s', b')) :
    same_setup s s' ∧ s'.i_dts = s.i_dts ∧ s'.i_buffer_in = s.i_buffer_in := by
  unfold audio_decode_stage at h
  cases hd : s.ff_dec with
  | none =>
    simp [hd] at h
    obtain ⟨rfl, _⟩ := h
    simp [same_setup, audio_raw_decode]
  | some c =>
    simp only [hd] at h
    cases hl : audio_decode_loop lib fuel s with
    | none => simp [hl] at h
    | some p =>
      obtain ⟨s2, e⟩ := p
      have hf := audio_decode_loop_frame lib fuel s s2 e hl
      cases e <;> simp [hl] at h <;> obtain ⟨rfl, _⟩ := h <;> exact hf

/-- Gathering the unit touches neither the parameters nor the fill level. -/
theorem audio_gather_frame (s : sout_stream_id_t) (inb : sout_buffer_t) :
    same_setup s (audio_gather s inb) ∧ (audio_gather s inb).i_dts = s.i_dts ∧
    (audio_gather s inb).i_buffer_pos = s.i_buffer_pos := by
  unfold audio_gather
  split_ifs <;> simp [same_setup]

/-- Inversion of a returning call: it made exactly one pass, whose decode
stage did not set `b_again`. -/
theorem process_some (bld : build_t) (lib : libavcodec) (fuel : Nat)
    (s s' : sout_stream_id_t) (inb : sout_buffer_t) (st : Int) (out : List sout_buffer_t)
    (h : transcode_audio_ffmpeg_process bld lib fuel s inb = some (st, s', out)) :
    st = VLC_SUCCESS ∧ ∃ sd s2,
      audio_decode_stage bld lib fuel
        (audio_enter bld s inb) false = some (sd, false) ∧
      audio_encode_stage bld lib fuel sd [] = some (s2, out) ∧
      s' = audio_compact sd.i_buffer_pos s2 := by
  unfold transcode_audio_ffmpeg_process at h
  by_cases ht : audio_dts_traps bld s
  · rw [if_pos ht] at h; exact Option.noConfusion h
  rw [if_neg ht] at h
  cases fuel with
  | zero => simp [audio_do_while] at h
  | succ n =>
    unfold audio_do_while audio_pass at h
    cases hd : audio_decode_stage bld lib (n + 1)
        (audio_enter bld s inb) false with
    | none => simp [hd] at h
    | some p =>
      obtain ⟨sd, b1⟩ := p
      cases he : audio_encode_stage bld lib (n + 1) sd [] with
      | none => simp [hd, he] at h
      | some q =>
        obtain ⟨s2, out2⟩ := q
        cases b1 with
        | true => simp [hd, he, audio_do_while_again] at h
        | false =>
          simp [hd, he] at h
          obtain ⟨h1, h2, h3⟩ := h
          subst h1 h2 h3
          exact ⟨rfl, sd, s2, rfl, he, rfl⟩

/-- The units the encode loop appends are stamped `i_dts`, `i_dts + L`,
`i_dts + 2L`, ... and all last `L`. -/
theorem audio_encode_loop_timing (lib : libavcodec) (i_buffer_pos : Nat) :
    ∀ (fuel : Nat) (s s' : sout_stream_id_t) (out out' : List sout_buffer_t),
      audio_encode_loop lib i_buffer_pos fuel s out = some (s', out') →
      ∃ n : Nat, out'.map timing = out.map timing ++
        (List.range n).map (fun k : Nat =>
          (s.i_dts + (k : Int) * audio_unit_length s, s.i_dts + (k : Int) * audio_unit_length s,
            audio_unit_length s)) := by
  intro fuel
  induction fuel with
  | zero => intro s s' out out' h; simp [audio_encode_loop] at h
  | succ n ih =>
    intro s s' out out' h
    unfold audio_encode_loop at h
    split_ifs at h with h1 h2
    · simp at h; obtain ⟨_, rfl⟩ := h; exact ⟨0, by simp⟩
    · simp at h; obtain ⟨_, rfl⟩ := h; exact ⟨0, by simp⟩
    · obtain ⟨m, hm⟩ := ih _ _ _ _ h
      refine ⟨m + 1, ?_⟩
      rw [hm, List.range_succ_eq_map]
      have hL : audio_unit_length (audio_emit lib i_buffer_pos s) = audio_unit_length s := rfl
      have hD : (audio_emit lib i_buffer_pos s).i_dts = s.i_dts + audio_unit_length s := rfl
      simp only [hL, hD, List.map_append, List.map_cons, List.map_nil, List.append_assoc,
        List.singleton_append, List.map_map]
      congr 1
      simp only [timing, audio_unit, List.cons.injEq, Nat.cast_zero, zero_mul, add_zero, true_and]
      apply List.map_congr_left
      intro k _
      simp only [Function.comp, Nat.cast_succ]
      refine Prod.ext ?_ (Prod.ext ?_ rfl) <;> simp <;> ring


/-- Entering the loop touches neither the parameters nor the fill level, and
sets the running timestamp. -/
theorem audio_enter_frame (bld : build_t) (s : sout_stream_id_t) (inb : sout_buffer_t) :
    same_setup s (audio_enter bld s inb) ∧
    (audio_enter bld s inb).i_dts = audio_start_dts bld s inb ∧
    (audio_enter bld s inb).i_buffer_pos = s.i_buffer_pos := by
  obtain ⟨a, b, c⟩ := audio_gather_frame { s with i_dts := audio_start_dts bld s inb } inb
  exact ⟨same_setup_trans (by simp [same_setup]) a, b, c⟩

/-- C6: on the libavcodec (non-Vorbis) path, the `k`-th unit a returning
call emits carries `i_dts = i_pts = in.i_dts - 1000000*((p/2)/c)/r + k*L` and
`i_length = L`, with `p` the fill level at entry, `c`, `r` the decoder
context's channel count and sample rate and `L = 1000000*f/R` for the
encoder's frame size `f` and sample rate `R`; hence every unit starts where
the previous one ends. -/
theorem audio_units_contiguous (bld : build_t) (lib : libavcodec) (fuel : Nat)
    (s s' : sout_stream_id_t) (inb : sout_buffer_t) (st : Int) (out : List sout_buffer_t)
    (hv : ¬ (bld.HAVE_VORBIS_VORBISENC_H = true ∧ s.f_dst.i_fourcc = VLC_FOURCC 'v' 'o' 'r' 'b'))
    (h : transcode_audio_ffmpeg_process bld lib fuel s inb = some (st, s', out)) :
    (∀ (k : Nat) (u : sout_buffer_t), out[k]? = some u →
      u.i_dts = inb.i_dts -
          Int.tdiv (1000000 * Int.tdiv (((s.i_buffer_pos / 2 : Nat) : Int)) s.ff_dec_c.channels)
            s.ff_dec_c.sample_rate +
          (k : Int) * Int.tdiv (1000000 * s.ff_enc_c.frame_size) s.ff_enc_c.sample_rate ∧
      u.i_pts = u.i_dts ∧
      u.i_length = Int.tdiv (1000000 * s.ff_enc_c.frame_size) s.ff_enc_c.sample_rate) ∧
    (∀ (k : Nat) (u v : sout_buffer_t), out[k]? = some u → out[k + 1]? = some v →
      v.i_dts = u.i_dts + u.i_length) := by
  obtain ⟨_, sd, s2, hd, he, _⟩ := process_some bld lib fuel s s' inb st out h
  obtain ⟨fd, fdts, _⟩ := audio_decode_stage_frame bld lib fuel _ sd false false hd
  obtain ⟨fg, gdts, _⟩ := audio_enter_frame bld s inb
  have hset : same_setup s sd := same_setup_trans fg fd
  have hdts : sd.i_dts = inb.i_dts -
      Int.tdiv (1000000 * Int.tdiv (((s.i_buffer_pos / 2 : Nat) : Int)) s.ff_dec_c.channels)
        s.ff_dec_c.sample_rate := by
    rw [fdts, gdts]
    simp only [audio_start_dts, if_neg hv]
  have hlen : audio_unit_length sd =
      Int.tdiv (1000000 * s.ff_enc_c.frame_size) s.ff_enc_c.sample_rate := by
    unfold audio_unit_length
    rw [hset.2.2.2.2.2.1, hset.2.2.2.2.2.2.2.1]
  have hmap : ∃ n : Nat, out.map timing = (List.range n).map (fun k : Nat =>
      (sd.i_dts + (k : Int) * audio_unit_length sd, sd.i_dts + (k : Int) * audio_unit_length sd,
        audio_unit_length sd)) := by
    have hloop : audio_encode_loop lib sd.i_buffer_pos fuel sd [] = some (s2, out) →
        ∃ n : Nat, out.map timing = (List.range n).map (fun k : Nat =>
          (sd.i_dts + (k : Int) * audio_unit_length sd,
            sd.i_dts + (k : Int) * audio_unit_length sd, audio_unit_length sd)) := by
      intro hl
      obtain ⟨n, hn⟩ := audio_encode_loop_timing lib sd.i_buffer_pos fuel sd s2 [] out hl
      exact ⟨n, by simpa using hn⟩
    unfold audio_encode_stage at he
    have hfcc : ¬ (bld.HAVE_VORBIS_VORBISENC_H = true ∧
        sd.f_dst.i_fourcc = VLC_FOURCC 'v' 'o' 'r' 'b') := by
      rw [hset.2.1]; exact hv
    split_ifs at he with c1 c2 c3
    · simp at he; obtain ⟨_, rfl⟩ := he; exact ⟨0, by simp⟩
    · exact absurd ⟨c1, c3⟩ hfcc
    · exact hloop he
    · exact hloop he
  obtain ⟨n, hn⟩ := hmap
  have key : ∀ (k : Nat) (u : sout_buffer_t), out[k]? = some u →
      timing u = (sd.i_dts + (k : Int) * audio_unit_length sd,
        sd.i_dts + (k : Int) * audio_unit_length sd, audio_unit_length sd) := by
    intro k u hk
    have h1 : (out.map timing)[k]? = some (timing u) := by
      rw [List.getElem?_map, hk]; rfl
    rw [hn, List.getElem?_map] at h1
    cases hr : (List.range n)[k]? with
    | none => rw [hr] at h1; simp at h1
    | some j =>
      rw [hr] at h1
      have hj : j = k := by
        rw [List.getElem?_range] at hr
        · simpa using hr.symm
        · by_contra hc
          rw [List.getElem?_eq_none (by simpa using hc)] at hr
          simp at hr
      subst hj
      simpa using h1.symm
  constructor
  · intro k u hk
    have := key k u hk
    simp only [timing, Prod.mk.injEq] at this
    obtain ⟨t1, t2, t3⟩ := this
    rw [hdts, hlen] at t1 t2
    rw [hlen] at t3
    exact ⟨t1, by rw [t2, t1], t3⟩
  · intro k u v hu hv'
    have a := key k u hu
    have b := key (k + 1) v hv'
    simp only [timing, Prod.mk.injEq] at a b
    rw [b.1, a.1, a.2.2]
    push_cast
    ring


/-- Witness for C6: ten bytes fed to the small PCM session give two units,
the second starting where the first ends. -/
theorem audio_units_contiguous_witness :
    transcode_audio_ffmpeg_process bld_le lib_copy 4 id_pcm_small unit_ten =
      some (VLC_SUCCESS, id_pcm_small_after,
        [{ p_buffer := [1, 2, 3, 4], i_dts := 5000, i_pts := 5000, i_length := 250 },
         { p_buffer := [5, 6, 7, 8], i_dts := 5250, i_pts := 5250, i_length := 250 }]) ∧
    (5250 : Int) = 5000 + 250 :=
  ⟨by decide,
   (audio_units_contiguous bld_le lib_copy 4 id_pcm_small id_pcm_small_after unit_ten VLC_SUCCESS
      [{ p_buffer := [1, 2, 3, 4], i_dts := 5000, i_pts := 5000, i_length := 250 },
       { p_buffer := [5, 6, 7, 8], i_dts := 5250, i_pts := 5250, i_length := 250 }]
      (by decide) (by decide)).2 0 _ _ rfl rfl⟩

/-! ## Decoder errors -/

/-- Emitting a unit touches neither the parameters nor the input staging
buffer. -/
theorem audio_emit_frame (lib : libavcodec) (i_buffer_pos : Nat) (s : sout_stream_id_t) :
    same_setup s (audio_emit lib i_buffer_pos s) ∧
    (audio_emit lib i_buffer_pos s).i_buffer_in_pos = s.i_buffer_in_pos ∧
    (audio_emit lib i_buffer_pos s).p_buffer_in = s.p_buffer_in ∧
    (audio_emit lib i_buffer_pos s).i_buffer_in = s.i_buffer_in ∧
    i_frame_size (audio_emit lib i_buffer_pos s) = i_frame_size s := by
  unfold audio_emit audio_after_encode audio_downmix_frame
  split_ifs <;> simp [same_setup, i_frame_size]

/-- An encoder call touches neither the parameters, the input staging buffer
nor the fill level. -/
theorem audio_after_encode_frame (lib : libavcodec) (i_buffer_pos : Nat) (s : sout_stream_id_t) :
    same_setup s (audio_after_encode lib i_buffer_pos s) ∧
    (audio_after_encode lib i_buffer_pos s).i_buffer_in_pos = s.i_buffer_in_pos ∧
    (audio_after_encode lib i_buffer_pos s).p_buffer_in = s.p_buffer_in ∧
    (audio_after_encode lib i_buffer_pos s).i_buffer_in = s.i_buffer_in ∧
    (audio_after_encode lib i_buffer_pos s).i_buffer_pos = s.i_buffer_pos := by
  unfold audio_after_encode audio_downmix_frame
  split_ifs <;> simp [same_setup]

/-- With a positive frame byte size the encode loop returns within
`i_buffer_pos / i_frame_size + 1` iterations; it leaves the input cursor
alone and emits nothing when less than a frame is buffered. -/
theorem audio_encode_loop_returns (lib : libavcodec) (i_buffer_pos : Nat) :
    ∀ (fuel : Nat) (s : sout_stream_id_t) (out : List sout_buffer_t),
      0 < i_frame_size s → s.ff_enc_c.sample_rate ≠ 0 →
      s.i_buffer_pos < fuel * (i_frame_size s).toNat →
      ∃ s' out', audio_encode_loop lib i_buffer_pos fuel s out = some (s', out') ∧
        s'.i_buffer_in_pos = s.i_buffer_in_pos ∧
        ((s.i_buffer_pos : Int) < i_frame_size s → out' = out) := by
  intro fuel
  induction fuel with
  | zero => intro s out _ _ h; simp at h
  | succ n ih =>
    intro s out hF hR hfuel
    unfold audio_encode_loop
    by_cases h1 : (s.i_buffer_pos : Int) < i_frame_size s
    · simp [h1]
    · by_cases h2 : (audio_encode_call lib i_buffer_pos s).i_out_size ≤ 0
      · simp only [h1, h2, if_true, if_false]
        exact ⟨_, _, rfl, (audio_after_encode_frame lib i_buffer_pos s).2.1,
          by intro h; first | exact absurd h h1 | exact h.elim⟩
      · simp only [h1, h2, hR, if_false]
        obtain ⟨e0, e1, _, _, e2⟩ := audio_emit_frame lib i_buffer_pos s
        have hpos : (audio_emit lib i_buffer_pos s).i_buffer_pos =
            ((s.i_buffer_pos : Int) - i_frame_size s).toNat := rfl
        obtain ⟨s', out', hl, hin, _⟩ := ih (audio_emit lib i_buffer_pos s)
          (out ++ [audio_unit lib i_buffer_pos s]) (by rw [e2]; exact hF)
          (by rw [e0.2.2.2.2.2.2.2.1]; exact hR) (by
            rw [e2, hpos]
            rw [Nat.succ_mul] at hfuel
            generalize n * (i_frame_size s).toNat = m at hfuel ⊢
            omega)
        exact ⟨s', out', hl, hin.trans e1, by intro h; first | exact absurd h h1 | exact h.elim⟩


/-- The frame byte size is a function of the parameters. -/
theorem i_frame_size_of_same_setup {s s' : sout_stream_id_t} (h : same_setup s s') :
    i_frame_size s' = i_frame_size s := by
  unfold i_frame_size
  rw [h.2.2.2.2.2.1, h.2.2.2.1]

/-- A decode loop left on a decoder error has emptied the input staging
buffer. -/
theorem audio_decode_loop_error (lib : libavcodec) :
    ∀ (fuel : Nat) (s s' : sout_stream_id_t),
      audio_decode_loop lib fuel s = some (s', DecodeExit.error) → s'.i_buffer_in_pos = 0 := by
  intro fuel
  induction fuel with
  | zero => intro s s' h; simp [audio_decode_loop] at h
  | succ n ih =>
    intro s s' h
    unfold audio_decode_loop at h
    split_ifs at h with h1 h2 h3
    · simp at h; rw [← h]
    · simp at h
    · exact ih _ _ h
    · simp at h

/-- Queuing Vorbis packets moves neither cursor. -/
theorem vorbis_packets_frame (pkts : List VorbisPacket) :
    ∀ (acc : sout_stream_id_t × List sout_buffer_t),
      (pkts.foldl vorbis_packet_unit acc).1.i_buffer_in_pos = acc.1.i_buffer_in_pos ∧
      (pkts.foldl vorbis_packet_unit acc).1.i_buffer_pos = acc.1.i_buffer_pos := by
  induction pkts with
  | nil => intro acc; simp
  | cons p t ih =>
    intro acc
    rw [List.foldl_cons]
    obtain ⟨a, b⟩ := ih (vorbis_packet_unit acc p)
    exact ⟨a.trans rfl, b.trans rfl⟩

/-- The Vorbis branch leaves the input cursor alone. -/
theorem vorbis_encode_in_pos (lib : libavcodec) (s : sout_stream_id_t)
    (out : List sout_buffer_t) :
    (vorbis_encode lib s out).1.i_buffer_in_pos = s.i_buffer_in_pos := by
  unfold vorbis_encode
  rw [(vorbis_packets_frame _ _).1]

/-- Compaction leaves the input cursor alone. -/
theorem audio_compact_in_pos (n : Nat) (s : sout_stream_id_t) :
    (audio_compact n s).i_buffer_in_pos = s.i_buffer_in_pos := by
  unfold audio_compact
  split_ifs <;> rfl

/-- The encode loop, entered with an empty chain, leaves it empty exactly
when its first iteration finds less than a frame or an encoder that returns
a size of 0 or less. -/
theorem audio_encode_loop_nil (lib : libavcodec) (i_buffer_pos fuel : Nat)
    (s s' : sout_stream_id_t) (out' : List sout_buffer_t)
    (h : audio_encode_loop lib i_buffer_pos fuel s [] = some (s', out')) :
    out' = [] ↔ ((s.i_buffer_pos : Int) < i_frame_size s ∨
      (audio_encode_call lib i_buffer_pos s).i_out_size ≤ 0) := by
  cases fuel with
  | zero => simp [audio_encode_loop] at h
  | succ n =>
    unfold audio_encode_loop at h
    by_cases h1 : (s.i_buffer_pos : Int) < i_frame_size s
    · rw [if_pos h1] at h
      simp only [Option.some.injEq, Prod.mk.injEq] at h
      exact ⟨fun _ => Or.inl h1, fun _ => h.2.symm⟩
    · rw [if_neg h1] at h
      by_cases h2 : (audio_encode_call lib i_buffer_pos s).i_out_size ≤ 0
      · rw [if_pos h2] at h
        simp only [Option.some.injEq, Prod.mk.injEq] at h
        exact ⟨fun _ => Or.inr h2, fun _ => h.2.symm⟩
      · rw [if_neg h2] at h
        by_cases hR : s.ff_enc_c.sample_rate = 0
        · rw [if_pos hR] at h; exact Option.noConfusion h
        · rw [if_neg hR] at h
          obtain ⟨m, hm⟩ := audio_encode_loop_timing lib i_buffer_pos n _ s' _ out' h
          have hne : out' ≠ [] := by
            intro e
            rw [e] at hm
            simp at hm
          exact ⟨fun e => absurd e hne, fun e => e.elim (fun a => absurd a h1)
            (fun a => absurd a h2)⟩

/-- Every packet flushed by libvorbis appends one unit. -/
theorem vorbis_packets_length (pkts : List VorbisPacket) :
    ∀ (acc : sout_stream_id_t × List sout_buffer_t),
      (pkts.foldl vorbis_packet_unit acc).2.length = acc.2.length + pkts.length := by
  induction pkts with
  | nil => intro acc; rfl
  | cons p t ih =>
    intro acc
    rw [List.foldl_cons, ih]
    simp only [vorbis_packet_unit, List.length_append, List.length_cons, List.length_nil]
    omega

/-- The Vorbis branch, entered with an empty chain, leaves it empty exactly
when the headers have been sent and libvorbis flushes no packet. -/
theorem vorbis_encode_nil (lib : libavcodec) (s : sout_stream_id_t) :
    (vorbis_encode lib s []).2 = [] ↔
      (s.b_headers_sent = true ∧
        (lib.vorbis_analysis s.vorbis_state
          (Int.tdiv (Int.tdiv (s.i_buffer_pos : Int) s.f_src.i_channels) 2)
          s.f_src.i_channels s.f_dst.i_channels (s.p_buffer.take s.i_buffer_pos)).1 = []) := by
  rw [← List.length_eq_zero]
  unfold vorbis_encode
  simp only []
  rw [vorbis_packets_length]
  by_cases hh : s.b_headers_sent = true
  · simp [hh, List.length_eq_zero]
  · simp [hh]

/-- C2 (amended): in a session with a decoder and with nonzero divisors, when
a decoder call of the first pass returns a negative used-byte count and the
encode stage ends (the Vorbis branch, or a positive frame byte size and
enough iterations allowed), the call returns `VLC_SUCCESS` with the input
staging buffer emptied.  It emits no unit exactly when nothing decoded
before the error gets coded: on the libavcodec path when the samples
buffered after the failing decoder call are less than one encoder frame or
the encoder returns a size of 0 or less for the first frame; on the Vorbis
branch when no sample is buffered, or the headers have been sent and
libvorbis flushes no packet. -/
theorem decode_error_call (bld : build_t) (lib : libavcodec) (fuel : Nat)
    (s s1 : sout_stream_id_t) (inb : sout_buffer_t)
    (hdec : s.ff_dec.isSome = true)
    (herr : audio_decode_loop lib fuel (audio_enter bld s inb) = some (s1, DecodeExit.error))
    (hnz : divisors_nonzero bld s)
    (hterm : (bld.HAVE_VORBIS_VORBISENC_H = true ∧ s.f_dst.i_fourcc = VLC_FOURCC 'v' 'o' 'r' 'b') ∨
      (0 < i_frame_size s ∧ s1.i_buffer_pos < fuel * (i_frame_size s).toNat)) :
    ∃ s' out, transcode_audio_ffmpeg_process bld lib fuel s inb = some (VLC_SUCCESS, s', out) ∧
      s'.i_buffer_in_pos = 0 ∧
      (out = [] ↔
        (if bld.HAVE_VORBIS_VORBISENC_H = true ∧ s.f_dst.i_fourcc = VLC_FOURCC 'v' 'o' 'r' 'b'
         then s1.i_buffer_pos = 0 ∨
           (s1.b_headers_sent = true ∧
             (lib.vorbis_analysis s1.vorbis_state
               (Int.tdiv (Int.tdiv (s1.i_buffer_pos : Int) s1.f_src.i_channels) 2)
               s1.f_src.i_channels s1.f_dst.i_channels
               (s1.p_buffer.take s1.i_buffer_pos)).1 = [])
         else (s1.i_buffer_pos : Int) < i_frame_size s ∨
           (audio_encode_call lib s1.i_buffer_pos s1).i_out_size ≤ 0)) := by
  obtain ⟨fg, _, _⟩ := audio_enter_frame bld s inb
  obtain ⟨fd, _, _⟩ := audio_decode_loop_frame lib fuel _ s1 _ herr
  have hset : same_setup s s1 := same_setup_trans fg fd
  have hF1 : i_frame_size s1 = i_frame_size s := i_frame_size_of_same_setup hset
  have hin1 : s1.i_buffer_in_pos = 0 := audio_decode_loop_error lib fuel _ s1 herr
  have hgdec : (audio_enter bld s inb).ff_dec = s.ff_dec := fg.2.2.1
  have hstage : audio_decode_stage bld lib fuel (audio_enter bld s inb) false =
      some (s1, false) := by
    unfold audio_decode_stage
    rw [hgdec]
    cases hd : s.ff_dec with
    | none => rw [hd] at hdec; simp at hdec
    | some c => simp [herr]
  have hfcc : s1.f_dst.i_fourcc = s.f_dst.i_fourcc := by rw [hset.2.1]
  -- the encode stage
  have henc : ∃ s2 out, audio_encode_stage bld lib fuel s1 [] = some (s2, out) ∧
      s2.i_buffer_in_pos = 0 ∧
      (out = [] ↔
        (if bld.HAVE_VORBIS_VORBISENC_H = true ∧ s.f_dst.i_fourcc = VLC_FOURCC 'v' 'o' 'r' 'b'
         then s1.i_buffer_pos = 0 ∨
           (s1.b_headers_sent = true ∧
             (lib.vorbis_analysis s1.vorbis_state
               (Int.tdiv (Int.tdiv (s1.i_buffer_pos : Int) s1.f_src.i_channels) 2)
               s1.f_src.i_channels s1.f_dst.i_channels
               (s1.p_buffer.take s1.i_buffer_pos)).1 = [])
         else (s1.i_buffer_pos : Int) < i_frame_size s ∨
           (audio_encode_call lib s1.i_buffer_pos s1).i_out_size ≤ 0)) := by
    unfold audio_encode_stage
    by_cases hv : bld.HAVE_VORBIS_VORBISENC_H = true ∧ s.f_dst.i_fourcc = VLC_FOURCC 'v' 'o' 'r' 'b'
    · rw [if_pos hv.1, if_pos hv]
      by_cases hp : s1.i_buffer_pos = 0
      · rw [if_pos hp]
        exact ⟨s1, [], rfl, hin1, ⟨fun _ => Or.inl hp, fun _ => rfl⟩⟩
      · have hnt : ¬ vorbis_traps lib s1 :=
          divisors_nonzero_vorbis lib (divisors_nonzero_of_same_setup hset hnz)
            ⟨hv.1, by rw [hfcc]; exact hv.2⟩
        rw [if_neg hp, if_pos (by rw [hfcc]; exact hv.2), if_neg hnt]
        refine ⟨(vorbis_encode lib s1 []).1, (vorbis_encode lib s1 []).2, rfl,
          (vorbis_encode_in_pos lib s1 []).trans hin1, ?_⟩
        exact (vorbis_encode_nil lib s1).trans
          ⟨fun h => Or.inr h, fun h => h.elim (fun a => absurd a hp) (fun a => a)⟩
    · rw [if_neg hv]
      have hloop : 0 < i_frame_size s → s1.i_buffer_pos < fuel * (i_frame_size s).toNat →
          ∃ s2 out, audio_encode_loop lib s1.i_buffer_pos fuel s1 [] = some (s2, out) ∧
          s2.i_buffer_in_pos = 0 ∧
          (out = [] ↔ ((s1.i_buffer_pos : Int) < i_frame_size s ∨
            (audio_encode_call lib s1.i_buffer_pos s1).i_out_size ≤ 0)) := by
        intro hF hfuel
        obtain ⟨s2, out, hl, hi, -⟩ := audio_encode_loop_returns lib s1.i_buffer_pos fuel s1 []
          (by rw [hF1]; exact hF)
          (by rw [hset.2.2.2.2.2.2.2.1]; exact divisors_nonzero_rate hnz hv)
          (by rw [hF1]; exact hfuel)
        refine ⟨s2, out, hl, hi.trans hin1, ?_⟩
        rw [← hF1]
        exact audio_encode_loop_nil lib s1.i_buffer_pos fuel s1 s2 out hl
      rcases hterm with hv' | ⟨hF, hfuel⟩
      · exact absurd hv' hv
      · by_cases hh : bld.HAVE_VORBIS_VORBISENC_H = true
        · have hne : ¬ s1.f_dst.i_fourcc = VLC_FOURCC 'v' 'o' 'r' 'b' := by
            rw [hfcc]; exact fun h => hv ⟨hh, h⟩
          rw [if_pos hh]
          by_cases hp : s1.i_buffer_pos = 0
          · rw [if_pos hp]
            refine ⟨s1, [], rfl, hin1, ⟨fun _ => Or.inl ?_, fun _ => rfl⟩⟩
            rw [hp]; exact hF
          · rw [if_neg hp, if_neg hne]
            exact hloop hF hfuel
        · rw [if_neg hh]; exact hloop hF hfuel
  obtain ⟨s2, out, he, hi2, ho⟩ := henc
  refine ⟨audio_compact s1.i_buffer_pos s2, out, ?_, ?_, ho⟩
  · have hf0 : 0 < fuel := by
      cases fuel with
      | zero => simp [audio_decode_loop] at herr
      | succ n => exact Nat.succ_pos n
    exact process_of_stages bld lib fuel s s1 s2 inb out (divisors_nonzero_start hnz) hf0
      hstage he
  · rw [audio_compact_in_pos]; exact hi2

/-- Counterexample to C2 as stated: the unit `[7, 255]` is decoded in two
decoder calls; the first yields one frame, the second returns a negative
used-byte count.  The call returns `VLC_SUCCESS` with the input staging
buffer emptied, and one unit (the frame decoded before the error) is
emitted. -/
theorem decode_error_still_emits :
    (audio_decode_loop lib_reject 4 (audio_enter bld_le id_dec_small (unit_of [7, 255]))).map
      Prod.snd = some DecodeExit.error ∧
    (transcode_audio_ffmpeg_process bld_le lib_reject 4 id_dec_small (unit_of [7, 255])).map
      (fun r => (r.1, r.2.1.i_buffer_in_pos, r.2.2)) =
      some (VLC_SUCCESS, 0,
        [{ p_buffer := [7, 7, 7, 7], i_dts := 0, i_pts := 0, i_length := 250 }]) := by
  constructor <;> decide

/-- Witness for C2 (amended): the unit `[255]` is rejected by the first
decoder call; nothing is buffered, so nothing is emitted. -/
theorem decode_error_call_witness :
    (audio_decode_loop lib_reject 4 (audio_enter bld_le id_dec_small (unit_of [255])) =
      some ({ audio_after_decode lib_reject (audio_enter bld_le id_dec_small (unit_of [255])) with
              i_buffer_in_pos := 0 }, DecodeExit.error)) ∧
    ∃ s' out, transcode_audio_ffmpeg_process bld_le lib_reject 4 id_dec_small (unit_of [255]) =
        some (VLC_SUCCESS, s', out) ∧ s'.i_buffer_in_pos = 0 ∧ out = [] := by
  have h := decode_error_call bld_le lib_reject 4 id_dec_small
    { audio_after_decode lib_reject (audio_enter bld_le id_dec_small (unit_of [255])) with
      i_buffer_in_pos := 0 } (unit_of [255]) (by decide) (by decide)
    (by unfold divisors_nonzero; decide)
    (Or.inr ⟨by decide, by decide⟩)
  obtain ⟨s', out, h1, h2, h3⟩ := h
  exact ⟨by decide, s', out, h1, h2, h3.mpr (by decide)⟩

/-! ## Byte conservation on the raw path -/

/-- A copy that stays inside the buffer keeps its size. -/
theorem memcpy_length (mem : List Nat) (off : Nat) (src : List Nat)
    (h : off + src.length ≤ mem.length) : (memcpy mem off src).length = mem.length := by
  unfold memcpy
  simp only [List.length_append, List.length_take, List.length_drop]
  omega

/-- After a copy at `off`, the buffer up to the end of the copy is the old
prefix followed by the bytes copied. -/
theorem memcpy_take (mem : List Nat) (off : Nat) (src : List Nat) (h : off ≤ mem.length) :
    (memcpy mem off src).take (off + src.length) = mem.take off ++ src := by
  unfold memcpy
  rw [List.take_append_eq_append_take]
  have h1 : (mem.take off ++ src).length = off + src.length := by
    simp only [List.length_append, List.length_take]; omega
  rw [List.take_of_length_le (by omega), h1]
  simp

/-- A copy leaves the bytes behind it alone. -/
theorem memcpy_drop (mem : List Nat) (off : Nat) (src : List Nat) (n : Nat)
    (h1 : off + src.length ≤ n) (h2 : n ≤ mem.length) :
    (memcpy mem off src).drop n = mem.drop n := by
  unfold memcpy
  have hl : (mem.take off ++ src).length = off + src.length := by
    simp only [List.length_append, List.length_take]; omega
  rw [List.drop_append_eq_append_drop, List.drop_of_length_le (by omega), hl, List.drop_drop]
  simp only [List.nil_append]
  congr 1
  omega

/-- Gathering a unit appends its bytes to the staged bytes and leaves the
decoded samples alone. -/
theorem audio_enter_content (bld : build_t) (s : sout_stream_id_t) (inb : sout_buffer_t)
    (hw : wf_buffers s) :
    wf_buffers (audio_enter bld s inb) ∧ decoded (audio_enter bld s inb) = decoded s ∧
    staged (audio_enter bld s inb) = staged s ++ inb.p_buffer := by
  obtain ⟨w1, w2, w3, w4⟩ := hw
  unfold audio_enter audio_gather wf_buffers decoded staged
  simp only [sout_buffer_t.i_size]
  split_ifs with hg
  · simp only []
    have hr : (realloc s.p_buffer_in (s.i_buffer_in_pos + inb.p_buffer.length + 1024)).length =
        s.i_buffer_in_pos + inb.p_buffer.length + 1024 := by
      unfold realloc
      simp only [List.length_append, List.length_take, List.length_replicate]
      omega
    have hr2 : (realloc s.p_buffer_in (s.i_buffer_in_pos + inb.p_buffer.length + 1024)).take
        s.i_buffer_in_pos = s.p_buffer_in.take s.i_buffer_in_pos := by
      have e1 : s.p_buffer_in.take (s.i_buffer_in_pos + inb.p_buffer.length + 1024) =
          s.p_buffer_in := List.take_of_length_le (by omega)
      unfold realloc
      rw [e1, List.take_append_of_le_length (by omega)]
    refine ⟨⟨w1, w2, ?_, by omega⟩, trivial, ?_⟩
    · rw [memcpy_length _ _ _ (by omega), hr]
    · rw [memcpy_take _ _ _ (by omega), hr2]
  · simp only []
    refine ⟨⟨w1, w2, ?_, by omega⟩, trivial, ?_⟩
    · rw [memcpy_length _ _ _ (by omega), w3]
    · rw [memcpy_take _ _ _ (by omega)]


/-- Exchanging byte pairs keeps the length of an even run of bytes. -/
theorem swab16_length : ∀ (n : Nat) (l : List Nat), l.length = 2 * n →
    (swab16 l).length = l.length := by
  intro n
  induction n with
  | zero => intro l h; cases l with
    | nil => rfl
    | cons a t => simp at h
  | succ n ih =>
    intro l h
    match l, h with
    | a :: b :: t, h =>
      simp only [swab16, List.length_cons]
      have := ih t (by simp only [List.length_cons] at h; omega)
      omega

/-- The 16-bit conversions keep the length of an even run of bytes. -/
theorem sample_conv_length (bld : build_t) (s : sout_stream_id_t) (l : List Nat) (n : Nat)
    (h : l.length = 2 * n) : (sample_conv bld s l).length = l.length := by
  unfold sample_conv
  split_ifs <;> first | rfl | exact swab16_length n l h

/-- What the raw branch stores for a 16-bit source. -/
theorem raw_samples_16 (bld : build_t) (s : sout_stream_id_t) (h16 : is_raw16 s) :
    raw_samples bld s =
      (min ((s.i_buffer - s.i_buffer_pos) / 2) (s.i_buffer_in_pos / 2) * 2,
       min ((s.i_buffer - s.i_buffer_pos) / 2) (s.i_buffer_in_pos / 2),
       sample_conv bld s (s.p_buffer_in.take
         (min ((s.i_buffer - s.i_buffer_pos) / 2) (s.i_buffer_in_pos / 2) * 2))) := by
  have n1 : VLC_FOURCC 's' '1' '6' 'l' ≠ VLC_FOURCC 's' '8' ' ' ' ' := by decide
  have n2 : VLC_FOURCC 's' '1' '6' 'l' ≠ VLC_FOURCC 'u' '8' ' ' ' ' := by decide
  have n3 : VLC_FOURCC 's' '1' '6' 'b' ≠ VLC_FOURCC 's' '8' ' ' ' ' := by decide
  have n4 : VLC_FOURCC 's' '1' '6' 'b' ≠ VLC_FOURCC 'u' '8' ' ' ' ' := by decide
  have n5 : VLC_FOURCC 's' '1' '6' 'b' ≠ VLC_FOURCC 's' '1' '6' 'l' := by decide
  unfold raw_samples sample_conv
  rcases h16 with h | h
  · rw [h]; simp only [n1, n2, if_false, if_true]
  · rw [h]; simp only [n3, n4, n5, if_false, if_true]

/-- The raw 16-bit branch moves the first `2 * i_samples` staged bytes,
converted, behind the decoded samples. -/
theorem audio_raw_decode_content (bld : build_t) (s : sout_stream_id_t) (h16 : is_raw16 s)
    (hw : wf_buffers s) :
    wf_buffers (audio_raw_decode bld s) ∧
    decoded (audio_raw_decode bld s) = decoded s ++ sample_conv bld s ((staged s).take
      (min ((s.i_buffer - s.i_buffer_pos) / 2) (s.i_buffer_in_pos / 2) * 2)) ∧
    staged (audio_raw_decode bld s) = (staged s).drop
      (min ((s.i_buffer - s.i_buffer_pos) / 2) (s.i_buffer_in_pos / 2) * 2) ∧
    (audio_raw_decode bld s).i_buffer_pos = s.i_buffer_pos +
      min ((s.i_buffer - s.i_buffer_pos) / 2) (s.i_buffer_in_pos / 2) * 2 ∧
    (audio_raw_decode bld s).i_buffer_in_pos = s.i_buffer_in_pos -
      min ((s.i_buffer - s.i_buffer_pos) / 2) (s.i_buffer_in_pos / 2) * 2 := by
  obtain ⟨w1, w2, w3, w4⟩ := hw
  generalize hm : min ((s.i_buffer - s.i_buffer_pos) / 2) (s.i_buffer_in_pos / 2) = m
  have hm1 : m * 2 ≤ s.i_buffer - s.i_buffer_pos := by
    have : m ≤ (s.i_buffer - s.i_buffer_pos) / 2 := by rw [← hm]; exact Nat.min_le_left _ _
    omega
  have hm2 : m * 2 ≤ s.i_buffer_in_pos := by
    have : m ≤ s.i_buffer_in_pos / 2 := by rw [← hm]; exact Nat.min_le_right _ _
    omega
  have hrs := raw_samples_16 bld s h16
  rw [hm] at hrs
  have htake : s.p_buffer_in.take (m * 2) = (staged s).take (m * 2) := by
    unfold staged
    rw [List.take_take, Nat.min_eq_left hm2]
  have hlen : (s.p_buffer_in.take (m * 2)).length = 2 * m := by
    rw [List.length_take]; omega
  have hclen : (sample_conv bld s (s.p_buffer_in.take (m * 2))).length = m * 2 := by
    rw [sample_conv_length bld s _ m hlen, hlen]; omega
  unfold audio_raw_decode wf_buffers decoded staged
  simp only [hrs]
  refine ⟨⟨?_, by omega, ?_, by omega⟩, ?_, ?_, by omega, trivial⟩
  · rw [memcpy_length _ _ _ (by omega), w1]
  · split_ifs with hlt
    · unfold memmove
      rw [memcpy_length _ _ _ (by simp only [List.length_take, List.length_drop]; omega), w3]
    · exact w3
  · have := memcpy_take s.p_buffer s.i_buffer_pos
      (sample_conv bld s (s.p_buffer_in.take (m * 2))) (by omega)
    rw [hclen] at this
    rw [show s.i_buffer_pos + 2 * m = s.i_buffer_pos + m * 2 by omega, this, htake]
    rfl
  · split_ifs with hlt
    · unfold memmove memcpy
      simp only [List.take_zero, List.nil_append]
      rw [List.take_append_of_le_length (by
        simp only [List.length_take, List.length_drop]; omega)]
      rw [List.take_take, Nat.min_eq_left (by omega), List.drop_take]
    · have : s.i_buffer_in_pos - m * 2 = 0 := by omega
      rw [this, List.take_zero]
      symm
      apply List.drop_of_length_le
      rw [List.length_take]
      omega


/-- Payloads of a chain followed by another. -/
theorem payloads_append (a b : List sout_buffer_t) : payloads (a ++ b) = payloads a ++ payloads b := by
  simp [payloads]

/-- Equal channel counts: the frame is not downmixed. -/
theorem audio_downmix_frame_eq (n : Nat) (s : sout_stream_id_t)
    (hch : s.ff_dec_c.channels = s.ff_enc_c.channels) : audio_downmix_frame n s = s := by
  unfold audio_downmix_frame
  simp [hch]

/-- The encode loop under an identity encoder and equal channel counts: it
returns, leaves the buffer contents alone, and the payloads it emits followed
by the samples it leaves are the samples it found. -/
theorem audio_encode_loop_copy (lib : libavcodec) (i_buffer_pos : Nat)
    (hcopy : ∀ (c : AVCodecContext) (n : Nat) (f : List Nat),
      (lib.avcodec_encode_audio c n f).i_out_size = (f.length : Int) ∧
      (lib.avcodec_encode_audio c n f).p_buffer_out = f) :
    ∀ (fuel : Nat) (s : sout_stream_id_t) (out : List sout_buffer_t),
      s.ff_enc_c.sample_rate ≠ 0 →
      s.ff_dec_c.channels = s.ff_enc_c.channels →
      i_buffer_pos ≤ s.p_buffer.length → s.i_buffer_pos ≤ i_buffer_pos →
      s.i_buffer_pos < fuel →
      ∃ s' out', audio_encode_loop lib i_buffer_pos fuel s out = some (s', out') ∧
        s'.p_buffer = s.p_buffer ∧ s'.i_buffer_pos ≤ s.i_buffer_pos ∧
        payloads out' ++ (s.p_buffer.drop (i_buffer_pos - s'.i_buffer_pos)).take s'.i_buffer_pos =
          payloads out ++ (s.p_buffer.drop (i_buffer_pos - s.i_buffer_pos)).take s.i_buffer_pos ∧
        s'.i_buffer_in_pos = s.i_buffer_in_pos ∧ s'.p_buffer_in = s.p_buffer_in ∧
        s'.i_buffer_in = s.i_buffer_in ∧ same_setup s s' := by
  intro fuel
  induction fuel with
  | zero => intro s out _ _ _ _ h; simp at h
  | succ n ih =>
    intro s out hR hch hlen hpl hfuel
    unfold audio_encode_loop
    by_cases h1 : (s.i_buffer_pos : Int) < i_frame_size s
    · simp only [h1, if_true]
      exact ⟨s, out, rfl, rfl, le_refl _, rfl, rfl, rfl, rfl, same_setup_refl s⟩
    · simp only [h1, if_false]
      have hdm := audio_downmix_frame_eq i_buffer_pos s hch
      have hcall : audio_encode_call lib i_buffer_pos s =
          lib.avcodec_encode_audio s.ff_enc_c s.i_buffer_out
            ((s.p_buffer.drop (i_buffer_pos - s.i_buffer_pos)).take (i_frame_size s).toNat) := by
        unfold audio_encode_call
        rw [hdm]
        unfold i_frame_size
        rw [hch]
      obtain ⟨c1, c2⟩ := hcopy s.ff_enc_c s.i_buffer_out
        ((s.p_buffer.drop (i_buffer_pos - s.i_buffer_pos)).take (i_frame_size s).toNat)
      obtain ⟨a1, a2, a3, a4, a5⟩ := audio_after_encode_frame lib i_buffer_pos s
      have hap : (audio_after_encode lib i_buffer_pos s).p_buffer = s.p_buffer := by
        unfold audio_after_encode; rw [hdm]
      by_cases h2 : (audio_encode_call lib i_buffer_pos s).i_out_size ≤ 0
      · simp only [h2, if_true]
        exact ⟨_, out, rfl, hap, le_of_eq a5, by rw [a5], a2, a3, a4, a1⟩
      · simp only [h2, hR, if_false]
        rw [hcall, c1] at h2
        have hflen : ((s.p_buffer.drop (i_buffer_pos - s.i_buffer_pos)).take
            (i_frame_size s).toNat).length = (i_frame_size s).toNat := by
          rw [List.length_take, List.length_drop]
          omega
        rw [hflen] at h2
        have hFpos : 0 < (i_frame_size s).toNat := by omega
        obtain ⟨e0, e1, e2, e3, e4⟩ := audio_emit_frame lib i_buffer_pos s
        have hep : (audio_emit lib i_buffer_pos s).p_buffer = s.p_buffer := hap
        have hepos : (audio_emit lib i_buffer_pos s).i_buffer_pos =
            s.i_buffer_pos - (i_frame_size s).toNat := by
          show ((s.i_buffer_pos : Int) - i_frame_size s).toNat = _
          omega
        have hech : (audio_emit lib i_buffer_pos s).ff_dec_c.channels =
            (audio_emit lib i_buffer_pos s).ff_enc_c.channels := by
          rw [e0.2.2.2.1, e0.2.2.2.2.2.2.1]; exact hch
        obtain ⟨s', out', hl, p1, p2, p3, p4, p5, p6, p7⟩ :=
          ih (audio_emit lib i_buffer_pos s) (out ++ [audio_unit lib i_buffer_pos s])
            (by rw [e0.2.2.2.2.2.2.2.1]; exact hR) hech
            (by rw [hep]; exact hlen) (by rw [hepos]; omega) (by rw [hepos]; omega)
        refine ⟨s', out', hl, p1.trans hep, by rw [hepos] at p2; omega, ?_, p4.trans e1,
          p5.trans e2, p6.trans e3, same_setup_trans e0 p7⟩
        rw [hep] at p3
        rw [p3, payloads_append, hepos]
        have hunit : payloads [audio_unit lib i_buffer_pos s] =
            (s.p_buffer.drop (i_buffer_pos - s.i_buffer_pos)).take (i_frame_size s).toNat := by
          simp only [payloads, audio_unit, List.map_cons, List.map_nil, List.flatten_cons,
            List.flatten_nil, List.append_nil]
          rw [hcall, c1, c2, Int.toNat_ofNat]
          exact List.take_of_length_le (le_refl _)
        rw [hunit, List.append_assoc]
        congr 1
        have key : (s.p_buffer.drop (i_buffer_pos - s.i_buffer_pos)).take s.i_buffer_pos =
            (s.p_buffer.drop (i_buffer_pos - s.i_buffer_pos)).take (i_frame_size s).toNat ++
            (s.p_buffer.drop (i_buffer_pos - (s.i_buffer_pos - (i_frame_size s).toNat))).take
              (s.i_buffer_pos - (i_frame_size s).toNat) := by
          have e : (s.p_buffer.drop (i_buffer_pos - s.i_buffer_pos)).take s.i_buffer_pos =
              (s.p_buffer.drop (i_buffer_pos - s.i_buffer_pos)).take
                ((i_frame_size s).toNat + (s.i_buffer_pos - (i_frame_size s).toNat)) := by
            congr 1; omega
          rw [e, List.take_add, List.drop_drop]
          congr 3
          omega
        rw [key]


/-- Compaction brings the unconsumed samples to the front. -/
theorem audio_compact_content (n : Nat) (s : sout_stream_id_t)
    (hlen : n ≤ s.p_buffer.length) (hpos : s.i_buffer_pos ≤ n) :
    decoded (audio_compact n s) = (s.p_buffer.drop (n - s.i_buffer_pos)).take s.i_buffer_pos ∧
    (audio_compact n s).p_buffer.length = s.p_buffer.length ∧
    (audio_compact n s).i_buffer_pos = s.i_buffer_pos ∧
    (audio_compact n s).i_buffer_in_pos = s.i_buffer_in_pos ∧
    (audio_compact n s).p_buffer_in = s.p_buffer_in ∧
    (audio_compact n s).i_buffer_in = s.i_buffer_in ∧
    same_setup s (audio_compact n s) := by
  unfold audio_compact decoded
  split_ifs with h
  · have hl : ((s.p_buffer.drop (n - s.i_buffer_pos)).take s.i_buffer_pos).length =
        s.i_buffer_pos := by
      rw [List.length_take, List.length_drop]; omega
    refine ⟨?_, ?_, rfl, rfl, rfl, rfl, by simp [same_setup]⟩
    · show (memmove s.p_buffer 0 (n - s.i_buffer_pos) s.i_buffer_pos).take s.i_buffer_pos = _
      unfold memmove
      have := memcpy_take s.p_buffer 0
        ((s.p_buffer.drop (n - s.i_buffer_pos)).take s.i_buffer_pos) (Nat.zero_le _)
      rw [hl, Nat.zero_add] at this
      rw [this]; simp
    · show (memmove s.p_buffer 0 (n - s.i_buffer_pos) s.i_buffer_pos).length = _
      unfold memmove
      rw [memcpy_length _ _ _ (by rw [hl]; omega)]
  · have h0 : s.i_buffer_pos = 0 := by omega
    simp [h0, same_setup]

/-- An 's16l' source on a little-endian host is copied unchanged. -/
theorem sample_conv_s16l_le (bld : build_t) (s : sout_stream_id_t) (l : List Nat)
    (hf : s.f_src.i_fourcc = VLC_FOURCC 's' '1' '6' 'l') (hb : bld.WORDS_BIGENDIAN = false) :
    sample_conv bld s l = l := by
  unfold sample_conv
  simp [hf, hb]

/-- One call under the hypotheses of C3: it returns and conserves the byte
stream. -/
theorem copy_call (bld : build_t) (lib : libavcodec) (fuel : Nat)
    (s : sout_stream_id_t) (inb : sout_buffer_t)
    (hcopy : ∀ (c : AVCodecContext) (n : Nat) (f : List Nat),
      (lib.avcodec_encode_audio c n f).i_out_size = (f.length : Int) ∧
      (lib.avcodec_encode_audio c n f).p_buffer_out = f)
    (hb : bld.WORDS_BIGENDIAN = false)
    (hf : s.f_src.i_fourcc = VLC_FOURCC 's' '1' '6' 'l')
    (hdec : s.ff_dec = none)
    (hch : s.ff_dec_c.channels = s.ff_enc_c.channels)
    (hv : libavcodec_path bld s) (hnz : divisors_nonzero bld s)
    (hw : wf_buffers s) (hfuel : s.i_buffer < fuel) :
    ∃ s' out, transcode_audio_ffmpeg_process bld lib fuel s inb = some (VLC_SUCCESS, s', out) ∧
      wf_buffers s' ∧ same_setup s s' ∧
      payloads out ++ decoded s' ++ staged s' = decoded s ++ staged s ++ inb.p_buffer := by
  obtain ⟨gw, gd, gs⟩ := audio_enter_content bld s inb hw
  obtain ⟨gset, _, _⟩ := audio_enter_frame bld s inb
  generalize hG : audio_enter bld s inb = G at gw gd gs gset
  have hGf : G.f_src.i_fourcc = VLC_FOURCC 's' '1' '6' 'l' := by rw [gset.1]; exact hf
  obtain ⟨rw', rd, rs, rpos, _⟩ := audio_raw_decode_content bld G (Or.inl hGf) gw
  have rset : same_setup G (audio_raw_decode bld G) := by simp [same_setup, audio_raw_decode]
  have rin : (audio_raw_decode bld G).i_buffer_in = G.i_buffer_in := rfl
  generalize hm : min ((G.i_buffer - G.i_buffer_pos) / 2) (G.i_buffer_in_pos / 2) * 2 = m
    at rd rs rpos
  rw [sample_conv_s16l_le bld G _ hGf hb] at rd
  generalize hR : audio_raw_decode bld G = R at rw' rd rs rpos rset rin
  have hsR : same_setup s R := same_setup_trans gset rset
  have hstage : audio_decode_stage bld lib fuel G false = some (R, false) := by
    unfold audio_decode_stage
    rw [gset.2.2.1, hdec, hR]
  obtain ⟨r1, r2, r3, r4⟩ := rw'
  have hRch : R.ff_dec_c.channels = R.ff_enc_c.channels := by
    rw [hsR.2.2.2.1, hsR.2.2.2.2.2.2.1]; exact hch
  have hRfuel : R.i_buffer_pos < fuel := by
    have : R.i_buffer = s.i_buffer := hsR.2.2.2.2.2.2.2.2.1
    omega
  -- the encode stage
  have henc : ∃ s2 out, audio_encode_stage bld lib fuel R [] = some (s2, out) ∧
      s2.p_buffer = R.p_buffer ∧ s2.i_buffer_pos ≤ R.i_buffer_pos ∧
      payloads out ++ (R.p_buffer.drop (R.i_buffer_pos - s2.i_buffer_pos)).take s2.i_buffer_pos =
        decoded R ∧
      s2.i_buffer_in_pos = R.i_buffer_in_pos ∧ s2.p_buffer_in = R.p_buffer_in ∧
      s2.i_buffer_in = R.i_buffer_in ∧ same_setup R s2 := by
    have hloop : ∃ s2 out, audio_encode_loop lib R.i_buffer_pos fuel R [] = some (s2, out) ∧
        s2.p_buffer = R.p_buffer ∧ s2.i_buffer_pos ≤ R.i_buffer_pos ∧
        payloads out ++ (R.p_buffer.drop (R.i_buffer_pos - s2.i_buffer_pos)).take s2.i_buffer_pos =
          decoded R ∧
        s2.i_buffer_in_pos = R.i_buffer_in_pos ∧ s2.p_buffer_in = R.p_buffer_in ∧
        s2.i_buffer_in = R.i_buffer_in ∧ same_setup R s2 := by
      obtain ⟨s2, out, hl, q1, q2, q3, q4, q5, q6, q7⟩ :=
        audio_encode_loop_copy lib R.i_buffer_pos hcopy fuel R []
          (by rw [hsR.2.2.2.2.2.2.2.1]; exact divisors_nonzero_rate hnz hv)
          hRch (by omega) (le_refl _) hRfuel
      refine ⟨s2, out, hl, q1, q2, ?_, q4, q5, q6, q7⟩
      rw [q3]
      simp [payloads, decoded]
    have hRv : ¬ (bld.HAVE_VORBIS_VORBISENC_H = true ∧
        R.f_dst.i_fourcc = VLC_FOURCC 'v' 'o' 'r' 'b') := by
      rw [hsR.2.1]; exact hv
    unfold audio_encode_stage
    split_ifs with c1 c2 c3 c4
    · refine ⟨R, [], rfl, rfl, le_refl _, ?_, rfl, rfl, rfl, same_setup_refl R⟩
      simp [payloads, decoded, c2]
    · exact absurd ⟨c1, c3⟩ hRv
    · exact absurd ⟨c1, c3⟩ hRv
    · exact hloop
    · exact hloop
  obtain ⟨s2, out, he, q1, q2, q3, q4, q5, q6, q7⟩ := henc
  obtain ⟨k1, k2, k3, k4, k5, k6, k7⟩ := audio_compact_content R.i_buffer_pos s2
    (by rw [q1]; omega) q2
  refine ⟨audio_compact R.i_buffer_pos s2, out, ?_, ?_, ?_, ?_⟩
  · exact process_of_stages bld lib fuel s R s2 inb out (divisors_nonzero_start hnz) (by omega)
      (by rw [hG]; exact hstage) he
  · refine ⟨?_, ?_, ?_, ?_⟩
    · rw [k2, q1, r1, k7.2.2.2.2.2.2.2.2.1, q7.2.2.2.2.2.2.2.2.1]
    · rw [k3, k7.2.2.2.2.2.2.2.2.1, q7.2.2.2.2.2.2.2.2.1]; omega
    · rw [k5, q5, k6, q6]; exact r3
    · rw [k4, q4, k6, q6]; exact r4
  · exact same_setup_trans hsR (same_setup_trans q7 k7)
  · have hst : staged (audio_compact R.i_buffer_pos s2) = staged R := by
      unfold staged; rw [k4, k5, q4, q5]
    rw [k1, q1, q3, hst, rd, rs, gd, gs, List.append_assoc, List.take_append_drop]
    simp


/-- A sequence of calls under the hypotheses of C3 conserves the byte
stream, whatever the buffers held before. -/
theorem copy_feed (bld : build_t) (lib : libavcodec) (fuel : Nat)
    (hcopy : ∀ (c : AVCodecContext) (n : Nat) (f : List Nat),
      (lib.avcodec_encode_audio c n f).i_out_size = (f.length : Int) ∧
      (lib.avcodec_encode_audio c n f).p_buffer_out = f)
    (hb : bld.WORDS_BIGENDIAN = false) :
    ∀ (units : List sout_buffer_t) (s : sout_stream_id_t),
      s.f_src.i_fourcc = VLC_FOURCC 's' '1' '6' 'l' → s.ff_dec = none →
      s.ff_dec_c.channels = s.ff_enc_c.channels → libavcodec_path bld s →
      divisors_nonzero bld s →
      wf_buffers s → s.i_buffer < fuel →
      ∃ s' outs, audio_feed bld lib fuel s units = some (s', outs) ∧
        payloads outs ++ decoded s' ++ staged s' =
          decoded s ++ staged s ++ (units.map (fun u => u.p_buffer)).flatten := by
  intro units
  induction units with
  | nil =>
    intro s _ _ _ _ _ _ _
    exact ⟨s, [], rfl, by simp [payloads]⟩
  | cons u us ih =>
    intro s hf hdec hch hv hnz hw hfuel
    obtain ⟨s1, out, hp, hw1, hs1, hc1⟩ :=
      copy_call bld lib fuel s u hcopy hb hf hdec hch hv hnz hw hfuel
    obtain ⟨s2, outs, hfeed, hc2⟩ := ih s1 (by rw [hs1.1]; exact hf) (by rw [hs1.2.2.1]; exact hdec)
      (by rw [hs1.2.2.2.1, hs1.2.2.2.2.2.2.1]; exact hch)
      (by unfold libavcodec_path at hv ⊢; rw [hs1.2.1]; exact hv)
      (divisors_nonzero_of_same_setup hs1 hnz) hw1
      (by rw [hs1.2.2.2.2.2.2.2.2.1]; exact hfuel)
    refine ⟨s2, out ++ outs, ?_, ?_⟩
    · simp [audio_feed, hp, hfeed]
    · rw [payloads_append, List.append_assoc, List.append_assoc, ← List.append_assoc (payloads outs),
        hc2, List.map_cons, List.flatten_cons, ← List.append_assoc, ← List.append_assoc,
        ← List.append_assoc, ← hc1]

/-- C3: a raw 's16l' session on a little-endian host, decoder and encoder
channel counts equal, with an identity encoder (the coded frame is the frame,
byte for byte), starting with empty buffers, and with nonzero channel count
and sample rates (a zero divisor makes the call raise SIGFPE, see
`zero_rate_call_traps`).  For every sequence of input units, the calls
return, and the emitted payloads, followed by the first `i_buffer_pos` bytes
of the decoded-samples buffer, followed by the first `i_buffer_in_pos` bytes
of the input staging buffer, are the input bytes in order. -/
theorem copy_roundtrip (bld : build_t) (lib : libavcodec) (fuel : Nat)
    (s : sout_stream_id_t) (units : List sout_buffer_t)
    (hcopy : ∀ (c : AVCodecContext) (n : Nat) (f : List Nat),
      (lib.avcodec_encode_audio c n f).i_out_size = (f.length : Int) ∧
      (lib.avcodec_encode_audio c n f).p_buffer_out = f)
    (hb : bld.WORDS_BIGENDIAN = false)
    (hf : s.f_src.i_fourcc = VLC_FOURCC 's' '1' '6' 'l')
    (hdec : s.ff_dec = none)
    (hch : s.ff_dec_c.channels = s.ff_enc_c.channels)
    (hv : libavcodec_path bld s) (hnz : divisors_nonzero bld s)
    (hw : wf_buffers s) (h0 : s.i_buffer_pos = 0) (h1 : s.i_buffer_in_pos = 0)
    (hfuel : s.i_buffer < fuel) :
    ∃ s' outs, audio_feed bld lib fuel s units = some (s', outs) ∧
      payloads outs ++ s'.p_buffer.take s'.i_buffer_pos ++ s'.p_buffer_in.take s'.i_buffer_in_pos =
        (units.map (fun u => u.p_buffer)).flatten := by
  obtain ⟨s', outs, hfeed, hc⟩ :=
    copy_feed bld lib fuel hcopy hb units s hf hdec hch hv hnz hw hfuel
  refine ⟨s', outs, hfeed, ?_⟩
  have : decoded s ++ staged s = [] := by simp [decoded, staged, h0, h1]
  rw [this] at hc
  simpa [decoded, staged] using hc

/-- Witness for C3: the small PCM session fed ten bytes, then three. -/
theorem copy_roundtrip_witness :
    ∃ s' outs, audio_feed bld_le lib_copy 17 id_pcm_small [unit_ten, unit_of [11, 12, 13]] =
        some (s', outs) ∧
      payloads outs ++ s'.p_buffer.take s'.i_buffer_pos ++ s'.p_buffer_in.take s'.i_buffer_in_pos =
        ([unit_ten, unit_of [11, 12, 13]].map (fun u => u.p_buffer)).flatten :=
  copy_roundtrip bld_le lib_copy 17 id_pcm_small [unit_ten, unit_of [11, 12, 13]]
    (fun _ _ _ => ⟨rfl, rfl⟩) rfl (by decide) rfl (by decide)
    (by unfold libavcodec_path; decide) (by unfold divisors_nonzero; decide)
    (by unfold wf_buffers; decide) rfl rfl (by decide)

/-! ## Frames and remainders on the raw path -/

/-- A sample assignment whose destination lies before byte `n` changes
neither the size of the buffer nor its bytes from `n` on. -/
theorem copy_sample_keeps (m : List Nat) (base : Nat) (dst src : Int) (n : Nat)
    (h1 : base + 2 * dst.toNat + 2 ≤ n) (h2 : n ≤ m.length) :
    (copy_sample m base dst src).length = m.length ∧
    (copy_sample m base dst src).drop n = m.drop n := by
  unfold copy_sample memmove
  have hl : ((m.drop (base + 2 * src.toNat)).take 2).length ≤ 2 := by
    rw [List.length_take]; exact Nat.min_le_left _ _
  exact ⟨memcpy_length _ _ _ (by omega), memcpy_drop _ _ _ _ (by omega) h2⟩

/-- A loop of steps that each keep the size and the bytes from `n` on keeps
them. -/
theorem foldl_keeps {α : Type} (f : List Nat → α → List Nat) (n L : Nat) :
    ∀ (l : List α),
      (∀ (m : List Nat) (x : α), x ∈ l → m.length = L →
        (f m x).length = L ∧ (f m x).drop n = m.drop n) →
      ∀ (m : List Nat), m.length = L →
        (l.foldl f m).length = L ∧ (l.foldl f m).drop n = m.drop n := by
  intro l
  induction l with
  | nil => intro _ m hm; exact ⟨hm, rfl⟩
  | cons x t ih =>
    intro hstep m hm
    rw [List.foldl_cons]
    obtain ⟨a, b⟩ := hstep m x (List.mem_cons_self _ _) hm
    obtain ⟨c, d⟩ := ih (fun m y hy => hstep m y (List.mem_cons_of_mem _ hy)) (f m x) a
    exact ⟨c, d.trans b⟩

/-- The downmix loops write inside the frame: with a destination channel
count not above `c`, nothing from byte `base + frame_size * 2 * c` on is
changed, nor the size of the buffer. -/
theorem downmix_keeps (mem : List Nat) (base : Nat) (fs d s c : Int) (n : Nat)
    (hd : d ≤ c) (hn : base + (fs * 2 * c).toNat ≤ n) (hlen : n ≤ mem.length) :
    (downmix mem base fs d s).length = mem.length ∧
    (downmix mem base fs d s).drop n = mem.drop n := by
  unfold downmix
  apply foldl_keeps _ n mem.length _ _ mem rfl
  intro m i hi hm
  apply foldl_keeps _ n mem.length _ _ m hm
  intro m' j hj hm'
  have hi' : i < fs.toNat := List.mem_range.mp hi
  have hj' : j < d.toNat := List.mem_range.mp hj
  have hfs : fs = (fs.toNat : Int) := by omega
  have hdd : d = (d.toNat : Int) := by omega
  have hcc : c = (c.toNat : Int) := by omega
  have hdc : d.toNat ≤ c.toNat := by omega
  have e1 : ((i : Int) * d + (j : Int)).toNat = i * d.toNat + j := by
    rw [hdd]
    have : ((i : Int) * ((d.toNat : Nat) : Int) + (j : Int)) = ((i * d.toNat + j : Nat) : Int) := by
      push_cast; rfl
    rw [Int.toNat_ofNat, this, Int.toNat_ofNat]
  have e2 : (fs * 2 * c).toNat = fs.toNat * 2 * c.toNat := by
    rw [hfs, hcc]
    have : (((fs.toNat : Nat) : Int) * 2 * ((c.toNat : Nat) : Int)) =
        ((fs.toNat * 2 * c.toNat : Nat) : Int) := by push_cast; rfl
    rw [Int.toNat_ofNat, Int.toNat_ofNat, this, Int.toNat_ofNat]
  have b1 : (i + 1) * d.toNat ≤ fs.toNat * d.toNat := Nat.mul_le_mul_right _ (by omega)
  have b2 : fs.toNat * d.toNat ≤ fs.toNat * c.toNat := Nat.mul_le_mul_left _ hdc
  rw [Nat.succ_mul] at b1
  have b3 : fs.toNat * 2 * c.toNat = 2 * (fs.toNat * c.toNat) := by ring
  rw [← hm'] 
  apply copy_sample_keeps
  · rw [e1]; rw [e2, b3] at hn; omega
  · omega


/-- Buffers that agree from byte `a` on agree from any later byte on. -/
theorem drop_eq_of_le {l1 l2 : List Nat} {a b : Nat} (h : l1.drop a = l2.drop a) (hab : a ≤ b) :
    l1.drop b = l2.drop b := by
  have e : b = a + (b - a) := by omega
  rw [e, ← List.drop_drop, ← List.drop_drop, h]

/-- Emitting a unit changes no byte behind the frame that was coded. -/
theorem audio_emit_buffer (lib : libavcodec) (i_buffer_pos : Nat) (s : sout_stream_id_t)
    (hch : s.ff_dec_c.channels = s.ff_enc_c.channels ∨ s.f_dst.i_channels ≤ s.ff_dec_c.channels)
    (hlen : i_buffer_pos ≤ s.p_buffer.length) (hpl : s.i_buffer_pos ≤ i_buffer_pos)
    (hF : (i_frame_size s).toNat ≤ s.i_buffer_pos) :
    (audio_emit lib i_buffer_pos s).p_buffer.length = s.p_buffer.length ∧
    (audio_emit lib i_buffer_pos s).p_buffer.drop
        (i_buffer_pos - s.i_buffer_pos + (i_frame_size s).toNat) =
      s.p_buffer.drop (i_buffer_pos - s.i_buffer_pos + (i_frame_size s).toNat) := by
  have hp : (audio_emit lib i_buffer_pos s).p_buffer = (audio_downmix_frame i_buffer_pos s).p_buffer :=
    rfl
  rw [hp]
  unfold audio_downmix_frame
  split_ifs with hne
  · rcases hch with h | h
    · exact absurd h hne
    · exact downmix_keeps s.p_buffer (i_buffer_pos - s.i_buffer_pos) s.ff_enc_c.frame_size
        s.f_dst.i_channels s.f_src.i_channels s.ff_dec_c.channels _ h (le_refl _)
        (by simp only [i_frame_size] at hF ⊢; omega)
  · exact ⟨rfl, rfl⟩

/-- The encode loop under an encoder that always returns a positive size,
frame byte size `F > 0`: it returns, emits `i_buffer_pos / F` units, leaves
`i_buffer_pos mod F` bytes and does not touch them. -/
theorem audio_encode_loop_positive (lib : libavcodec) (i_buffer_pos : Nat)
    (hpos : ∀ (c : AVCodecContext) (n : Nat) (f : List Nat),
      0 < (lib.avcodec_encode_audio c n f).i_out_size) :
    ∀ (fuel : Nat) (s : sout_stream_id_t) (out : List sout_buffer_t),
      s.ff_enc_c.sample_rate ≠ 0 → 0 < i_frame_size s →
      (s.ff_dec_c.channels = s.ff_enc_c.channels ∨ s.f_dst.i_channels ≤ s.ff_dec_c.channels) →
      i_buffer_pos ≤ s.p_buffer.length → s.i_buffer_pos ≤ i_buffer_pos →
      s.i_buffer_pos / (i_frame_size s).toNat < fuel →
      ∃ s' out', audio_encode_loop lib i_buffer_pos fuel s out = some (s', out') ∧
        out'.length = out.length + s.i_buffer_pos / (i_frame_size s).toNat ∧
        s'.i_buffer_pos = s.i_buffer_pos % (i_frame_size s).toNat ∧
        s'.p_buffer.length = s.p_buffer.length ∧
        s'.p_buffer.drop (i_buffer_pos - s.i_buffer_pos % (i_frame_size s).toNat) =
          s.p_buffer.drop (i_buffer_pos - s.i_buffer_pos % (i_frame_size s).toNat) ∧
        s'.i_buffer_in_pos = s.i_buffer_in_pos ∧ s'.p_buffer_in = s.p_buffer_in ∧
        s'.i_buffer_in = s.i_buffer_in ∧ same_setup s s' := by
  intro fuel
  induction fuel with
  | zero => intro s out _ _ _ _ _ h; simp at h
  | succ n ih =>
    intro s out hR hF hch hlen hpl hfuel
    have hFn : 0 < (i_frame_size s).toNat := by omega
    unfold audio_encode_loop
    by_cases h1 : (s.i_buffer_pos : Int) < i_frame_size s
    · simp only [h1, if_true]
      have hlt : s.i_buffer_pos < (i_frame_size s).toNat := by omega
      refine ⟨s, out, rfl, ?_, ?_, rfl, rfl, rfl, rfl, rfl, same_setup_refl s⟩
      · rw [Nat.div_eq_of_lt hlt]; rfl
      · rw [Nat.mod_eq_of_lt hlt]
    · simp only [h1, if_false]
      have h2 : ¬ (audio_encode_call lib i_buffer_pos s).i_out_size ≤ 0 := by
        have := hpos (audio_downmix_frame i_buffer_pos s).ff_enc_c s.i_buffer_out
          (((audio_downmix_frame i_buffer_pos s).p_buffer.drop (i_buffer_pos - s.i_buffer_pos)).take
            (s.ff_enc_c.frame_size * 2 * s.ff_enc_c.channels).toNat)
        unfold audio_encode_call
        omega
      simp only [h2, hR, if_false]
      have hge : (i_frame_size s).toNat ≤ s.i_buffer_pos := by omega
      obtain ⟨e0, e1, e2, e3, e4⟩ := audio_emit_frame lib i_buffer_pos s
      obtain ⟨b1, b2⟩ := audio_emit_buffer lib i_buffer_pos s hch hlen hpl hge
      have hepos : (audio_emit lib i_buffer_pos s).i_buffer_pos =
          s.i_buffer_pos - (i_frame_size s).toNat := by
        show ((s.i_buffer_pos : Int) - i_frame_size s).toNat = _
        omega
      have hsplit : s.i_buffer_pos = (i_frame_size s).toNat +
          (s.i_buffer_pos - (i_frame_size s).toNat) := by omega
      have hdiv : s.i_buffer_pos / (i_frame_size s).toNat =
          (s.i_buffer_pos - (i_frame_size s).toNat) / (i_frame_size s).toNat + 1 := by
        conv_lhs => rw [hsplit]
        rw [Nat.add_div_left _ hFn]
      have hmod : s.i_buffer_pos % (i_frame_size s).toNat =
          (s.i_buffer_pos - (i_frame_size s).toNat) % (i_frame_size s).toNat := by
        conv_lhs => rw [hsplit]
        rw [Nat.add_mod_left]
      have hmle : (s.i_buffer_pos - (i_frame_size s).toNat) % (i_frame_size s).toNat ≤
          s.i_buffer_pos - (i_frame_size s).toNat := Nat.mod_le _ _
      have hech : (audio_emit lib i_buffer_pos s).ff_dec_c.channels =
            (audio_emit lib i_buffer_pos s).ff_enc_c.channels ∨
          (audio_emit lib i_buffer_pos s).f_dst.i_channels ≤
            (audio_emit lib i_buffer_pos s).ff_dec_c.channels := by
        rw [e0.2.2.2.1, e0.2.2.2.2.2.2.1, e0.2.1]; exact hch
      obtain ⟨s', out', hl, p1, p2, p3, p4, p5, p6, p7, p8⟩ :=
        ih (audio_emit lib i_buffer_pos s) (out ++ [audio_unit lib i_buffer_pos s])
          (by rw [e0.2.2.2.2.2.2.2.1]; exact hR)
          (by rw [e4]; exact hF) hech (by rw [b1]; exact hlen) (by rw [hepos]; omega)
          (by rw [e4, hepos]; omega)
      rw [e4, hepos] at p1 p2 p4
      refine ⟨s', out', hl, ?_, ?_, p3.trans b1, ?_, p5.trans e1, p6.trans e2, p7.trans e3,
        same_setup_trans e0 p8⟩
      · rw [p1, hdiv, List.length_append, List.length_singleton]; omega
      · rw [p2, hmod]
      · rw [hmod, p4]
        exact drop_eq_of_le b2 (by omega)


/-- Gathering a unit advances the input cursor by its size. -/
theorem audio_enter_in_pos (bld : build_t) (s : sout_stream_id_t) (inb : sout_buffer_t) :
    (audio_enter bld s inb).i_buffer_in_pos = s.i_buffer_in_pos + inb.p_buffer.length := by
  unfold audio_enter audio_gather
  simp only [sout_buffer_t.i_size]
  split_ifs <;> rfl

/-- The conversion depends on the source format only. -/
theorem sample_conv_congr (bld : build_t) (s s' : sout_stream_id_t) (l : List Nat)
    (h : s'.f_src = s.f_src) : sample_conv bld s' l = sample_conv bld s l := by
  unfold sample_conv
  rw [h]

/-- The raw 16-bit decode stage on a unit of even size that fits: every byte
of the unit is converted and put behind the decoded samples. -/
theorem raw_fit_decode (bld : build_t) (s : sout_stream_id_t) (inb : sout_buffer_t)
    (h16 : is_raw16 s) (hw : wf_buffers s) (hin : s.i_buffer_in_pos = 0)
    (hn : inb.p_buffer.length % 2 = 0)
    (hfit : s.i_buffer_pos + inb.p_buffer.length ≤ s.i_buffer) :
    wf_buffers (audio_raw_decode bld (audio_enter bld s inb)) ∧
    decoded (audio_raw_decode bld (audio_enter bld s inb)) =
      decoded s ++ sample_conv bld s inb.p_buffer ∧
    (audio_raw_decode bld (audio_enter bld s inb)).i_buffer_pos =
      s.i_buffer_pos + inb.p_buffer.length ∧
    (audio_raw_decode bld (audio_enter bld s inb)).i_buffer_in_pos = 0 ∧
    same_setup s (audio_raw_decode bld (audio_enter bld s inb)) := by
  obtain ⟨gw, gd, gs⟩ := audio_enter_content bld s inb hw
  obtain ⟨gset, _, gpos⟩ := audio_enter_frame bld s inb
  have gin := audio_enter_in_pos bld s inb
  generalize hG : audio_enter bld s inb = G at gw gd gs gset gpos gin
  have hG16 : is_raw16 G := by unfold is_raw16 at h16 ⊢; rw [gset.1]; exact h16
  obtain ⟨rw', rd, rs, rpos, rin⟩ := audio_raw_decode_content bld G hG16 gw
  have rset : same_setup G (audio_raw_decode bld G) := by simp [same_setup, audio_raw_decode]
  have hcap : G.i_buffer = s.i_buffer := gset.2.2.2.2.2.2.2.2.1
  have hm : min ((G.i_buffer - G.i_buffer_pos) / 2) (G.i_buffer_in_pos / 2) * 2 =
      inb.p_buffer.length := by
    rw [hcap, gpos, gin, hin, Nat.zero_add]
    have : inb.p_buffer.length / 2 ≤ (s.i_buffer - s.i_buffer_pos) / 2 :=
      Nat.div_le_div_right (by omega)
    rw [Nat.min_eq_right this]
    omega
  rw [hm] at rd rs rpos rin
  have hst : staged s = [] := by unfold staged; rw [hin]; rfl
  rw [gs, hst, List.nil_append] at rd rs
  rw [List.take_of_length_le (le_refl _), gd, sample_conv_congr bld s G _ gset.1] at rd
  refine ⟨rw', rd, by rw [rpos, gpos], by rw [rin, gin, hin]; omega, same_setup_trans gset rset⟩

/-- Every unit the encode loop emits lasts `audio_unit_length`. -/
theorem audio_encode_loop_lengths (lib : libavcodec) (i_buffer_pos : Nat) (fuel : Nat)
    (s s' : sout_stream_id_t) (out : List sout_buffer_t)
    (h : audio_encode_loop lib i_buffer_pos fuel s [] = some (s', out)) :
    out.map (fun u => u.i_length) = List.replicate out.length (audio_unit_length s) := by
  obtain ⟨n, hn⟩ := audio_encode_loop_timing lib i_buffer_pos fuel s s' [] out h
  simp only [List.map_nil, List.nil_append] at hn
  have hlen : out.length = n := by
    have := congrArg List.length hn
    simpa using this
  have h2 : (out.map timing).map (fun t => t.2.2) = out.map (fun u => u.i_length) := by
    simp [timing, Function.comp]
  rw [← h2, hn, List.map_map, hlen]
  have : ((fun t : Int × Int × Int => t.2.2) ∘ fun k : Nat =>
      (s.i_dts + (k : Int) * audio_unit_length s, s.i_dts + (k : Int) * audio_unit_length s,
        audio_unit_length s)) = fun _ => audio_unit_length s := by
    funext k; rfl
  rw [this, List.map_const', List.length_range]

/-- The unit duration is a function of the parameters. -/
theorem audio_unit_length_of_same_setup {s s' : sout_stream_id_t} (h : same_setup s s') :
    audio_unit_length s' = audio_unit_length s := by
  unfold audio_unit_length
  rw [h.2.2.2.2.2.1, h.2.2.2.2.2.2.2.1]

/-- One call on a raw 16-bit session under an encoder that always returns a
positive size: the decode stage takes `M` bytes, the most that fit, and the
call emits `(i_buffer_pos + M) / F` units. -/
theorem raw_call_count (bld : build_t) (lib : libavcodec) (fuel : Nat)
    (s : sout_stream_id_t) (inb : sout_buffer_t)
    (hpos : ∀ (c : AVCodecContext) (n : Nat) (f : List Nat),
      0 < (lib.avcodec_encode_audio c n f).i_out_size)
    (h16 : is_raw16 s) (hdec : s.ff_dec = none) (hv : libavcodec_path bld s)
    (hF : 0 < i_frame_size s)
    (hch : s.ff_dec_c.channels = s.ff_enc_c.channels ∨ s.f_dst.i_channels ≤ s.ff_dec_c.channels)
    (hnz : divisors_nonzero bld s)
    (hw : wf_buffers s)
    (hfuel : s.i_buffer / (i_frame_size s).toNat < fuel) :
    ∃ s' out, transcode_audio_ffmpeg_process bld lib fuel s inb = some (VLC_SUCCESS, s', out) ∧
      out.length = (s.i_buffer_pos + min ((s.i_buffer - s.i_buffer_pos) / 2)
        ((s.i_buffer_in_pos + inb.p_buffer.length) / 2) * 2) / (i_frame_size s).toNat ∧
      s'.i_buffer_pos = (s.i_buffer_pos + min ((s.i_buffer - s.i_buffer_pos) / 2)
        ((s.i_buffer_in_pos + inb.p_buffer.length) / 2) * 2) % (i_frame_size s).toNat ∧
      s'.i_buffer_in_pos = s.i_buffer_in_pos + inb.p_buffer.length -
        min ((s.i_buffer - s.i_buffer_pos) / 2)
          ((s.i_buffer_in_pos + inb.p_buffer.length) / 2) * 2 ∧
      wf_buffers s' ∧ same_setup s s' ∧
      out.map (fun u => u.i_length) = List.replicate out.length (audio_unit_length s) := by
  obtain ⟨gw, _, _⟩ := audio_enter_content bld s inb hw
  obtain ⟨gset, _, gpos⟩ := audio_enter_frame bld s inb
  have gin := audio_enter_in_pos bld s inb
  generalize hG : audio_enter bld s inb = G at gw gset gpos gin
  have hG16 : is_raw16 G := by unfold is_raw16 at h16 ⊢; rw [gset.1]; exact h16
  obtain ⟨rw', _, _, rpos, rin⟩ := audio_raw_decode_content bld G hG16 gw
  have rset0 : same_setup G (audio_raw_decode bld G) := by simp [same_setup, audio_raw_decode]
  have hcap : G.i_buffer = s.i_buffer := gset.2.2.2.2.2.2.2.2.1
  rw [hcap, gpos, gin] at rpos rin
  generalize hM : min ((s.i_buffer - s.i_buffer_pos) / 2)
    ((s.i_buffer_in_pos + inb.p_buffer.length) / 2) * 2 = M at rpos rin ⊢
  have hstage : audio_decode_stage bld lib fuel G false =
      some (audio_raw_decode bld G, false) := by
    unfold audio_decode_stage
    rw [gset.2.2.1, hdec]
  have rset : same_setup s (audio_raw_decode bld G) := same_setup_trans gset rset0
  generalize hR : audio_raw_decode bld G = R at rw' rpos rin rset hstage
  obtain ⟨r1, r2, r3, r4⟩ := rw'
  have hFR : i_frame_size R = i_frame_size s := i_frame_size_of_same_setup rset
  have hLR : audio_unit_length R = audio_unit_length s := audio_unit_length_of_same_setup rset
  have hcapR : R.i_buffer = s.i_buffer := rset.2.2.2.2.2.2.2.2.1
  generalize hFn : (i_frame_size s).toNat = Fn at *
  have hFn0 : 0 < Fn := by omega
  have hRch : R.ff_dec_c.channels = R.ff_enc_c.channels ∨
      R.f_dst.i_channels ≤ R.ff_dec_c.channels := by
    rw [rset.2.2.2.1, rset.2.2.2.2.2.2.1, rset.2.1]; exact hch
  have hRfuel : R.i_buffer_pos / Fn < fuel :=
    lt_of_le_of_lt (Nat.div_le_div_right (by omega)) hfuel
  have henc : ∃ s2 out, audio_encode_stage bld lib fuel R [] = some (s2, out) ∧
      out.length = R.i_buffer_pos / Fn ∧ s2.i_buffer_pos = R.i_buffer_pos % Fn ∧
      s2.p_buffer.length = R.p_buffer.length ∧
      s2.i_buffer_in_pos = R.i_buffer_in_pos ∧ s2.p_buffer_in = R.p_buffer_in ∧
      s2.i_buffer_in = R.i_buffer_in ∧ same_setup R s2 ∧
      out.map (fun u => u.i_length) = List.replicate out.length (audio_unit_length R) := by
    have hloop : ∃ s2 out, audio_encode_loop lib R.i_buffer_pos fuel R [] = some (s2, out) ∧
        out.length = R.i_buffer_pos / Fn ∧ s2.i_buffer_pos = R.i_buffer_pos % Fn ∧
        s2.p_buffer.length = R.p_buffer.length ∧
        s2.i_buffer_in_pos = R.i_buffer_in_pos ∧ s2.p_buffer_in = R.p_buffer_in ∧
        s2.i_buffer_in = R.i_buffer_in ∧ same_setup R s2 ∧
        out.map (fun u => u.i_length) = List.replicate out.length (audio_unit_length R) := by
      obtain ⟨s2, out, hl, q1, q2, q3, _, q5, q6, q7, q8⟩ :=
        audio_encode_loop_positive lib R.i_buffer_pos hpos fuel R []
          (by rw [rset.2.2.2.2.2.2.2.1]; exact divisors_nonzero_rate hnz hv)
          (by rw [hFR]; exact hF) hRch
          (by omega) (le_refl _) (by rw [hFR, hFn]; exact hRfuel)
      rw [hFR, hFn] at q1 q2
      exact ⟨s2, out, hl, by simpa using q1, q2, q3, q5, q6, q7, q8,
        audio_encode_loop_lengths lib R.i_buffer_pos fuel R s2 out hl⟩
    have hRv : ¬ (bld.HAVE_VORBIS_VORBISENC_H = true ∧
        R.f_dst.i_fourcc = VLC_FOURCC 'v' 'o' 'r' 'b') := by
      rw [rset.2.1]; exact hv
    unfold audio_encode_stage
    split_ifs with c1 c2 c3 c4
    · exact ⟨R, [], rfl, by simp [c2], by simp [c2], rfl, rfl, rfl, rfl, same_setup_refl R, rfl⟩
    · exact absurd ⟨c1, c3⟩ hRv
    · exact absurd ⟨c1, c3⟩ hRv
    · exact hloop
    · exact hloop
  obtain ⟨s2, out, he, q1, q2, q3, q5, q6, q7, q8, q9⟩ := henc
  have hmle : R.i_buffer_pos % Fn ≤ R.i_buffer_pos := Nat.mod_le _ _
  obtain ⟨_, k2, k3, k4, k5, k6, k7⟩ := audio_compact_content R.i_buffer_pos s2
    (by rw [q3]; omega) (by rw [q2]; exact hmle)
  refine ⟨audio_compact R.i_buffer_pos s2, out, ?_, ?_, ?_, ?_, ?_,
    same_setup_trans rset (same_setup_trans q8 k7), ?_⟩
  · exact process_of_stages bld lib fuel s R s2 inb out (divisors_nonzero_start hnz)
      (Nat.lt_of_le_of_lt (Nat.zero_le _) hfuel) (by rw [hG]; exact hstage) he
  · rw [q1, rpos]
  · rw [k3, q2, rpos]
  · rw [k4, q5, rin]
  · refine ⟨?_, ?_, ?_, ?_⟩
    · rw [k2, q3, r1, k7.2.2.2.2.2.2.2.2.1, q8.2.2.2.2.2.2.2.2.1]
    · rw [k3, q2, k7.2.2.2.2.2.2.2.2.1, q8.2.2.2.2.2.2.2.2.1]; omega
    · rw [k5, q6, k6, q7]; exact r3
    · rw [k4, q5, k6, q7]; exact r4
  · rw [q9, hLR]


/-- Byte accounting over a sequence of units that each fit: every byte fed
is in an emitted frame, in the decoded-samples buffer (less than a frame) or
in the input staging buffer (at most one byte). -/
theorem raw_feed_count (bld : build_t) (lib : libavcodec) (fuel : Nat)
    (hpos : ∀ (c : AVCodecContext) (n : Nat) (f : List Nat),
      0 < (lib.avcodec_encode_audio c n f).i_out_size) :
    ∀ (units : List sout_buffer_t) (s : sout_stream_id_t),
      is_raw16 s → s.ff_dec = none → libavcodec_path bld s → 0 < i_frame_size s →
      (s.ff_dec_c.channels = s.ff_enc_c.channels ∨ s.f_dst.i_channels ≤ s.ff_dec_c.channels) →
      divisors_nonzero bld s →
      wf_buffers s → s.i_buffer / (i_frame_size s).toNat < fuel →
      (∀ u ∈ units, u.p_buffer.length + (i_frame_size s).toNat ≤ s.i_buffer) →
      (i_frame_size s).toNat % 2 = 0 →
      s.i_buffer_pos % 2 = 0 → s.i_buffer_pos < (i_frame_size s).toNat → s.i_buffer_in_pos < 2 →
      ∃ s' outs, audio_feed bld lib fuel s units = some (s', outs) ∧
        (i_frame_size s).toNat * outs.length + s'.i_buffer_pos + s'.i_buffer_in_pos =
          s.i_buffer_pos + s.i_buffer_in_pos + (units.map (fun u => u.p_buffer.length)).sum ∧
        s'.i_buffer_pos % 2 = 0 ∧ s'.i_buffer_pos < (i_frame_size s).toNat ∧
        s'.i_buffer_in_pos < 2 ∧
        outs.map (fun u => u.i_length) = List.replicate outs.length (audio_unit_length s) := by
  intro units
  induction units with
  | nil =>
    intro s _ _ _ _ _ _ _ _ _ _ he hlt hin
    exact ⟨s, [], rfl, by simp, he, hlt, hin, rfl⟩
  | cons u us ih =>
    intro s h16 hdec hv hF hch hnz hw hfuel hsize hFe he hlt hin
    obtain ⟨s1, out, hp, c1, c2, c3, w1, set1, len1⟩ :=
      raw_call_count bld lib fuel s u hpos h16 hdec hv hF hch hnz hw hfuel
    have hF1 : i_frame_size s1 = i_frame_size s := i_frame_size_of_same_setup set1
    have hL1 : audio_unit_length s1 = audio_unit_length s := audio_unit_length_of_same_setup set1
    have hcap1 : s1.i_buffer = s.i_buffer := set1.2.2.2.2.2.2.2.2.1
    have hu := hsize u (List.mem_cons_self _ _)
    generalize hFn : (i_frame_size s).toNat = Fn at *
    have hFn0 : 0 < Fn := by omega
    have hM : min ((s.i_buffer - s.i_buffer_pos) / 2) ((s.i_buffer_in_pos + u.p_buffer.length) / 2)
        = (s.i_buffer_in_pos + u.p_buffer.length) / 2 :=
      Nat.min_eq_right (Nat.div_le_div_right (by omega))
    rw [hM] at c1 c2 c3
    generalize hX : s.i_buffer_pos + (s.i_buffer_in_pos + u.p_buffer.length) / 2 * 2 = X at c1 c2
    have hdm := Nat.div_add_mod X Fn
    have hpar : (X % Fn) % 2 = X % 2 := Nat.mod_mod_of_dvd X (Nat.dvd_of_mod_eq_zero hFe)
    have hmlt : X % Fn < Fn := Nat.mod_lt _ hFn0
    obtain ⟨s2, outs, hfeed, d1, d2, d3, d4, d5⟩ := ih s1
      (by unfold is_raw16 at h16 ⊢; rw [set1.1]; exact h16)
      (by rw [set1.2.2.1]; exact hdec)
      (by unfold libavcodec_path at hv ⊢; rw [set1.2.1]; exact hv)
      (by rw [hF1]; exact hF)
      (by rw [set1.2.2.2.1, set1.2.2.2.2.2.2.1, set1.2.1]; exact hch)
      (divisors_nonzero_of_same_setup set1 hnz)
      w1 (by rw [hF1, hcap1, hFn]; exact hfuel)
      (by
        intro v hv'
        rw [hF1, hcap1, hFn]
        exact hsize v (List.mem_cons_of_mem _ hv'))
      (by rw [hF1, hFn]; exact hFe)
      (by rw [c2, hpar]; omega)
      (by rw [hF1, hFn, c2]; exact hmlt)
      (by rw [c3]; omega)
    rw [hF1, hFn] at d1 d3
    refine ⟨s2, out ++ outs, ?_, ?_, d2, d3, d4, ?_⟩
    · simp [audio_feed, hp, hfeed]
    · rw [List.length_append, Nat.mul_add, List.map_cons, List.sum_cons, c1]
      rw [c2, c3] at d1
      generalize Fn * (X / Fn) = a at hdm ⊢
      generalize Fn * outs.length = b at d1 ⊢
      omega
    · rw [List.map_append, len1, d5, hL1, List.length_append, List.replicate_add]


/-- With `R` dividing `1000000 * f`, `N / f` frames of `1000000 * f / R`
microseconds fall short of `1000000 * N / R` by less than one frame. -/
theorem drift_arith (f R N K : Nat) (hf : 0 < f) (hR : 0 < R) (hdiv : R ∣ 1000000 * f)
    (hK : K = N / f) :
    |(1000000 * (N : Int)) / (R : Int) - (K : Int) * ((1000000 * (f : Int)) / (R : Int))| <
      (1000000 * (f : Int)) / (R : Int) := by
  obtain ⟨L, hL⟩ := hdiv
  have hLdiv : 1000000 * f / R = L := by rw [hL]; exact Nat.mul_div_cancel_left L hR
  have hN : N = f * K + N % f := by rw [hK]; exact (Nat.div_add_mod N f).symm
  have ht : N % f < f := Nat.mod_lt _ hf
  have hD : 1000000 * N / R = K * L + 1000000 * (N % f) / R := by
    have e : 1000000 * N = R * (K * L) + 1000000 * (N % f) := by
      have e1 : 1000000 * N = 1000000 * (f * K + N % f) := by rw [← hN]
      rw [e1, Nat.mul_add, ← Nat.mul_assoc, hL]
      ring
    rw [e, Nat.mul_add_div hR]
  have hlt : 1000000 * (N % f) / R < L := by
    rw [Nat.div_lt_iff_lt_mul hR, Nat.mul_comm L R, ← hL]
    exact Nat.mul_lt_mul_of_pos_left ht (by norm_num)
  have c1 : (1000000 * (N : Int)) / (R : Int) = ((1000000 * N / R : Nat) : Int) := by
    push_cast; rfl
  have c2 : (1000000 * (f : Int)) / (R : Int) = ((1000000 * f / R : Nat) : Int) := by
    push_cast; rfl
  rw [c1, c2, hLdiv, hD]
  generalize 1000000 * (N % f) / R = g at hlt
  have e3 : ((K * L + g : Nat) : Int) - (K : Int) * (L : Int) = (g : Int) := by
    push_cast; ring
  rw [e3, abs_lt]
  constructor <;> omega

/-- The frame byte size in terms of the frame size and channel count. -/
theorem frame_bytes (s : sout_stream_id_t) (f c : Nat)
    (hfs : s.ff_enc_c.frame_size = (f : Int)) (hdc : s.ff_dec_c.channels = (c : Int)) :
    i_frame_size s = ((2 * f * c : Nat) : Int) ∧ (i_frame_size s).toNat = 2 * f * c := by
  have e : i_frame_size s = ((2 * f * c : Nat) : Int) := by
    unfold i_frame_size
    rw [hfs, hdc]
    push_cast
    ring
  exact ⟨e, by rw [e, Int.toNat_ofNat]⟩

/-- C5 (amended): a raw 16-bit PCM session starting with empty buffers, decoder
and encoder channel count `c > 0`, decoder and encoder sample rate `R > 0`,
encoder frame size `f > 0` with `R` dividing `1000000 * f`, an encoder that
always returns a positive size.  For every sequence of units that each leave room for one
frame in the decoded-samples buffer (`size + 2*f*c <= i_buffer`) and total `N`
sample frames, the calls return, `N / f` units are emitted, and the sum of
their `i_length` differs from `1000000 * N / R` by less than
`1000000 * f / R`. -/
theorem audio_duration_drift (bld : build_t) (lib : libavcodec) (fuel : Nat)
    (s : sout_stream_id_t) (units : List sout_buffer_t) (f c R N : Nat)
    (hf0 : 0 < f) (hc0 : 0 < c) (hR0 : 0 < R)
    (hpos : ∀ (c : AVCodecContext) (n : Nat) (f : List Nat),
      0 < (lib.avcodec_encode_audio c n f).i_out_size)
    (h16 : is_raw16 s) (hdec : s.ff_dec = none) (hv : libavcodec_path bld s)
    (hfs : s.ff_enc_c.frame_size = (f : Int))
    (hdc : s.ff_dec_c.channels = (c : Int)) (hec : s.ff_enc_c.channels = (c : Int))
    (hsr : s.ff_enc_c.sample_rate = (R : Int)) (hdr : s.ff_dec_c.sample_rate = (R : Int))
    (hdiv : R ∣ 1000000 * f)
    (hw : wf_buffers s) (h0 : s.i_buffer_pos = 0) (h1 : s.i_buffer_in_pos = 0)
    (hsize : ∀ u ∈ units, u.p_buffer.length + 2 * f * c ≤ s.i_buffer)
    (htotal : (units.map (fun u => u.p_buffer.length)).sum = 2 * c * N)
    (hfuel : s.i_buffer / (2 * f * c) < fuel) :
    ∃ s' outs, audio_feed bld lib fuel s units = some (s', outs) ∧
      outs.length = N / f ∧
      |(1000000 * (N : Int)) / (R : Int) - (outs.map (fun u => u.i_length)).sum| <
        (1000000 * (f : Int)) / (R : Int) := by
  obtain ⟨hFi, hFn⟩ := frame_bytes s f c hfs hdc
  have hfc : 0 < f * c := Nat.mul_pos hf0 hc0
  have h2fc : 0 < 2 * f * c := by rw [Nat.mul_assoc]; omega
  have hF : 0 < i_frame_size s := by rw [hFi]; exact_mod_cast h2fc
  have hnz : divisors_nonzero bld s :=
    divisors_nonzero_of_rates hv (by rw [hdc]; omega) (by rw [hdr]; omega) (by rw [hsr]; omega)
  obtain ⟨s', outs, hfeed, acc, e1, e2, e3, lens⟩ :=
    raw_feed_count bld lib fuel hpos units s h16 hdec hv hF (Or.inl (by rw [hdc, hec])) hnz hw
      (by rw [hFn]; exact hfuel) (by rw [hFn]; exact hsize)
      (by rw [hFn, Nat.mul_assoc]; exact Nat.mul_mod_right 2 _)
      (by rw [h0]) (by rw [h0, hFn]; exact h2fc) (by rw [h1]; norm_num)
  rw [hFn, h0, h1, htotal] at acc
  rw [hFn] at e2
  have hK : outs.length = N / f := by
    have hin' : s'.i_buffer_in_pos = 0 := by
      have a1 : (2 * f * c * outs.length) % 2 = 0 := by
        rw [Nat.mul_assoc, Nat.mul_assoc]; exact Nat.mul_mod_right 2 _
      have a2 : (2 * c * N) % 2 = 0 := by rw [Nat.mul_assoc]; exact Nat.mul_mod_right 2 _
      generalize 2 * f * c * outs.length = a at acc a1
      generalize 2 * c * N = b at acc a2
      omega
    rw [hin'] at acc
    have hq : 2 * c * N / (2 * f * c) = outs.length := by
      have : 2 * c * N = s'.i_buffer_pos + 2 * f * c * outs.length := by omega
      rw [this, Nat.add_mul_div_left _ _ h2fc, Nat.div_eq_of_lt e2,
        Nat.zero_add]
    rw [← hq]
    have r1 : 2 * c * N = (2 * c) * N := rfl
    have r2 : 2 * f * c = (2 * c) * f := by ring
    rw [r2, Nat.mul_div_mul_left _ _ (by omega : 0 < 2 * c)]
  refine ⟨s', outs, hfeed, hK, ?_⟩
  have hL : audio_unit_length s = (1000000 * (f : Int)) / (R : Int) := by
    unfold audio_unit_length
    rw [hfs, hsr]
    exact Int.tdiv_eq_ediv (by positivity) (by positivity)
  have hsum : (outs.map (fun u => u.i_length)).sum =
      (outs.length : Int) * ((1000000 * (f : Int)) / (R : Int)) := by
    rw [lens, List.sum_replicate, hL]
    simp
  rw [hsum]
  exact drift_arith f R N outs.length hf0 hR0 hdiv hK


/-- The fields of the 8000 Hz session that the statements below use. -/
theorem id_pcm_8k_facts (fs : Int) :
    is_raw16 (id_pcm_8k fs) ∧ (id_pcm_8k fs).ff_dec = none ∧
    libavcodec_path bld_le (id_pcm_8k fs) ∧ wf_buffers (id_pcm_8k fs) ∧
    (id_pcm_8k fs).i_buffer = 262144 ∧ (id_pcm_8k fs).i_buffer_pos = 0 ∧
    (id_pcm_8k fs).i_buffer_in_pos = 0 ∧ (id_pcm_8k fs).ff_enc_c.frame_size = fs ∧
    (id_pcm_8k fs).ff_dec_c.channels = 1 ∧ (id_pcm_8k fs).ff_enc_c.channels = 1 ∧
    (id_pcm_8k fs).ff_enc_c.sample_rate = 8000 ∧
    (id_pcm_8k fs).ff_dec_c.sample_rate = 8000 := by
  refine ⟨Or.inl rfl, rfl, ?_, ?_, rfl, rfl, rfl, rfl, rfl, rfl, rfl, rfl⟩
  · unfold libavcodec_path; simp [bld_le]
  · unfold wf_buffers
    simp [id_pcm_8k, id_zero]

/-- Witness for C5 (Scenario A): 16-bit PCM mono 8000 Hz, encoder frames of
1152 samples, one unit of 32000 zero bytes (2 seconds): 13 units, and a summed
duration within one frame (144000 microseconds) of 2000000. -/
theorem audio_duration_drift_witness :
    ∃ s' outs, audio_feed bld_le lib_full 114 (id_pcm_8k 1152) [unit_of (zeros 32000)] =
        some (s', outs) ∧
      outs.length = 16000 / 1152 ∧
      |(1000000 * ((16000 : Nat) : Int)) / ((8000 : Nat) : Int) -
          (outs.map (fun u => u.i_length)).sum| <
        (1000000 * ((1152 : Nat) : Int)) / ((8000 : Nat) : Int) := by
  obtain ⟨a1, a2, a3, a4, a5, a6, a7, a8, a9, a10, a11, a12⟩ := id_pcm_8k_facts 1152
  exact audio_duration_drift bld_le lib_full 114 (id_pcm_8k 1152) [unit_of (zeros 32000)]
    1152 1 8000 16000 (by norm_num) (by norm_num) (by norm_num) lib_full_positive a1 a2 a3
    a8 a9 a10 a11 a12 ⟨144000, by norm_num⟩ a4 a6 a7
    (by
      intro u hu
      rw [List.mem_singleton] at hu
      rw [hu, a5, unit_of_length]
      norm_num)
    (by rw [List.map_singleton, List.sum_singleton, unit_of_length])
    (by rw [a5]; norm_num)


/-- Feeding one unit is one call. -/
theorem audio_feed_single (bld : build_t) (lib : libavcodec) (fuel : Nat)
    (s s1 : sout_stream_id_t) (u : sout_buffer_t) (st : Int) (out : List sout_buffer_t)
    (h : transcode_audio_ffmpeg_process bld lib fuel s u = some (st, s1, out)) :
    audio_feed bld lib fuel s [u] = some (s1, out) := by
  simp [audio_feed, h]

/-- Counterexample to C5 as stated, on the 8000 Hz mono session with buffers of
`2 * AVCODEC_MAX_AUDIO_FRAME_SIZE = 262144` bytes.  (a) Encoder frames of 1152
samples, one unit of 300000 bytes (150000 sample frames, 18750000
microseconds): the raw branch takes only the 262144 bytes that fit, the rest
stays in the input staging buffer, and the 113 units emitted sum to 16272000
microseconds, more than one frame interval (144000) short.  (b) Encoder frames
of 16001 samples (8000 divides 1000000 * 16001): the Scenario A unit of 32000
bytes is less than one frame, and no unit is emitted. -/
theorem drift_beyond_one_frame :
    (∃ s' outs, audio_feed bld_le lib_full 114 (id_pcm_8k 1152) [unit_of (zeros 300000)] =
        some (s', outs) ∧
      (outs.map (fun u => u.i_length)).sum = 16272000 ∧
      ¬ |(1000000 * (150000 : Int)) / 8000 - 16272000| < (1000000 * (1152 : Int)) / 8000) ∧
    (∃ s', audio_feed bld_le lib_full 114 (id_pcm_8k 16001) [unit_of (zeros 32000)] =
        some (s', [])) := by
  constructor
  · obtain ⟨a1, a2, a3, a4, a5, a6, a7, a8, a9, a10, a11, a12⟩ := id_pcm_8k_facts 1152
    obtain ⟨_, hFn⟩ := frame_bytes (id_pcm_8k 1152) 1152 1 a8 a9
    obtain ⟨s', out, hp, c1, _, _, _, _, lens⟩ :=
      raw_call_count bld_le lib_full 114 (id_pcm_8k 1152) (unit_of (zeros 300000))
        lib_full_positive a1 a2 a3 (by rw [(frame_bytes (id_pcm_8k 1152) 1152 1 a8 a9).1]; norm_num)
        (Or.inl (by rw [a9, a10]))
        (divisors_nonzero_of_rates a3 (by rw [a9]; decide) (by rw [a12]; decide)
          (by rw [a11]; decide))
        a4 (by rw [a5, hFn]; norm_num)
    rw [a5, a6, a7, unit_of_length, hFn] at c1
    have hlen : out.length = 113 := by rw [c1]; norm_num
    have hL : audio_unit_length (id_pcm_8k 1152) = 144000 := by
      unfold audio_unit_length
      rw [a8, a11]
      decide
    refine ⟨s', out, audio_feed_single _ _ _ _ _ _ _ _ hp, ?_, ?_⟩
    · rw [lens, hlen, hL, List.sum_replicate]
      norm_num
    · rw [abs_lt]
      norm_num
  · obtain ⟨a1, a2, a3, a4, a5, a6, a7, a8, a9, a10, a11, a12⟩ := id_pcm_8k_facts 16001
    obtain ⟨_, hFn⟩ := frame_bytes (id_pcm_8k 16001) 16001 1 a8 a9
    obtain ⟨s', out, hp, c1, _, _, _, _, _⟩ :=
      raw_call_count bld_le lib_full 114 (id_pcm_8k 16001) (unit_of (zeros 32000))
        lib_full_positive a1 a2 a3
        (by rw [(frame_bytes (id_pcm_8k 16001) 16001 1 a8 a9).1]; norm_num)
        (Or.inl (by rw [a9, a10]))
        (divisors_nonzero_of_rates a3 (by rw [a9]; decide) (by rw [a12]; decide)
          (by rw [a11]; decide))
        a4 (by rw [a5, hFn]; norm_num)
    rw [a5, a6, a7, unit_of_length, hFn] at c1
    have hlen : out.length = 0 := by rw [c1]; norm_num
    have hnil : out = [] := List.length_eq_zero.mp hlen
    rw [hnil] at hp
    exact ⟨s', audio_feed_single _ _ _ _ _ _ _ _ hp⟩

/-! ## Session creation -/

theorem audio_new_decoder_formats (lib : libavcodec) (id : sout_stream_id_t) (tr : List Event) :
    (audio_new_decoder lib id tr).2.1.f_src = id.f_src ∧
    (audio_new_decoder lib id tr).2.1.f_dst = id.f_dst := by
  unfold audio_new_decoder
  split_ifs
  · exact ⟨rfl, rfl⟩
  · exact ⟨rfl, rfl⟩
  · split <;> exact ⟨rfl, rfl⟩

theorem audio_new_buffers_formats (lib : libavcodec) (id : sout_stream_id_t) :
    (audio_new_buffers lib id).f_src = id.f_src ∧
    (audio_new_buffers lib id).f_dst.i_channels = min id.f_dst.i_channels id.f_src.i_channels ∧
    (audio_new_buffers lib id).f_dst.i_fourcc = id.f_dst.i_fourcc ∧
    (audio_new_buffers lib id).f_dst.i_bitrate = id.f_dst.i_bitrate ∧
    (audio_new_buffers lib id).f_dst.i_sample_rate = id.f_dst.i_sample_rate := by
  refine ⟨rfl, ?_, rfl, rfl, rfl⟩
  simp only [audio_new_buffers]
  split_ifs with h
  · exact (min_eq_left (le_of_lt h)).symm
  · exact (min_eq_right (not_lt.mp h)).symm

theorem audio_new_encoder_open_channels (lib : libavcodec) (id : sout_stream_id_t)
    (tr : List Event) (h : id.f_dst.i_channels ≤ id.f_src.i_channels) :
    (audio_new_encoder_open lib id tr).2.1.f_dst.i_channels ≤
      (audio_new_encoder_open lib id tr).2.1.f_src.i_channels := by
  simp only [audio_new_encoder_open, ctx_opened, audio_new_enc_ctx]
  split_ifs <;> first
    | exact h
    | (show (2 : Int) ≤ id.f_src.i_channels; omega)

theorem audio_new_encoder_channels (lib : libavcodec) (id : sout_stream_id_t)
    (tr : List Event) (h : id.f_dst.i_channels ≤ id.f_src.i_channels) :
    (audio_new_encoder lib id tr).2.1.f_dst.i_channels ≤
      (audio_new_encoder lib id tr).2.1.f_src.i_channels := by
  unfold audio_new_encoder
  by_cases hc : get_ff_codec lib id.f_dst.i_fourcc = CODEC_ID_NONE
  · rw [if_pos hc]; exact h
  · rw [if_neg hc]
    cases lib.avcodec_find_encoder (get_ff_codec lib id.f_dst.i_fourcc) with
    | none => exact h
    | some c => exact audio_new_encoder_open_channels lib _ tr h

theorem audio_new_channels (bld : build_t) (lib : libavcodec) (id : sout_stream_id_t)
    (tr : List Event) (h : (transcode_audio_ffmpeg_new bld lib id tr).1 = VLC_SUCCESS) :
    (transcode_audio_ffmpeg_new bld lib id tr).2.1.f_dst.i_channels ≤
      (transcode_audio_ffmpeg_new bld lib id tr).2.1.f_src.i_channels := by
  have hb := audio_new_buffers_formats lib (audio_new_decoder lib id tr).2.1
  have hle : (audio_new_buffers lib (audio_new_decoder lib id tr).2.1).f_dst.i_channels ≤
      (audio_new_buffers lib (audio_new_decoder lib id tr).2.1).f_src.i_channels := by
    rw [hb.1, hb.2.1]; exact min_le_right _ _
  unfold transcode_audio_ffmpeg_new at h ⊢
  split_ifs at h ⊢ with h1 h2
  · exact absurd h h1
  · exact hle
  · exact audio_new_encoder_channels lib _ _ hle

/-- C7: an audio session that `Add` returns is a transcoding session whose
destination channel count `f_dst.i_channels` is at most the source's
`f_src.i_channels`, whatever the configuration, the source format, the
codecs and the downstream chain do, the stereo fallback included. -/
theorem audio_dst_channels_le_src (out : sout_out_t) (bld : build_t) (lib : libavcodec)
    (sys : sout_stream_sys_t) (mem : sout_stream_id_t) (stack : AVFrame)
    (p_fmt : sout_format_t) (tr : List Event) (id : sout_stream_id_t)
    (hcat : p_fmt.i_cat = AUDIO_ES) (hcodec : sys.i_acodec ≠ 0)
    (hadd : (Add out bld lib sys mem stack p_fmt tr).1 = some id) :
    id.b_transcode = true ∧ id.f_dst.i_channels ≤ id.f_src.i_channels := by
  have key := audio_new_channels bld lib (add_audio_session sys mem p_fmt) tr
  simp only [Add, hcat, hcodec, ne_eq, not_false_eq_true, and_self, if_true, add_audio] at hadd
  generalize transcode_audio_ffmpeg_new bld lib (add_audio_session sys mem p_fmt) tr = r at *
  obtain ⟨ret, id1, tr1⟩ := r
  simp only at hadd key
  split_ifs at hadd with h1 h2
  · simp only [Option.some.injEq] at hadd
    subst hadd
    exact ⟨rfl, key h1⟩


theorem audio_dst_channels_le_src_witness :
    (Add out_ok bld_le lib_stereo sys_mpga id_zero frame_zero fmt_pcm_6ch []).1 =
      some id_6ch_added ∧
    id_6ch_added.f_dst.i_channels = 2 ∧ id_6ch_added.f_src.i_channels = 6 ∧
    id_6ch_added.b_transcode = true ∧
    id_6ch_added.f_dst.i_channels ≤ id_6ch_added.f_src.i_channels :=
  ⟨rfl, rfl, rfl,
   audio_dst_channels_le_src out_ok bld_le lib_stereo sys_mpga id_zero frame_zero fmt_pcm_6ch []
     id_6ch_added rfl (by decide) rfl⟩

/-- C8: lines 733-758 of `transcode_audio_ffmpeg_new`.  `ctx1` is the encoder
context filled from the destination format, `r1` what `avcodec_open` of the
library returns for it, `ctx2` that context after the call with its channel
count set to 2, and `r2` what `avcodec_open` returns for `ctx2`.  The encoder
is opened once or twice and nothing else is called, and every open recorded
carries the library's result for the context it was called with.  When the
first open succeeds it is the only one.  When the first open fails and more
than two channels were requested, the encoder is opened exactly once more,
with `ctx2`, the function returns `VLC_SUCCESS` exactly when that second
open returns 0 and `VLC_EGENERIC` otherwise, and both the encoder context
and `f_dst.i_channels` hold 2 afterwards.  When the first open fails with
two channels or fewer, the function returns `VLC_EGENERIC` after that single
open. -/
theorem stereo_fallback (lib : libavcodec) (id : sout_stream_id_t) (tr : List Event)
    (ctx1 ctx2 : AVCodecContext) (r1 r2 : OpenResult)
    (hctx1 : ctx1 = { lib.avcodec_alloc_context with
                      bit_rate := id.f_dst.i_bitrate
                      sample_rate := id.f_dst.i_sample_rate
                      channels := id.f_dst.i_channels })
    (hr1 : r1 = lib.avcodec_open ctx1 id.ff_enc)
    (hctx2 : ctx2 = { ctx1 with
                      frame_size := r1.frame_size, delay := r1.delay
                      priv_data := r1.priv_data, channels := 2 })
    (hr2 : r2 = lib.avcodec_open ctx2 id.ff_enc) :
    (∃ opens, (audio_new_encoder_open lib id tr).2.2 = tr ++ opens ∧ opens.length ≤ 2 ∧
      ∀ e ∈ opens, ∃ ctx, e = Event.avcodec_open ctx id.ff_enc
        (lib.avcodec_open ctx id.ff_enc).ret) ∧
    (r1.ret = 0 →
      (audio_new_encoder_open lib id tr).1 = VLC_SUCCESS ∧
      (audio_new_encoder_open lib id tr).2.2 = tr ++ [Event.avcodec_open ctx1 id.ff_enc r1.ret] ∧
      (audio_new_encoder_open lib id tr).2.1.f_dst.i_channels = id.f_dst.i_channels) ∧
    (r1.ret ≠ 0 → 2 < id.f_dst.i_channels →
      (audio_new_encoder_open lib id tr).2.2 = tr ++
        [Event.avcodec_open ctx1 id.ff_enc r1.ret, Event.avcodec_open ctx2 id.ff_enc r2.ret] ∧
      ctx1.channels = id.f_dst.i_channels ∧ ctx2.channels = 2 ∧
      ((audio_new_encoder_open lib id tr).1 = VLC_SUCCESS ↔ r2.ret = 0) ∧
      (r2.ret ≠ 0 → (audio_new_encoder_open lib id tr).1 = VLC_EGENERIC) ∧
      (audio_new_encoder_open lib id tr).2.1.ff_enc_c =
        { ctx2 with frame_size := r2.frame_size, delay := r2.delay, priv_data := r2.priv_data } ∧
      (audio_new_encoder_open lib id tr).2.1.ff_enc_c.channels = 2 ∧
      (audio_new_encoder_open lib id tr).2.1.f_dst.i_channels = 2) ∧
    (r1.ret ≠ 0 → id.f_dst.i_channels ≤ 2 →
      (audio_new_encoder_open lib id tr).1 = VLC_EGENERIC ∧
      (audio_new_encoder_open lib id tr).2.2 =
        tr ++ [Event.avcodec_open ctx1 id.ff_enc r1.ret]) := by
  subst hctx1
  subst hr1
  subst hctx2
  subst hr2
  refine ⟨?_, ?_, ?_, ?_⟩
  · have hmem : ∀ (l : List Event),
        (∀ e ∈ l, ∃ ctx, e = Event.avcodec_open ctx id.ff_enc
          (lib.avcodec_open ctx id.ff_enc).ret) →
        ∀ ctx, ∀ e ∈ Event.avcodec_open ctx id.ff_enc (lib.avcodec_open ctx id.ff_enc).ret :: l,
          ∃ ctx, e = Event.avcodec_open ctx id.ff_enc (lib.avcodec_open ctx id.ff_enc).ret := by
      intro l hl ctx e he
      rcases List.mem_cons.mp he with rfl | he
      · exact ⟨_, rfl⟩
      · exact hl e he
    have hnil : ∀ e ∈ ([] : List Event), ∃ ctx, e = Event.avcodec_open ctx id.ff_enc
        (lib.avcodec_open ctx id.ff_enc).ret :=
      fun e he => absurd he (List.not_mem_nil e)
    unfold audio_new_encoder_open
    by_cases h1 : (audio_new_open1 lib id).ret ≠ 0
    · by_cases h2 : (ctx_opened (audio_new_enc_ctx lib id) (audio_new_open1 lib id)).channels > 2
      · rw [if_pos h1, if_pos h2]
        exact ⟨_, rfl, le_refl 2, hmem _ (hmem _ hnil _) _⟩
      · rw [if_pos h1, if_neg h2]
        exact ⟨_, rfl, Nat.le_succ 1, hmem _ hnil _⟩
    · rw [if_neg h1]
      exact ⟨_, rfl, Nat.le_succ 1, hmem _ hnil _⟩
  · intro h1
    have h1' : ¬ (audio_new_open1 lib id).ret ≠ 0 := not_not.mpr h1
    unfold audio_new_encoder_open
    rw [if_neg h1']
    exact ⟨rfl, rfl, rfl⟩
  · intro h1 h2
    have h1' : (audio_new_open1 lib id).ret ≠ 0 := h1
    have h2' : (ctx_opened (audio_new_enc_ctx lib id) (audio_new_open1 lib id)).channels > 2 := h2
    unfold audio_new_encoder_open
    rw [if_pos h1', if_pos h2']
    refine ⟨rfl, rfl, rfl, ?_, ?_, rfl, rfl, rfl⟩
    · show (if (audio_new_open2 lib id).ret ≠ 0 then VLC_EGENERIC else VLC_SUCCESS) = VLC_SUCCESS ↔
        (audio_new_open2 lib id).ret = 0
      split_ifs with h3
      · exact ⟨fun h => absurd h (by decide), fun h => absurd h h3⟩
      · exact ⟨fun _ => not_not.mp h3, fun _ => rfl⟩
    · intro h3
      have h3' : (audio_new_open2 lib id).ret ≠ 0 := h3
      show (if (audio_new_open2 lib id).ret ≠ 0 then VLC_EGENERIC else VLC_SUCCESS) = VLC_EGENERIC
      rw [if_pos h3']
  · intro h1 h2
    have h1' : (audio_new_open1 lib id).ret ≠ 0 := h1
    have h3 : ¬ ((ctx_opened (audio_new_enc_ctx lib id) (audio_new_open1 lib id)).channels > 2) :=
      not_lt.mpr h2
    unfold audio_new_encoder_open
    rw [if_pos h1', if_neg h3]
    exact ⟨rfl, rfl⟩

/-- Witness for C8 (Scenario D): a six-channel destination on a library
whose codecs refuse more than two channels.  The first open, with six
channels, returns -1; the second, with two, returns 0; the session is created
with two channels. -/
theorem stereo_fallback_witness :
    transcode_audio_ffmpeg_new bld_le lib_stereo
        (add_audio_session sys_mpga id_zero fmt_pcm_6ch) [] =
      audio_new_encoder_open lib_stereo id_6ch [] ∧
    id_6ch.f_dst.i_channels = 6 ∧
    (lib_stereo.avcodec_open
      { lib_stereo.avcodec_alloc_context with
        bit_rate := 64000, sample_rate := 48000, channels := 6 } id_6ch.ff_enc).ret = -1 ∧
    (lib_stereo.avcodec_open
      { lib_stereo.avcodec_alloc_context with
        bit_rate := 64000, sample_rate := 48000, channels := 2, frame_size := 1152 }
      id_6ch.ff_enc).ret = 0 ∧
    (audio_new_encoder_open lib_stereo id_6ch []).1 = VLC_SUCCESS ∧
    (audio_new_encoder_open lib_stereo id_6ch []).2.1.ff_enc_c.channels = 2 ∧
    (audio_new_encoder_open lib_stereo id_6ch []).2.1.f_dst.i_channels = 2 ∧
    (audio_new_encoder_open lib_stereo id_6ch []).2.2 =
      [Event.avcodec_open
         { lib_stereo.avcodec_alloc_context with
           bit_rate := 64000, sample_rate := 48000, channels := 6 } id_6ch.ff_enc (-1),
       Event.avcodec_open
         { lib_stereo.avcodec_alloc_context with
           bit_rate := 64000, sample_rate := 48000, channels := 2, frame_size := 1152 }
         id_6ch.ff_enc 0] :=
  have h := (stereo_fallback lib_stereo id_6ch [] _ _ _ _ rfl rfl rfl rfl).2.2.1
    (by decide) (by decide)
  ⟨rfl, by decide, by decide, by decide, h.2.2.2.1.mpr (by decide), h.2.2.2.2.2.2.1,
   h.2.2.2.2.2.2.2, h.1.trans (by decide)⟩

/-! ## Video session creation and the lazy dimensions -/

theorem video_new_decoder_dst (lib : libavcodec) (sys : sout_stream_sys_t) (stack : AVFrame)
    (id : sout_stream_id_t) (tr : List Event) :
    (video_new_decoder lib sys stack id tr).2.1.f_dst = id.f_dst ∧
    (video_new_decoder lib sys stack id tr).2.1.f_src = id.f_src ∧
    (video_new_decoder lib sys stack id tr).2.1.id = id.id := by
  unfold video_new_decoder
  by_cases h1 : id.f_src.i_fourcc = VLC_FOURCC 'I' '4' '2' '0' ∨
     id.f_src.i_fourcc = VLC_FOURCC 'I' '4' '2' '2' ∨
     id.f_src.i_fourcc = VLC_FOURCC 'I' '4' '4' '4' ∨
     id.f_src.i_fourcc = VLC_FOURCC 'Y' 'U' 'Y' '2' ∨
     id.f_src.i_fourcc = VLC_FOURCC 'R' 'V' '1' '5' ∨
     id.f_src.i_fourcc = VLC_FOURCC 'R' 'V' '1' '6' ∨
     id.f_src.i_fourcc = VLC_FOURCC 'R' 'V' '2' '4' ∨
     id.f_src.i_fourcc = VLC_FOURCC 'R' 'V' '3' '2' ∨
     id.f_src.i_fourcc = VLC_FOURCC 'G' 'R' 'E' 'Y'
  · rw [if_pos h1]; exact ⟨rfl, rfl, rfl⟩
  · rw [if_neg h1]
    by_cases h2 : get_ff_codec lib id.f_src.i_fourcc = CODEC_ID_NONE
    · rw [if_pos h2]; exact ⟨rfl, rfl, rfl⟩
    · rw [if_neg h2]
      cases lib.avcodec_find_decoder (get_ff_codec lib id.f_src.i_fourcc) with
      | none => exact ⟨rfl, rfl, rfl⟩
      | some c =>
        simp only
        split_ifs <;> exact ⟨rfl, rfl, rfl⟩

theorem video_new_enc_ctx_dims (lib : libavcodec) (sys : sout_stream_sys_t)
    (id : sout_stream_id_t) (c : CodecID) :
    (video_new_enc_ctx lib sys id c).width = id.f_dst.i_width ∧
    (video_new_enc_ctx lib sys id c).height = id.f_dst.i_height := by
  simp only [video_new_enc_ctx]
  split_ifs <;> exact ⟨rfl, rfl⟩

theorem egeneric_ne_success : VLC_EGENERIC ≠ VLC_SUCCESS := by decide

theorem video_new_encoder_success (lib : libavcodec) (sys : sout_stream_sys_t)
    (id : sout_stream_id_t) (tr : List Event)
    (h : (video_new_encoder lib sys id tr).1 = VLC_SUCCESS) :
    (video_new_encoder lib sys id tr).2.1.b_enc_inited = false ∧
    (video_new_encoder lib sys id tr).2.1.f_src = id.f_src ∧
    (video_new_encoder lib sys id tr).2.1.id = id.id ∧
    (video_new_encoder lib sys id tr).2.1.f_dst.i_width = id.f_dst.i_width ∧
    (video_new_encoder lib sys id tr).2.1.f_dst.i_height = id.f_dst.i_height ∧
    (video_new_encoder lib sys id tr).2.1.ff_enc_c.width = id.f_dst.i_width ∧
    (video_new_encoder lib sys id tr).2.1.ff_enc_c.height = id.f_dst.i_height ∧
    (video_new_encoder lib sys id tr).2.2.1 =
      { sys with i_last_ref_pts := 0, i_buggy_pts_detect := 0 } ∧
    (video_new_encoder lib sys id tr).2.2.2 = tr := by
  unfold video_new_encoder at h ⊢
  by_cases h2 : get_ff_codec lib id.f_dst.i_fourcc = CODEC_ID_NONE
  · rw [if_pos h2] at h; exact absurd h egeneric_ne_success
  · rw [if_neg h2] at h ⊢
    cases hfe : lib.avcodec_find_encoder (get_ff_codec lib id.f_dst.i_fourcc) with
    | none => rw [hfe] at h; exact absurd h egeneric_ne_success
    | some c =>
      exact ⟨rfl, rfl, rfl, rfl, rfl, (video_new_enc_ctx_dims lib sys _ _).1,
        (video_new_enc_ctx_dims lib sys _ _).2, rfl, rfl⟩

/-- What `transcode_video_ffmpeg_new` leaves when it succeeds. -/
theorem video_new_success (lib : libavcodec) (sys : sout_stream_sys_t) (stack : AVFrame)
    (id : sout_stream_id_t) (tr : List Event)
    (h : (transcode_video_ffmpeg_new lib sys stack id tr).1 = VLC_SUCCESS) :
    (transcode_video_ffmpeg_new lib sys stack id tr).2.1.b_enc_inited = false ∧
    (transcode_video_ffmpeg_new lib sys stack id tr).2.1.f_src = id.f_src ∧
    (transcode_video_ffmpeg_new lib sys stack id tr).2.1.id = id.id ∧
    (transcode_video_ffmpeg_new lib sys stack id tr).2.1.f_dst.i_width = id.f_dst.i_width ∧
    (transcode_video_ffmpeg_new lib sys stack id tr).2.1.f_dst.i_height = id.f_dst.i_height ∧
    (transcode_video_ffmpeg_new lib sys stack id tr).2.1.ff_enc_c.width = id.f_dst.i_width ∧
    (transcode_video_ffmpeg_new lib sys stack id tr).2.1.ff_enc_c.height = id.f_dst.i_height ∧
    (transcode_video_ffmpeg_new lib sys stack id tr).2.2.1 =
      { sys with i_last_ref_pts := 0, i_buggy_pts_detect := 0 } ∧
    (transcode_video_ffmpeg_new lib sys stack id tr).2.2.2 =
      (video_new_decoder lib sys stack id tr).2.2 := by
  have hd := video_new_decoder_dst lib sys stack id tr
  unfold transcode_video_ffmpeg_new at h ⊢
  by_cases h1 : (video_new_decoder lib sys stack id tr).1 ≠ VLC_SUCCESS
  · rw [if_pos h1] at h; exact absurd h h1
  · rw [if_neg h1] at h ⊢
    have he := video_new_encoder_success lib sys _ _ h
    rw [hd.1, hd.2.1, hd.2.2] at he
    exact he


theorem add_video_some (lib : libavcodec) (sys : sout_stream_sys_t) (mem : sout_stream_id_t)
    (stack : AVFrame) (p_fmt : sout_format_t) (tr : List Event) (id : sout_stream_id_t)
    (sys1 : sout_stream_sys_t) (tr1 : List Event)
    (h : add_video lib sys mem stack p_fmt tr = (some id, sys1, tr1)) :
    (transcode_video_ffmpeg_new lib sys stack (add_video_session sys mem p_fmt) tr).1 =
      VLC_SUCCESS ∧
    id = { (transcode_video_ffmpeg_new lib sys stack
             (add_video_session sys mem p_fmt) tr).2.1 with b_transcode := true } ∧
    sys1 = (transcode_video_ffmpeg_new lib sys stack (add_video_session sys mem p_fmt) tr).2.2.1 ∧
    tr1 = (transcode_video_ffmpeg_new lib sys stack (add_video_session sys mem p_fmt) tr).2.2.2 := by
  unfold add_video at h
  generalize transcode_video_ffmpeg_new lib sys stack (add_video_session sys mem p_fmt) tr = r
    at h ⊢
  obtain ⟨ret, id1, sys2, tr2⟩ := r
  simp only at h ⊢
  by_cases h1 : ret ≠ 0
  · rw [if_pos h1] at h
    simp at h
  · rw [if_neg h1] at h
    simp only [Prod.mk.injEq, Option.some.injEq] at h
    exact ⟨not_not.mp h1, h.1.symm, h.2.1.symm, h.2.2.symm⟩

theorem add_is_add_video (out : sout_out_t) (bld : build_t) (lib : libavcodec)
    (sys : sout_stream_sys_t) (mem : sout_stream_id_t) (stack : AVFrame)
    (p_fmt : sout_format_t) (tr : List Event)
    (hcat : p_fmt.i_cat = VIDEO_ES) (hcodec : sys.i_vcodec ≠ 0) :
    Add out bld lib sys mem stack p_fmt tr = add_video lib sys mem stack p_fmt tr := by
  unfold Add
  rw [if_neg (by rw [hcat]; exact fun h => absurd h.1 (by decide)), if_pos ⟨hcat, hcodec⟩]

theorem video_lazy_width_eq (sys : sout_stream_sys_t) (id : sout_stream_id_t) :
    (video_lazy_width sys id).ff_enc_c.width =
      (if id.ff_enc_c.width ≤ 0 then id.ff_dec_c.width - sys.i_crop_left - sys.i_crop_right
       else id.ff_enc_c.width) ∧
    (video_lazy_width sys id).f_dst.i_width =
      (if id.ff_enc_c.width ≤ 0 then id.ff_dec_c.width - sys.i_crop_left - sys.i_crop_right
       else id.f_dst.i_width) ∧
    (video_lazy_width sys id).ff_enc_c.height = id.ff_enc_c.height ∧
    (video_lazy_width sys id).f_dst.i_height = id.f_dst.i_height ∧
    (video_lazy_width sys id).ff_dec_c = id.ff_dec_c := by
  unfold video_lazy_width
  by_cases hw : id.ff_enc_c.width ≤ 0
  · rw [if_pos hw, if_pos hw, if_pos hw]; exact ⟨rfl, rfl, rfl, rfl, rfl⟩
  · rw [if_neg hw, if_neg hw, if_neg hw]; exact ⟨rfl, rfl, rfl, rfl, rfl⟩

theorem video_lazy_height_eq (sys : sout_stream_sys_t) (id : sout_stream_id_t) :
    (video_lazy_height sys id).ff_enc_c.height =
      (if id.ff_enc_c.height ≤ 0 then id.ff_dec_c.height - sys.i_crop_top - sys.i_crop_bottom
       else id.ff_enc_c.height) ∧
    (video_lazy_height sys id).f_dst.i_height =
      (if id.ff_enc_c.height ≤ 0 then id.ff_dec_c.height - sys.i_crop_top - sys.i_crop_bottom
       else id.f_dst.i_height) ∧
    (video_lazy_height sys id).ff_enc_c.width = id.ff_enc_c.width ∧
    (video_lazy_height sys id).f_dst.i_width = id.f_dst.i_width := by
  unfold video_lazy_height
  by_cases hh : id.ff_enc_c.height ≤ 0
  · rw [if_pos hh, if_pos hh, if_pos hh]; exact ⟨rfl, rfl, rfl, rfl⟩
  · rw [if_neg hh, if_neg hh, if_neg hh]; exact ⟨rfl, rfl, rfl, rfl⟩

theorem video_lazy_dims_eq (sys : sout_stream_sys_t) (id : sout_stream_id_t) :
    (video_lazy_dims sys id).ff_enc_c.width =
      (if id.ff_enc_c.width ≤ 0 then id.ff_dec_c.width - sys.i_crop_left - sys.i_crop_right
       else id.ff_enc_c.width) ∧
    (video_lazy_dims sys id).f_dst.i_width =
      (if id.ff_enc_c.width ≤ 0 then id.ff_dec_c.width - sys.i_crop_left - sys.i_crop_right
       else id.f_dst.i_width) ∧
    (video_lazy_dims sys id).ff_enc_c.height =
      (if id.ff_enc_c.height ≤ 0 then id.ff_dec_c.height - sys.i_crop_top - sys.i_crop_bottom
       else id.ff_enc_c.height) ∧
    (video_lazy_dims sys id).f_dst.i_height =
      (if id.ff_enc_c.height ≤ 0 then id.ff_dec_c.height - sys.i_crop_top - sys.i_crop_bottom
       else id.f_dst.i_height) := by
  have hw := video_lazy_width_eq sys id
  have hh := video_lazy_height_eq sys (video_lazy_width sys id)
  unfold video_lazy_dims
  rw [hh.2.2.1, hh.2.2.2, hh.1, hh.2.1, hw.1, hw.2.1, hw.2.2.1, hw.2.2.2.1, hw.2.2.2.2]
  exact ⟨rfl, rfl, rfl, rfl⟩

theorem video_lazy_init_dims (lib : libavcodec) (out : sout_out_t) (st : video_state_t)
    (hinit : st.id.b_enc_inited = false) :
    (video_lazy_init lib out st).2.id.ff_enc_c.width = (video_lazy_dims st.sys st.id).ff_enc_c.width ∧
    (video_lazy_init lib out st).2.id.ff_enc_c.height =
      (video_lazy_dims st.sys st.id).ff_enc_c.height ∧
    (video_lazy_init lib out st).2.id.f_dst = (video_lazy_dims st.sys st.id).f_dst := by
  unfold video_lazy_init
  rw [if_neg (by rw [hinit]; decide)]
  by_cases h1 : (video_lazy_open lib st.sys st.id).ret ≠ 0
  · rw [if_pos h1]; exact ⟨rfl, rfl, rfl⟩
  · rw [if_neg h1]
    simp only
    split_ifs <;> exact ⟨rfl, rfl, rfl⟩

/-- C9: the dimensions of a video session.  First part: a video session that
`Add` returns has its encoder not yet opened, and both the encoder context and
`f_dst` hold the configured width and height, whatever they are; the pipeline
state keeps the configured dimensions and crop margins.  Second part: when
the lazy initialisation of lines 1405-1434 runs on such a session, whatever
the decoder context holds and whatever the crop margins are, the encoder
width and `f_dst.i_width` both become the decoder width minus the left and
right margins when the configured width is not positive, and keep the
configured width otherwise; the same holds, independently, for the height
with the top and bottom margins. -/
theorem lazy_video_dims (lib : libavcodec) (out : sout_out_t) :
    (∀ (bld : build_t) (sys : sout_stream_sys_t) (mem : sout_stream_id_t) (stack : AVFrame)
        (p_fmt : sout_format_t) (tr : List Event) (id : sout_stream_id_t)
        (sys1 : sout_stream_sys_t) (tr1 : List Event),
      p_fmt.i_cat = VIDEO_ES → sys.i_vcodec ≠ 0 →
      Add out bld lib sys mem stack p_fmt tr = (some id, sys1, tr1) →
      id.b_enc_inited = false ∧
      id.ff_enc_c.width = sys.i_width ∧ id.f_dst.i_width = sys.i_width ∧
      id.ff_enc_c.height = sys.i_height ∧ id.f_dst.i_height = sys.i_height ∧
      sys1.i_width = sys.i_width ∧ sys1.i_height = sys.i_height ∧
      sys1.i_crop_left = sys.i_crop_left ∧ sys1.i_crop_right = sys.i_crop_right ∧
      sys1.i_crop_top = sys.i_crop_top ∧ sys1.i_crop_bottom = sys.i_crop_bottom) ∧
    (∀ st : video_state_t,
      st.id.b_enc_inited = false →
      st.id.ff_enc_c.width = st.sys.i_width → st.id.f_dst.i_width = st.sys.i_width →
      st.id.ff_enc_c.height = st.sys.i_height → st.id.f_dst.i_height = st.sys.i_height →
      ((video_lazy_init lib out st).2.id.ff_enc_c.width =
          (if st.sys.i_width ≤ 0
           then st.id.ff_dec_c.width - st.sys.i_crop_left - st.sys.i_crop_right
           else st.sys.i_width) ∧
       (video_lazy_init lib out st).2.id.f_dst.i_width =
          (video_lazy_init lib out st).2.id.ff_enc_c.width) ∧
      ((video_lazy_init lib out st).2.id.ff_enc_c.height =
          (if st.sys.i_height ≤ 0
           then st.id.ff_dec_c.height - st.sys.i_crop_top - st.sys.i_crop_bottom
           else st.sys.i_height) ∧
       (video_lazy_init lib out st).2.id.f_dst.i_height =
          (video_lazy_init lib out st).2.id.ff_enc_c.height)) := by
  constructor
  · intro bld sys mem stack p_fmt tr id sys1 tr1 hcat hcodec hadd
    rw [add_is_add_video out bld lib sys mem stack p_fmt tr hcat hcodec] at hadd
    obtain ⟨hs, hid, hsys, -⟩ := add_video_some lib sys mem stack p_fmt tr id sys1 tr1 hadd
    have hn := video_new_success lib sys stack (add_video_session sys mem p_fmt) tr hs
    subst hid hsys
    rw [hn.2.2.2.2.2.2.2.1]
    exact ⟨hn.1, hn.2.2.2.2.2.1, hn.2.2.2.1, hn.2.2.2.2.2.2.1, hn.2.2.2.2.1,
      rfl, rfl, rfl, rfl, rfl, rfl⟩
  · intro st hinit hw hfw hh hfh
    have hi := video_lazy_init_dims lib out st hinit
    have hd := video_lazy_dims_eq st.sys st.id
    rw [hi.1, hi.2.1, hi.2.2, hd.1, hd.2.1, hd.2.2.1, hd.2.2.2, hw, hfw, hh, hfh]
    exact ⟨⟨rfl, rfl⟩, rfl, rfl⟩

theorem lazy_video_dims_witness :
    Add out_ok bld_le lib_video sys_crop8 id_zero frame_zero fmt_i420 [] =
      (some (id_i420 sys_crop8), sys_crop8, []) ∧
    Add out_ok bld_le lib_video sys_mp4v id_zero frame_zero fmt_i420 [] =
      (some (id_i420 sys_mp4v), sys_mp4v, []) ∧
    (id_i420 sys_crop8).b_enc_inited = false ∧
    (id_i420 sys_crop8).ff_enc_c.width = sys_crop8.i_width ∧
    (id_i420 sys_crop8).ff_enc_c.height = sys_crop8.i_height ∧
    (st_i420 sys_crop8).id.ff_dec_c.width = 320 ∧ (st_i420 sys_crop8).id.ff_dec_c.height = 240 ∧
    (video_lazy_init lib_video out_ok (st_i420 sys_crop8)).2.id.ff_enc_c.width = 304 ∧
    (video_lazy_init lib_video out_ok (st_i420 sys_crop8)).2.id.f_dst.i_width = 304 ∧
    (video_lazy_init lib_video out_ok (st_i420 sys_crop8)).2.id.ff_enc_c.height = 224 ∧
    (video_lazy_init lib_video out_ok (st_i420 sys_crop8)).2.id.f_dst.i_height = 224 ∧
    (video_lazy_init lib_video out_ok (st_i420 sys_mp4v)).2.id.ff_enc_c.width = 320 ∧
    (video_lazy_init lib_video out_ok (st_i420 sys_mp4v)).2.id.f_dst.i_width = 320 ∧
    (video_lazy_init lib_video out_ok (st_i420 sys_mp4v)).2.id.ff_enc_c.height = 240 ∧
    (video_lazy_init lib_video out_ok (st_i420 sys_mp4v)).2.id.f_dst.i_height = 240 :=
  have h8 := (lazy_video_dims lib_video out_ok).2 (st_i420 sys_crop8) rfl rfl rfl rfl rfl
  have h0 := (lazy_video_dims lib_video out_ok).2 (st_i420 sys_mp4v) rfl rfl rfl rfl rfl
  have a8 := (lazy_video_dims lib_video out_ok).1 bld_le sys_crop8 id_zero frame_zero fmt_i420 []
    (id_i420 sys_crop8) sys_crop8 [] rfl (by decide) rfl
  ⟨rfl, rfl, a8.1, a8.2.1, a8.2.2.2.1, rfl, rfl, h8.1.1, h8.1.2.trans h8.1.1, h8.2.1, h8.2.2.trans h8.2.1,
   h0.1.1, h0.1.2.trans h0.1.1, h0.2.1, h0.2.2.trans h0.2.1⟩

/-! ## The registration discipline -/

theorem reg_bad_absorbing (l : List Event) : l.foldl reg_step reg_t.bad = reg_t.bad := by
  induction l with
  | nil => rfl
  | cons e t ih => exact ih

theorem reg_step_fresh_cases (b : Bool) (e : Event) :
    reg_step (reg_t.fresh b) e = reg_t.fresh (pend_step b e) ∨
    (is_pf_add e = true ∧ ∀ p, reg_step (reg_t.fresh b) e ≠ reg_t.fresh p) ∨
    reg_step (reg_t.fresh b) e = reg_t.bad := by
  cases e with
  | pf_add fmt r =>
    right; left
    refine ⟨rfl, ?_⟩
    cases r <;> cases b <;> intro p hp <;> simp [reg_step] at hp
  | pf_send => right; right; rfl
  | _ => left; rfl

theorem reg_step_not_fresh (s : reg_t) (e : Event) (hs : ∀ b, s ≠ reg_t.fresh b) :
    (reg_step s e = s ∧ is_pf_add e = false) ∨ reg_step s e = reg_t.bad := by
  cases s with
  | fresh b => exact absurd rfl (hs b)
  | bad => right; rfl
  | refused => cases e <;> first | (left; exact ⟨rfl, rfl⟩) | (right; rfl)
  | added h =>
    cases e with
    | pf_add => right; rfl
    | pf_send i c r =>
      by_cases hi : i = some h
      · left; exact ⟨by simp [reg_step, hi], rfl⟩
      · right; simp [reg_step, hi]
    | _ => left; exact ⟨rfl, rfl⟩

theorem reg_not_fresh_count (l : List Event) (s : reg_t) (hs : ∀ b, s ≠ reg_t.fresh b)
    (h : l.foldl reg_step s ≠ reg_t.bad) :
    l.countP is_pf_add = 0 ∧ l.foldl reg_step s = s := by
  induction l with
  | nil => exact ⟨rfl, rfl⟩
  | cons e t ih =>
    rw [List.foldl_cons] at h ⊢
    rcases reg_step_not_fresh s e hs with ⟨h1, h2⟩ | h1
    · rw [h1] at h ⊢
      rw [List.countP_cons_of_neg _ _ (by rw [h2]; decide)]
      exact ih h
    · rw [h1, reg_bad_absorbing] at h
      exact absurd rfl h

theorem reg_fresh_count (l : List Event) (b : Bool)
    (h : l.foldl reg_step (reg_t.fresh b) ≠ reg_t.bad) : l.countP is_pf_add ≤ 1 := by
  induction l generalizing b with
  | nil => exact Nat.zero_le 1
  | cons e t ih =>
    rw [List.foldl_cons] at h
    rcases reg_step_fresh_cases b e with h1 | ⟨h1, h2⟩ | h1
    · rw [h1] at h
      by_cases he : is_pf_add e = true
      · cases e <;> simp [is_pf_add] at he
        rename_i fmt r
        cases r <;> cases b <;> simp [reg_step] at h1
      · rw [List.countP_cons_of_neg _ _ he]
        exact ih _ h
    · rw [List.countP_cons_of_pos _ _ h1]
      have := (reg_not_fresh_count t _ h2 h).1
      omega
    · rw [h1, reg_bad_absorbing] at h
      exact absurd rfl h

theorem reg_pend (l : List Event) (b p : Bool)
    (h : l.foldl reg_step (reg_t.fresh b) = reg_t.fresh p) : l.foldl pend_step b = p := by
  induction l generalizing b with
  | nil => simpa using h
  | cons e t ih =>
    rw [List.foldl_cons] at h ⊢
    rcases reg_step_fresh_cases b e with h1 | ⟨-, h2⟩ | h1
    · rw [h1] at h
      exact ih _ h
    · have hne : t.foldl reg_step (reg_step (reg_t.fresh b) e) ≠ reg_t.bad := by
        rw [h]; exact fun hh => reg_t.noConfusion hh
      rw [(reg_not_fresh_count t _ h2 hne).2] at h
      exact absurd h (h2 p)
    · rw [h1, reg_bad_absorbing] at h
      exact reg_t.noConfusion h

theorem reg_added_mem (l : List Event) (s : reg_t) (h : Nat)
    (hl : l.foldl reg_step s = reg_t.added h) :
    s = reg_t.added h ∨ ∃ fmt, Event.pf_add fmt (some h) ∈ l := by
  induction l generalizing s with
  | nil => left; exact hl
  | cons e t ih =>
    rw [List.foldl_cons] at hl
    rcases ih _ hl with h1 | ⟨fmt, hm⟩
    · cases s with
      | bad => exact absurd h1 (fun hh => reg_t.noConfusion hh)
      | refused => cases e <;> simp [reg_step] at h1
      | added k =>
        left
        cases e with
        | pf_add => simp [reg_step] at h1
        | pf_send i c r =>
          by_cases hi : i = some k
          · simp [reg_step, hi] at h1; rw [h1]
          · simp [reg_step, hi] at h1
        | _ => simp [reg_step] at h1; rw [h1]
      | fresh b =>
        right
        cases e with
        | pf_add fmt r =>
          cases r with
          | none => cases b <;> simp [reg_step] at h1
          | some k =>
            cases b <;> simp [reg_step] at h1
            subst h1
            exact ⟨fmt, List.mem_cons_self _ _⟩
        | _ => simp [reg_step] at h1
    · right; exact ⟨fmt, List.mem_cons_of_mem _ hm⟩

/-- What the transition function guarantees of a sequence of calls it
accepts. -/
theorem reg_discipline (tr : List Event)
    (h : tr.foldl reg_step (reg_t.fresh false) ≠ reg_t.bad) :
    tr.countP is_pf_add ≤ 1 ∧
    (∀ pre fmt r post, tr = pre ++ Event.pf_add fmt r :: post → picture_pending pre = true) ∧
    (∀ pre i chain ret post, tr = pre ++ Event.pf_send i chain ret :: post →
      ∃ fmt k, i = some k ∧ Event.pf_add fmt (some k) ∈ pre) := by
  refine ⟨reg_fresh_count tr false h, ?_, ?_⟩
  · intro pre fmt r post htr
    subst htr
    rw [List.foldl_append, List.foldl_cons] at h
    have hb : reg_step (pre.foldl reg_step (reg_t.fresh false)) (Event.pf_add fmt r) ≠
        reg_t.bad := by
      intro hh; rw [hh, reg_bad_absorbing] at h; exact h rfl
    cases hs : pre.foldl reg_step (reg_t.fresh false) with
    | fresh p =>
      rw [hs] at hb
      have hp := reg_pend pre false p hs
      unfold picture_pending
      rw [hp]
      cases p
      · cases r <;> simp [reg_step] at hb
      · rfl
    | added k => rw [hs] at hb; exact absurd rfl hb
    | refused => rw [hs] at hb; exact absurd rfl hb
    | bad => rw [hs] at hb; exact absurd rfl hb
  · intro pre i chain ret post htr
    subst htr
    rw [List.foldl_append, List.foldl_cons] at h
    have hb : reg_step (pre.foldl reg_step (reg_t.fresh false)) (Event.pf_send i chain ret) ≠
        reg_t.bad := by
      intro hh; rw [hh, reg_bad_absorbing] at h; exact h rfl
    cases hs : pre.foldl reg_step (reg_t.fresh false) with
    | fresh p => rw [hs] at hb; exact absurd rfl hb
    | refused => rw [hs] at hb; exact absurd rfl hb
    | bad => rw [hs] at hb; exact absurd rfl hb
    | added k =>
      rw [hs] at hb
      have hi : i = some k := by
        by_contra hi
        exact hb (by simp [reg_step, hi])
      rcases reg_added_mem pre _ k hs with h1 | ⟨fmt, hm⟩
      · exact reg_t.noConfusion h1
      · exact ⟨fmt, k, hi, hm⟩

theorem reg_inv_of_fields (id id' : sout_stream_id_t)
    (h1 : id'.b_transcode = id.b_transcode) (h2 : id'.f_src.i_cat = id.f_src.i_cat)
    (h3 : id'.b_enc_inited = id.b_enc_inited) (h4 : id'.id = id.id) (s : reg_t)
    (h : reg_inv id s) : reg_inv id' s := by
  cases s with
  | fresh b => unfold reg_inv at h ⊢; rw [h1, h2, h3]; exact h
  | added k => unfold reg_inv at h ⊢; rw [h1, h2, h3, h4]; exact h
  | refused => unfold reg_inv at h ⊢; rw [h1, h4]; exact h
  | bad => exact h

theorem reg_quiet_refl (st : video_state_t) : reg_quiet st st :=
  ⟨rfl, rfl, rfl, rfl, [], (List.append_nil _).symm, fun _ => rfl⟩

theorem reg_quiet_trans (a b c : video_state_t) (h1 : reg_quiet a b) (h2 : reg_quiet b c) :
    reg_quiet a c := by
  obtain ⟨a1, a2, a3, a4, e1, t1, q1⟩ := h1
  obtain ⟨b1, b2, b3, b4, e2, t2, q2⟩ := h2
  refine ⟨b1.trans a1, b2.trans a2, b3.trans a3, b4.trans a4, e1 ++ e2, ?_, ?_⟩
  · rw [t2, t1, List.append_assoc]
  · intro s; rw [List.foldl_append, q1, q2]

theorem reg_quiet_inv (a b : video_state_t) (h : reg_quiet a b) (s : reg_t)
    (hs : reg_inv a.id s) : reg_inv b.id s :=
  reg_inv_of_fields a.id b.id h.1 h.2.1 h.2.2.1 h.2.2.2.1 s hs

theorem reg_step_fill_tmp (s : reg_t) (slot : FrameSlot) (hslot : slot ≠ FrameSlot.p_ff_pic)
    (f : PixelFormat) (w h : Int) : reg_step s (Event.avpicture_fill slot f w h) = s := by
  cases s <;> cases slot <;> first | rfl | exact absurd rfl hslot

theorem reg_step_encode (s : reg_t) (c : AVCodecContext) (f : AVFrame) (n : Int) :
    reg_step s (Event.avcodec_encode_video c f n) = s := by
  cases s <;> rfl

theorem reg_step_open (s : reg_t) (c : AVCodecContext) (k : Option AVCodec) (n : Int) :
    reg_step s (Event.avcodec_open c k n) = s := by
  cases s <;> rfl

theorem reg_step_close (s : reg_t) (c : AVCodecContext) :
    reg_step s (Event.avcodec_close c) = s := by
  cases s <;> rfl

theorem quiet_fill (tr : List Event) (c : Prop) [Decidable c] (slot : FrameSlot)
    (hslot : slot ≠ FrameSlot.p_ff_pic) (f : PixelFormat) (w h : Int) :
    ∃ evs, (if c then tr ++ [Event.avpicture_fill slot f w h] else tr) = tr ++ evs ∧
      ∀ s, evs.foldl reg_step s = s := by
  by_cases hc : c
  · rw [if_pos hc]
    exact ⟨[Event.avpicture_fill slot f w h], rfl, fun s => reg_step_fill_tmp s slot hslot f w h⟩
  · rw [if_neg hc]
    exact ⟨[], (List.append_nil _).symm, fun _ => rfl⟩

theorem video_deinterlace_quiet (lib : libavcodec) (st : video_state_t) :
    reg_quiet st (video_deinterlace lib st) := by
  unfold video_deinterlace
  by_cases h : st.sys.b_deinterlace = true
  · rw [if_pos h]
    exact ⟨rfl, rfl, rfl, rfl, quiet_fill _ _ _ (by decide) _ _ _⟩
  · rw [if_neg h]; exact reg_quiet_refl st

theorem video_convert_quiet (lib : libavcodec) (st : video_state_t) :
    reg_quiet st (video_convert lib st) := by
  unfold video_convert
  by_cases h : st.id.ff_dec_c.pix_fmt ≠ st.id.ff_enc_c.pix_fmt
  · rw [if_pos h]
    exact ⟨rfl, rfl, rfl, rfl, quiet_fill _ _ _ (by decide) _ _ _⟩
  · rw [if_neg h]; exact reg_quiet_refl st

theorem video_resize_quiet (lib : libavcodec) (st : video_state_t) :
    reg_quiet st (video_resize lib st) := by
  unfold video_resize
  by_cases h : st.id.ff_dec_c.width ≠ st.id.ff_enc_c.width ∨
     st.id.ff_dec_c.height ≠ st.id.ff_enc_c.height ∨
     st.sys.i_crop_top > 0 ∨ st.sys.i_crop_bottom > 0 ∨
     st.sys.i_crop_left > 0 ∨ st.sys.i_crop_right ≠ 0
  · rw [if_pos h]
    exact ⟨rfl, rfl, rfl, rfl, quiet_fill _ _ _ (by decide) _ _ _⟩
  · rw [if_neg h]; exact reg_quiet_refl st

theorem set_frame_fields (id : sout_stream_id_t) (slot : FrameSlot) (f : AVFrame) :
    (set_frame id slot f).b_transcode = id.b_transcode ∧
    (set_frame id slot f).f_src = id.f_src ∧
    (set_frame id slot f).b_enc_inited = id.b_enc_inited ∧
    (set_frame id slot f).id = id.id := by
  cases slot <;> exact ⟨rfl, rfl, rfl, rfl⟩

theorem video_stamp_quiet (st : video_state_t) : reg_quiet st (video_stamp st) := by
  have h := set_frame_fields st.id st.frame
    { st.pic with
      pts := if st.id.f_dst.i_fourcc = VLC_FOURCC 'm' 'p' 'g' 'v'
             then st.sys.i_output_pts else 0
      pict_type := 0 }
  exact ⟨h.1, congrArg sout_format_t.i_cat h.2.1, h.2.2.1, h.2.2.2, [],
    (List.append_nil _).symm, fun _ => rfl⟩

theorem video_encode_quiet (lib : libavcodec) (inb : sout_buffer_t) (st : video_state_t) :
    reg_quiet st (video_encode lib inb st) :=
  ⟨rfl, rfl, rfl, rfl, [_], rfl, fun s => reg_step_encode s _ _ _⟩

theorem video_picture_quiet (lib : libavcodec) (inb : sout_buffer_t) (st : video_state_t) :
    reg_quiet st (video_picture lib inb st) := by
  unfold video_picture
  exact reg_quiet_trans _ _ _ (video_deinterlace_quiet lib st)
    (reg_quiet_trans _ _ _ (video_convert_quiet lib _)
      (reg_quiet_trans _ _ _ (video_resize_quiet lib _)
        (reg_quiet_trans _ _ _ (video_stamp_quiet _) (video_encode_quiet lib inb _))))

theorem video_decode_reg (lib : libavcodec) (inb : sout_buffer_t) (pic0 : AVFrame)
    (st : video_state_t) :
    (video_decode lib inb pic0 st).2.2.id.b_transcode = st.id.b_transcode ∧
    (video_decode lib inb pic0 st).2.2.id.f_src.i_cat = st.id.f_src.i_cat ∧
    (video_decode lib inb pic0 st).2.2.id.b_enc_inited = st.id.b_enc_inited ∧
    (video_decode lib inb pic0 st).2.2.id.id = st.id.id ∧
    (video_decode lib inb pic0 st).2.2.out = st.out ∧
    ∃ e, (video_decode lib inb pic0 st).2.2.tr = st.tr ++ [e] ∧
      (∀ b, reg_step (reg_t.fresh b) e = reg_t.fresh (video_decode lib inb pic0 st).2.1) ∧
      (∀ k, reg_step (reg_t.added k) e = reg_t.added k) := by
  unfold video_decode
  by_cases h : st.id.ff_dec ≠ none
  · rw [if_pos h]
    exact ⟨rfl, rfl, rfl, rfl, rfl, _, rfl, fun _ => rfl, fun _ => rfl⟩
  · rw [if_neg h]
    exact ⟨rfl, rfl, rfl, rfl, rfl, _, rfl, fun _ => rfl, fun _ => rfl⟩

theorem video_take_pts_fields (st : video_state_t) :
    (video_take_pts st).id = st.id ∧ (video_take_pts st).out = st.out ∧
    (video_take_pts st).tr = st.tr := by
  unfold video_take_pts
  split_ifs <;> exact ⟨rfl, rfl, rfl⟩

theorem close_quiet (id : sout_stream_id_t) (tr : List Event) :
    ∃ evs, transcode_video_ffmpeg_close id tr = tr ++ evs ∧ ∀ s, evs.foldl reg_step s = s := by
  unfold transcode_video_ffmpeg_close
  by_cases h1 : id.ff_dec ≠ none <;> by_cases h2 : id.b_enc_inited = true
  · rw [if_pos h1, if_pos h2]
    refine ⟨[Event.avcodec_close id.ff_dec_c, Event.avcodec_close id.ff_enc_c], by simp, ?_⟩
    intro s; simp only [List.foldl_cons, List.foldl_nil, reg_step_close]
  · rw [if_pos h1, if_neg h2]
    refine ⟨[Event.avcodec_close id.ff_dec_c], by simp, ?_⟩
    intro s; simp only [List.foldl_cons, List.foldl_nil, reg_step_close]
  · rw [if_neg h1, if_pos h2]
    refine ⟨[Event.avcodec_close id.ff_enc_c], by simp, ?_⟩
    intro s; simp only [List.foldl_cons, List.foldl_nil, reg_step_close]
  · rw [if_neg h1, if_neg h2]
    exact ⟨[], rfl, fun _ => rfl⟩

theorem video_lazy_dims_fields (sys : sout_stream_sys_t) (id : sout_stream_id_t) :
    (video_lazy_dims sys id).b_transcode = id.b_transcode ∧
    (video_lazy_dims sys id).f_src = id.f_src ∧
    (video_lazy_dims sys id).b_enc_inited = id.b_enc_inited ∧
    (video_lazy_dims sys id).id = id.id := by
  have hw : (video_lazy_width sys id).b_transcode = id.b_transcode ∧
      (video_lazy_width sys id).f_src = id.f_src ∧
      (video_lazy_width sys id).b_enc_inited = id.b_enc_inited ∧
      (video_lazy_width sys id).id = id.id := by
    unfold video_lazy_width; split_ifs <;> exact ⟨rfl, rfl, rfl, rfl⟩
  have hh : ∀ i : sout_stream_id_t, (video_lazy_height sys i).b_transcode = i.b_transcode ∧
      (video_lazy_height sys i).f_src = i.f_src ∧
      (video_lazy_height sys i).b_enc_inited = i.b_enc_inited ∧
      (video_lazy_height sys i).id = i.id := by
    intro i; unfold video_lazy_height; split_ifs <;> exact ⟨rfl, rfl, rfl, rfl⟩
  unfold video_lazy_dims
  exact ⟨(hh _).1.trans hw.1, (hh _).2.1.trans hw.2.1, (hh _).2.2.1.trans hw.2.2.1,
    (hh _).2.2.2.trans hw.2.2.2⟩

/-- The lazy initialisation seen by the registration discipline. -/
theorem video_lazy_init_reg (lib : libavcodec) (out : sout_out_t) (st : video_state_t)
    (s : reg_t) (hs : reg_inv st.id s) (hfresh : ∀ b, s = reg_t.fresh b → b = true)
    (href : s ≠ reg_t.refused) :
    (video_lazy_init lib out st).2.out = st.out ∧
    ∃ evs, (video_lazy_init lib out st).2.tr = st.tr ++ evs ∧
      reg_inv (video_lazy_init lib out st).2.id (evs.foldl reg_step s) ∧
      ((video_lazy_init lib out st).1 = none → ∃ k, evs.foldl reg_step s = reg_t.added k) := by
  cases s with
  | bad => exact absurd hs id
  | refused => exact absurd rfl href
  | added k =>
    have hi : st.id.b_enc_inited = true := hs.2.2.1
    unfold video_lazy_init
    rw [if_pos hi]
    exact ⟨rfl, [], (List.append_nil _).symm, hs, fun _ => ⟨k, rfl⟩⟩
  | fresh b =>
    have hb : b = true := hfresh b rfl
    subst hb
    have hi : ¬ st.id.b_enc_inited = true := by rw [hs.2.2]; decide
    have hd := video_lazy_dims_fields st.sys st.id
    unfold video_lazy_init
    rw [if_neg hi]
    by_cases h1 : (video_lazy_open lib st.sys st.id).ret ≠ 0
    · rw [if_pos h1]
      refine ⟨rfl, [_], rfl, ?_, fun h => Option.noConfusion h⟩
      show reg_inv (video_lazy_opened lib st.sys st.id) (reg_t.fresh true)
      exact ⟨hd.1.trans hs.1, (congrArg sout_format_t.i_cat hd.2.1).trans hs.2.1,
        hd.2.2.1.trans hs.2.2⟩
    · rw [if_neg h1]
      simp only
      cases hp : out.pf_add
          (st.tr ++ [Event.avcodec_open (video_lazy_dims st.sys st.id).ff_enc_c
            (video_lazy_dims st.sys st.id).ff_enc (video_lazy_open lib st.sys st.id).ret])
          (video_lazy_opened lib st.sys st.id).f_dst with
      | none =>
        rw [if_pos rfl]
        obtain ⟨cl, hcl, hq⟩ := close_quiet
          { video_lazy_opened lib st.sys st.id with id := none }
          (st.tr ++ [Event.avcodec_open (video_lazy_dims st.sys st.id).ff_enc_c
              (video_lazy_dims st.sys st.id).ff_enc (video_lazy_open lib st.sys st.id).ret] ++
            [Event.pf_add (video_lazy_opened lib st.sys st.id).f_dst none])
        refine ⟨rfl, [Event.avcodec_open (video_lazy_dims st.sys st.id).ff_enc_c
              (video_lazy_dims st.sys st.id).ff_enc (video_lazy_open lib st.sys st.id).ret,
            Event.pf_add (video_lazy_opened lib st.sys st.id).f_dst none] ++ cl, ?_, ?_,
          fun h => Option.noConfusion h⟩
        · show transcode_video_ffmpeg_close _ _ = _
          rw [hcl]; simp only [List.append_assoc, List.cons_append, List.nil_append]
        · rw [List.foldl_append, hq]
          exact ⟨rfl, rfl⟩
      | some k =>
        rw [if_neg (fun h => Option.noConfusion h)]
        refine ⟨rfl, [Event.avcodec_open (video_lazy_dims st.sys st.id).ff_enc_c
              (video_lazy_dims st.sys st.id).ff_enc (video_lazy_open lib st.sys st.id).ret,
            Event.pf_add (video_lazy_opened lib st.sys st.id).f_dst (some k)], ?_, ?_,
          fun _ => ⟨k, rfl⟩⟩
        · show _ ++ _ ++ _ = _
          simp only [List.append_assoc, List.cons_append, List.nil_append]
        · show reg_inv _ (reg_t.added k)
          exact ⟨hd.1.trans hs.1, (congrArg sout_format_t.i_cat hd.2.1).trans hs.2.1, rfl, rfl⟩

/-- One iteration of the video loop seen by the registration discipline. -/
theorem video_iteration_reg (lib : libavcodec) (out : sout_out_t) (inb : sout_buffer_t)
    (st : video_state_t) (s : reg_t) (hs : reg_ok st.id st.out s) (href : s ≠ reg_t.refused) :
    ∃ evs, (video_iteration lib out inb st).2.tr = st.tr ++ evs ∧
      reg_ok (video_iteration lib out inb st).2.id (video_iteration lib out inb st).2.out
        (evs.foldl reg_step s) ∧
      ((video_iteration lib out inb st).1 = Flow.next → evs.foldl reg_step s ≠ reg_t.refused) := by
  unfold video_iteration
  cases hp : st.id.p_ff_pic with
  | none => exact ⟨[], (List.append_nil _).symm, hs, fun _ => href⟩
  | some pic0 =>
    simp only
    obtain ⟨d1, d2, d3, d4, d5, e, dtr, dfresh, dadded⟩ := video_decode_reg lib inb pic0 st
    -- the standing after the decoding step
    have hstep : reg_ok (video_decode lib inb pic0 st).2.2.id (video_decode lib inb pic0 st).2.2.out
        (reg_step s e) ∧ reg_step s e ≠ reg_t.refused ∧
        (∀ b, reg_step s e = reg_t.fresh b → b = (video_decode lib inb pic0 st).2.1) := by
      cases s with
      | bad => exact absurd hs.1 id
      | refused => exact absurd rfl href
      | fresh b =>
        rw [dfresh b]
        refine ⟨⟨reg_inv_of_fields st.id _ d1 d2 d3 d4 (reg_t.fresh b) hs.1, fun _ => ?_⟩,
          fun h => reg_t.noConfusion h, fun b' hb' => ?_⟩
        · rw [d5]; exact hs.2 (fun k h => reg_t.noConfusion h)
        · exact (reg_t.fresh.inj hb').symm
      | added k =>
        rw [dadded k]
        exact ⟨⟨reg_inv_of_fields st.id _ d1 d2 d3 d4 (reg_t.added k) hs.1,
          fun h => absurd rfl (h k)⟩, fun h => reg_t.noConfusion h,
          fun b' hb' => reg_t.noConfusion hb'⟩
    by_cases h1 : (video_decode lib inb pic0 st).1 < 0
    · rw [if_pos h1]
      exact ⟨[e], dtr, hstep.1, fun h => Flow.noConfusion h⟩
    · rw [if_neg h1]
      by_cases h2 : (video_decode lib inb pic0 st).2.1 = false
      · rw [if_pos h2]
        exact ⟨[e], dtr, hstep.1, fun h => Flow.noConfusion h⟩
      · rw [if_neg h2]
        have hgot : (video_decode lib inb pic0 st).2.1 = true := by
          cases hg : (video_decode lib inb pic0 st).2.1
          · exact absurd hg h2
          · rfl
        have ht := video_take_pts_fields
          (video_advance (video_decode lib inb pic0 st).1 (video_decode lib inb pic0 st).2.2)
        have hinv : reg_inv (video_take_pts (video_advance (video_decode lib inb pic0 st).1
            (video_decode lib inb pic0 st).2.2)).id (reg_step s e) := by
          rw [ht.1]; exact hstep.1.1
        obtain ⟨lout, levs, ltr, linv, lnone⟩ := video_lazy_init_reg lib out _ (reg_step s e) hinv
          (fun b hb => (hstep.2.2 b hb).trans hgot) hstep.2.1
        rw [ht.2.1] at lout
        rw [ht.2.2] at ltr
        have lout' : (video_lazy_init lib out (video_take_pts (video_advance
            (video_decode lib inb pic0 st).1 (video_decode lib inb pic0 st).2.2))).2.out =
            (video_decode lib inb pic0 st).2.2.out := lout
        have ltr' : (video_lazy_init lib out (video_take_pts (video_advance
            (video_decode lib inb pic0 st).1 (video_decode lib inb pic0 st).2.2))).2.tr =
            st.tr ++ ([e] ++ levs) := by
          rw [ltr]
          show (video_decode lib inb pic0 st).2.2.tr ++ levs = _
          rw [dtr, List.append_assoc]
        generalize video_lazy_init lib out (video_take_pts (video_advance
            (video_decode lib inb pic0 st).1 (video_decode lib inb pic0 st).2.2)) = r
          at linv lnone lout' ltr'
        obtain ⟨status, st1⟩ := r
        have hfold : ([e] ++ levs).foldl reg_step s = levs.foldl reg_step (reg_step s e) := rfl
        cases status with
        | some v =>
          refine ⟨[e] ++ levs, ltr', ⟨?_, ?_⟩, fun h => Flow.noConfusion h⟩
          · rw [hfold]; exact linv
          · rw [hfold]
            intro hna
            show st1.out = []
            rw [lout']
            -- the chain was empty unless the stream was registered before this call
            cases hse : reg_step s e with
            | added k =>
              -- an added standing is kept by the events of the lazy initialisation
              have : levs.foldl reg_step (reg_t.added k) = reg_t.added k := by
                have hne : levs.foldl reg_step (reg_t.added k) ≠ reg_t.bad := by
                  intro hb
                  rw [hse, hb] at linv
                  exact linv
                exact (reg_not_fresh_count levs _ (fun b h => reg_t.noConfusion h) hne).2
              rw [hse, this] at hna
              exact absurd rfl (hna k)
            | fresh b =>
              exact hstep.1.2 (by rw [hse]; exact fun k h => reg_t.noConfusion h)
            | refused => exact absurd hse hstep.2.1
            | bad => rw [hse] at hstep; exact absurd hstep.1.1 id
        | none =>
          obtain ⟨k, hk⟩ := lnone rfl
          have hq := video_picture_quiet lib inb st1
          obtain ⟨q1, q2, q3, q4, qevs, qtr, qq⟩ := hq
          refine ⟨[e] ++ levs ++ qevs, ?_, ⟨?_, ?_⟩, ?_⟩
          · show (video_picture lib inb st1).tr = _
            rw [qtr]
            show st1.tr ++ qevs = _
            rw [show st1.tr = st.tr ++ ([e] ++ levs) from ltr', List.append_assoc]
          · rw [List.foldl_append, qq, hfold]
            exact reg_inv_of_fields st1.id _ q1 q2 q3 q4 _ linv
          · rw [List.foldl_append, qq, hfold, hk]
            intro hna
            exact absurd rfl (hna k)
          · intro _
            rw [List.foldl_append, qq, hfold, hk]
            exact fun h => reg_t.noConfusion h

theorem video_loop_reg (lib : libavcodec) (out : sout_out_t) (inb : sout_buffer_t)
    (fuel : Nat) (st : video_state_t) (s : reg_t) (hs : reg_ok st.id st.out s)
    (href : s ≠ reg_t.refused) :
    ∃ evs, (video_loop lib out inb fuel st).2.tr = st.tr ++ evs ∧
      reg_ok (video_loop lib out inb fuel st).2.id (video_loop lib out inb fuel st).2.out
        (evs.foldl reg_step s) := by
  induction fuel generalizing st s with
  | zero => exact ⟨[], (List.append_nil _).symm, hs⟩
  | succ n ih =>
    obtain ⟨evs, htr, hok, hnext⟩ := video_iteration_reg lib out inb st s hs href
    unfold video_loop
    generalize video_iteration lib out inb st = r at htr hok hnext
    obtain ⟨flow, st1⟩ := r
    cases flow with
    | next =>
      obtain ⟨evs2, htr2, hok2⟩ := ih st1 _ hok (hnext rfl)
      refine ⟨evs ++ evs2, ?_, ?_⟩
      · show (video_loop lib out inb n st1).2.tr = _
        rw [htr2]
        show st1.tr ++ evs2 = _
        rw [show st1.tr = st.tr ++ evs from htr, List.append_assoc]
      · rw [List.foldl_append]; exact hok2
    | ret v => exact ⟨evs, htr, hok⟩
    | stuck => exact ⟨evs, htr, hok⟩

theorem video_process_reg (lib : libavcodec) (out : sout_out_t) (fuel : Nat)
    (sys : sout_stream_sys_t) (id : sout_stream_id_t) (inb : sout_buffer_t) (tr : List Event)
    (s : reg_t) (hs : reg_inv id s) (href : s ≠ reg_t.refused) :
    ∃ evs, (transcode_video_ffmpeg_process lib out fuel sys id inb tr).tr = tr ++ evs ∧
      reg_ok (transcode_video_ffmpeg_process lib out fuel sys id inb tr).id
        (transcode_video_ffmpeg_process lib out fuel sys id inb tr).out
        (evs.foldl reg_step s) := by
  obtain ⟨evs, htr, hok⟩ := video_loop_reg lib out inb fuel (video_entry lib sys id inb tr) s
    ⟨hs, fun _ => rfl⟩ href
  unfold transcode_video_ffmpeg_process
  generalize video_loop lib out inb fuel (video_entry lib sys id inb tr) = r at htr hok
  obtain ⟨flow, st1⟩ := r
  cases flow <;> exact ⟨evs, htr, hok⟩

theorem send_transcoded_reg (out : sout_out_t) (sys : sout_stream_sys_t)
    (id : sout_stream_id_t) (u : sout_buffer_t) (chain : List sout_buffer_t) (tr : List Event)
    (s : reg_t) (hs : reg_ok id chain s) :
    (send_transcoded out sys id u chain tr).id = id ∧
    ∃ evs, (send_transcoded out sys id u chain tr).tr = tr ++ evs ∧
      reg_inv id (evs.foldl reg_step s) := by
  unfold send_transcoded
  by_cases hc : chain ≠ []
  · rw [if_pos hc]
    refine ⟨rfl, [_, _], rfl, ?_⟩
    cases s with
    | bad => exact False.elim hs.1
    | refused => exact absurd (hs.2 (fun k h => reg_t.noConfusion h)) hc
    | fresh b => exact absurd (hs.2 (fun k h => reg_t.noConfusion h)) hc
    | added k =>
      have hid : id.id = some k := hs.1.2.2.2
      simp only [List.foldl_cons, List.foldl_nil]
      rw [hid]
      show reg_inv id (if some k = some k then reg_t.added k else reg_t.bad)
      rw [if_pos rfl]
      exact hs.1
  · rw [if_neg hc]
    refine ⟨rfl, [_], rfl, ?_⟩
    cases s with
    | bad => exact False.elim hs.1
    | refused => exact hs.1
    | fresh b => exact hs.1
    | added k => exact hs.1

/-- One `Send` call seen by the registration discipline. -/
theorem send_reg (out : sout_out_t) (bld : build_t) (lib : libavcodec) (fuel : Nat)
    (sys : sout_stream_sys_t) (id : sout_stream_id_t) (u : sout_buffer_t) (tr : List Event)
    (s : reg_t) (hs : reg_inv id s) :
    ∃ evs, (Send out bld lib fuel sys id u tr).tr = tr ++ evs ∧
      reg_inv (Send out bld lib fuel sys id u tr).id (evs.foldl reg_step s) := by
  have hvideo : ∀ (hb : id.b_transcode = true) (hc : id.f_src.i_cat = VIDEO_ES)
      (href : s ≠ reg_t.refused),
      ∃ evs, (Send out bld lib fuel sys id u tr).tr = tr ++ evs ∧
        reg_inv (Send out bld lib fuel sys id u tr).id (evs.foldl reg_step s) := by
    intro hb hc href
    obtain ⟨evs, htr, hok⟩ := video_process_reg lib out fuel sys id u tr s hs href
    unfold Send
    rw [if_pos hb, if_neg (by rw [hc]; decide), if_pos hc]
    cases hr : (transcode_video_ffmpeg_process lib out fuel sys id u tr).ret with
    | none => exact ⟨evs, htr, hok.1⟩
    | some v =>
      obtain ⟨hid, evs2, htr2, hinv2⟩ := send_transcoded_reg out
        (transcode_video_ffmpeg_process lib out fuel sys id u tr).sys
        (transcode_video_ffmpeg_process lib out fuel sys id u tr).id u
        (transcode_video_ffmpeg_process lib out fuel sys id u tr).out
        (transcode_video_ffmpeg_process lib out fuel sys id u tr).tr _ hok
      refine ⟨evs ++ evs2, ?_, ?_⟩
      · show (send_transcoded _ _ _ _ _ _).tr = _
        rw [htr2, htr, List.append_assoc]
      · show reg_inv (send_transcoded _ _ _ _ _ _).id _
        rw [hid, List.foldl_append]
        exact hinv2
  cases s with
  | bad => exact False.elim hs
  | fresh b => exact hvideo hs.1 hs.2.1 (fun h => reg_t.noConfusion h)
  | added k => exact hvideo hs.1 hs.2.1 (fun h => reg_t.noConfusion h)
  | refused =>
    unfold Send
    rw [if_neg (by rw [hs.1]; decide), if_neg (by rw [hs.2]; exact fun h => h rfl)]
    exact ⟨[_], rfl, hs⟩

theorem send_all_reg (out : sout_out_t) (bld : build_t) (lib : libavcodec) (fuel : Nat)
    (units : List sout_buffer_t) (sys : sout_stream_sys_t) (id : sout_stream_id_t)
    (tr : List Event) (s : reg_t) (hs : reg_inv id s) :
    ∃ evs, (send_all out bld lib fuel sys id tr units).tr = tr ++ evs ∧
      reg_inv (send_all out bld lib fuel sys id tr units).id (evs.foldl reg_step s) := by
  induction units generalizing sys id tr s with
  | nil => exact ⟨[], (List.append_nil _).symm, hs⟩
  | cons u rest ih =>
    obtain ⟨evs, htr, hinv⟩ := send_reg out bld lib fuel sys id u tr s hs
    cases rest with
    | nil => exact ⟨evs, htr, hinv⟩
    | cons v rest =>
      rw [send_all]
      cases hr : (Send out bld lib fuel sys id u tr).ret with
      | none => exact ⟨evs, htr, hinv⟩
      | some status =>
        obtain ⟨evs2, htr2, hinv2⟩ := ih (Send out bld lib fuel sys id u tr).sys
          (Send out bld lib fuel sys id u tr).id (Send out bld lib fuel sys id u tr).tr _ hinv
        refine ⟨evs ++ evs2, ?_, ?_⟩
        · show (send_all _ _ _ _ _ _ _ _).tr = _
          rw [htr2, htr, List.append_assoc]
        · show reg_inv (send_all _ _ _ _ _ _ _ _).id _
          rw [List.foldl_append]
          exact hinv2

theorem video_new_decoder_trace (lib : libavcodec) (sys : sout_stream_sys_t) (stack : AVFrame)
    (id : sout_stream_id_t) (tr : List Event) :
    ∃ evs, (video_new_decoder lib sys stack id tr).2.2 = tr ++ evs ∧
      ∀ e ∈ evs, is_pf_add e = false := by
  have hnil : ∃ evs, tr = tr ++ evs ∧ ∀ e ∈ evs, is_pf_add e = false :=
    ⟨[], (List.append_nil _).symm, fun e he => absurd he (List.not_mem_nil e)⟩
  unfold video_new_decoder
  split_ifs
  · exact hnil
  · exact hnil
  · cases lib.avcodec_find_decoder (get_ff_codec lib id.f_src.i_fourcc) with
    | none => exact hnil
    | some c =>
      simp only
      split_ifs
      · refine ⟨[_], rfl, ?_⟩
        intro e he
        rw [List.mem_singleton] at he
        subst he; rfl
      · refine ⟨[_, _], List.append_assoc _ _ _, ?_⟩
        intro e he
        simp only [List.mem_cons, List.mem_singleton, List.not_mem_nil, or_false] at he
        rcases he with rfl | rfl <;> rfl
      · refine ⟨[_], rfl, ?_⟩
        intro e he
        rw [List.mem_singleton] at he
        subst he; rfl

/-- A video session as `Add` returns it: not registered, and `Add` has not
called `pf_add`. -/
theorem add_video_reg (out : sout_out_t) (bld : build_t) (lib : libavcodec)
    (sys : sout_stream_sys_t) (mem : sout_stream_id_t) (stack : AVFrame)
    (p_fmt : sout_format_t) (tr : List Event) (id : sout_stream_id_t)
    (sys1 : sout_stream_sys_t) (tr1 : List Event)
    (hcat : p_fmt.i_cat = VIDEO_ES) (hcodec : sys.i_vcodec ≠ 0)
    (hadd : Add out bld lib sys mem stack p_fmt tr = (some id, sys1, tr1)) :
    reg_inv id (reg_t.fresh false) ∧ id.id = none ∧
    ∃ evs, tr1 = tr ++ evs ∧ ∀ e ∈ evs, is_pf_add e = false := by
  rw [add_is_add_video out bld lib sys mem stack p_fmt tr hcat hcodec] at hadd
  obtain ⟨hs, hid, -, htr⟩ := add_video_some lib sys mem stack p_fmt tr id sys1 tr1 hadd
  have hn := video_new_success lib sys stack (add_video_session sys mem p_fmt) tr hs
  subst hid htr
  refine ⟨⟨rfl, ?_, hn.1⟩, hn.2.2.1, ?_⟩
  · show (transcode_video_ffmpeg_new lib sys stack
      (add_video_session sys mem p_fmt) tr).2.1.f_src.i_cat = VIDEO_ES
    rw [hn.2.1]; exact hcat
  · rw [hn.2.2.2.2.2.2.2.2]
    exact video_new_decoder_trace lib sys stack _ tr

/-- C10: registration of a video session downstream.  For every video
session that `Add` returns: `Add` has left the handle `id` at `NULL` and has
made no `pf_add` call; and for every sequence of `Send` calls on the session
(whatever the codecs and the downstream chain do, and whether or not every
call returns), the calls made by those `Send` calls contain at most one
`pf_add`; every `pf_add` among them comes while a picture is pending, that
is, within a `Send` call whose most recent decoding step produced a picture;
and every `pf_send` among them carries the non-`NULL` handle that an earlier
`pf_add` returned. -/
theorem video_registration (out : sout_out_t) (bld : build_t) (lib : libavcodec)
    (sys : sout_stream_sys_t) (mem : sout_stream_id_t) (stack : AVFrame)
    (p_fmt : sout_format_t) (tr : List Event) (id : sout_stream_id_t)
    (sys1 : sout_stream_sys_t) (tr1 : List Event) (fuel : Nat) (units : List sout_buffer_t)
    (hcat : p_fmt.i_cat = VIDEO_ES) (hcodec : sys.i_vcodec ≠ 0)
    (hadd : Add out bld lib sys mem stack p_fmt tr = (some id, sys1, tr1)) :
    id.id = none ∧
    (∃ evs, tr1 = tr ++ evs ∧ ∀ e ∈ evs, is_pf_add e = false) ∧
    ∃ tr2, (send_all out bld lib fuel sys1 id tr1 units).tr = tr1 ++ tr2 ∧
      tr2.countP is_pf_add ≤ 1 ∧
      (∀ pre fmt r post, tr2 = pre ++ Event.pf_add fmt r :: post →
        picture_pending pre = true) ∧
      (∀ pre i chain ret post, tr2 = pre ++ Event.pf_send i chain ret :: post →
        ∃ fmt k, i = some k ∧ Event.pf_add fmt (some k) ∈ pre) := by
  obtain ⟨hinv, hid, hevs⟩ := add_video_reg out bld lib sys mem stack p_fmt tr id sys1 tr1
    hcat hcodec hadd
  obtain ⟨tr2, htr2, hinv2⟩ := send_all_reg out bld lib fuel units sys1 id tr1 _ hinv
  have hne : tr2.foldl reg_step (reg_t.fresh false) ≠ reg_t.bad := by
    intro hb; rw [hb] at hinv2; exact hinv2
  exact ⟨hid, hevs, tr2, htr2, reg_discipline tr2 hne⟩

/-- Scenario B: the first iteration on the raw picture returns with the
picture coded. -/
theorem scenario_b_iteration :
    video_iteration lib_video out_ok unit_i420
        (video_entry lib_video sys_mp4v (id_i420 sys_mp4v) unit_i420 []) =
      (Flow.ret VLC_SUCCESS, st_i420_coded sys_mp4v) := by
  have t1 : (video_entry lib_video sys_mp4v (id_i420 sys_mp4v) unit_i420 []).id.p_ff_pic =
      some frame_zero := rfl
  have t2 : (video_decode lib_video unit_i420 frame_zero
      (video_entry lib_video sys_mp4v (id_i420 sys_mp4v) unit_i420 [])).1 =
      (unit_i420.i_size : Int) := rfl
  have t3 : (video_decode lib_video unit_i420 frame_zero
      (video_entry lib_video sys_mp4v (id_i420 sys_mp4v) unit_i420 [])).2.1 = true := rfl
  have t4 : video_lazy_init lib_video out_ok (st_i420 sys_mp4v) =
      (none, (video_lazy_init lib_video out_ok (st_i420 sys_mp4v)).2) := Prod.ext rfl rfl
  have t5 : (st_i420_coded sys_mp4v).i_data =
      (unit_i420.i_size : Int) - (unit_i420.i_size : Int) := rfl
  unfold video_iteration
  rw [t1]
  simp only
  rw [if_neg (by rw [t2]; exact not_lt.mpr (Int.ofNat_nonneg _)), if_neg (by rw [t3]; decide)]
  show (match video_lazy_init lib_video out_ok (st_i420 sys_mp4v) with
    | (some status, st1) => (Flow.ret status, st1)
    | (none, st1) =>
      (if (video_picture lib_video unit_i420 st1).i_data ≤ 0 then Flow.ret VLC_SUCCESS
       else Flow.next, video_picture lib_video unit_i420 st1)) = _
  rw [t4]
  show ((if (st_i420_coded sys_mp4v).i_data ≤ 0 then Flow.ret VLC_SUCCESS else Flow.next),
    st_i420_coded sys_mp4v) = _
  rw [if_pos (by rw [t5, sub_self])]

theorem scenario_b_loop :
    video_loop lib_video out_ok unit_i420 1
        (video_entry lib_video sys_mp4v (id_i420 sys_mp4v) unit_i420 []) =
      (Flow.ret VLC_SUCCESS, st_i420_coded sys_mp4v) := by
  rw [video_loop, scenario_b_iteration]

theorem video_process_of_loop (lib : libavcodec) (out : sout_out_t) (fuel : Nat)
    (sys : sout_stream_sys_t) (id : sout_stream_id_t) (inb : sout_buffer_t) (tr : List Event)
    (v : Int) (st : video_state_t)
    (h : video_loop lib out inb fuel (video_entry lib sys id inb tr) = (Flow.ret v, st)) :
    transcode_video_ffmpeg_process lib out fuel sys id inb tr =
      { ret := some v, id := st.id, sys := st.sys, out := st.out, tr := st.tr } := by
  unfold transcode_video_ffmpeg_process
  rw [h]

theorem send_video_of_loop (out : sout_out_t) (bld : build_t) (lib : libavcodec) (fuel : Nat)
    (sys : sout_stream_sys_t) (id : sout_stream_id_t) (u : sout_buffer_t) (tr : List Event)
    (v : Int) (st : video_state_t) (hb : id.b_transcode = true)
    (hc : id.f_src.i_cat = VIDEO_ES)
    (h : video_loop lib out u fuel (video_entry lib sys id u tr) = (Flow.ret v, st))
    (hout : st.out ≠ []) :
    (send_all out bld lib fuel sys id tr [u]).tr =
      st.tr ++ [Event.sout_BufferDelete u,
                Event.pf_send st.id.id st.out
                  (out.pf_send (st.tr ++ [Event.sout_BufferDelete u]) st.id.id st.out)] := by
  rw [send_all]
  unfold Send
  rw [if_pos hb, if_neg (by rw [hc]; decide), if_pos hc,
    video_process_of_loop lib out fuel sys id u tr v st h]
  simp only
  unfold send_transcoded
  rw [if_pos hout]

theorem scenario_b_trace :
    (send_all out_ok bld_le lib_video 1 sys_mp4v (id_i420 sys_mp4v) [] [unit_i420]).tr =
      trace_b := by
  have hout : (st_i420_coded sys_mp4v).out = [unit_b] := rfl
  have htr : (st_i420_coded sys_mp4v).tr =
      [Event.avpicture_fill FrameSlot.p_ff_pic PIX_FMT_YUV420P 320 240,
       Event.avcodec_open ctx_b (some { id := CODEC_ID_MPEG4, encoder := true }) 0,
       Event.pf_add fmt_b (some 1),
       Event.avcodec_encode_video ctx_b pic_b 1] := rfl
  have hid : (st_i420_coded sys_mp4v).id.id = some 1 := rfl
  rw [send_video_of_loop out_ok bld_le lib_video 1 sys_mp4v (id_i420 sys_mp4v) unit_i420 []
    VLC_SUCCESS (st_i420_coded sys_mp4v) rfl rfl scenario_b_loop
    (by rw [hout]; exact List.cons_ne_nil _ _), htr, hout, hid]
  rfl


theorem video_registration_witness :
    Add out_ok bld_le lib_video sys_mp4v id_zero frame_zero fmt_i420 [] =
      (some (id_i420 sys_mp4v), sys_mp4v, []) ∧
    (id_i420 sys_mp4v).id = none ∧
    (send_all out_ok bld_le lib_video 1 sys_mp4v (id_i420 sys_mp4v) [] [unit_i420]).tr =
      trace_b ∧
    fmt_b.i_width = 320 ∧ fmt_b.i_height = 240 ∧
    trace_b.countP is_pf_add = 1 ∧
    (∀ pre fmt r post, trace_b = pre ++ Event.pf_add fmt r :: post →
      picture_pending pre = true) ∧
    (∀ pre i chain ret post, trace_b = pre ++ Event.pf_send i chain ret :: post →
      ∃ fmt k, i = some k ∧ Event.pf_add fmt (some k) ∈ pre) := by
  obtain ⟨hid, -, tr2, h2, -, hadd, hsend⟩ :=
    video_registration out_ok bld_le lib_video sys_mp4v id_zero frame_zero fmt_i420 []
      (id_i420 sys_mp4v) sys_mp4v [] 1 [unit_i420] rfl (by decide) rfl
  rw [scenario_b_trace, List.nil_append] at h2
  subst h2
  exact ⟨rfl, hid, scenario_b_trace, rfl, rfl, rfl, hadd, hsend⟩

/-! ## A registration that is refused -/

theorem reg_refused_of_mem (l : List Event) (s : reg_t) (fmt : sout_format_t)
    (h : l.foldl reg_step s ≠ reg_t.bad) (hm : Event.pf_add fmt none ∈ l) :
    l.foldl reg_step s = reg_t.refused := by
  induction l generalizing s with
  | nil => exact absurd hm (List.not_mem_nil _)
  | cons e t ih =>
    rw [List.foldl_cons] at h ⊢
    rcases List.mem_cons.mp hm with he | ht
    · subst he
      cases s with
      | fresh b =>
        cases b with
        | false =>
          have : reg_step (reg_t.fresh false) (Event.pf_add fmt none) = reg_t.bad := rfl
          rw [this, reg_bad_absorbing] at h; exact absurd rfl h
        | true =>
          have hst : reg_step (reg_t.fresh true) (Event.pf_add fmt none) = reg_t.refused := rfl
          rw [hst] at h ⊢
          exact (reg_not_fresh_count t _ (fun b hb => reg_t.noConfusion hb) h).2
      | added k =>
        have : reg_step (reg_t.added k) (Event.pf_add fmt none) = reg_t.bad := rfl
        rw [this, reg_bad_absorbing] at h; exact absurd rfl h
      | refused =>
        have : reg_step reg_t.refused (Event.pf_add fmt none) = reg_t.bad := rfl
        rw [this, reg_bad_absorbing] at h; exact absurd rfl h
      | bad => exact absurd (reg_bad_absorbing t) h
    · exact ih _ h ht

/-- A `Send` on a session that is marked as not transcoding and has no
downstream handle only releases the unit. -/
theorem send_dropped (out : sout_out_t) (bld : build_t) (lib : libavcodec) (fuel : Nat)
    (sys : sout_stream_sys_t) (id : sout_stream_id_t) (u : sout_buffer_t) (tr : List Event)
    (hb : id.b_transcode = false) (hid : id.id = none) :
    Send out bld lib fuel sys id u tr =
      { ret := some VLC_EGENERIC, id := id, sys := sys,
        tr := tr ++ [Event.sout_BufferDelete u] } := by
  unfold Send
  rw [if_neg (by rw [hb]; decide), if_neg (by rw [hid]; exact fun h => h rfl)]

theorem send_all_dropped (out : sout_out_t) (bld : build_t) (lib : libavcodec) (fuel : Nat)
    (units : List sout_buffer_t) (sys : sout_stream_sys_t) (id : sout_stream_id_t)
    (tr : List Event) (hb : id.b_transcode = false) (hid : id.id = none) :
    (send_all out bld lib fuel sys id tr units).tr = tr ++ units.map Event.sout_BufferDelete ∧
    (send_all out bld lib fuel sys id tr units).id = id ∧
    (send_all out bld lib fuel sys id tr units).sys = sys := by
  induction units generalizing tr with
  | nil => exact ⟨(List.append_nil _).symm, rfl, rfl⟩
  | cons u rest ih =>
    cases rest with
    | nil =>
      rw [send_all, send_dropped out bld lib fuel sys id u tr hb hid]
      exact ⟨rfl, rfl, rfl⟩
    | cons v rest =>
      rw [send_all, send_dropped out bld lib fuel sys id u tr hb hid]
      simp only
      have h := ih (tr ++ [Event.sout_BufferDelete u])
      refine ⟨?_, h.2.1, h.2.2⟩
      rw [h.1, List.append_assoc]
      rfl

/-- An iteration that gets a picture and leaves the function inside the lazy
initialisation. -/
theorem video_iteration_lazy_ret (lib : libavcodec) (out : sout_out_t) (inb : sout_buffer_t)
    (st : video_state_t) (pic0 : AVFrame) (v : Int)
    (hp : st.id.p_ff_pic = some pic0)
    (hused : ¬ (video_decode lib inb pic0 st).1 < 0)
    (hgot : (video_decode lib inb pic0 st).2.1 = true)
    (hlazy : (video_lazy_init lib out (video_take_pts
      (video_advance (video_decode lib inb pic0 st).1 (video_decode lib inb pic0 st).2.2))).1 =
        some v) :
    video_iteration lib out inb st =
      (Flow.ret v, (video_lazy_init lib out (video_take_pts
        (video_advance (video_decode lib inb pic0 st).1
          (video_decode lib inb pic0 st).2.2))).2) := by
  unfold video_iteration
  rw [hp]
  simp only
  rw [if_neg hused, if_neg (by rw [hgot]; decide)]
  generalize video_lazy_init lib out (video_take_pts
    (video_advance (video_decode lib inb pic0 st).1 (video_decode lib inb pic0 st).2.2)) = r
    at hlazy ⊢
  obtain ⟨status, st1⟩ := r
  simp only at hlazy
  subst hlazy
  rfl

theorem video_loop_ret (lib : libavcodec) (out : sout_out_t) (inb : sout_buffer_t)
    (fuel : Nat) (st st1 : video_state_t) (v : Int)
    (h : video_iteration lib out inb st = (Flow.ret v, st1)) :
    video_loop lib out inb (fuel + 1) st = (Flow.ret v, st1) := by
  rw [video_loop, h]

/-- A `Send` on a video session whose engine returns with an empty chain:
the unit is released and the status is `VLC_SUCCESS`, whatever the engine
returned. -/
theorem send_video_empty_of_loop (out : sout_out_t) (bld : build_t) (lib : libavcodec)
    (fuel : Nat) (sys : sout_stream_sys_t) (id : sout_stream_id_t) (u : sout_buffer_t)
    (tr : List Event) (v : Int) (st : video_state_t) (hb : id.b_transcode = true)
    (hc : id.f_src.i_cat = VIDEO_ES)
    (h : video_loop lib out u fuel (video_entry lib sys id u tr) = (Flow.ret v, st))
    (hout : st.out = []) :
    Send out bld lib fuel sys id u tr =
      { ret := some VLC_SUCCESS, id := st.id, sys := st.sys,
        tr := st.tr ++ [Event.sout_BufferDelete u] } := by
  unfold Send
  rw [if_pos hb, if_neg (by rw [hc]; decide), if_pos hc,
    video_process_of_loop lib out fuel sys id u tr v st h]
  simp only
  unfold send_transcoded
  rw [if_neg (by rw [hout]; exact fun h => h rfl)]

/-- The first `Send` on `id_i420 sys_mp4v` when the chain refuses the
stream. -/
theorem scenario_refuse_send :
    Send out_refuse bld_le lib_video 1 sys_mp4v (id_i420 sys_mp4v) unit_i420 [] =
      { ret := some VLC_SUCCESS, id := id_i420_refused,
        sys := (st_i420 sys_mp4v).sys,
        tr := [Event.avpicture_fill FrameSlot.p_ff_pic PIX_FMT_YUV420P 320 240,
               Event.avcodec_open ctx_b (some { id := CODEC_ID_MPEG4, encoder := true }) 0,
               Event.pf_add fmt_b none,
               Event.sout_BufferDelete unit_i420] } := by
  have t2 : (video_decode lib_video unit_i420 frame_zero
      (video_entry lib_video sys_mp4v (id_i420 sys_mp4v) unit_i420 [])).1 =
      (unit_i420.i_size : Int) := rfl
  have hit := video_iteration_lazy_ret lib_video out_refuse unit_i420
    (video_entry lib_video sys_mp4v (id_i420 sys_mp4v) unit_i420 []) frame_zero VLC_EGENERIC
    rfl (by rw [t2]; exact not_lt.mpr (Int.ofNat_nonneg _)) rfl rfl
  have hloop := video_loop_ret lib_video out_refuse unit_i420 0 _ _ _ hit
  rw [send_video_empty_of_loop out_refuse bld_le lib_video 1 sys_mp4v (id_i420 sys_mp4v)
    unit_i420 [] VLC_EGENERIC _ rfl rfl hloop rfl]
  rfl

/-- C11: a registration that the downstream chain refuses.  First part:
when the lazy initialisation of lines 1405-1434 has opened the encoder and
`pf_add` returns `NULL`, the engine returns `VLC_EGENERIC`; the calls made are
the `avcodec_open`, the `pf_add` and then those of one call of
`transcode_video_ffmpeg_close`; the session is left with `id` at `NULL` and
`b_transcode` cleared.  Second part: a `Send` on a video session with the
encoder not yet opened, during which `pf_add` returned `NULL`, leaves the
session in that state.  Third and fourth parts: every later `Send` on a
session in that state returns `VLC_EGENERIC` and its only call is the
`sout_BufferDelete` of the input unit (no decoder, encoder or `pf_send`
call), the session and the pipeline state staying as they are, so the same
holds for every sequence of later `Send` calls. -/
theorem registration_refused (out : sout_out_t) (bld : build_t) (lib : libavcodec) :
    (∀ st : video_state_t,
      st.id.b_enc_inited = false →
      (video_lazy_open lib st.sys st.id).ret = 0 →
      out.pf_add
          (st.tr ++ [Event.avcodec_open (video_lazy_dims st.sys st.id).ff_enc_c
            (video_lazy_dims st.sys st.id).ff_enc (video_lazy_open lib st.sys st.id).ret])
          (video_lazy_opened lib st.sys st.id).f_dst = none →
      (video_lazy_init lib out st).1 = some VLC_EGENERIC ∧
      (video_lazy_init lib out st).2.id =
        { video_lazy_opened lib st.sys st.id with id := none, b_transcode := false } ∧
      (video_lazy_init lib out st).2.tr =
        transcode_video_ffmpeg_close { video_lazy_opened lib st.sys st.id with id := none }
          (st.tr ++ [Event.avcodec_open (video_lazy_dims st.sys st.id).ff_enc_c
              (video_lazy_dims st.sys st.id).ff_enc (video_lazy_open lib st.sys st.id).ret] ++
            [Event.pf_add (video_lazy_opened lib st.sys st.id).f_dst none]) ∧
      (video_lazy_init lib out st).2.out = st.out) ∧
    (∀ (fuel : Nat) (sys : sout_stream_sys_t) (id : sout_stream_id_t) (u : sout_buffer_t)
        (tr : List Event) (fmt : sout_format_t),
      id.b_transcode = true → id.f_src.i_cat = VIDEO_ES → id.b_enc_inited = false →
      Event.pf_add fmt none ∈ (Send out bld lib fuel sys id u tr).tr.drop tr.length →
      (Send out bld lib fuel sys id u tr).id.b_transcode = false ∧
      (Send out bld lib fuel sys id u tr).id.id = none) ∧
    (∀ (fuel : Nat) (sys : sout_stream_sys_t) (id : sout_stream_id_t) (u : sout_buffer_t)
        (tr : List Event),
      id.b_transcode = false → id.id = none →
      Send out bld lib fuel sys id u tr =
        { ret := some VLC_EGENERIC, id := id, sys := sys,
          tr := tr ++ [Event.sout_BufferDelete u] }) ∧
    (∀ (fuel : Nat) (sys : sout_stream_sys_t) (id : sout_stream_id_t) (tr : List Event)
        (units : List sout_buffer_t),
      id.b_transcode = false → id.id = none →
      (send_all out bld lib fuel sys id tr units).tr =
        tr ++ units.map Event.sout_BufferDelete ∧
      (send_all out bld lib fuel sys id tr units).id = id ∧
      (send_all out bld lib fuel sys id tr units).sys = sys) := by
  refine ⟨?_, ?_, ?_, ?_⟩
  · intro st hinit hopen hadd
    unfold video_lazy_init
    rw [if_neg (by rw [hinit]; decide), if_neg (by rw [hopen]; exact fun h => h rfl)]
    simp only
    rw [hadd, if_pos rfl]
    exact ⟨rfl, rfl, rfl, rfl⟩
  · intro fuel sys id u tr fmt hb hc hi hm
    obtain ⟨evs, htr, hinv⟩ := send_reg out bld lib fuel sys id u tr (reg_t.fresh false)
      ⟨hb, hc, hi⟩
    rw [htr, List.drop_left] at hm
    have hne : evs.foldl reg_step (reg_t.fresh false) ≠ reg_t.bad := by
      intro hbad; rw [hbad] at hinv; exact hinv
    rw [reg_refused_of_mem evs _ fmt hne hm] at hinv
    exact hinv
  · intro fuel sys id u tr hb hid
    exact send_dropped out bld lib fuel sys id u tr hb hid
  · intro fuel sys id tr units hb hid
    exact send_all_dropped out bld lib fuel units sys id tr hb hid

theorem registration_refused_witness :
    (video_lazy_init lib_video out_refuse (st_i420 sys_mp4v)).1 = some VLC_EGENERIC ∧
    (video_lazy_init lib_video out_refuse (st_i420 sys_mp4v)).2.id = id_i420_refused ∧
    (video_lazy_init lib_video out_refuse (st_i420 sys_mp4v)).2.tr =
      [Event.avpicture_fill FrameSlot.p_ff_pic PIX_FMT_YUV420P 320 240,
       Event.avcodec_open ctx_b (some { id := CODEC_ID_MPEG4, encoder := true }) 0,
       Event.pf_add fmt_b none] ∧
    (Send out_refuse bld_le lib_video 1 sys_mp4v (id_i420 sys_mp4v) unit_i420 []).id.b_transcode =
      false ∧
    (Send out_refuse bld_le lib_video 1 sys_mp4v (id_i420 sys_mp4v) unit_i420 []).id.id = none ∧
    Send out_refuse bld_le lib_video 1 sys_mp4v id_i420_refused unit_i420 [] =
      { ret := some VLC_EGENERIC, id := id_i420_refused, sys := sys_mp4v,
        tr := [Event.sout_BufferDelete unit_i420] } ∧
    (send_all out_refuse bld_le lib_video 1 sys_mp4v id_i420_refused [] [unit_i420, unit_i420]).tr =
      [Event.sout_BufferDelete unit_i420, Event.sout_BufferDelete unit_i420] := by
  have hA := (registration_refused out_refuse bld_le lib_video).1 (st_i420 sys_mp4v) rfl rfl rfl
  have hB := (registration_refused out_refuse bld_le lib_video).2.1 1 sys_mp4v
    (id_i420 sys_mp4v) unit_i420 [] fmt_b rfl rfl rfl
    (by rw [scenario_refuse_send]
        exact List.mem_cons_of_mem _ (List.mem_cons_of_mem _ (List.mem_cons_self _ _)))
  have hC := (registration_refused out_refuse bld_le lib_video).2.2.1 1 sys_mp4v
    id_i420_refused unit_i420 [] rfl rfl
  have hD := (registration_refused out_refuse bld_le lib_video).2.2.2 1 sys_mp4v
    id_i420_refused [] [unit_i420, unit_i420] rfl rfl
  exact ⟨hA.1, hA.2.1, hA.2.2.1.trans rfl, hB.1, hB.2, hC, hD.1⟩

/-! ## The mode flag `b_transcode` -/

theorem same_mode_refl (s : sout_stream_id_t) : same_mode s s := ⟨rfl, rfl, rfl⟩

theorem same_mode_trans {a b c : sout_stream_id_t} (h1 : same_mode a b) (h2 : same_mode b c) :
    same_mode a c :=
  ⟨h2.1.trans h1.1, h2.2.1.trans h1.2.1, h2.2.2.trans h1.2.2⟩

theorem audio_enter_mode (bld : build_t) (s : sout_stream_id_t) (inb : sout_buffer_t) :
    same_mode s (audio_enter bld s inb) := by
  unfold audio_enter audio_gather
  simp only
  split_ifs <;> exact ⟨rfl, rfl, rfl⟩

theorem audio_decode_loop_mode (lib : libavcodec) :
    ∀ (fuel : Nat) (s s' : sout_stream_id_t) (e : DecodeExit),
      audio_decode_loop lib fuel s = some (s', e) → same_mode s s' := by
  intro fuel
  induction fuel with
  | zero => intro s s' e h; simp [audio_decode_loop] at h
  | succ n ih =>
    intro s s' e h
    unfold audio_decode_loop at h
    split_ifs at h with h1 h2 h3
    · simp at h; obtain ⟨rfl, _⟩ := h
      exact ⟨rfl, rfl, rfl⟩
    · simp at h; obtain ⟨rfl, _⟩ := h
      exact ⟨rfl, rfl, rfl⟩
    · exact same_mode_trans (a := s) (b := audio_consume lib s) ⟨rfl, rfl, rfl⟩ (ih _ _ _ h)
    · simp at h; obtain ⟨rfl, _⟩ := h
      exact ⟨rfl, rfl, rfl⟩

theorem audio_decode_stage_mode (bld : build_t) (lib : libavcodec) (fuel : Nat)
    (s s' : sout_stream_id_t) (b b' : Bool)
    (h : audio_decode_stage bld lib fuel s b = some (s', b')) : same_mode s s' := by
  unfold audio_decode_stage at h
  cases hd : s.ff_dec with
  | none =>
    simp [hd] at h
    obtain ⟨rfl, _⟩ := h
    exact ⟨rfl, rfl, rfl⟩
  | some c =>
    simp only [hd] at h
    cases hl : audio_decode_loop lib fuel s with
    | none => simp [hl] at h
    | some p =>
      obtain ⟨s2, e⟩ := p
      have hf := audio_decode_loop_mode lib fuel s s2 e hl
      cases e <;> simp [hl] at h <;> obtain ⟨rfl, _⟩ := h <;> exact hf

theorem audio_downmix_frame_mode (n : Nat) (s : sout_stream_id_t) :
    same_mode s (audio_downmix_frame n s) := by
  unfold audio_downmix_frame
  split_ifs <;> exact ⟨rfl, rfl, rfl⟩

theorem audio_after_encode_mode (lib : libavcodec) (n : Nat) (s : sout_stream_id_t) :
    same_mode s (audio_after_encode lib n s) := by
  have h := audio_downmix_frame_mode n s
  exact ⟨h.1, h.2.1, h.2.2⟩

theorem audio_emit_mode (lib : libavcodec) (n : Nat) (s : sout_stream_id_t) :
    same_mode s (audio_emit lib n s) := by
  have h := audio_after_encode_mode lib n s
  exact ⟨h.1, h.2.1, h.2.2⟩

theorem audio_encode_loop_mode (lib : libavcodec) (n : Nat) :
    ∀ (fuel : Nat) (s s' : sout_stream_id_t) (out out' : List sout_buffer_t),
      audio_encode_loop lib n fuel s out = some (s', out') → same_mode s s' := by
  intro fuel
  induction fuel with
  | zero => intro s s' out out' h; simp [audio_encode_loop] at h
  | succ k ih =>
    intro s s' out out' h
    unfold audio_encode_loop at h
    split_ifs at h with h1 h2
    · simp at h; obtain ⟨rfl, _⟩ := h
      exact same_mode_refl s
    · simp at h; obtain ⟨rfl, _⟩ := h
      exact audio_after_encode_mode lib n s
    · exact same_mode_trans (audio_emit_mode lib n s) (ih _ _ _ _ h)

theorem vorbis_packets_mode (pkts : List VorbisPacket) :
    ∀ (acc : sout_stream_id_t × List sout_buffer_t),
      same_mode acc.1 (pkts.foldl vorbis_packet_unit acc).1 := by
  induction pkts with
  | nil => intro acc; exact same_mode_refl _
  | cons p t ih =>
    intro acc
    rw [List.foldl_cons]
    exact same_mode_trans (a := acc.1) (b := (vorbis_packet_unit acc p).1) ⟨rfl, rfl, rfl⟩
      (ih _)

theorem vorbis_encode_mode (lib : libavcodec) (s : sout_stream_id_t)
    (out : List sout_buffer_t) : same_mode s (vorbis_encode lib s out).1 := by
  unfold vorbis_encode
  simp only
  exact same_mode_trans (a := s) ⟨rfl, rfl, rfl⟩ (vorbis_packets_mode _ _)

theorem audio_encode_stage_mode (bld : build_t) (lib : libavcodec) (fuel : Nat)
    (s s' : sout_stream_id_t) (out out' : List sout_buffer_t)
    (h : audio_encode_stage bld lib fuel s out = some (s', out')) : same_mode s s' := by
  unfold audio_encode_stage at h
  split_ifs at h with h1 h2 h3
  · simp at h; obtain ⟨rfl, _⟩ := h; exact same_mode_refl s
  · simp at h
    have := vorbis_encode_mode lib s out
    rw [Prod.ext_iff] at h
    have h1' : (vorbis_encode lib s out).1 = s' := h.1
    rw [← h1']; exact this
  · exact audio_encode_loop_mode lib _ fuel s s' out out' h
  · exact audio_encode_loop_mode lib _ fuel s s' out out' h

theorem audio_compact_mode (n : Nat) (s : sout_stream_id_t) :
    same_mode s (audio_compact n s) := by
  unfold audio_compact
  split_ifs <;> exact ⟨rfl, rfl, rfl⟩

/-- The audio engine keeps the mode flag, the source category and the
downstream handle. -/
theorem audio_process_mode (bld : build_t) (lib : libavcodec) (fuel : Nat)
    (s s' : sout_stream_id_t) (inb : sout_buffer_t) (st : Int) (out : List sout_buffer_t)
    (h : transcode_audio_ffmpeg_process bld lib fuel s inb = some (st, s', out)) :
    same_mode s s' := by
  obtain ⟨-, sd, s2, hd, he, rfl⟩ := process_some bld lib fuel s s' inb st out h
  exact same_mode_trans (audio_enter_mode bld s inb)
    (same_mode_trans (audio_decode_stage_mode bld lib fuel _ _ _ _ hd)
      (same_mode_trans (audio_encode_stage_mode bld lib fuel _ _ _ _ he)
        (audio_compact_mode _ _)))

theorem reg_refused_mem (l : List Event) (s : reg_t)
    (hl : l.foldl reg_step s = reg_t.refused) :
    s = reg_t.refused ∨ ∃ fmt, Event.pf_add fmt none ∈ l := by
  induction l generalizing s with
  | nil => left; exact hl
  | cons e t ih =>
    rw [List.foldl_cons] at hl
    rcases ih _ hl with h1 | ⟨fmt, hm⟩
    · cases s with
      | bad => exact absurd h1 (fun hh => reg_t.noConfusion hh)
      | refused => left; rfl
      | added k =>
        cases e with
        | pf_add => simp [reg_step] at h1
        | pf_send i c r =>
          by_cases hi : i = some k
          · simp [reg_step, hi] at h1
          · simp [reg_step, hi] at h1
        | _ => simp [reg_step] at h1
      | fresh b =>
        right
        cases e with
        | pf_add fmt r =>
          cases r with
          | none => exact ⟨fmt, List.mem_cons_self _ _⟩
          | some k => cases b <;> simp [reg_step] at h1
        | _ => simp [reg_step] at h1
    · right; exact ⟨fmt, List.mem_cons_of_mem _ hm⟩

theorem send_transcoded_trace (out : sout_out_t) (sys : sout_stream_sys_t)
    (id : sout_stream_id_t) (u : sout_buffer_t) (chain : List sout_buffer_t)
    (tr : List Event) :
    (send_transcoded out sys id u chain tr).id = id ∧
    (send_transcoded out sys id u chain tr).sys = sys ∧
    ∃ evs, (send_transcoded out sys id u chain tr).tr = tr ++ evs ∧
      ∀ e ∈ evs, is_pf_add e = false := by
  unfold send_transcoded
  by_cases hc : chain ≠ []
  · rw [if_pos hc]
    refine ⟨rfl, rfl, [_, _], rfl, ?_⟩
    intro e he
    simp only [List.mem_cons, List.mem_singleton, List.not_mem_nil, or_false] at he
    rcases he with rfl | rfl <;> rfl
  · rw [if_neg hc]
    refine ⟨rfl, rfl, [_], rfl, ?_⟩
    intro e he
    rw [List.mem_singleton] at he
    subst he; rfl

/-- A `Send` on a session that is not a video transcoding session keeps the
mode of the session and makes no `pf_add` call. -/
theorem send_not_video (out : sout_out_t) (bld : build_t) (lib : libavcodec) (fuel : Nat)
    (sys : sout_stream_sys_t) (id : sout_stream_id_t) (u : sout_buffer_t) (tr : List Event)
    (h : ¬ (id.b_transcode = true ∧ id.f_src.i_cat = VIDEO_ES)) :
    same_mode id (Send out bld lib fuel sys id u tr).id ∧
    (Send out bld lib fuel sys id u tr).sys = sys ∧
    ∃ evs, (Send out bld lib fuel sys id u tr).tr = tr ++ evs ∧
      ∀ e ∈ evs, is_pf_add e = false := by
  have hnil : ∃ evs, tr = tr ++ evs ∧ ∀ e ∈ evs, is_pf_add e = false :=
    ⟨[], (List.append_nil _).symm, fun e he => absurd he (List.not_mem_nil e)⟩
  unfold Send
  by_cases hb : id.b_transcode = true
  · have hc : ¬ id.f_src.i_cat = VIDEO_ES := fun hc => h ⟨hb, hc⟩
    rw [if_pos hb]
    by_cases ha : id.f_src.i_cat = AUDIO_ES
    · rw [if_pos ha]
      cases hp : transcode_audio_ffmpeg_process bld lib fuel id u with
      | none => exact ⟨same_mode_refl id, rfl, hnil⟩
      | some r =>
        obtain ⟨st, id1, chain⟩ := r
        have hm := audio_process_mode bld lib fuel id id1 u st chain hp
        have ht := send_transcoded_trace out sys id1 u chain tr
        simp only
        refine ⟨?_, ht.2.1, ht.2.2⟩
        rw [ht.1]; exact hm
    · rw [if_neg ha, if_neg hc]
      exact ⟨same_mode_refl id, rfl, hnil⟩
  · rw [if_neg hb]
    by_cases hi : id.id ≠ none
    · rw [if_pos hi]
      refine ⟨same_mode_refl id, rfl, [_], rfl, ?_⟩
      intro e he
      rw [List.mem_singleton] at he
      subst he; rfl
    · rw [if_neg hi]
      refine ⟨same_mode_refl id, rfl, [_], rfl, ?_⟩
      intro e he
      rw [List.mem_singleton] at he
      subst he; rfl

theorem send_all_not_video (out : sout_out_t) (bld : build_t) (lib : libavcodec) (fuel : Nat)
    (units : List sout_buffer_t) (sys : sout_stream_sys_t) (id : sout_stream_id_t)
    (tr : List Event) (h : ¬ (id.b_transcode = true ∧ id.f_src.i_cat = VIDEO_ES)) :
    same_mode id (send_all out bld lib fuel sys id tr units).id ∧
    (send_all out bld lib fuel sys id tr units).sys = sys ∧
    ∃ evs, (send_all out bld lib fuel sys id tr units).tr = tr ++ evs ∧
      ∀ e ∈ evs, is_pf_add e = false := by
  induction units generalizing id tr with
  | nil =>
    exact ⟨same_mode_refl id, rfl, [], (List.append_nil _).symm,
      fun e he => absurd he (List.not_mem_nil e)⟩
  | cons u rest ih =>
    obtain ⟨hm, hsys, evs, htr, hev⟩ := send_not_video out bld lib fuel sys id u tr h
    cases rest with
    | nil => exact ⟨hm, hsys, evs, htr, hev⟩
    | cons v rest =>
      rw [send_all]
      cases hr : (Send out bld lib fuel sys id u tr).ret with
      | none => exact ⟨hm, hsys, evs, htr, hev⟩
      | some status =>
        simp only
        have h' : ¬ ((Send out bld lib fuel sys id u tr).id.b_transcode = true ∧
            (Send out bld lib fuel sys id u tr).id.f_src.i_cat = VIDEO_ES) := by
          rw [hm.1, hm.2.1]; exact h
        obtain ⟨hm2, hsys2, evs2, htr2, hev2⟩ := ih (Send out bld lib fuel sys id u tr).id
          (Send out bld lib fuel sys id u tr).tr h'
        rw [hsys]
        refine ⟨same_mode_trans hm hm2, hsys2, evs ++ evs2, ?_, ?_⟩
        · rw [htr2, htr, List.append_assoc]
        · intro e he
          rcases List.mem_append.mp he with h1 | h1
          · exact hev e h1
          · exact hev2 e h1

theorem audio_new_encoder_open_f_src (lib : libavcodec) (id : sout_stream_id_t)
    (tr : List Event) : (audio_new_encoder_open lib id tr).2.1.f_src = id.f_src := by
  unfold audio_new_encoder_open
  split_ifs <;> rfl

theorem audio_new_encoder_f_src (lib : libavcodec) (id : sout_stream_id_t)
    (tr : List Event) : (audio_new_encoder lib id tr).2.1.f_src = id.f_src := by
  unfold audio_new_encoder
  by_cases hc : get_ff_codec lib id.f_dst.i_fourcc = CODEC_ID_NONE
  · rw [if_pos hc]
  · rw [if_neg hc]
    cases lib.avcodec_find_encoder (get_ff_codec lib id.f_dst.i_fourcc) with
    | none => rfl
    | some c => exact audio_new_encoder_open_f_src lib _ tr

theorem audio_new_f_src (bld : build_t) (lib : libavcodec) (id : sout_stream_id_t)
    (tr : List Event) : (transcode_audio_ffmpeg_new bld lib id tr).2.1.f_src = id.f_src := by
  have hd := (audio_new_decoder_formats lib id tr).1
  unfold transcode_audio_ffmpeg_new
  split_ifs
  · exact hd
  · exact hd
  · rw [audio_new_encoder_f_src]; exact hd

/-- A session that `Add` returns for a stream it does not transcode as video
is not a video transcoding session. -/
theorem add_not_video (out : sout_out_t) (bld : build_t) (lib : libavcodec)
    (sys : sout_stream_sys_t) (mem : sout_stream_id_t) (stack : AVFrame)
    (p_fmt : sout_format_t) (tr : List Event) (id : sout_stream_id_t)
    (sys1 : sout_stream_sys_t) (tr1 : List Event)
    (hnv : ¬ (p_fmt.i_cat = VIDEO_ES ∧ sys.i_vcodec ≠ 0))
    (hadd : Add out bld lib sys mem stack p_fmt tr = (some id, sys1, tr1)) :
    ¬ (id.b_transcode = true ∧ id.f_src.i_cat = VIDEO_ES) ∧ sys1 = sys := by
  unfold Add at hadd
  rw [if_neg hnv] at hadd
  by_cases ha : p_fmt.i_cat = AUDIO_ES ∧ sys.i_acodec ≠ 0
  · rw [if_pos ha] at hadd
    unfold add_audio at hadd
    have hf := audio_new_f_src bld lib (add_audio_session sys mem p_fmt) tr
    generalize transcode_audio_ffmpeg_new bld lib (add_audio_session sys mem p_fmt) tr = r
      at hadd hf
    obtain ⟨ret, id1, tr2⟩ := r
    simp only at hadd hf
    split_ifs at hadd with h1 h2
    · simp at hadd
    · simp at hadd
    · simp only [Prod.mk.injEq, Option.some.injEq] at hadd
      obtain ⟨hid, hsys, -⟩ := hadd
      subst hid
      refine ⟨?_, hsys.symm⟩
      intro ⟨_, hc⟩
      have hc' : id1.f_src.i_cat = VIDEO_ES := hc
      rw [hf] at hc'
      have : p_fmt.i_cat = VIDEO_ES := hc'
      rw [ha.1] at this
      exact absurd this (by decide)
  · rw [if_neg ha] at hadd
    unfold add_passthrough at hadd
    split_ifs at hadd with h1
    · simp at hadd
    · simp only [Prod.mk.injEq, Option.some.injEq] at hadd
      obtain ⟨hid, hsys, -⟩ := hadd
      subst hid
      exact ⟨fun h => Bool.noConfusion h.1, hsys.symm⟩

/-- C12, as amended: for every session that `Add` returns and every
sequence of `Send` calls on it, the mode flag `b_transcode` keeps the value
`Add` gave it as long as no `pf_add` made by those calls returned `NULL`; a
`pf_add` returning `NULL` occurs only on a video transcoding session, and
clears the flag. -/
theorem mode_flag (out : sout_out_t) (bld : build_t) (lib : libavcodec)
    (sys : sout_stream_sys_t) (mem : sout_stream_id_t) (stack : AVFrame)
    (p_fmt : sout_format_t) (tr : List Event) (id : sout_stream_id_t)
    (sys1 : sout_stream_sys_t) (tr1 : List Event) (fuel : Nat) (units : List sout_buffer_t)
    (hadd : Add out bld lib sys mem stack p_fmt tr = (some id, sys1, tr1)) :
    ∃ evs, (send_all out bld lib fuel sys1 id tr1 units).tr = tr1 ++ evs ∧
      ((∃ fmt, Event.pf_add fmt none ∈ evs) →
        id.b_transcode = true ∧ id.f_src.i_cat = VIDEO_ES ∧
        (send_all out bld lib fuel sys1 id tr1 units).id.b_transcode = false) ∧
      ((∀ fmt, Event.pf_add fmt none ∉ evs) →
        (send_all out bld lib fuel sys1 id tr1 units).id.b_transcode = id.b_transcode) := by
  by_cases hv : p_fmt.i_cat = VIDEO_ES ∧ sys.i_vcodec ≠ 0
  · obtain ⟨hinv, -, -⟩ := add_video_reg out bld lib sys mem stack p_fmt tr id sys1 tr1
      hv.1 hv.2 hadd
    obtain ⟨evs, htr, hinv2⟩ := send_all_reg out bld lib fuel units sys1 id tr1 _ hinv
    have hne : evs.foldl reg_step (reg_t.fresh false) ≠ reg_t.bad := by
      intro hb; rw [hb] at hinv2; exact hinv2
    refine ⟨evs, htr, ?_, ?_⟩
    · intro ⟨fmt, hm⟩
      rw [reg_refused_of_mem evs _ fmt hne hm] at hinv2
      exact ⟨hinv.1, hinv.2.1, hinv2.1⟩
    · intro hno
      rw [hinv.1]
      cases hs : evs.foldl reg_step (reg_t.fresh false) with
      | fresh b => rw [hs] at hinv2; exact hinv2.1
      | added k => rw [hs] at hinv2; exact hinv2.1
      | bad => exact absurd hs hne
      | refused =>
        rcases reg_refused_mem evs _ hs with h1 | ⟨fmt, hm⟩
        · exact reg_t.noConfusion h1
        · exact absurd hm (hno fmt)
  · obtain ⟨hnv, hsys⟩ := add_not_video out bld lib sys mem stack p_fmt tr id sys1 tr1 hv hadd
    obtain ⟨hm, -, evs, htr, hev⟩ := send_all_not_video out bld lib fuel units sys1 id tr1 hnv
    refine ⟨evs, htr, ?_, fun _ => hm.1⟩
    intro ⟨fmt, hmem⟩
    exact Bool.noConfusion (hev _ hmem)

/-- C12 as stated fails: on the video session of Scenario B with a chain
that refuses the stream, `Add` gives `b_transcode` the value true and one
`Send` leaves it false. -/
theorem mode_flag_cleared :
    Add out_refuse bld_le lib_video sys_mp4v id_zero frame_zero fmt_i420 [] =
      (some (id_i420 sys_mp4v), sys_mp4v, []) ∧
    (id_i420 sys_mp4v).b_transcode = true ∧
    (send_all out_refuse bld_le lib_video 1 sys_mp4v (id_i420 sys_mp4v) []
      [unit_i420]).id.b_transcode = false ∧
    (send_all out_refuse bld_le lib_video 1 sys_mp4v (id_i420 sys_mp4v) []
      [unit_i420]).id.b_transcode ≠ (id_i420 sys_mp4v).b_transcode := by
  have h : (send_all out_refuse bld_le lib_video 1 sys_mp4v (id_i420 sys_mp4v) []
      [unit_i420]).id.b_transcode = false := by
    rw [send_all, scenario_refuse_send]
    rfl
  refine ⟨rfl, rfl, h, ?_⟩
  rw [h]
  exact fun hh => Bool.noConfusion hh

theorem mode_flag_witness :
    Add out_refuse bld_le lib_video sys_mp4v id_zero frame_zero fmt_i420 [] =
      (some (id_i420 sys_mp4v), sys_mp4v, []) ∧
    Event.pf_add fmt_b none ∈
      (send_all out_refuse bld_le lib_video 1 sys_mp4v (id_i420 sys_mp4v) [] [unit_i420]).tr ∧
    (id_i420 sys_mp4v).b_transcode = true ∧
    (send_all out_refuse bld_le lib_video 1 sys_mp4v (id_i420 sys_mp4v) []
      [unit_i420]).id.b_transcode = false ∧
    (send_all out_ok bld_le lib_video 1 sys_mp4v (id_i420 sys_mp4v) []
      [unit_i420]).id.b_transcode = true := by
  have hmem : Event.pf_add fmt_b none ∈
      (send_all out_refuse bld_le lib_video 1 sys_mp4v (id_i420 sys_mp4v) []
        [unit_i420]).tr := by
    rw [send_all, scenario_refuse_send]
    exact List.mem_cons_of_mem _ (List.mem_cons_of_mem _ (List.mem_cons_self _ _))
  obtain ⟨evs, htr, h1, -⟩ := mode_flag out_refuse bld_le lib_video sys_mp4v id_zero frame_zero
    fmt_i420 [] (id_i420 sys_mp4v) sys_mp4v [] 1 [unit_i420] rfl
  obtain ⟨evs2, htr2, -, h2⟩ := mode_flag out_ok bld_le lib_video sys_mp4v id_zero frame_zero
    fmt_i420 [] (id_i420 sys_mp4v) sys_mp4v [] 1 [unit_i420] rfl
  rw [List.nil_append] at htr htr2
  have hno : ∀ fmt, Event.pf_add fmt none ∉ evs2 := by
    intro fmt hm
    rw [← htr2, scenario_b_trace] at hm
    simp [trace_b] at hm
  rw [htr] at hmem
  exact ⟨rfl, by rw [htr]; exact hmem, rfl, (h1 ⟨fmt_b, hmem⟩).2.2, (h2 hno).trans rfl⟩

/-! ## Timestamps of the coded pictures -/

/-- C13: lines 1541-1579.  When the encoder returns a positive size and the
pts of its coded frame is neither 0 nor the marker `i_buggy_pts_detect`, one
unit is chained to `*out`; its `i_pts` is the coded pts and its `i_length` the
input unit's, and the marker becomes the coded pts.  When the encoder's
`delay` is 0 or the coded picture is neither an I nor a P picture, `i_dts` is
`i_pts` and `i_last_ref_pts` is kept; otherwise `i_dts` is the previous
`i_last_ref_pts` when that is not 0 and `i_pts` when it is 0, and
`i_last_ref_pts` becomes `i_pts`. -/
theorem coded_pts_timing (lib : libavcodec) (inb : sout_buffer_t) (st : video_state_t)
    (hout : 0 < (video_encode_call lib st).i_out)
    (hpts : (video_encode_call lib st).coded_frame.pts ≠ 0)
    (hnew : st.sys.i_buggy_pts_detect ≠ (video_encode_call lib st).coded_frame.pts) :
    (video_encode lib inb st).out = st.out ++ [video_unit lib inb st] ∧
    (video_unit lib inb st).i_pts = (video_encode_call lib st).coded_frame.pts ∧
    (video_unit lib inb st).i_length = inb.i_length ∧
    (video_encode lib inb st).sys.i_buggy_pts_detect =
      (video_encode_call lib st).coded_frame.pts ∧
    ((st.id.ff_enc_c.delay = 0 ∨
        ((video_encode_call lib st).coded_frame.pict_type ≠ lib.FF_I_TYPE ∧
         (video_encode_call lib st).coded_frame.pict_type ≠ lib.FF_P_TYPE)) →
      (video_unit lib inb st).i_dts = (video_unit lib inb st).i_pts ∧
      (video_encode lib inb st).sys.i_last_ref_pts = st.sys.i_last_ref_pts) ∧
    (¬ (st.id.ff_enc_c.delay = 0 ∨
        ((video_encode_call lib st).coded_frame.pict_type ≠ lib.FF_I_TYPE ∧
         (video_encode_call lib st).coded_frame.pict_type ≠ lib.FF_P_TYPE)) →
      (st.sys.i_last_ref_pts ≠ 0 → (video_unit lib inb st).i_dts = st.sys.i_last_ref_pts) ∧
      (st.sys.i_last_ref_pts = 0 →
        (video_unit lib inb st).i_dts = (video_unit lib inb st).i_pts) ∧
      (video_encode lib inb st).sys.i_last_ref_pts = (video_unit lib inb st).i_pts) := by
  have hc : (video_encode_call lib st).coded_frame.pts ≠ 0 ∧
      st.sys.i_buggy_pts_detect ≠ (video_encode_call lib st).coded_frame.pts := ⟨hpts, hnew⟩
  have hgt : (video_encode_call lib st).i_out > 0 := hout
  have hsys : (video_encode lib inb st).sys = video_unit_sys lib st := by
    unfold video_encode; simp only; rw [if_pos hgt]
  have hchain : (video_encode lib inb st).out = st.out ++ [video_unit lib inb st] := by
    unfold video_encode; simp only; rw [if_pos hgt]
  have hu : video_unit lib inb st =
      { p_buffer := (video_encode_call lib st).p_buffer.take (video_encode_call lib st).i_out.toNat
        i_length := inb.i_length
        i_pts := (video_encode_call lib st).coded_frame.pts
        i_dts := if st.id.ff_enc_c.delay = 0 ∨
                    ((video_encode_call lib st).coded_frame.pict_type ≠ lib.FF_I_TYPE ∧
                     (video_encode_call lib st).coded_frame.pict_type ≠ lib.FF_P_TYPE)
                 then (video_encode_call lib st).coded_frame.pts
                 else if st.sys.i_last_ref_pts ≠ 0 then st.sys.i_last_ref_pts
                 else (video_encode_call lib st).coded_frame.pts } := by
    unfold video_unit; simp only; rw [if_pos hc]
  have hs : video_unit_sys lib st =
      if st.id.ff_enc_c.delay = 0 ∨
         ((video_encode_call lib st).coded_frame.pict_type ≠ lib.FF_I_TYPE ∧
          (video_encode_call lib st).coded_frame.pict_type ≠ lib.FF_P_TYPE) then
        { st.sys with i_buggy_pts_detect := (video_encode_call lib st).coded_frame.pts }
      else
        { st.sys with
          i_buggy_pts_detect := (video_encode_call lib st).coded_frame.pts
          i_last_ref_pts := (video_encode_call lib st).coded_frame.pts } := by
    unfold video_unit_sys; simp only; rw [if_pos hc]
  rw [hsys, hs, hu]
  refine ⟨by rw [hchain, hu], rfl, rfl, ?_, ?_, ?_⟩
  · split_ifs <;> rfl
  · intro hd
    rw [if_pos hd, if_pos hd]
    exact ⟨rfl, rfl⟩
  · intro hd
    rw [if_neg hd, if_neg hd]
    refine ⟨fun h => ?_, fun h => ?_, rfl⟩
    · show (if st.sys.i_last_ref_pts ≠ 0 then st.sys.i_last_ref_pts
        else (video_encode_call lib st).coded_frame.pts) = _
      rw [if_pos h]
    · show (if st.sys.i_last_ref_pts ≠ 0 then st.sys.i_last_ref_pts
        else (video_encode_call lib st).coded_frame.pts) = _
      rw [if_neg (by rw [h]; exact fun hh => hh rfl)]


theorem coded_pts_timing_witness :
    (video_encode_call lib_coded (st_coded 0 0)).coded_frame.pts = 90000 ∧
    (video_encode lib_coded unit_small (st_coded 0 0)).out =
      [{ p_buffer := [7], i_dts := 90000, i_pts := 90000, i_length := 40000 }] ∧
    (video_encode lib_coded unit_small (st_coded 0 0)).sys.i_buggy_pts_detect = 90000 ∧
    (video_encode lib_coded unit_small (st_coded 0 0)).sys.i_last_ref_pts = 0 ∧
    (video_encode lib_coded unit_small (st_coded 1 30000)).out =
      [{ p_buffer := [7], i_dts := 30000, i_pts := 90000, i_length := 40000 }] ∧
    (video_encode lib_coded unit_small (st_coded 1 30000)).sys.i_last_ref_pts = 90000 ∧
    (video_encode lib_coded unit_small (st_coded 1 0)).out =
      [{ p_buffer := [7], i_dts := 90000, i_pts := 90000, i_length := 40000 }] ∧
    (video_encode lib_coded unit_small (st_coded 1 0)).sys.i_last_ref_pts = 90000 :=
  have h0 := coded_pts_timing lib_coded unit_small (st_coded 0 0) (by decide) (by decide)
    (by decide)
  have h1 := coded_pts_timing lib_coded unit_small (st_coded 1 30000) (by decide) (by decide)
    (by decide)
  have h2 := coded_pts_timing lib_coded unit_small (st_coded 1 0) (by decide) (by decide)
    (by decide)
  ⟨rfl, h0.1.trans rfl, h0.2.2.2.1.trans rfl, ((h0.2.2.2.2.1 (Or.inl rfl)).2).trans rfl,
   h1.1.trans rfl, ((h1.2.2.2.2.2 (by decide)).2.2).trans rfl,
   h2.1.trans rfl, ((h2.2.2.2.2.2 (by decide)).2.2).trans rfl⟩

/-- C14, as amended: lines 1580-1587.  When the encoder returns a positive
size and the pts of its coded frame is 0 or equal to the marker
`i_buggy_pts_detect`, one unit is chained to `*out`; its `i_dts` and its
`i_pts` are both the input unit's `i_dts`, its `i_length` is the input
unit's, and the timing fields of the pipeline are left as they were. -/
theorem fallback_timing (lib : libavcodec) (inb : sout_buffer_t) (st : video_state_t)
    (hout : 0 < (video_encode_call lib st).i_out)
    (hold : (video_encode_call lib st).coded_frame.pts = 0 ∨
      st.sys.i_buggy_pts_detect = (video_encode_call lib st).coded_frame.pts) :
    (video_encode lib inb st).out = st.out ++ [video_unit lib inb st] ∧
    (video_unit lib inb st).i_dts = inb.i_dts ∧
    (video_unit lib inb st).i_pts = inb.i_dts ∧
    (video_unit lib inb st).i_length = inb.i_length ∧
    (video_encode lib inb st).sys = st.sys := by
  have hc : ¬ ((video_encode_call lib st).coded_frame.pts ≠ 0 ∧
      st.sys.i_buggy_pts_detect ≠ (video_encode_call lib st).coded_frame.pts) := by
    intro ⟨h1, h2⟩
    rcases hold with h | h
    · exact h1 h
    · exact h2 h
  have hgt : (video_encode_call lib st).i_out > 0 := hout
  have hu : video_unit lib inb st =
      { p_buffer := (video_encode_call lib st).p_buffer.take (video_encode_call lib st).i_out.toNat
        i_length := inb.i_length
        i_dts := inb.i_dts
        i_pts := inb.i_dts } := by
    unfold video_unit; simp only; rw [if_neg hc]
  have hs : video_unit_sys lib st = st.sys := by
    unfold video_unit_sys; simp only; rw [if_neg hc]
  refine ⟨?_, by rw [hu], by rw [hu], by rw [hu], ?_⟩
  · unfold video_encode; simp only; rw [if_pos hgt]
  · unfold video_encode; simp only; rw [if_pos hgt, hs]

/-- C14 as stated fails: for an input unit with `i_pts` 80000 and `i_dts`
40000 and an encoder that leaves the coded pts at 0, the unit that
`transcode_video_ffmpeg_process` produces has `i_pts` 40000, not the input
unit's `i_pts`. -/
theorem fallback_pts_is_input_dts :
    0 < (video_encode_call lib_video st_small_enc).i_out ∧
    (video_encode_call lib_video st_small_enc).coded_frame.pts = 0 ∧
    (transcode_video_ffmpeg_process lib_video out_ok 1 sys_mp4v (id_small lib_video)
      unit_small []).out = [video_unit lib_video unit_small st_small_enc] ∧
    unit_small.i_pts = 80000 ∧
    (video_unit lib_video unit_small st_small_enc).i_pts = 40000 ∧
    (video_unit lib_video unit_small st_small_enc).i_pts ≠ unit_small.i_pts :=
  ⟨by decide, rfl, rfl, rfl, rfl, by decide⟩

theorem fallback_timing_witness :
    (video_encode lib_video unit_small st_small_enc).out =
      [{ p_buffer := [7], i_dts := 40000, i_pts := 40000, i_length := 40000 }] ∧
    (video_unit lib_video unit_small st_small_enc).i_dts = unit_small.i_dts ∧
    (video_unit lib_video unit_small st_small_enc).i_pts = unit_small.i_dts ∧
    (video_unit lib_video unit_small st_small_enc).i_length = unit_small.i_length :=
  have h := fallback_timing lib_video unit_small st_small_enc (by decide) (Or.inl rfl)
  ⟨h.1.trans rfl, h.2.1, h.2.2.1, h.2.2.2.1⟩

/-! ## Two video sessions on one pipeline -/

/-- C15 fails on the code: two video sessions A and B are added on one
pipeline (both `Add` calls return the session `id_small lib_coded` and leave
the pipeline state `sys_mp4v`), with an encoder whose answer depends on
nothing but the context and the picture it is given.  Served alone, A's unit
leaves with pts and dts 50000.  When B is served first, B's `Send` leaves the
marker `i_buggy_pts_detect` of the shared pipeline state at 50000, and the
same `Send` on A produces a unit with pts and dts 40000. -/
theorem cross_session_interference :
    Add out_count bld_le lib_coded sys_mp4v id_zero frame_zero fmt_i420_small [] =
      (some (id_small lib_coded), sys_mp4v, []) ∧
    send_a_alone.tr.getLast? =
      some (Event.pf_send (some 1)
        [{ p_buffer := [7], i_dts := 50000, i_pts := 50000, i_length := 40000 }] VLC_SUCCESS) ∧
    send_b_first.sys.i_buggy_pts_detect = 50000 ∧
    send_a_after_b.tr.getLast? =
      some (Event.pf_send (some 2)
        [{ p_buffer := [7], i_dts := 40000, i_pts := 40000, i_length := 40000 }] VLC_SUCCESS) ∧
    ([{ p_buffer := [7], i_dts := 50000, i_pts := 50000, i_length := 40000 }] :
        List sout_buffer_t) ≠
      [{ p_buffer := [7], i_dts := 40000, i_pts := 40000, i_length := 40000 }] :=
  ⟨rfl, rfl, rfl, rfl, by decide⟩

/-! ## The status of `Send` -/

/-- C16 fails on the code: on the first picture of a video session, when the
`avcodec_open` of the encoder fails, and when the downstream `pf_add` returns
`NULL`, `transcode_video_ffmpeg_process` returns `VLC_EGENERIC` and the `Send`
that carried the unit returns `VLC_SUCCESS`. -/
theorem send_swallows_engine_error :
    Add out_ok bld_le lib_noopen sys_mp4v id_zero frame_zero fmt_i420_small [] =
      (some (id_small lib_noopen), sys_mp4v, []) ∧
    (transcode_video_ffmpeg_process lib_noopen out_ok 1 sys_mp4v (id_small lib_noopen)
      unit_small []).ret = some VLC_EGENERIC ∧
    (Send out_ok bld_le lib_noopen 1 sys_mp4v (id_small lib_noopen) unit_small []).ret =
      some VLC_SUCCESS ∧
    (transcode_video_ffmpeg_process lib_video out_refuse 1 sys_mp4v (id_small lib_video)
      unit_small []).ret = some VLC_EGENERIC ∧
    (Send out_refuse bld_le lib_video 1 sys_mp4v (id_small lib_video) unit_small []).ret =
      some VLC_SUCCESS ∧
    VLC_EGENERIC ≠ VLC_SUCCESS :=
  ⟨rfl, rfl, rfl, rfl, rfl, by decide⟩

/-! ## The codec registry -/

/-- The loop of `get_ff_codec` as a search: the first entry before the zero
terminator whose `i_fcc` is the one asked for. -/
theorem get_ff_codec_loop_find (l : List (Nat × CodecID)) (x : Nat) :
    get_ff_codec_loop l x =
      match (l.takeWhile (fun e => decide (e.1 ≠ 0))).find? (fun e => decide (e.1 = x)) with
      | some e => e.2
      | none => CODEC_ID_NONE := by
  induction l with
  | nil => rfl
  | cons e t ih =>
    unfold get_ff_codec_loop
    by_cases h0 : e.1 = 0
    · rw [if_pos h0, List.takeWhile_cons_of_neg (by simp [h0])]
      rfl
    · rw [if_neg h0, List.takeWhile_cons_of_pos (by simp [h0])]
      by_cases hx : e.1 = x
      · rw [if_pos hx, List.find?_cons_of_pos _ (by simp [hx])]
      · rw [if_neg hx, List.find?_cons_of_neg _ (by simp [hx])]
        exact ih

theorem fourcc_table_codecs (lib : libavcodec) :
    ∀ e ∈ (fourcc_to_ff_code lib).takeWhile (fun e => decide (e.1 ≠ 0)),
      e.2 ≠ CODEC_ID_NONE := by
  unfold fourcc_to_ff_code
  by_cases h1 : lib.LIBAVCODEC_BUILD ≥ 4676 <;> by_cases h2 : lib.LIBAVCODEC_BUILD ≥ 4666
  · rw [if_pos h1, if_pos h2]; decide
  · rw [if_pos h1, if_neg h2]; decide
  · rw [if_neg h1, if_pos h2]; decide
  · rw [if_neg h1, if_neg h2]; decide

/-- C17: for every fourcc `x`, `get_ff_codec` returns the codec of the first
entry of `fourcc_to_ff_code`, among those before the zero terminator, whose
`i_fcc` is `x`, and `CODEC_ID_NONE` (the value 0) when there is none; it
returns `CODEC_ID_NONE` exactly when no entry before the terminator has
`i_fcc = x`; `get_ff_codec 0` is `CODEC_ID_NONE`; and the result depends on
`x` alone (the table is fixed by the build constant `LIBAVCODEC_BUILD`). -/
theorem get_ff_codec_spec (lib : libavcodec) (x : Nat) :
    get_ff_codec lib x =
      (match ((fourcc_to_ff_code lib).takeWhile (fun e => decide (e.1 ≠ 0))).find?
          (fun e => decide (e.1 = x)) with
       | some e => e.2
       | none => CODEC_ID_NONE) ∧
    (get_ff_codec lib x = CODEC_ID_NONE ↔
      ∀ e ∈ (fourcc_to_ff_code lib).takeWhile (fun e => decide (e.1 ≠ 0)), e.1 ≠ x) ∧
    get_ff_codec lib 0 = CODEC_ID_NONE ∧
    (∀ lib' : libavcodec, lib'.LIBAVCODEC_BUILD = lib.LIBAVCODEC_BUILD →
      get_ff_codec lib' x = get_ff_codec lib x) := by
  have hfind := get_ff_codec_loop_find (fourcc_to_ff_code lib)
  have hcod := fourcc_table_codecs lib
  have hiff : ∀ y, get_ff_codec lib y = CODEC_ID_NONE ↔
      ∀ e ∈ (fourcc_to_ff_code lib).takeWhile (fun e => decide (e.1 ≠ 0)), e.1 ≠ y := by
    intro y
    unfold get_ff_codec
    rw [hfind y]
    cases hf : ((fourcc_to_ff_code lib).takeWhile (fun e => decide (e.1 ≠ 0))).find?
        (fun e => decide (e.1 = y)) with
    | none =>
      refine ⟨fun _ e he hey => ?_, fun _ => rfl⟩
      have := List.find?_eq_none.mp hf e he
      simp [hey] at this
    | some e =>
      have hmem := List.mem_of_find?_eq_some hf
      have hy : e.1 = y := by simpa using List.find?_some hf
      refine ⟨fun h => absurd h (hcod e hmem), fun h => absurd hy (h e hmem)⟩
  refine ⟨hfind x, hiff x, ?_, ?_⟩
  · rw [hiff 0]
    intro e he
    have := List.mem_takeWhile_imp he
    simpa using this
  · intro lib' hb
    unfold get_ff_codec fourcc_to_ff_code
    rw [hb]

theorem get_ff_codec_spec_witness :
    get_ff_codec lib_zero (VLC_FOURCC 'm' 'p' '4' 'v') = CODEC_ID_MPEG4 ∧
    get_ff_codec lib_zero (VLC_FOURCC 'a' 'c' '3' ' ') = CODEC_ID_AC3 ∧
    get_ff_codec lib_zero (VLC_FOURCC 'X' 'X' 'X' 'X') = CODEC_ID_NONE ∧
    get_ff_codec lib_zero 0 = CODEC_ID_NONE ∧
    get_ff_codec lib_video (VLC_FOURCC 'm' 'p' '2' 'v') =
      get_ff_codec lib_zero (VLC_FOURCC 'm' 'p' '2' 'v') :=
  ⟨(get_ff_codec_spec lib_zero (VLC_FOURCC 'm' 'p' '4' 'v')).1.trans (by decide),
   (get_ff_codec_spec lib_zero (VLC_FOURCC 'a' 'c' '3' ' ')).1.trans (by decide),
   (get_ff_codec_spec lib_zero (VLC_FOURCC 'X' 'X' 'X' 'X')).2.1.mpr (by decide),
   (get_ff_codec_spec lib_zero 0).2.2.1,
   (get_ff_codec_spec lib_zero (VLC_FOURCC 'm' 'p' '2' 'v')).2.2.2 lib_video rfl⟩

/-- Lines 507-510: `Send` on a session that is not transcoded and has a
downstream handle hands the unit to `pf_send` and returns its status. -/
theorem send_passthrough (out : sout_out_t) (bld : build_t) (lib : libavcodec) (fuel : Nat)
    (sys : sout_stream_sys_t) (id : sout_stream_id_t) (u : sout_buffer_t) (tr : List Event)
    (hb : id.b_transcode = false) (hid : id.id ≠ none) :
    Send out bld lib fuel sys id u tr =
      { ret := some (out.pf_send tr id.id [u]), id := id, sys := sys
        tr := tr ++ [Event.pf_send id.id [u] (out.pf_send tr id.id [u])] } := by
  unfold Send
  rw [if_neg (by rw [hb]; decide), if_pos hid]

/-- A sequence of `Send` calls on a session that is not transcoded makes the
calls of `passthrough_calls` and ends with the status of the last one. -/
theorem send_all_passthrough (out : sout_out_t) (bld : build_t) (lib : libavcodec) (fuel : Nat)
    (id : sout_stream_id_t) (hb : id.b_transcode = false) (hid : id.id ≠ none)
    (units : List sout_buffer_t) :
    ∀ (sys : sout_stream_sys_t) (tr : List Event),
      send_all out bld lib fuel sys id tr units =
        { ret := some (passthrough_status out id.id tr units), id := id, sys := sys
          tr := passthrough_calls out id.id tr units } := by
  induction units with
  | nil => intro sys tr; rfl
  | cons u rest ih =>
    intro sys tr
    cases rest with
    | nil =>
      show Send out bld lib fuel sys id u tr = _
      rw [send_passthrough out bld lib fuel sys id u tr hb hid]
      rfl
    | cons v rest =>
      have hs := send_passthrough out bld lib fuel sys id u tr hb hid
      have h1 : send_all out bld lib fuel sys id tr (u :: v :: rest) =
          send_all out bld lib fuel (Send out bld lib fuel sys id u tr).sys
            (Send out bld lib fuel sys id u tr).id (Send out bld lib fuel sys id u tr).tr
            (v :: rest) := by
        rw [send_all, hs]
      rw [h1, hs]
      exact ih sys _

/-- The calls of `passthrough_calls` are the calls made before followed by
one `pf_send` per unit, in order, each with that unit alone. -/
theorem passthrough_calls_shape (out : sout_out_t) (h : Option Nat)
    (units : List sout_buffer_t) :
    ∀ tr : List Event, ∃ rets : List Int, rets.length = units.length ∧
      passthrough_calls out h tr units =
        tr ++ List.zipWith (fun u r => Event.pf_send h [u] r) units rets := by
  induction units with
  | nil => intro tr; exact ⟨[], rfl, by simp [passthrough_calls]⟩
  | cons u rest ih =>
    intro tr
    obtain ⟨rets, hl, he⟩ := ih (tr ++ [Event.pf_send h [u] (out.pf_send tr h [u])])
    refine ⟨out.pf_send tr h [u] :: rets, by simp [hl], ?_⟩
    rw [passthrough_calls, he]
    simp

/-- C20: for a stream that `Add` does not transcode (neither audio with an
audio codec configured nor video with a video codec configured), `Add` makes
one call, the downstream `pf_add` with the source format as it came, and
returns `NULL` exactly when that call returns `NULL`.  The session it returns
is not transcoding and holds the downstream handle; every `Send` on it makes
one call, the downstream `pf_send` with that unit alone and unchanged, and
returns its status, leaving session and pipeline state as they were; so a
sequence of `Send` calls adds one `pf_send` per unit to the calls made, in
order, and no decoder or encoder call. -/
theorem passthrough (out : sout_out_t) (bld : build_t) (lib : libavcodec)
    (sys : sout_stream_sys_t) (mem : sout_stream_id_t) (stack : AVFrame)
    (p_fmt : sout_format_t) (tr : List Event)
    (ha : ¬ (p_fmt.i_cat = AUDIO_ES ∧ sys.i_acodec ≠ 0))
    (hv : ¬ (p_fmt.i_cat = VIDEO_ES ∧ sys.i_vcodec ≠ 0)) :
    (Add out bld lib sys mem stack p_fmt tr).2.2 =
      tr ++ [Event.pf_add p_fmt (out.pf_add tr p_fmt)] ∧
    (Add out bld lib sys mem stack p_fmt tr).2.1 = sys ∧
    ((Add out bld lib sys mem stack p_fmt tr).1 = none ↔ out.pf_add tr p_fmt = none) ∧
    ∀ id : sout_stream_id_t, (Add out bld lib sys mem stack p_fmt tr).1 = some id →
      id.b_transcode = false ∧ id.id = out.pf_add tr p_fmt ∧
      (∀ (fuel : Nat) (sys1 : sout_stream_sys_t) (u : sout_buffer_t) (tr1 : List Event),
        Send out bld lib fuel sys1 id u tr1 =
          { ret := some (out.pf_send tr1 id.id [u]), id := id, sys := sys1
            tr := tr1 ++ [Event.pf_send id.id [u] (out.pf_send tr1 id.id [u])] }) ∧
      (∀ (fuel : Nat) (sys1 : sout_stream_sys_t) (tr1 : List Event)
          (units : List sout_buffer_t),
        send_all out bld lib fuel sys1 id tr1 units =
          { ret := some (passthrough_status out id.id tr1 units), id := id, sys := sys1
            tr := passthrough_calls out id.id tr1 units } ∧
        ∃ rets : List Int, rets.length = units.length ∧
          passthrough_calls out id.id tr1 units =
            tr1 ++ List.zipWith (fun u r => Event.pf_send id.id [u] r) units rets) := by
  have hadd : Add out bld lib sys mem stack p_fmt tr = add_passthrough out sys mem p_fmt tr := by
    unfold Add
    rw [if_neg ha, if_neg hv]
  rw [hadd]
  refine ⟨rfl, rfl, ?_, ?_⟩
  · unfold add_passthrough
    by_cases h : out.pf_add tr p_fmt = none
    · simp only [h, if_true]
    · simp only [h, if_false]
      exact ⟨fun h1 => Option.noConfusion h1, fun h1 => False.elim h1⟩
  · intro id hid
    unfold add_passthrough at hid
    by_cases h : out.pf_add tr p_fmt = none
    · simp only [h, if_true] at hid
      exact Option.noConfusion hid
    · simp only [h, if_false, Option.some.injEq] at hid
      have hb : id.b_transcode = false := by rw [← hid]
      have hi : id.id = out.pf_add tr p_fmt := by rw [← hid]
      have hn : id.id ≠ none := by rw [hi]; exact h
      refine ⟨hb, hi, ?_, ?_⟩
      · intro fuel sys1 u tr1
        exact send_passthrough out bld lib fuel sys1 id u tr1 hb hn
      · intro fuel sys1 tr1 units
        exact ⟨send_all_passthrough out bld lib fuel id hb hn units sys1 tr1,
          passthrough_calls_shape out id.id units tr1⟩

/-- C20 on a six-channel PCM stream when only a video codec is configured:
`Add` registers the PCM format itself, and two `Send` calls hand the two
units downstream, the second returning the failure of `pf_send`; on a chain
that refuses the stream `Add` returns `NULL`. -/
theorem passthrough_witness :
    Add out_once bld_le lib_zero sys_mp4v id_zero frame_zero fmt_pcm_6ch [] =
      (some id_pass, sys_mp4v, [Event.pf_add fmt_pcm_6ch (some 1)]) ∧
    Send out_once bld_le lib_zero 0 sys_mp4v id_pass unit_small
        [Event.pf_add fmt_pcm_6ch (some 1)] =
      { ret := some VLC_SUCCESS, id := id_pass, sys := sys_mp4v
        tr := [Event.pf_add fmt_pcm_6ch (some 1),
               Event.pf_send (some 1) [unit_small] VLC_SUCCESS] } ∧
    send_all out_once bld_le lib_zero 0 sys_mp4v id_pass [Event.pf_add fmt_pcm_6ch (some 1)]
        [unit_small, { unit_small with i_dts := 80000, i_pts := 120000 }] =
      { ret := some VLC_EGENERIC, id := id_pass, sys := sys_mp4v
        tr := [Event.pf_add fmt_pcm_6ch (some 1),
               Event.pf_send (some 1) [unit_small] VLC_SUCCESS,
               Event.pf_send (some 1) [{ unit_small with i_dts := 80000, i_pts := 120000 }]
                 VLC_EGENERIC] } ∧
    (Add out_refuse bld_le lib_zero sys_mp4v id_zero frame_zero fmt_pcm_6ch []).1 = none := by
  have ha : ¬ (fmt_pcm_6ch.i_cat = AUDIO_ES ∧ sys_mp4v.i_acodec ≠ 0) := by decide
  have hv : ¬ (fmt_pcm_6ch.i_cat = VIDEO_ES ∧ sys_mp4v.i_vcodec ≠ 0) := by decide
  have h := passthrough out_once bld_le lib_zero sys_mp4v id_zero frame_zero fmt_pcm_6ch [] ha hv
  have hr := passthrough out_refuse bld_le lib_zero sys_mp4v id_zero frame_zero fmt_pcm_6ch []
    ha hv
  have hadd : Add out_once bld_le lib_zero sys_mp4v id_zero frame_zero fmt_pcm_6ch [] =
      (some id_pass, sys_mp4v, [Event.pf_add fmt_pcm_6ch (some 1)]) := by decide
  have hid : (Add out_once bld_le lib_zero sys_mp4v id_zero frame_zero fmt_pcm_6ch []).1 =
      some id_pass := by rw [hadd]
  obtain ⟨-, -, hsend, hall⟩ := h.2.2.2 id_pass hid
  refine ⟨hadd, (hsend 0 sys_mp4v unit_small _).trans ?_, ((hall 0 sys_mp4v _ _).1).trans ?_,
    hr.2.2.1.mpr rfl⟩
  · rfl
  · rfl

/-! ## The stages between decoder and encoder -/

/-- The resize stage runs exactly when the test of lines 1488-1491 holds: the
widths or the heights differ, or the top, bottom or left margin is positive,
or the right margin is not zero. -/
theorem video_resize_applied (lib : libavcodec) (st : video_state_t)
    (hf : st.frame ≠ FrameSlot.p_ff_pic_tmp2) :
    (video_resize lib st).frame = FrameSlot.p_ff_pic_tmp2 ↔
      (st.id.ff_dec_c.width ≠ st.id.ff_enc_c.width ∨
       st.id.ff_dec_c.height ≠ st.id.ff_enc_c.height ∨
       st.sys.i_crop_top > 0 ∨ st.sys.i_crop_bottom > 0 ∨
       st.sys.i_crop_left > 0 ∨ st.sys.i_crop_right ≠ 0) := by
  by_cases h : st.id.ff_dec_c.width ≠ st.id.ff_enc_c.width ∨
       st.id.ff_dec_c.height ≠ st.id.ff_enc_c.height ∨
       st.sys.i_crop_top > 0 ∨ st.sys.i_crop_bottom > 0 ∨
       st.sys.i_crop_left > 0 ∨ st.sys.i_crop_right ≠ 0
  · have e : (video_resize lib st).frame = FrameSlot.p_ff_pic_tmp2 := by
      unfold video_resize
      rw [if_pos h]
    exact ⟨fun _ => h, fun _ => e⟩
  · have e : video_resize lib st = st := by
      unfold video_resize
      rw [if_neg h]
    rw [e]
    exact ⟨fun e1 => absurd e1 hf, fun e1 => absurd e1 h⟩

/-- C21 fails on the code: the source is 2x2 and the destination is
configured at 2x2, so decoder and encoder dimensions agree.  With
`croptop=-1` (a nonzero margin) the `Send` of a picture skips the scale/crop
stage: `p_ff_pic_tmp2` is never allocated.  With `cropright=-1` the same
`Send` runs it.  The top, bottom and left margins are tested with `> 0`, the
right margin with `!= 0`; so the stage is not applied for every nonzero
margin, and the four margins are not tested by the same condition. -/
theorem crop_margins_asymmetric :
    Add out_ok bld_le lib_video sys_croptop_neg id_zero frame_zero fmt_i420_small [] =
      (some (id_video_of lib_video sys_croptop_neg fmt_i420_small), sys_croptop_neg, []) ∧
    Add out_ok bld_le lib_video sys_cropright_neg id_zero frame_zero fmt_i420_small [] =
      (some (id_video_of lib_video sys_cropright_neg fmt_i420_small), sys_cropright_neg, []) ∧
    sys_croptop_neg.i_crop_top ≠ 0 ∧
    (Send out_ok bld_le lib_video 1 sys_croptop_neg
      (id_video_of lib_video sys_croptop_neg fmt_i420_small) unit_small []).ret =
        some VLC_SUCCESS ∧
    (Send out_ok bld_le lib_video 1 sys_croptop_neg
      (id_video_of lib_video sys_croptop_neg fmt_i420_small) unit_small []).id.ff_enc_c.width =
        (id_video_of lib_video sys_croptop_neg fmt_i420_small).ff_dec_c.width ∧
    (Send out_ok bld_le lib_video 1 sys_croptop_neg
      (id_video_of lib_video sys_croptop_neg fmt_i420_small) unit_small []).id.ff_enc_c.height =
        (id_video_of lib_video sys_croptop_neg fmt_i420_small).ff_dec_c.height ∧
    (Send out_ok bld_le lib_video 1 sys_croptop_neg
      (id_video_of lib_video sys_croptop_neg fmt_i420_small) unit_small []).id.p_ff_pic_tmp2 =
        none ∧
    (Send out_ok bld_le lib_video 1 sys_cropright_neg
      (id_video_of lib_video sys_cropright_neg fmt_i420_small) unit_small []).id.p_ff_pic_tmp2 =
        some { frame_zero with
               pix_fmt := PIX_FMT_YUV420P, width := 2, height := 2, buf_size := 4
               data := unit_small.p_buffer } ∧
    ¬ (∀ st : video_state_t, st.frame = FrameSlot.p_ff_pic →
        ((video_resize lib_video st).frame = FrameSlot.p_ff_pic_tmp2 ↔
          (st.id.ff_dec_c.width ≠ st.id.ff_enc_c.width ∨
           st.id.ff_dec_c.height ≠ st.id.ff_enc_c.height ∨
           st.sys.i_crop_top ≠ 0 ∨ st.sys.i_crop_bottom ≠ 0 ∨
           st.sys.i_crop_left ≠ 0 ∨ st.sys.i_crop_right ≠ 0))) := by
  refine ⟨rfl, rfl, by decide, rfl, rfl, rfl, rfl, rfl, ?_⟩
  intro h
  have h1 := (h { st_small_enc with
                  frame := FrameSlot.p_ff_pic
                  sys := { st_small_enc.sys with i_crop_top := -1 } } rfl).mpr
    (Or.inr (Or.inr (Or.inl (by decide))))
  revert h1
  decide

/-- C22 fails on the code: a raw planar 4:2:2 source of 2x2 is transcoded to
`mp4v` with deinterlacing, so the decoder's pixel format is
`PIX_FMT_YUV422P` and the encoder's `PIX_FMT_YUV420P`.  On the first picture
the deinterlace output frame is allocated with the byte size of a 4:2:2
picture (8 bytes), as the claim says, but `avpicture_fill` (line 1451) is
handed the encoder's pixel format: the frame is laid out as 4:2:0, not in the
decoder's layout, while `avpicture_deinterlace` (line 1456) writes into it in
the decoder's format.  The second picture does not allocate again. -/
theorem deinterlace_frame_layout :
    Add out_ok bld_le lib_sizes sys_deint id_zero frame_zero fmt_i422_small [] =
      (some (id_video_of lib_sizes sys_deint fmt_i422_small), sys_deint, []) ∧
    (id_video_of lib_sizes sys_deint fmt_i422_small).ff_dec_c.pix_fmt = PIX_FMT_YUV422P ∧
    (id_video_of lib_sizes sys_deint fmt_i422_small).ff_enc_c.pix_fmt = PIX_FMT_YUV420P ∧
    (id_video_of lib_sizes sys_deint fmt_i422_small).p_ff_pic_tmp0 = none ∧
    (Send out_ok bld_le lib_sizes 1 sys_deint (id_video_of lib_sizes sys_deint fmt_i422_small)
      unit_i422_small []).id.p_ff_pic_tmp0 =
        some { frame_zero with
               pix_fmt := PIX_FMT_YUV420P, width := 2, height := 2, buf_size := 8
               data := unit_i422_small.p_buffer } ∧
    lib_sizes.avpicture_get_size PIX_FMT_YUV422P 2 2 = 8 ∧
    lib_sizes.avpicture_get_size PIX_FMT_YUV420P 2 2 = 6 ∧
    (Send out_ok bld_le lib_sizes 1 sys_deint (id_video_of lib_sizes sys_deint fmt_i422_small)
      unit_i422_small []).tr.take 4 =
        [Event.avpicture_fill FrameSlot.p_ff_pic PIX_FMT_YUV422P 2 2,
         Event.avcodec_open
           { ctx_zero with width := 2, height := 2, bit_rate := 800000, frame_rate := 25,
                           frame_rate_base := 1 }
           (some { id := CODEC_ID_MPEG4, encoder := true }) 0,
         Event.pf_add
           { fmt_zero with i_cat := VIDEO_ES, i_fourcc := VLC_FOURCC 'm' 'p' '4' 'v',
                           i_width := 2, i_height := 2, i_bitrate := 800000 } (some 1),
         Event.avpicture_fill FrameSlot.p_ff_pic_tmp0 PIX_FMT_YUV420P 2 2] ∧
    ((send_all out_ok bld_le lib_sizes 1 sys_deint
        (id_video_of lib_sizes sys_deint fmt_i422_small) []
        [unit_i422_small, unit_i422_small]).tr.filter
      (fun e => decide (e = Event.avpicture_fill FrameSlot.p_ff_pic_tmp0 PIX_FMT_YUV420P 2 2))).length
        = 1 ∧
    PIX_FMT_YUV420P ≠ PIX_FMT_YUV422P :=
  ⟨rfl, rfl, rfl, rfl, rfl, rfl, rfl, rfl, rfl, by decide⟩

/-- C24 fails on the code: an MPEG video source whose decoder yields
pictures at 25 per second with `repeat_pict = 1`, stamped 80000.  Without
deinterlacing the picture handed to the encoder is the decoder's and the
running output pts goes from 80000 to 140000, an advance of
`1000000 * (2 + 1) * 1 / (2 * 25) = 60000`.  With deinterlacing the local
`frame` designates `p_ff_pic_tmp0` at line 1532, whose `repeat_pict` is the 0
of `avcodec_alloc_frame`, and the advance is 40000: the marker of the
decoder's picture is lost. -/
theorem repeat_pict_lost :
    Add out_ok bld_le lib_telecine sys_mp4v id_zero frame_zero fmt_mpgv_small [] =
      (some (id_video_of lib_telecine sys_mp4v fmt_mpgv_small), sys_mp4v,
       [Event.avcodec_open
          { ctx_zero with width := 2, height := 2, workaround_bugs := 1, error_resilience := -1,
                          get_buffer_hooked := true }
          (some { id := CODEC_ID_MPEG1VIDEO, encoder := false }) 0]) ∧
    (lib_telecine.avcodec_decode_video (id_video_of lib_telecine sys_mp4v fmt_mpgv_small).ff_dec_c
      frame_zero unit_small.p_buffer 6 80000).frame.repeat_pict = 1 ∧
    (Send out_ok bld_le lib_telecine 1 sys_mp4v
      (id_video_of lib_telecine sys_mp4v fmt_mpgv_small) unit_small []).sys.i_output_pts =
        80000 + 60000 ∧
    (Send out_ok bld_le lib_telecine 1 sys_deint
      (id_video_of lib_telecine sys_deint fmt_mpgv_small) unit_small []).sys.i_output_pts =
        80000 + 40000 ∧
    (Send out_ok bld_le lib_telecine 1 sys_deint
      (id_video_of lib_telecine sys_deint fmt_mpgv_small) unit_small []).id.ff_dec_c.frame_rate =
        25 ∧
    Int.tdiv (1000000 * (2 + 1) * 1) (2 * 25) = 60000 :=
  ⟨rfl, rfl, rfl, rfl, rfl, rfl⟩

/-- Counterexample to C25 as stated: an MPEG video source whose decoder uses
one byte of a six-byte unit and yields no picture.  The loop is left at line
1395 with `VLC_SUCCESS` after that one decoder call, five bytes of the unit
not having been handed to the decoder. -/
theorem success_with_bytes_left :
    Add out_ok bld_le lib_partial sys_mp4v id_zero frame_zero fmt_mpgv_small [] =
      (some (id_video_of lib_partial sys_mp4v fmt_mpgv_small), sys_mp4v,
       [Event.avcodec_open
          { ctx_zero with width := 2, height := 2, workaround_bugs := 1, error_resilience := -1,
                          get_buffer_hooked := true }
          (some { id := CODEC_ID_MPEG1VIDEO, encoder := false }) 0]) ∧
    unit_small.i_size = 6 ∧
    (video_loop lib_partial out_ok unit_small 1
      (video_entry lib_partial sys_mp4v (id_video_of lib_partial sys_mp4v fmt_mpgv_small)
        unit_small [])).1 = Flow.ret VLC_SUCCESS ∧
    (video_loop lib_partial out_ok unit_small 1
      (video_entry lib_partial sys_mp4v (id_video_of lib_partial sys_mp4v fmt_mpgv_small)
        unit_small [])).2.i_data = 5 ∧
    (transcode_video_ffmpeg_process lib_partial out_ok 1 sys_mp4v
      (id_video_of lib_partial sys_mp4v fmt_mpgv_small) unit_small []).ret = some VLC_SUCCESS ∧
    (transcode_video_ffmpeg_process lib_partial out_ok 1 sys_mp4v
      (id_video_of lib_partial sys_mp4v fmt_mpgv_small) unit_small []).tr =
        [Event.avcodec_decode_video
           (id_video_of lib_partial sys_mp4v fmt_mpgv_small).ff_dec_c 6 1 false] :=
  ⟨rfl, rfl, rfl, rfl, rfl, rfl⟩

/-! ## The pts of the picture handed to the encoder -/

theorem same_video_refl (s : sout_stream_id_t) : same_video s s := ⟨rfl, rfl, rfl⟩

theorem same_video_trans {a b c : sout_stream_id_t} (h1 : same_video a b)
    (h2 : same_video b c) : same_video a c :=
  ⟨h2.1.trans h1.1, h2.2.1.trans h1.2.1, h2.2.2.trans h1.2.2⟩

theorem encoded_frames_append (a b : List Event) :
    encoded_frames (a ++ b) = encoded_frames a ++ encoded_frames b :=
  List.filterMap_append _ _ _

/-- A call that is not an encoder call adds no picture. -/
theorem encoded_frames_quiet (tr : List Event) (e : Event) (h : encoded_frame e = none) :
    encoded_frames (tr ++ [e]) = encoded_frames tr := by
  unfold encoded_frames
  rw [List.filterMap_append, List.filterMap_cons_none h, List.filterMap_nil, List.append_nil]

theorem encoded_frames_open (tr : List Event) (c : AVCodecContext) (k : Option AVCodec)
    (r : Int) : encoded_frames (tr ++ [Event.avcodec_open c k r]) = encoded_frames tr :=
  encoded_frames_quiet _ _ rfl

theorem encoded_frames_close (tr : List Event) (c : AVCodecContext) :
    encoded_frames (tr ++ [Event.avcodec_close c]) = encoded_frames tr :=
  encoded_frames_quiet _ _ rfl

theorem encoded_frames_add (tr : List Event) (f : sout_format_t) (r : Option Nat) :
    encoded_frames (tr ++ [Event.pf_add f r]) = encoded_frames tr :=
  encoded_frames_quiet _ _ rfl

theorem encoded_frames_fill (tr : List Event) (slot : FrameSlot) (p : PixelFormat)
    (w h : Int) : encoded_frames (tr ++ [Event.avpicture_fill slot p w h]) = encoded_frames tr :=
  encoded_frames_quiet _ _ rfl

theorem encoded_frames_decode (tr : List Event) (c : AVCodecContext) (n u : Int) (b : Bool) :
    encoded_frames (tr ++ [Event.avcodec_decode_video c n u b]) = encoded_frames tr :=
  encoded_frames_quiet _ _ rfl

theorem set_frame_video (id : sout_stream_id_t) (slot : FrameSlot) (f : AVFrame) :
    same_video id (set_frame id slot f) := by
  cases slot <;> exact ⟨rfl, rfl, rfl⟩

/-- The decoding step keeps the session parameters and the running output
pts, and calls no encoder. -/
theorem video_decode_video (lib : libavcodec) (inb : sout_buffer_t) (pic0 : AVFrame)
    (st : video_state_t) :
    same_video st.id (video_decode lib inb pic0 st).2.2.id ∧
    (video_decode lib inb pic0 st).2.2.sys.i_output_pts = st.sys.i_output_pts ∧
    encoded_frames (video_decode lib inb pic0 st).2.2.tr = encoded_frames st.tr := by
  unfold video_decode
  by_cases h : st.id.ff_dec ≠ none
  · rw [if_pos h]
    exact ⟨⟨rfl, rfl, rfl⟩, rfl, encoded_frames_decode _ _ _ _ _⟩
  · rw [if_neg h]
    exact ⟨⟨rfl, rfl, rfl⟩, rfl, encoded_frames_fill _ _ _ _ _⟩

theorem video_lazy_dims_video (sys : sout_stream_sys_t) (id : sout_stream_id_t) :
    same_video id (video_lazy_dims sys id) := by
  have hw : same_video id (video_lazy_width sys id) := by
    unfold video_lazy_width; split_ifs <;> exact ⟨rfl, rfl, rfl⟩
  have hh : ∀ i : sout_stream_id_t, same_video i (video_lazy_height sys i) := by
    intro i; unfold video_lazy_height; split_ifs <;> exact ⟨rfl, rfl, rfl⟩
  unfold video_lazy_dims
  exact same_video_trans hw (hh _)

theorem close_encoded (id : sout_stream_id_t) (tr : List Event) :
    encoded_frames (transcode_video_ffmpeg_close id tr) = encoded_frames tr := by
  unfold transcode_video_ffmpeg_close
  split_ifs
  · rw [encoded_frames_close, encoded_frames_close]
  · rw [List.append_nil, encoded_frames_close]
  · exact encoded_frames_close _ _
  · exact congrArg encoded_frames (List.append_nil _)

/-- The lazy initialisation keeps the session parameters and the pipeline
state, and calls no encoder. -/
theorem video_lazy_init_video (lib : libavcodec) (out : sout_out_t) (st : video_state_t) :
    same_video st.id (video_lazy_init lib out st).2.id ∧
    (video_lazy_init lib out st).2.sys = st.sys ∧
    (video_lazy_init lib out st).2.pic = st.pic ∧
    encoded_frames (video_lazy_init lib out st).2.tr = encoded_frames st.tr := by
  have hd := video_lazy_dims_video st.sys st.id
  have ho : same_video st.id (video_lazy_opened lib st.sys st.id) := ⟨hd.1, hd.2.1, hd.2.2⟩
  unfold video_lazy_init
  by_cases h1 : st.id.b_enc_inited = true
  · rw [if_pos h1]; exact ⟨same_video_refl _, rfl, rfl, rfl⟩
  · rw [if_neg h1]
    by_cases h2 : (video_lazy_open lib st.sys st.id).ret ≠ 0
    · rw [if_pos h2]
      exact ⟨ho, rfl, rfl, encoded_frames_open _ _ _ _⟩
    · rw [if_neg h2]
      simp only
      split_ifs with h3
      · refine ⟨⟨ho.1, ho.2.1, ho.2.2⟩, rfl, rfl, ?_⟩
        show encoded_frames (transcode_video_ffmpeg_close _ _) = _
        rw [close_encoded, encoded_frames_add, encoded_frames_open]
      · refine ⟨⟨ho.1, ho.2.1, ho.2.2⟩, rfl, rfl, ?_⟩
        show encoded_frames ((_ ++ [_]) ++ [_]) = _
        rw [encoded_frames_add, encoded_frames_open]

theorem fill_encoded (tr : List Event) (c : Prop) [Decidable c] (slot : FrameSlot)
    (p : PixelFormat) (w h : Int) :
    encoded_frames (if c then tr ++ [Event.avpicture_fill slot p w h] else tr) =
      encoded_frames tr := by
  split_ifs
  · exact encoded_frames_fill _ _ _ _ _
  · rfl

theorem video_deinterlace_video (lib : libavcodec) (st : video_state_t) :
    same_video st.id (video_deinterlace lib st).id ∧
    (video_deinterlace lib st).sys = st.sys ∧
    (video_deinterlace lib st).out = st.out ∧
    (video_deinterlace lib st).i_data = st.i_data ∧
    encoded_frames (video_deinterlace lib st).tr = encoded_frames st.tr := by
  unfold video_deinterlace
  by_cases h : st.sys.b_deinterlace = true
  · rw [if_pos h]; exact ⟨⟨rfl, rfl, rfl⟩, rfl, rfl, rfl, fill_encoded _ _ _ _ _ _⟩
  · rw [if_neg h]; exact ⟨same_video_refl _, rfl, rfl, rfl, rfl⟩

theorem video_convert_video (lib : libavcodec) (st : video_state_t) :
    same_video st.id (video_convert lib st).id ∧
    (video_convert lib st).sys = st.sys ∧
    (video_convert lib st).out = st.out ∧
    (video_convert lib st).i_data = st.i_data ∧
    encoded_frames (video_convert lib st).tr = encoded_frames st.tr := by
  unfold video_convert
  by_cases h : st.id.ff_dec_c.pix_fmt ≠ st.id.ff_enc_c.pix_fmt
  · rw [if_pos h]; exact ⟨⟨rfl, rfl, rfl⟩, rfl, rfl, rfl, fill_encoded _ _ _ _ _ _⟩
  · rw [if_neg h]; exact ⟨same_video_refl _, rfl, rfl, rfl, rfl⟩

theorem video_resize_video (lib : libavcodec) (st : video_state_t) :
    same_video st.id (video_resize lib st).id ∧
    (video_resize lib st).sys = st.sys ∧
    (video_resize lib st).out = st.out ∧
    (video_resize lib st).i_data = st.i_data ∧
    encoded_frames (video_resize lib st).tr = encoded_frames st.tr := by
  unfold video_resize
  by_cases h : st.id.ff_dec_c.width ≠ st.id.ff_enc_c.width ∨
     st.id.ff_dec_c.height ≠ st.id.ff_enc_c.height ∨
     st.sys.i_crop_top > 0 ∨ st.sys.i_crop_bottom > 0 ∨
     st.sys.i_crop_left > 0 ∨ st.sys.i_crop_right ≠ 0
  · rw [if_pos h]; exact ⟨⟨rfl, rfl, rfl⟩, rfl, rfl, rfl, fill_encoded _ _ _ _ _ _⟩
  · rw [if_neg h]; exact ⟨same_video_refl _, rfl, rfl, rfl, rfl⟩

/-- The three picture stages together. -/
theorem video_stages_video (lib : libavcodec) (st : video_state_t) :
    same_video st.id (video_resize lib (video_convert lib (video_deinterlace lib st))).id ∧
    (video_resize lib (video_convert lib (video_deinterlace lib st))).sys = st.sys ∧
    (video_resize lib (video_convert lib (video_deinterlace lib st))).out = st.out ∧
    (video_resize lib (video_convert lib (video_deinterlace lib st))).i_data = st.i_data ∧
    encoded_frames (video_resize lib (video_convert lib (video_deinterlace lib st))).tr =
      encoded_frames st.tr := by
  have a := video_deinterlace_video lib st
  have b := video_convert_video lib (video_deinterlace lib st)
  have c := video_resize_video lib (video_convert lib (video_deinterlace lib st))
  exact ⟨same_video_trans a.1 (same_video_trans b.1 c.1), c.2.1.trans (b.2.1.trans a.2.1),
    c.2.2.1.trans (b.2.2.1.trans a.2.2.1), c.2.2.2.1.trans (b.2.2.2.1.trans a.2.2.2.1),
    c.2.2.2.2.trans (b.2.2.2.2.trans a.2.2.2.2)⟩

/-- Lines 1522-1540: the picture handed to the encoder carries the running
output pts when the destination fourcc is `mpgv` and 0 otherwise. -/
theorem video_stamp_encode_pts (lib : libavcodec) (inb : sout_buffer_t) (st : video_state_t) :
    same_video st.id (video_encode lib inb (video_stamp st)).id ∧
    encoded_frames (video_encode lib inb (video_stamp st)).tr =
      encoded_frames st.tr ++ [(video_stamp st).pic] ∧
    (video_stamp st).pic.pts =
      (if st.id.f_dst.i_fourcc = VLC_FOURCC 'm' 'p' 'g' 'v' then st.sys.i_output_pts else 0) ∧
    (video_encode lib inb (video_stamp st)).i_data = st.i_data := by
  have hst : same_video st.id (video_stamp st).id := set_frame_video _ _ _
  have hen : same_video (video_stamp st).id (video_encode lib inb (video_stamp st)).id :=
    ⟨rfl, rfl, rfl⟩
  refine ⟨same_video_trans hst hen, ?_, rfl, rfl⟩
  have ht : (video_encode lib inb (video_stamp st)).tr =
      st.tr ++ [Event.avcodec_encode_video (video_stamp st).id.ff_enc_c (video_stamp st).pic
        (video_encode_call lib (video_stamp st)).i_out] := rfl
  rw [ht, encoded_frames_append]
  rfl

/-- Lines 1437-1540: between the lazy initialisation and the end of the
iteration exactly one picture is handed to the encoder, and its pts is the
running output pts when the destination fourcc is `mpgv` and 0 otherwise. -/
theorem video_picture_pts (lib : libavcodec) (inb : sout_buffer_t) (st : video_state_t) :
    same_video st.id (video_picture lib inb st).id ∧
    ∃ f : AVFrame,
      encoded_frames (video_picture lib inb st).tr = encoded_frames st.tr ++ [f] ∧
      f.pts = (if st.id.f_dst.i_fourcc = VLC_FOURCC 'm' 'p' 'g' 'v'
               then st.sys.i_output_pts else 0) := by
  obtain ⟨hv, hs, -, -, he⟩ := video_stages_video lib st
  obtain ⟨h1, h2, h3, -⟩ := video_stamp_encode_pts lib inb
    (video_resize lib (video_convert lib (video_deinterlace lib st)))
  unfold video_picture
  refine ⟨same_video_trans hv h1, _, h2.trans (by rw [he]), ?_⟩
  rw [h3, hv.1, hs]

/-- An iteration of the engine keeps the session parameters. -/
theorem video_iteration_video (lib : libavcodec) (out : sout_out_t) (inb : sout_buffer_t)
    (st : video_state_t) : same_video st.id (video_iteration lib out inb st).2.id := by
  unfold video_iteration
  cases hp : st.id.p_ff_pic with
  | none => exact same_video_refl _
  | some pic0 =>
    simp only
    have hd := (video_decode_video lib inb pic0 st).1
    have ha : (video_advance (video_decode lib inb pic0 st).1
        (video_decode lib inb pic0 st).2.2).id = (video_decode lib inb pic0 st).2.2.id := rfl
    have ht := (video_take_pts_fields (video_advance (video_decode lib inb pic0 st).1
        (video_decode lib inb pic0 st).2.2)).1
    have hl := (video_lazy_init_video lib out (video_take_pts
        (video_advance (video_decode lib inb pic0 st).1 (video_decode lib inb pic0 st).2.2))).1
    rw [ht, ha] at hl
    by_cases h1 : (video_decode lib inb pic0 st).1 < 0
    · rw [if_pos h1]; exact hd
    · rw [if_neg h1]
      by_cases h2 : (video_decode lib inb pic0 st).2.1 = false
      · rw [if_pos h2]; exact hd
      · rw [if_neg h2]
        generalize video_lazy_init lib out (video_take_pts
          (video_advance (video_decode lib inb pic0 st).1
            (video_decode lib inb pic0 st).2.2)) = r at hl
        obtain ⟨status, st1⟩ := r
        cases status with
        | some s => exact same_video_trans hd hl
        | none =>
          exact same_video_trans hd (same_video_trans hl (video_picture_pts lib inb st1).1)

/-- The loop of the engine keeps the session parameters. -/
theorem video_loop_video (lib : libavcodec) (out : sout_out_t) (inb : sout_buffer_t) :
    ∀ (fuel : Nat) (st : video_state_t),
      same_video st.id (video_loop lib out inb fuel st).2.id := by
  intro fuel
  induction fuel with
  | zero => intro st; exact same_video_refl _
  | succ n ih =>
    intro st
    have hi := video_iteration_video lib out inb st
    unfold video_loop
    generalize video_iteration lib out inb st = r at hi
    obtain ⟨fl, st1⟩ := r
    cases fl with
    | next => exact same_video_trans hi (ih st1)
    | ret s => exact hi
    | stuck => exact hi

/-- The engine keeps the session parameters. -/
theorem video_process_video (lib : libavcodec) (out : sout_out_t) (fuel : Nat)
    (sys : sout_stream_sys_t) (id : sout_stream_id_t) (inb : sout_buffer_t) (tr : List Event) :
    same_video id (transcode_video_ffmpeg_process lib out fuel sys id inb tr).id := by
  have h := video_loop_video lib out inb fuel (video_entry lib sys id inb tr)
  unfold transcode_video_ffmpeg_process
  generalize video_loop lib out inb fuel (video_entry lib sys id inb tr) = r at h
  obtain ⟨fl, st⟩ := r
  cases fl <;> exact h

/-- A `Send` on a session with a video source keeps the session
parameters. -/
theorem send_video (out : sout_out_t) (bld : build_t) (lib : libavcodec) (fuel : Nat)
    (sys : sout_stream_sys_t) (id : sout_stream_id_t) (u : sout_buffer_t) (tr : List Event)
    (hc : id.f_src.i_cat = VIDEO_ES) :
    same_video id (Send out bld lib fuel sys id u tr).id := by
  have hp := video_process_video lib out fuel sys id u tr
  unfold Send
  by_cases hb : id.b_transcode = true
  · rw [if_pos hb, if_neg (by rw [hc]; decide), if_pos hc]
    cases hr : (transcode_video_ffmpeg_process lib out fuel sys id u tr).ret with
    | none => exact hp
    | some s =>
      simp only
      rw [(send_transcoded_trace out _ _ u _ _).1]
      exact hp
  · rw [if_neg hb]
    split_ifs <;> exact same_video_refl _

/-- A sequence of `Send` calls on a session with a video source keeps the
session parameters. -/
theorem send_all_video (out : sout_out_t) (bld : build_t) (lib : libavcodec) (fuel : Nat)
    (units : List sout_buffer_t) :
    ∀ (sys : sout_stream_sys_t) (id : sout_stream_id_t) (tr : List Event),
      id.f_src.i_cat = VIDEO_ES →
      same_video id (send_all out bld lib fuel sys id tr units).id := by
  induction units with
  | nil => intro sys id tr _; exact same_video_refl _
  | cons u rest ih =>
    intro sys id tr hc
    have hs := send_video out bld lib fuel sys id u tr hc
    cases rest with
    | nil => exact hs
    | cons v rest =>
      rw [send_all]
      cases hr : (Send out bld lib fuel sys id u tr).ret with
      | none => exact hs
      | some s =>
        simp only
        exact same_video_trans hs (ih _ _ _ (hs.2.1.trans hc))

/-- Lines 1222-1226 and 1281: the destination fourcc and the buffer size of
a video session that was set up. -/
theorem video_new_fourcc (lib : libavcodec) (sys : sout_stream_sys_t) (stack : AVFrame)
    (id : sout_stream_id_t) (tr : List Event)
    (h : (transcode_video_ffmpeg_new lib sys stack id tr).1 = VLC_SUCCESS) :
    (transcode_video_ffmpeg_new lib sys stack id tr).2.1.f_dst.i_fourcc =
      (if id.f_dst.i_fourcc = VLC_FOURCC 'm' 'p' '1' 'v' ∨
          id.f_dst.i_fourcc = VLC_FOURCC 'm' 'p' '2' 'v'
       then VLC_FOURCC 'm' 'p' 'g' 'v' else id.f_dst.i_fourcc) ∧
    (transcode_video_ffmpeg_new lib sys stack id tr).2.1.i_buffer = 3 * 1024 * 1024 := by
  have hd := video_new_decoder_dst lib sys stack id tr
  unfold transcode_video_ffmpeg_new at h ⊢
  by_cases h1 : (video_new_decoder lib sys stack id tr).1 ≠ VLC_SUCCESS
  · rw [if_pos h1] at h; exact absurd h h1
  · rw [if_neg h1] at h ⊢
    rw [← hd.1]
    generalize (video_new_decoder lib sys stack id tr).2.1 = id1 at h ⊢
    generalize (video_new_decoder lib sys stack id tr).2.2 = tr1 at h ⊢
    unfold video_new_encoder at h ⊢
    by_cases h2 : get_ff_codec lib id1.f_dst.i_fourcc = CODEC_ID_NONE
    · rw [if_pos h2] at h; exact absurd h egeneric_ne_success
    · rw [if_neg h2] at h ⊢
      cases hfe : lib.avcodec_find_encoder (get_ff_codec lib id1.f_dst.i_fourcc) with
      | none => rw [hfe] at h; exact absurd h egeneric_ne_success
      | some c => exact ⟨rfl, rfl⟩

/-- The destination fourcc of a video session `Add` returns: the configured
one, with `mp1v` and `mp2v` renamed `mpgv`. -/
theorem add_video_fourcc (out : sout_out_t) (bld : build_t) (lib : libavcodec)
    (sys : sout_stream_sys_t) (mem : sout_stream_id_t) (stack : AVFrame)
    (p_fmt : sout_format_t) (tr : List Event) (id : sout_stream_id_t)
    (sys1 : sout_stream_sys_t) (tr1 : List Event)
    (hcat : p_fmt.i_cat = VIDEO_ES) (hcodec : sys.i_vcodec ≠ 0)
    (hadd : Add out bld lib sys mem stack p_fmt tr = (some id, sys1, tr1)) :
    id.f_dst.i_fourcc =
      (if sys.i_vcodec = VLC_FOURCC 'm' 'p' '1' 'v' ∨ sys.i_vcodec = VLC_FOURCC 'm' 'p' '2' 'v'
       then VLC_FOURCC 'm' 'p' 'g' 'v' else sys.i_vcodec) ∧
    id.f_src.i_cat = VIDEO_ES ∧ id.i_buffer = 3 * 1024 * 1024 ∧
    sys1.i_last_ref_pts = 0 ∧ sys1.i_buggy_pts_detect = 0 := by
  rw [add_is_add_video out bld lib sys mem stack p_fmt tr hcat hcodec] at hadd
  obtain ⟨hs, hid, hsys, -⟩ := add_video_some lib sys mem stack p_fmt tr id sys1 tr1 hadd
  have hf := video_new_fourcc lib sys stack (add_video_session sys mem p_fmt) tr hs
  have hn := video_new_success lib sys stack (add_video_session sys mem p_fmt) tr hs
  subst hid
  rw [hsys, hn.2.2.2.2.2.2.2.1]
  refine ⟨hf.1, ?_, hf.2, rfl, rfl⟩
  show (transcode_video_ffmpeg_new lib sys stack
    (add_video_session sys mem p_fmt) tr).2.1.f_src.i_cat = VIDEO_ES
  rw [hn.2.1]
  exact hcat

/-- The pictures an iteration of the engine hands to the encoder.  When the
decoding step neither fails nor comes back without a picture and the lazy
initialisation does not return, exactly one picture is handed over; its pts
is the running output pts (the pts of the decoded picture when that is
positive, the value carried over otherwise) when the destination fourcc is
`mpgv`, and 0 otherwise.  In every other case no picture is handed over. -/
theorem video_iteration_encoded (lib : libavcodec) (out : sout_out_t) (inb : sout_buffer_t)
    (st : video_state_t) (pic0 : AVFrame) (hp : st.id.p_ff_pic = some pic0) :
    ((¬ (video_decode lib inb pic0 st).1 < 0 ∧ (video_decode lib inb pic0 st).2.1 = true ∧
       (video_lazy_init lib out (video_take_pts (video_advance (video_decode lib inb pic0 st).1
          (video_decode lib inb pic0 st).2.2))).1 = none) →
      ∃ f : AVFrame,
        encoded_frames (video_iteration lib out inb st).2.tr = encoded_frames st.tr ++ [f] ∧
        f.pts = (if st.id.f_dst.i_fourcc = VLC_FOURCC 'm' 'p' 'g' 'v'
                 then (if (video_decode lib inb pic0 st).2.2.pic.pts > 0
                       then (video_decode lib inb pic0 st).2.2.pic.pts
                       else st.sys.i_output_pts)
                 else 0)) ∧
    (¬ (¬ (video_decode lib inb pic0 st).1 < 0 ∧ (video_decode lib inb pic0 st).2.1 = true ∧
       (video_lazy_init lib out (video_take_pts (video_advance (video_decode lib inb pic0 st).1
          (video_decode lib inb pic0 st).2.2))).1 = none) →
      encoded_frames (video_iteration lib out inb st).2.tr = encoded_frames st.tr) := by
  obtain ⟨hdv, hdo, hde⟩ := video_decode_video lib inb pic0 st
  have hl := video_lazy_init_video lib out (video_take_pts
      (video_advance (video_decode lib inb pic0 st).1 (video_decode lib inb pic0 st).2.2))
  have ht := video_take_pts_fields (video_advance (video_decode lib inb pic0 st).1
      (video_decode lib inb pic0 st).2.2)
  have hts : (video_take_pts (video_advance (video_decode lib inb pic0 st).1
      (video_decode lib inb pic0 st).2.2)).sys.i_output_pts =
      (if (video_decode lib inb pic0 st).2.2.pic.pts > 0
       then (video_decode lib inb pic0 st).2.2.pic.pts else st.sys.i_output_pts) := by
    unfold video_take_pts
    by_cases hpos : (video_decode lib inb pic0 st).2.2.pic.pts > 0
    · rw [if_pos (show (video_advance (video_decode lib inb pic0 st).1
        (video_decode lib inb pic0 st).2.2).pic.pts > 0 from hpos), if_pos hpos]
      rfl
    · rw [if_neg (show ¬ (video_advance (video_decode lib inb pic0 st).1
        (video_decode lib inb pic0 st).2.2).pic.pts > 0 from hpos), if_neg hpos]
      exact hdo
  have hle : encoded_frames (video_lazy_init lib out (video_take_pts
      (video_advance (video_decode lib inb pic0 st).1
        (video_decode lib inb pic0 st).2.2))).2.tr = encoded_frames st.tr := by
    rw [hl.2.2.2, ht.2.2]
    exact hde
  have hlf : (video_lazy_init lib out (video_take_pts
      (video_advance (video_decode lib inb pic0 st).1
        (video_decode lib inb pic0 st).2.2))).2.id.f_dst.i_fourcc = st.id.f_dst.i_fourcc := by
    rw [hl.1.1, ht.1]
    exact hdv.1
  have hls := hl.2.1
  unfold video_iteration
  rw [hp]
  simp only
  by_cases h1 : (video_decode lib inb pic0 st).1 < 0
  · rw [if_pos h1]
    exact ⟨fun h => absurd h1 h.1, fun _ => hde⟩
  · rw [if_neg h1]
    by_cases h2 : (video_decode lib inb pic0 st).2.1 = false
    · rw [if_pos h2]
      refine ⟨fun h => ?_, fun _ => hde⟩
      rw [h2] at h
      exact Bool.noConfusion h.2.1
    · rw [if_neg h2]
      generalize video_lazy_init lib out (video_take_pts
        (video_advance (video_decode lib inb pic0 st).1
          (video_decode lib inb pic0 st).2.2)) = r at hle hlf hls
      obtain ⟨status, st1⟩ := r
      cases status with
      | some s =>
        exact ⟨fun h => Option.noConfusion h.2.2, fun _ => hle⟩
      | none =>
        simp only at hle hlf hls ⊢
        refine ⟨fun _ => ?_, fun h => absurd ⟨h1, by simpa using h2, trivial⟩ h⟩
        obtain ⟨-, f, hf1, hf2⟩ := video_picture_pts lib inb st1
        refine ⟨f, hf1.trans (by rw [hle]), ?_⟩
        rw [hf2, hlf, hls, hts]

/-- C23: for every video session `Add` returns, the destination fourcc of
the session is `mpgv` exactly when the configured fourcc is `mpgv`, `mp1v`
or `mp2v` (lines 1222-1226 rename the latter two), and no `Send` changes it.
For every iteration of `transcode_video_ffmpeg_process` that reaches the
encoder, exactly one picture is handed to `avcodec_encode_video`; its pts is
the running output pts `i_output_pts` (the pts of the decoded picture when
that is positive, otherwise the value carried from the previous picture) when
the destination fourcc of the session is `mpgv`, and 0 for every other
destination fourcc.  An iteration that does not reach the encoder hands it no
picture. -/
theorem encoder_frame_pts (lib : libavcodec) :
    (∀ (out : sout_out_t) (bld : build_t) (sys : sout_stream_sys_t) (mem : sout_stream_id_t)
        (stack : AVFrame) (p_fmt : sout_format_t) (tr : List Event) (id : sout_stream_id_t)
        (sys1 : sout_stream_sys_t) (tr1 : List Event),
      p_fmt.i_cat = VIDEO_ES → sys.i_vcodec ≠ 0 →
      Add out bld lib sys mem stack p_fmt tr = (some id, sys1, tr1) →
      (id.f_dst.i_fourcc = VLC_FOURCC 'm' 'p' 'g' 'v' ↔
        (sys.i_vcodec = VLC_FOURCC 'm' 'p' 'g' 'v' ∨ sys.i_vcodec = VLC_FOURCC 'm' 'p' '1' 'v' ∨
         sys.i_vcodec = VLC_FOURCC 'm' 'p' '2' 'v')) ∧
      ∀ (fuel : Nat) (units : List sout_buffer_t) (sys2 : sout_stream_sys_t)
        (tr2 : List Event),
        (send_all out bld lib fuel sys2 id tr2 units).id.f_dst.i_fourcc = id.f_dst.i_fourcc) ∧
    (∀ (out : sout_out_t) (inb : sout_buffer_t) (st : video_state_t) (pic0 : AVFrame),
      st.id.p_ff_pic = some pic0 →
      ((¬ (video_decode lib inb pic0 st).1 < 0 ∧ (video_decode lib inb pic0 st).2.1 = true ∧
         (video_lazy_init lib out (video_take_pts
            (video_advance (video_decode lib inb pic0 st).1
              (video_decode lib inb pic0 st).2.2))).1 = none) →
        ∃ f : AVFrame,
          encoded_frames (video_iteration lib out inb st).2.tr = encoded_frames st.tr ++ [f] ∧
          f.pts = (if st.id.f_dst.i_fourcc = VLC_FOURCC 'm' 'p' 'g' 'v'
                   then (if (video_decode lib inb pic0 st).2.2.pic.pts > 0
                         then (video_decode lib inb pic0 st).2.2.pic.pts
                         else st.sys.i_output_pts)
                   else 0)) ∧
      (¬ (¬ (video_decode lib inb pic0 st).1 < 0 ∧ (video_decode lib inb pic0 st).2.1 = true ∧
         (video_lazy_init lib out (video_take_pts
            (video_advance (video_decode lib inb pic0 st).1
              (video_decode lib inb pic0 st).2.2))).1 = none) →
        encoded_frames (video_iteration lib out inb st).2.tr = encoded_frames st.tr)) := by
  refine ⟨?_, fun out inb st pic0 hp => video_iteration_encoded lib out inb st pic0 hp⟩
  intro out bld sys mem stack p_fmt tr id sys1 tr1 hcat hcodec hadd
  obtain ⟨hf, hc, -, -, -⟩ := add_video_fourcc out bld lib sys mem stack p_fmt tr id sys1 tr1
    hcat hcodec hadd
  refine ⟨?_, fun fuel units sys2 tr2 => (send_all_video out bld lib fuel units sys2 id tr2 hc).1⟩
  rw [hf]
  by_cases h : sys.i_vcodec = VLC_FOURCC 'm' 'p' '1' 'v' ∨
      sys.i_vcodec = VLC_FOURCC 'm' 'p' '2' 'v'
  · rw [if_pos h]
    exact ⟨fun _ => Or.inr h, fun _ => rfl⟩
  · rw [if_neg h]
    exact ⟨fun e => Or.inl e, fun e => e.elim (fun e0 => e0) (fun e1 => absurd e1 h)⟩

/-- C23 on a raw 2x2 source stamped 80000: configured for `mp1v` the session
has the destination fourcc `mpgv` and the picture handed to the encoder is
stamped 80000; configured for `mp4v` it is stamped 0. -/
theorem encoder_frame_pts_witness :
    Add out_ok bld_le lib_video sys_mp1v id_zero frame_zero fmt_i420_small [] =
      (some (id_video_of lib_video sys_mp1v fmt_i420_small), sys_mp1v, []) ∧
    (id_video_of lib_video sys_mp1v fmt_i420_small).f_dst.i_fourcc = VLC_FOURCC 'm' 'p' 'g' 'v' ∧
    (send_all out_ok bld_le lib_video 1 sys_mp1v (id_video_of lib_video sys_mp1v fmt_i420_small)
      [] [unit_small]).id.f_dst.i_fourcc = VLC_FOURCC 'm' 'p' 'g' 'v' ∧
    (∃ f : AVFrame,
      encoded_frames (video_iteration lib_video out_ok unit_small
        (video_entry lib_video sys_mp1v (id_video_of lib_video sys_mp1v fmt_i420_small)
          unit_small [])).2.tr = [] ++ [f] ∧ f.pts = 80000) ∧
    (∃ f : AVFrame,
      encoded_frames (video_iteration lib_video out_ok unit_small
        (video_entry lib_video sys_mp4v (id_video_of lib_video sys_mp4v fmt_i420_small)
          unit_small [])).2.tr = [] ++ [f] ∧ f.pts = 0) := by
  have hadd : Add out_ok bld_le lib_video sys_mp1v id_zero frame_zero fmt_i420_small [] =
      (some (id_video_of lib_video sys_mp1v fmt_i420_small), sys_mp1v, []) := rfl
  have h1 := (encoder_frame_pts lib_video).1 out_ok bld_le sys_mp1v id_zero frame_zero
    fmt_i420_small [] _ _ _ rfl (by decide) hadd
  have hf := h1.1.mpr (Or.inr (Or.inl rfl))
  have h2 := ((encoder_frame_pts lib_video).2 out_ok unit_small
    (video_entry lib_video sys_mp1v (id_video_of lib_video sys_mp1v fmt_i420_small)
      unit_small []) frame_zero rfl).1 ⟨by decide, rfl, rfl⟩
  have h3 := ((encoder_frame_pts lib_video).2 out_ok unit_small
    (video_entry lib_video sys_mp4v (id_video_of lib_video sys_mp4v fmt_i420_small)
      unit_small []) frame_zero rfl).1 ⟨by decide, rfl, rfl⟩
  refine ⟨hadd, hf, (h1.2 1 [unit_small] sys_mp1v []).trans hf, ?_, ?_⟩
  · obtain ⟨f, e1, e2⟩ := h2
    exact ⟨f, e1, e2.trans rfl⟩
  · obtain ⟨f, e1, e2⟩ := h3
    exact ⟨f, e1, e2.trans rfl⟩

/-! ## 8-bit sample normalisation -/

/-- Reading back a 16-bit store gives the value stored, cut to 16 bits and
taken as signed. -/
theorem load16_store16 (bld : build_t) (v : Int) :
    load16 bld (store16 bld v) =
      (if v % 65536 < 32768 then v % 65536 else v % 65536 - 65536) := by
  have h0 : 0 ≤ v % 65536 := Int.emod_nonneg _ (by decide)
  have h1 : v % 65536 < 65536 := Int.emod_lt_of_pos _ (by decide)
  obtain ⟨n, hn⟩ := Int.eq_ofNat_of_zero_le h0
  have hn1 : n < 65536 := by omega
  have hdm : n / 256 * 256 + n % 256 = n := Nat.div_add_mod' n 256
  unfold store16 load16
  rw [hn, Int.toNat_ofNat]
  cases bld.WORDS_BIGENDIAN
  · simp only [Bool.false_eq_true, if_false]
    rw [hdm]
    split_ifs <;> omega
  · simp only [if_true]
    rw [hdm]
    split_ifs <;> omega

/-- The same 16 bits are stored for two values that differ by 65536. -/
theorem store16_wrap (bld : build_t) (v : Int) : store16 bld (v - 65536) = store16 bld v := by
  have h : (v - 65536) % 65536 = v % 65536 := by omega
  unfold store16
  rw [h]

/-- A byte below 128 read through an `int8_t` pointer is itself, a byte from
128 on is 256 less. -/
theorem int8_byte (u : Nat) (hu : u < 256) :
    int8 u = (if u < 128 then ((u : Nat) : Int) else ((u : Nat) : Int) - 256) := by
  unfold int8
  rw [Nat.mod_eq_of_lt hu]

/-- The byte that holds the signed value `s` is read back as `s`. -/
theorem int8_of_signed (s : Int) (h1 : -128 ≤ s) (h2 : s ≤ 127) : int8 (s % 256).toNat = s := by
  have h0 : 0 ≤ s % 256 := Int.emod_nonneg _ (by decide)
  have h3 : s % 256 < 256 := Int.emod_lt_of_pos _ (by decide)
  obtain ⟨n, hn⟩ := Int.eq_ofNat_of_zero_le h0
  rw [hn, Int.toNat_ofNat, int8_byte n (by omega)]
  split_ifs <;> omega

/-- The 's8' and 'u8' loops store one 16-bit value per input byte, in
order. -/
theorem pcm8_samples_map (bld : build_t) (l : List Nat) :
    u8_samples bld l = (l.map (fun b => store16 bld ((int8 b - 128) * 256))).flatten ∧
    s8_samples bld l = (l.map (fun b => store16 bld (int8 b * 256))).flatten := by
  induction l with
  | nil => exact ⟨rfl, rfl⟩
  | cons b t ih =>
    simp only [u8_samples, s8_samples, List.map_cons, List.flatten_cons, ih.1, ih.2, and_self]

/-- C28: for every unsigned byte `u` (0..255) the 'u8' normalisation, which
reads the byte through an `int8_t` pointer, stores the same 16 bits as the
value `(u - 128) * 256`, and those bits read as an `int16_t` are
`(u - 128) * 256`; for every signed value `s` (-128..127), held in the byte
`s mod 256`, the 's8' normalisation stores 16 bits that read as `s * 256`.
Both loops store exactly one such sample per input byte, in order, and they
are what the decoder-less branch stores for the fourccs 'u8  ' and 's8  '. -/
theorem pcm8_normalisation (bld : build_t) :
    (∀ u : Nat, u < 256 →
      store16 bld ((int8 u - 128) * 256) = store16 bld ((((u : Nat) : Int) - 128) * 256) ∧
      load16 bld (store16 bld ((int8 u - 128) * 256)) = (((u : Nat) : Int) - 128) * 256) ∧
    (∀ s : Int, -128 ≤ s → s ≤ 127 →
      int8 (s % 256).toNat = s ∧
      load16 bld (store16 bld (int8 (s % 256).toNat * 256)) = s * 256) ∧
    (∀ l : List Nat,
      u8_samples bld l = (l.map (fun b => store16 bld ((int8 b - 128) * 256))).flatten ∧
      s8_samples bld l = (l.map (fun b => store16 bld (int8 b * 256))).flatten) ∧
    (∀ id : sout_stream_id_t,
      (id.f_src.i_fourcc = VLC_FOURCC 'u' '8' ' ' ' ' →
        (raw_samples bld id).2.2 = u8_samples bld (id.p_buffer_in.take
          (min ((id.i_buffer - id.i_buffer_pos) / 2) id.i_buffer_in_pos))) ∧
      (id.f_src.i_fourcc = VLC_FOURCC 's' '8' ' ' ' ' →
        (raw_samples bld id).2.2 = s8_samples bld (id.p_buffer_in.take
          (min ((id.i_buffer - id.i_buffer_pos) / 2) id.i_buffer_in_pos)))) := by
  refine ⟨?_, ?_, fun l => pcm8_samples_map bld l, ?_⟩
  · intro u hu
    have hs : store16 bld ((int8 u - 128) * 256) =
        store16 bld ((((u : Nat) : Int) - 128) * 256) := by
      rw [int8_byte u hu]
      by_cases h : u < 128
      · rw [if_pos h]
      · rw [if_neg h]
        have e : (((u : Nat) : Int) - 256 - 128) * 256 =
            (((u : Nat) : Int) - 128) * 256 - 65536 := by ring
        rw [e, store16_wrap]
    refine ⟨hs, ?_⟩
    rw [hs, load16_store16]
    split_ifs <;> omega
  · intro s h1 h2
    refine ⟨int8_of_signed s h1 h2, ?_⟩
    rw [int8_of_signed s h1 h2, load16_store16]
    split_ifs <;> omega
  · intro id
    constructor
    · intro h
      unfold raw_samples
      rw [if_neg (by rw [h]; decide), if_pos h]
    · intro h
      unfold raw_samples
      rw [if_pos h]

/-- C28 at the unsigned byte 200 and the signed value -3 (the byte 253) on a
little-endian host, and on a 'u8  ' session with the bytes 200 and 5
staged. -/
theorem pcm8_normalisation_witness :
    store16 bld_le ((int8 200 - 128) * 256) = [0, 72] ∧
    load16 bld_le (store16 bld_le ((int8 200 - 128) * 256)) = (200 - 128) * 256 ∧
    int8 253 = -3 ∧
    load16 bld_le (store16 bld_le (int8 253 * 256)) = -3 * 256 ∧
    (raw_samples bld_le id_u8_small).2.2 = [0, 72, 0, 133] ∧
    load16 bld_le [0, 133] = (5 - 128) * 256 := by
  have h1 := (pcm8_normalisation bld_le).1 200 (by decide)
  have h2 := (pcm8_normalisation bld_le).2.1 (-3) (by decide) (by decide)
  have h3 := ((pcm8_normalisation bld_le).2.2.2 id_u8_small).1 rfl
  exact ⟨h1.1.trans (by decide), h1.2, h2.1, h2.2, h3.trans (by decide), by decide⟩

/-! ## The downmix loops -/

/-- The bytes of a buffer after a copy that stays inside it. -/
theorem memcpy_getElem (mem : List Nat) (off : Nat) (src : List Nat) (n : Nat)
    (h : off + src.length ≤ mem.length) :
    (memcpy mem off src)[n]? =
      (if n < off then mem[n]? else if n < off + src.length then src[n - off]? else mem[n]?) := by
  unfold memcpy
  have hl : (mem.take off).length = off := by rw [List.length_take]; omega
  by_cases h1 : n < off
  · rw [if_pos h1, List.append_assoc, List.getElem?_append_left (by omega),
      List.getElem?_take_of_lt h1]
  · rw [if_neg h1, List.append_assoc, List.getElem?_append_right (by omega), hl]
    by_cases h2 : n < off + src.length
    · rw [if_pos h2, List.getElem?_append_left (by omega)]
    · rw [if_neg h2, List.getElem?_append_right (by omega), List.getElem?_drop]
      congr 1
      omega

/-- The bytes of a buffer after one sample assignment of the downmix loop. -/
theorem copy_sample_getElem (m : List Nat) (base dst src n : Nat)
    (hs : base + 2 * src + 2 ≤ m.length) (hd : dst ≤ src) :
    (copy_sample m base (dst : Int) (src : Int)).length = m.length ∧
    (copy_sample m base (dst : Int) (src : Int))[n]? =
      (if base + 2 * dst ≤ n ∧ n < base + 2 * dst + 2 then m[n - (base + 2 * dst) + (base + 2 * src)]?
       else m[n]?) := by
  unfold copy_sample memmove
  rw [Int.toNat_ofNat, Int.toNat_ofNat]
  have hl : ((m.drop (base + 2 * src)).take 2).length = 2 := by
    rw [List.length_take, List.length_drop]; omega
  refine ⟨memcpy_length _ _ _ (by omega), ?_⟩
  rw [memcpy_getElem _ _ _ _ (by omega), hl]
  by_cases h1 : n < base + 2 * dst
  · rw [if_pos h1, if_neg (by omega)]
  · rw [if_neg h1]
    by_cases h2 : n < base + 2 * dst + 2
    · rw [if_pos h2, if_pos ⟨by omega, h2⟩, List.getElem?_take_of_lt (by omega),
        List.getElem?_drop]
      congr 1
      omega
    · rw [if_neg h2, if_neg (by omega)]

/-- The inner loop of the downmix, after `J` of its steps on row `i`: the
first `J` samples of the destination row hold what was in the source row, and
every byte outside them is as it was. -/
theorem downmix_row (base i D S : Nat) (hDS : D ≤ S) (m0 : List Nat) :
    ∀ J : Nat, J ≤ D → base + 2 * (i * S + S) ≤ m0.length →
      ((List.range J).foldl (fun (m : List Nat) (j : Nat) =>
          copy_sample m base ((i : Int) * (D : Int) + (j : Int))
            ((i : Int) * (S : Int) + (j : Int))) m0).length = m0.length ∧
      (∀ j b : Nat, j < J → b < 2 →
        ((List.range J).foldl (fun (m : List Nat) (j : Nat) =>
          copy_sample m base ((i : Int) * (D : Int) + (j : Int))
            ((i : Int) * (S : Int) + (j : Int))) m0)[base + 2 * (i * D + j) + b]? =
          m0[base + 2 * (i * S + j) + b]?) ∧
      (∀ n : Nat, (n < base + 2 * (i * D) ∨ base + 2 * (i * D + J) ≤ n) →
        ((List.range J).foldl (fun (m : List Nat) (j : Nat) =>
          copy_sample m base ((i : Int) * (D : Int) + (j : Int))
            ((i : Int) * (S : Int) + (j : Int))) m0)[n]? = m0[n]?) := by
  intro J
  have hiDS : i * D ≤ i * S := Nat.mul_le_mul_left _ hDS
  induction J with
  | zero =>
    intro _ _
    exact ⟨rfl, fun j b hj _ => absurd hj (Nat.not_lt_zero _), fun n _ => rfl⟩
  | succ J ih =>
    intro hJ hlen
    obtain ⟨il, ib, ic⟩ := ih (by omega) hlen
    rw [List.range_succ, List.foldl_append, List.foldl_cons, List.foldl_nil]
    generalize (List.range J).foldl (fun (m : List Nat) (j : Nat) =>
          copy_sample m base ((i : Int) * (D : Int) + (j : Int))
            ((i : Int) * (S : Int) + (j : Int))) m0 = m at il ib ic ⊢
    have e1 : ((i : Int) * (D : Int) + (J : Int)) = ((i * D + J : Nat) : Int) := by push_cast; rfl
    have e2 : ((i : Int) * (S : Int) + (J : Int)) = ((i * S + J : Nat) : Int) := by push_cast; rfl
    rw [e1, e2]
    have hc := fun n => copy_sample_getElem m base (i * D + J) (i * S + J) n
      (by rw [il]; omega) (by omega)
    refine ⟨(hc 0).1.trans il, ?_, ?_⟩
    · intro j b hj hb
      rw [(hc _).2]
      by_cases hjJ : j = J
      · subst hjJ
        rw [if_pos ⟨by omega, by omega⟩]
        have e : base + 2 * (i * D + j) + b - (base + 2 * (i * D + j)) + (base + 2 * (i * S + j)) =
            base + 2 * (i * S + j) + b := by omega
        rw [e]
        exact ic _ (Or.inr (by omega))
      · rw [if_neg (by omega)]
        exact ib j b (by omega) hb
    · intro n hn
      rw [(hc _).2, if_neg (by omega)]
      exact ic n (by omega)

/-- The downmix loops after `I` rows: the first `I` destination rows hold the
first `D` samples of the source rows, and every byte behind them is as it
was. -/
theorem downmix_rows (base D S : Nat) (hDS : D ≤ S) (F : Nat) (mem : List Nat)
    (hlen : base + 2 * (F * S) ≤ mem.length) :
    ∀ I : Nat, I ≤ F →
      ((List.range I).foldl (fun (m : List Nat) (i : Nat) =>
         (List.range D).foldl (fun (m : List Nat) (j : Nat) =>
           copy_sample m base ((i : Int) * (D : Int) + (j : Int))
             ((i : Int) * (S : Int) + (j : Int))) m) mem).length = mem.length ∧
      (∀ i j b : Nat, i < I → j < D → b < 2 →
        ((List.range I).foldl (fun (m : List Nat) (i : Nat) =>
           (List.range D).foldl (fun (m : List Nat) (j : Nat) =>
             copy_sample m base ((i : Int) * (D : Int) + (j : Int))
               ((i : Int) * (S : Int) + (j : Int))) m) mem)[base + 2 * (i * D + j) + b]? =
          mem[base + 2 * (i * S + j) + b]?) ∧
      (∀ n : Nat, base + 2 * (I * D) ≤ n →
        ((List.range I).foldl (fun (m : List Nat) (i : Nat) =>
           (List.range D).foldl (fun (m : List Nat) (j : Nat) =>
             copy_sample m base ((i : Int) * (D : Int) + (j : Int))
               ((i : Int) * (S : Int) + (j : Int))) m) mem)[n]? = mem[n]?) := by
  intro I
  induction I with
  | zero =>
    intro _
    exact ⟨rfl, fun i j b hi _ _ => absurd hi (Nat.not_lt_zero _), fun n _ => rfl⟩
  | succ I ih =>
    intro hI
    obtain ⟨il, ib, ic⟩ := ih (by omega)
    rw [List.range_succ, List.foldl_append, List.foldl_cons, List.foldl_nil]
    generalize (List.range I).foldl (fun (m : List Nat) (i : Nat) =>
           (List.range D).foldl (fun (m : List Nat) (j : Nat) =>
             copy_sample m base ((i : Int) * (D : Int) + (j : Int))
               ((i : Int) * (S : Int) + (j : Int))) m) mem = m at il ib ic ⊢
    have hIS : (I + 1) * S ≤ F * S := Nat.mul_le_mul_right _ hI
    have hIDS : I * D ≤ I * S := Nat.mul_le_mul_left _ hDS
    have e3 : (I + 1) * S = I * S + S := Nat.succ_mul _ _
    have e4 : (I + 1) * D = I * D + D := Nat.succ_mul _ _
    obtain ⟨rl, rb, rc⟩ := downmix_row base I D S hDS m D (le_refl _) (by rw [il]; omega)
    refine ⟨rl.trans il, ?_, ?_⟩
    · intro i j b hi hj hb
      by_cases hiI : i = I
      · subst hiI
        rw [rb j b hj hb]
        exact ic _ (by omega)
      · have hlt : i < I := by omega
        have h5 : (i + 1) * D ≤ I * D := Nat.mul_le_mul_right _ hlt
        have e5 : (i + 1) * D = i * D + D := Nat.succ_mul _ _
        rw [rc _ (Or.inl (by omega))]
        exact ib i j b hlt hj hb
    · intro n hn
      rw [rc n (Or.inr (by omega))]
      exact ic n (by omega)

/-- The bytes of a sample. -/
theorem sample_at_getElem (mem : List Nat) (base k n : Nat) :
    (sample_at mem base k)[n]? = (if n < 2 then mem[base + 2 * k + n]? else none) := by
  unfold sample_at
  by_cases h : n < 2
  · rw [if_pos h, List.getElem?_take_of_lt h, List.getElem?_drop]
  · rw [if_neg h, List.getElem?_take_eq_none (by omega)]

/-- C27: lines 1072-1078.  With a destination channel count `d` and a source
channel count `s`, `1 <= d <= s`, and the `frame_size * s` samples of the
frame inside the buffer, after the in-place downmix loops the sample at index
`i * d + j` is the sample that was at index `i * s + j` before them, for all
`0 <= i < frame_size` and `0 <= j < d`; the samples behind the
`frame_size * d` downmixed ones are as they were, and the buffer keeps its
size. -/
theorem downmix_samples (mem : List Nat) (base : Nat) (frame_size d s : Int)
    (hd : 1 ≤ d) (hds : d ≤ s)
    (hlen : base + 2 * (frame_size * s).toNat ≤ mem.length) :
    (downmix mem base frame_size d s).length = mem.length ∧
    (∀ i j : Nat, (i : Int) < frame_size → (j : Int) < d →
      sample_at (downmix mem base frame_size d s) base (i * d.toNat + j) =
        sample_at mem base (i * s.toNat + j)) ∧
    (∀ k : Nat, frame_size.toNat * d.toNat ≤ k →
      sample_at (downmix mem base frame_size d s) base k = sample_at mem base k) := by
  have hD : d = ((d.toNat : Nat) : Int) := by omega
  have hS : s = ((s.toNat : Nat) : Int) := by omega
  have hDS : d.toNat ≤ s.toNat := by omega
  have hFS : (frame_size * s).toNat = frame_size.toNat * s.toNat := by
    by_cases hf : 0 ≤ frame_size
    · have hF : frame_size = ((frame_size.toNat : Nat) : Int) := by omega
      rw [hF, hS]
      have : (((frame_size.toNat : Nat) : Int) * ((s.toNat : Nat) : Int)) =
          ((frame_size.toNat * s.toNat : Nat) : Int) := by push_cast; rfl
      rw [Int.toNat_ofNat, Int.toNat_ofNat, this, Int.toNat_ofNat]
    · have h0 : frame_size.toNat = 0 := by omega
      have hneg : frame_size * s ≤ 0 :=
        Int.mul_nonpos_of_nonpos_of_nonneg (by omega) (by omega)
      rw [h0, Nat.zero_mul]
      omega
  rw [hFS] at hlen
  have key := downmix_rows base d.toNat s.toNat hDS frame_size.toNat mem hlen
    frame_size.toNat (le_refl _)
  have hdm : downmix mem base frame_size d s =
      (List.range frame_size.toNat).foldl (fun (m : List Nat) (i : Nat) =>
         (List.range d.toNat).foldl (fun (m : List Nat) (j : Nat) =>
           copy_sample m base ((i : Int) * ((d.toNat : Nat) : Int) + (j : Int))
             ((i : Int) * ((s.toNat : Nat) : Int) + (j : Int))) m) mem := by
    unfold downmix
    rw [← hD, ← hS]
  rw [hdm]
  obtain ⟨kl, kb, kc⟩ := key
  refine ⟨kl, ?_, ?_⟩
  · intro i j hi hj
    apply List.ext_getElem?
    intro n
    rw [sample_at_getElem, sample_at_getElem]
    by_cases hn : n < 2
    · rw [if_pos hn, if_pos hn]
      exact kb i j n (by omega) (by omega) hn
    · rw [if_neg hn, if_neg hn]
  · intro k hk
    apply List.ext_getElem?
    intro n
    rw [sample_at_getElem, sample_at_getElem]
    by_cases hn : n < 2
    · rw [if_pos hn, if_pos hn]
      exact kc _ (by omega)
    · rw [if_neg hn, if_neg hn]

/-- C27 on a stereo frame of three samples per channel downmixed to mono: the
samples 1, 2, 3, 4, 5, 6 become 1, 3, 5 followed by the untouched 4, 5, 6. -/
theorem downmix_samples_witness :
    downmix [1, 0, 2, 0, 3, 0, 4, 0, 5, 0, 6, 0] 0 3 1 2 =
      [1, 0, 3, 0, 5, 0, 4, 0, 5, 0, 6, 0] ∧
    sample_at (downmix [1, 0, 2, 0, 3, 0, 4, 0, 5, 0, 6, 0] 0 3 1 2) 0 (2 * (1 : Int).toNat + 0) =
      sample_at [1, 0, 2, 0, 3, 0, 4, 0, 5, 0, 6, 0] 0 (2 * (2 : Int).toNat + 0) ∧
    sample_at [1, 0, 2, 0, 3, 0, 4, 0, 5, 0, 6, 0] 0 (2 * (2 : Int).toNat + 0) = [5, 0] :=
  ⟨by decide,
   (downmix_samples [1, 0, 2, 0, 3, 0, 4, 0, 5, 0, 6, 0] 0 3 1 2 (by decide) (by decide)
     (by decide)).2.1 2 0 (by decide) (by decide),
   by decide⟩

/-! ## An encoder failure in the audio encode loop -/

/-- C26 fails on the code: a raw stereo source is downmixed to mono, with
encoder frames of three samples, and the encoder returns 0 for the first
frame.  At the head of the encode loop the decoded-samples buffer holds the
six samples 1, 2, 3, 4, 5, 6.  The iteration ends the loop and appends no
unit, and the fill level stays at 12 bytes, but the loop has downmixed the
frame in place before calling the encoder (lines 1069-1079): the buffer now
holds 1, 3, 5, 4, 5, 6.  The call leaves the frame buffered, and the next
call, which brings one more sample pair, downmixes it a second time: the
encoder is handed 1, 5, 5 instead of the left channel 1, 3, 5. -/
theorem encoder_failure_after_downmix :
    decoded id_stereo_decoded = [1, 0, 2, 0, 3, 0, 4, 0, 5, 0, 6, 0] ∧
    id_stereo_decoded.ff_dec_c.channels ≠ id_stereo_decoded.ff_enc_c.channels ∧
    (audio_encode_call lib_retry 12 id_stereo_decoded).i_out_size = 0 ∧
    (audio_encode_loop lib_retry 12 1 id_stereo_decoded []).map (fun r => r.2) = some [] ∧
    (audio_encode_loop lib_retry 12 1 id_stereo_decoded []).map (fun r => r.1.i_buffer_pos) =
      some 12 ∧
    (audio_encode_loop lib_retry 12 1 id_stereo_decoded []).map (fun r => decoded r.1) =
      some [1, 0, 3, 0, 5, 0, 4, 0, 5, 0, 6, 0] ∧
    ([1, 0, 3, 0, 5, 0, 4, 0, 5, 0, 6, 0] : List Nat) ≠ [1, 0, 2, 0, 3, 0, 4, 0, 5, 0, 6, 0] ∧
    (audio_feed bld_le lib_retry 3 id_stereo_small [unit_stereo]).map (fun r => r.2) =
      some [] ∧
    (audio_feed bld_le lib_retry 3 id_stereo_small [unit_stereo, unit_stereo_next]).map
        (fun r => r.2.map (fun u => u.p_buffer)) = some [[1, 0, 5, 0, 5, 0]] :=
  ⟨by decide, by decide, by decide, by decide, by decide, by decide, by decide, by decide,
   by decide⟩

/-! ## Decoding timestamps never pass presentation timestamps -/

theorem coded_frames_append (lib : libavcodec) (ib : Nat) (a b : List Event) :
    coded_frames lib ib (a ++ b) = coded_frames lib ib a ++ coded_frames lib ib b :=
  List.filterMap_append _ _ _

theorem ref_pts_append (lib : libavcodec) (a b : List CodedFrame) :
    ref_pts lib (a ++ b) = ref_pts lib a ++ ref_pts lib b := by
  unfold ref_pts
  rw [List.filter_append, List.map_append]

theorem sent_units_append (a b : List Event) :
    sent_units (a ++ b) = sent_units a ++ sent_units b := by
  unfold sent_units
  rw [List.map_append, List.flatten_append]

/-- Calls without output encode nothing and send nothing. -/
theorem no_output_quiet (lib : libavcodec) (ib : Nat) :
    ∀ new : List Event, (∀ e ∈ new, no_output e = true) →
      coded_frames lib ib new = [] ∧ sent_units new = [] := by
  intro new
  induction new with
  | nil => intro _; exact ⟨rfl, rfl⟩
  | cons e t ih =>
    intro h
    obtain ⟨i1, i2⟩ := ih (fun x hx => h x (List.mem_cons_of_mem _ hx))
    have he := h e (List.mem_cons_self _ _)
    cases e with
    | avcodec_encode_video c f n => exact Bool.noConfusion he
    | pf_send i c r => exact Bool.noConfusion he
    | pf_add f r => exact ⟨i1, i2⟩
    | pf_del i => exact ⟨i1, i2⟩
    | sout_BufferDelete b => exact ⟨i1, i2⟩
    | avcodec_open c k r => exact ⟨i1, i2⟩
    | avcodec_close c => exact ⟨i1, i2⟩
    | avcodec_decode_video c n u b => exact ⟨i1, i2⟩
    | avpicture_fill s p w h => exact ⟨i1, i2⟩

/-- Increasing reference pts stay increasing when later calls are left
out. -/
theorem refs_increasing_initial (lib : libavcodec) (ib : Nat) (a b : List Event)
    (h : refs_increasing lib ib (a ++ b)) : refs_increasing lib ib a := by
  unfold refs_increasing at h ⊢
  rw [coded_frames_append, ref_pts_append] at h
  exact (List.pairwise_append.mp h).1

theorem pts_step_refl (lib : libavcodec) (st : video_state_t) : pts_step lib st st :=
  ⟨rfl, [], (List.append_nil _).symm, rfl, fun evs _ h => by rw [List.append_nil]; exact h⟩

theorem pts_step_trans (lib : libavcodec) {a b c : video_state_t} (h1 : pts_step lib a b)
    (h2 : pts_step lib b c) : pts_step lib a c := by
  obtain ⟨b1, n1, t1, s1, p1⟩ := h1
  obtain ⟨b2, n2, t2, s2, p2⟩ := h2
  rw [b1] at p2
  refine ⟨b2.trans b1, n1 ++ n2, by rw [t2, t1, List.append_assoc], ?_, ?_⟩
  · rw [sent_units_append, s1, s2]; rfl
  · intro evs hinc hinv
    rw [← List.append_assoc] at hinc ⊢
    exact p2 (evs ++ n1) hinc (p1 evs (refs_increasing_initial lib _ _ _ hinc) hinv)

theorem pts_quiet_refl (st : video_state_t) : pts_quiet st st :=
  ⟨rfl, rfl, rfl, [], (List.append_nil _).symm, fun e he => absurd he (List.not_mem_nil e)⟩

theorem pts_quiet_trans {a b c : video_state_t} (h1 : pts_quiet a b) (h2 : pts_quiet b c) :
    pts_quiet a c := by
  obtain ⟨b1, r1, o1, n1, t1, q1⟩ := h1
  obtain ⟨b2, r2, o2, n2, t2, q2⟩ := h2
  refine ⟨b2.trans b1, r2.trans r1, o2.trans o1, n1 ++ n2,
    by rw [t2, t1, List.append_assoc], ?_⟩
  intro e he
  rcases List.mem_append.mp he with h | h
  · exact q1 e h
  · exact q2 e h

/-- A quiet step keeps `pts_inv`. -/
theorem pts_step_of_quiet (lib : libavcodec) {st st' : video_state_t} (h : pts_quiet st st') :
    pts_step lib st st' := by
  obtain ⟨hb, hr, ho, new, ht, hq⟩ := h
  obtain ⟨hc, hs⟩ := no_output_quiet lib st.id.i_buffer new hq
  refine ⟨hb, new, ht, hs, ?_⟩
  intro evs _ hinv
  unfold pts_inv at hinv ⊢
  rw [coded_frames_append, hc, List.append_nil, hr, ho]
  exact hinv

theorem video_decode_quiet (lib : libavcodec) (inb : sout_buffer_t) (pic0 : AVFrame)
    (st : video_state_t) : pts_quiet st (video_decode lib inb pic0 st).2.2 := by
  unfold video_decode
  by_cases h : st.id.ff_dec ≠ none
  · rw [if_pos h]
    refine ⟨rfl, rfl, rfl, [_], rfl, ?_⟩
    intro e he
    rw [List.mem_singleton] at he
    subst he; rfl
  · rw [if_neg h]
    refine ⟨rfl, rfl, rfl, [_], rfl, ?_⟩
    intro e he
    rw [List.mem_singleton] at he
    subst he; rfl

theorem video_take_pts_quiet (st : video_state_t) : pts_quiet st (video_take_pts st) := by
  unfold video_take_pts
  split_ifs
  · exact ⟨rfl, rfl, rfl, [], (List.append_nil _).symm,
      fun e he => absurd he (List.not_mem_nil e)⟩
  · exact pts_quiet_refl st

theorem close_no_output (id : sout_stream_id_t) (tr : List Event) :
    ∃ new, transcode_video_ffmpeg_close id tr = tr ++ new ∧ ∀ e ∈ new, no_output e = true := by
  unfold transcode_video_ffmpeg_close
  by_cases h1 : id.ff_dec ≠ none <;> by_cases h2 : id.b_enc_inited = true
  · rw [if_pos h1, if_pos h2]
    refine ⟨[Event.avcodec_close id.ff_dec_c, Event.avcodec_close id.ff_enc_c], by simp, ?_⟩
    intro e he
    simp only [List.mem_cons, List.mem_singleton, List.not_mem_nil, or_false] at he
    rcases he with rfl | rfl <;> rfl
  · rw [if_pos h1, if_neg h2]
    refine ⟨[Event.avcodec_close id.ff_dec_c], by simp, ?_⟩
    intro e he
    rw [List.mem_singleton] at he
    subst he; rfl
  · rw [if_neg h1, if_pos h2]
    refine ⟨[Event.avcodec_close id.ff_enc_c], by simp, ?_⟩
    intro e he
    rw [List.mem_singleton] at he
    subst he; rfl
  · rw [if_neg h1, if_neg h2]
    exact ⟨[], rfl, fun e he => absurd he (List.not_mem_nil e)⟩

theorem video_lazy_init_quiet (lib : libavcodec) (out : sout_out_t) (st : video_state_t) :
    pts_quiet st (video_lazy_init lib out st).2 := by
  have hd := (video_lazy_dims_video st.sys st.id).2.2
  have ho : (video_lazy_opened lib st.sys st.id).i_buffer = st.id.i_buffer := hd
  unfold video_lazy_init
  by_cases h1 : st.id.b_enc_inited = true
  · rw [if_pos h1]; exact pts_quiet_refl st
  · rw [if_neg h1]
    by_cases h2 : (video_lazy_open lib st.sys st.id).ret ≠ 0
    · rw [if_pos h2]
      refine ⟨ho, rfl, rfl, [Event.avcodec_open (video_lazy_dims st.sys st.id).ff_enc_c
        (video_lazy_dims st.sys st.id).ff_enc (video_lazy_open lib st.sys st.id).ret], rfl, ?_⟩
      intro e he
      rw [List.mem_singleton] at he
      subst he; rfl
    · rw [if_neg h2]
      simp only
      cases hp : out.pf_add
          (st.tr ++ [Event.avcodec_open (video_lazy_dims st.sys st.id).ff_enc_c
            (video_lazy_dims st.sys st.id).ff_enc (video_lazy_open lib st.sys st.id).ret])
          (video_lazy_opened lib st.sys st.id).f_dst with
      | none =>
        rw [if_pos rfl]
        obtain ⟨cl, hcl, hq⟩ := close_no_output
          { video_lazy_opened lib st.sys st.id with id := none }
          (st.tr ++ [Event.avcodec_open (video_lazy_dims st.sys st.id).ff_enc_c
              (video_lazy_dims st.sys st.id).ff_enc (video_lazy_open lib st.sys st.id).ret] ++
            [Event.pf_add (video_lazy_opened lib st.sys st.id).f_dst none])
        refine ⟨ho, rfl, rfl, [Event.avcodec_open (video_lazy_dims st.sys st.id).ff_enc_c
              (video_lazy_dims st.sys st.id).ff_enc (video_lazy_open lib st.sys st.id).ret,
            Event.pf_add (video_lazy_opened lib st.sys st.id).f_dst none] ++ cl, ?_, ?_⟩
        · show transcode_video_ffmpeg_close _ _ = _
          rw [hcl]; simp only [List.append_assoc, List.cons_append, List.nil_append]
        · intro e he
          rcases List.mem_append.mp he with h | h
          · simp only [List.mem_cons, List.mem_singleton, List.not_mem_nil, or_false] at h
            rcases h with rfl | rfl <;> rfl
          · exact hq e h
      | some k =>
        rw [if_neg (fun h => Option.noConfusion h)]
        refine ⟨ho, rfl, rfl, [Event.avcodec_open (video_lazy_dims st.sys st.id).ff_enc_c
              (video_lazy_dims st.sys st.id).ff_enc (video_lazy_open lib st.sys st.id).ret,
            Event.pf_add (video_lazy_opened lib st.sys st.id).f_dst (some k)], ?_, ?_⟩
        · show _ ++ _ ++ _ = _
          simp only [List.append_assoc, List.cons_append, List.nil_append]
        · intro e he
          simp only [List.mem_cons, List.mem_singleton, List.not_mem_nil, or_false] at he
          rcases he with rfl | rfl <;> rfl

theorem fill_no_output (tr : List Event) (c : Prop) [Decidable c] (slot : FrameSlot)
    (p : PixelFormat) (w h : Int) :
    ∃ new, (if c then tr ++ [Event.avpicture_fill slot p w h] else tr) = tr ++ new ∧
      ∀ e ∈ new, no_output e = true := by
  split_ifs
  · refine ⟨[_], rfl, ?_⟩
    intro e he
    rw [List.mem_singleton] at he
    subst he; rfl
  · exact ⟨[], (List.append_nil _).symm, fun e he => absurd he (List.not_mem_nil e)⟩

theorem video_deinterlace_pts (lib : libavcodec) (st : video_state_t) :
    pts_quiet st (video_deinterlace lib st) := by
  unfold video_deinterlace
  by_cases h : st.sys.b_deinterlace = true
  · rw [if_pos h]; exact ⟨rfl, rfl, rfl, fill_no_output _ _ _ _ _ _⟩
  · rw [if_neg h]; exact pts_quiet_refl st

theorem video_convert_pts (lib : libavcodec) (st : video_state_t) :
    pts_quiet st (video_convert lib st) := by
  unfold video_convert
  by_cases h : st.id.ff_dec_c.pix_fmt ≠ st.id.ff_enc_c.pix_fmt
  · rw [if_pos h]; exact ⟨rfl, rfl, rfl, fill_no_output _ _ _ _ _ _⟩
  · rw [if_neg h]; exact pts_quiet_refl st

theorem video_resize_pts (lib : libavcodec) (st : video_state_t) :
    pts_quiet st (video_resize lib st) := by
  unfold video_resize
  by_cases h : st.id.ff_dec_c.width ≠ st.id.ff_enc_c.width ∨
     st.id.ff_dec_c.height ≠ st.id.ff_enc_c.height ∨
     st.sys.i_crop_top > 0 ∨ st.sys.i_crop_bottom > 0 ∨
     st.sys.i_crop_left > 0 ∨ st.sys.i_crop_right ≠ 0
  · rw [if_pos h]; exact ⟨rfl, rfl, rfl, fill_no_output _ _ _ _ _ _⟩
  · rw [if_neg h]; exact pts_quiet_refl st

theorem video_stamp_pts (st : video_state_t) : pts_quiet st (video_stamp st) := by
  have h := (set_frame_video st.id st.frame
    { st.pic with
      pts := if st.id.f_dst.i_fourcc = VLC_FOURCC 'm' 'p' 'g' 'v'
             then st.sys.i_output_pts else 0
      pict_type := 0 }).2.2
  refine ⟨h, ?_, rfl, [], (List.append_nil _).symm, fun e he => absurd he (List.not_mem_nil e)⟩
  unfold video_stamp
  simp only
  split_ifs <;> rfl

/-- Lines 1550-1587: the dts of the unit built from a coded picture.  In the
coded-pts branch it is the pts of the unit, or the last reference pts when
the coded picture is a reference picture; in the fallback branch dts and pts
are both the dts of the input. -/
theorem video_unit_dts (lib : libavcodec) (inb : sout_buffer_t) (st : video_state_t) :
    (video_unit lib inb st).i_dts = (video_unit lib inb st).i_pts ∨
    ((video_unit lib inb st).i_dts = st.sys.i_last_ref_pts ∧
     (video_unit lib inb st).i_pts = (video_encode_call lib st).coded_frame.pts ∧
     st.sys.i_last_ref_pts ≠ 0 ∧
     is_ref lib (video_encode_call lib st).coded_frame = true) := by
  unfold video_unit
  simp only
  by_cases hc : (video_encode_call lib st).coded_frame.pts ≠ 0 ∧
      st.sys.i_buggy_pts_detect ≠ (video_encode_call lib st).coded_frame.pts
  · rw [if_pos hc]
    simp only
    by_cases hd : st.id.ff_enc_c.delay = 0 ∨
        ((video_encode_call lib st).coded_frame.pict_type ≠ lib.FF_I_TYPE ∧
         (video_encode_call lib st).coded_frame.pict_type ≠ lib.FF_P_TYPE)
    · rw [if_pos hd]; exact Or.inl rfl
    · rw [if_neg hd]
      by_cases hr : st.sys.i_last_ref_pts ≠ 0
      · rw [if_pos hr]
        refine Or.inr ⟨rfl, trivial, hr, ?_⟩
        unfold is_ref
        rw [decide_eq_true_iff]
        by_contra hn
        exact hd (Or.inr ⟨fun h => hn (Or.inl h), fun h => hn (Or.inr h)⟩)
      · rw [if_neg hr]; exact Or.inl rfl
  · rw [if_neg hc]; exact Or.inl rfl

/-- Lines 1550-1578: the last reference pts after a coded picture is the old
one, or the coded pts of the picture when that is a reference picture. -/
theorem video_unit_sys_ref (lib : libavcodec) (st : video_state_t) :
    (video_unit_sys lib st).i_last_ref_pts = st.sys.i_last_ref_pts ∨
    ((video_unit_sys lib st).i_last_ref_pts = (video_encode_call lib st).coded_frame.pts ∧
     is_ref lib (video_encode_call lib st).coded_frame = true) := by
  unfold video_unit_sys
  simp only
  by_cases hc : (video_encode_call lib st).coded_frame.pts ≠ 0 ∧
      st.sys.i_buggy_pts_detect ≠ (video_encode_call lib st).coded_frame.pts
  · rw [if_pos hc]
    by_cases hd : st.id.ff_enc_c.delay = 0 ∨
        ((video_encode_call lib st).coded_frame.pict_type ≠ lib.FF_I_TYPE ∧
         (video_encode_call lib st).coded_frame.pict_type ≠ lib.FF_P_TYPE)
    · rw [if_pos hd]; exact Or.inl rfl
    · rw [if_neg hd]
      refine Or.inr ⟨rfl, ?_⟩
      unfold is_ref
      rw [decide_eq_true_iff]
      by_contra hn
      exact hd (Or.inr ⟨fun h => hn (Or.inl h), fun h => hn (Or.inr h)⟩)
  · rw [if_neg hc]; exact Or.inl rfl

/-- The reference pts after one more coded picture. -/
theorem ref_pts_snoc (lib : libavcodec) (l : List CodedFrame) (c : CodedFrame) :
    ref_pts lib (l ++ [c]) = ref_pts lib l ++ (if is_ref lib c = true then [c.pts] else []) := by
  rw [ref_pts_append]
  congr 1
  unfold ref_pts
  by_cases h : is_ref lib c = true
  · rw [if_pos h, List.filter_cons_of_pos h]; rfl
  · rw [if_neg h, List.filter_cons_of_neg h]; rfl

/-- The encoding step keeps `pts_inv`. -/
theorem video_encode_pts (lib : libavcodec) (inb : sout_buffer_t) (st : video_state_t) :
    pts_step lib st (video_encode lib inb st) := by
  refine ⟨rfl, [Event.avcodec_encode_video st.id.ff_enc_c st.pic
    (video_encode_call lib st).i_out], rfl, rfl, ?_⟩
  intro evs hinc hinv
  obtain ⟨hl, hu⟩ := hinv
  have hcf : coded_frames lib st.id.i_buffer (evs ++ [Event.avcodec_encode_video st.id.ff_enc_c
      st.pic (video_encode_call lib st).i_out]) =
      coded_frames lib st.id.i_buffer evs ++
        (if (video_encode_call lib st).i_out > 0 then [(video_encode_call lib st).coded_frame]
         else []) := by
    rw [coded_frames_append]
    congr 1
    show List.filterMap _ [_] = _
    by_cases h : (video_encode_call lib st).i_out > 0
    · rw [if_pos h, List.filterMap_cons_some (b := (video_encode_call lib st).coded_frame)]
      · rfl
      · show (if (video_encode_call lib st).i_out > 0 then _ else _) = _
        rw [if_pos h]
        rfl
    · rw [if_neg h, List.filterMap_cons_none]
      · rfl
      · show (if (video_encode_call lib st).i_out > 0 then _ else _) = _
        rw [if_neg h]
  unfold refs_increasing at hinc
  rw [hcf] at hinc
  unfold pts_inv
  rw [hcf]
  by_cases hout : (video_encode_call lib st).i_out > 0
  · rw [if_pos hout] at hinc ⊢
    rw [ref_pts_snoc] at hinc ⊢
    have hsys : (video_encode lib inb st).sys = video_unit_sys lib st := by
      show (if (video_encode_call lib st).i_out > 0 then _ else _) = _
      rw [if_pos hout]
    have hch : (video_encode lib inb st).out = st.out ++ [video_unit lib inb st] := by
      show (if (video_encode_call lib st).i_out > 0 then _ else _) = _
      rw [if_pos hout]
    rw [hsys, hch]
    constructor
    · rcases video_unit_sys_ref lib st with h | ⟨h, hr⟩
      · rw [h]
        rcases hl with h0 | hm
        · exact Or.inl h0
        · exact Or.inr (List.mem_append_left _ hm)
      · rw [h, if_pos hr]
        exact Or.inr (List.mem_append_right _ (List.mem_singleton_self _))
    · intro u hu'
      rcases List.mem_append.mp hu' with h | h
      · exact hu u h
      · rw [List.mem_singleton] at h
        subst h
        rcases video_unit_dts lib inb st with h | ⟨h1, h2, h3, h4⟩
        · exact le_of_eq h
        · rw [h1, h2]
          rw [if_pos h4] at hinc
          rcases hl with h0 | hm
          · exact absurd h0 h3
          · exact le_of_lt ((List.pairwise_append.mp hinc).2.2 _ hm _
              (List.mem_singleton_self _))
  · rw [if_neg hout, List.append_nil]
    have hsys : (video_encode lib inb st).sys = st.sys := by
      show (if (video_encode_call lib st).i_out > 0 then _ else _) = _
      rw [if_neg hout]
    have hch : (video_encode lib inb st).out = st.out := by
      show (if (video_encode_call lib st).i_out > 0 then _ else _) = _
      rw [if_neg hout]
    rw [hsys, hch]
    exact ⟨hl, hu⟩

/-- Lines 1437-1590 keep `pts_inv`. -/
theorem video_picture_step (lib : libavcodec) (inb : sout_buffer_t) (st : video_state_t) :
    pts_step lib st (video_picture lib inb st) := by
  unfold video_picture
  have q := pts_quiet_trans (pts_quiet_trans (pts_quiet_trans (video_deinterlace_pts lib st)
    (video_convert_pts lib _)) (video_resize_pts lib _)) (video_stamp_pts _)
  exact pts_step_trans lib (pts_step_of_quiet lib q) (video_encode_pts lib inb _)

/-- An iteration of the engine keeps `pts_inv`. -/
theorem video_iteration_step (lib : libavcodec) (out : sout_out_t) (inb : sout_buffer_t)
    (st : video_state_t) : pts_step lib st (video_iteration lib out inb st).2 := by
  unfold video_iteration
  cases hp : st.id.p_ff_pic with
  | none => exact pts_step_refl lib st
  | some pic0 =>
    simp only
    have hd := video_decode_quiet lib inb pic0 st
    have ha : pts_quiet (video_decode lib inb pic0 st).2.2
        (video_advance (video_decode lib inb pic0 st).1 (video_decode lib inb pic0 st).2.2) :=
      ⟨rfl, rfl, rfl, [], (List.append_nil _).symm, fun e he => absurd he (List.not_mem_nil e)⟩
    have ht := video_take_pts_quiet (video_advance (video_decode lib inb pic0 st).1
        (video_decode lib inb pic0 st).2.2)
    have hl := video_lazy_init_quiet lib out (video_take_pts
        (video_advance (video_decode lib inb pic0 st).1 (video_decode lib inb pic0 st).2.2))
    have hq := pts_quiet_trans (pts_quiet_trans (pts_quiet_trans hd ha) ht) hl
    by_cases h1 : (video_decode lib inb pic0 st).1 < 0
    · rw [if_pos h1]; exact pts_step_of_quiet lib hd
    · rw [if_neg h1]
      by_cases h2 : (video_decode lib inb pic0 st).2.1 = false
      · rw [if_pos h2]; exact pts_step_of_quiet lib (pts_quiet_trans hd ha)
      · rw [if_neg h2]
        generalize video_lazy_init lib out (video_take_pts
          (video_advance (video_decode lib inb pic0 st).1
            (video_decode lib inb pic0 st).2.2)) = r at hq
        obtain ⟨status, st1⟩ := r
        cases status with
        | some s => exact pts_step_of_quiet lib hq
        | none =>
          exact pts_step_trans lib (pts_step_of_quiet lib hq) (video_picture_step lib inb st1)

/-- The loop of the engine keeps `pts_inv`. -/
theorem video_loop_step (lib : libavcodec) (out : sout_out_t) (inb : sout_buffer_t) :
    ∀ (fuel : Nat) (st : video_state_t), pts_step lib st (video_loop lib out inb fuel st).2 := by
  intro fuel
  induction fuel with
  | zero => intro st; exact pts_step_refl lib st
  | succ n ih =>
    intro st
    have hi := video_iteration_step lib out inb st
    unfold video_loop
    generalize video_iteration lib out inb st = r at hi
    obtain ⟨fl, st1⟩ := r
    cases fl with
    | next => exact pts_step_trans lib hi (ih st1)
    | ret s => exact hi
    | stuck => exact hi

/-- The engine keeps `pts_inv`: the chain it leaves has every dts at or
before its pts. -/
theorem video_process_step (lib : libavcodec) (out : sout_out_t) (fuel : Nat)
    (sys : sout_stream_sys_t) (id : sout_stream_id_t) (inb : sout_buffer_t) (tr : List Event) :
    (transcode_video_ffmpeg_process lib out fuel sys id inb tr).id.i_buffer = id.i_buffer ∧
    ∃ new, (transcode_video_ffmpeg_process lib out fuel sys id inb tr).tr = tr ++ new ∧
      sent_units new = [] ∧
      ∀ evs, refs_increasing lib id.i_buffer (evs ++ new) →
        (sys.i_last_ref_pts = 0 ∨
          sys.i_last_ref_pts ∈ ref_pts lib (coded_frames lib id.i_buffer evs)) →
        pts_inv lib id.i_buffer (evs ++ new)
          (transcode_video_ffmpeg_process lib out fuel sys id inb tr).sys
          (transcode_video_ffmpeg_process lib out fuel sys id inb tr).out := by
  have h := video_loop_step lib out inb fuel (video_entry lib sys id inb tr)
  unfold transcode_video_ffmpeg_process
  generalize video_loop lib out inb fuel (video_entry lib sys id inb tr) = r at h
  obtain ⟨fl, st⟩ := r
  obtain ⟨hb, new, ht, hs, hp⟩ := h
  have key : st.id.i_buffer = id.i_buffer ∧
      ∃ new, st.tr = tr ++ new ∧ sent_units new = [] ∧
        ∀ evs, refs_increasing lib id.i_buffer (evs ++ new) →
          (sys.i_last_ref_pts = 0 ∨
            sys.i_last_ref_pts ∈ ref_pts lib (coded_frames lib id.i_buffer evs)) →
          pts_inv lib id.i_buffer (evs ++ new) st.sys st.out :=
    ⟨hb, new, ht, hs, fun evs hinc hl =>
      hp evs hinc ⟨hl, fun u hu => absurd hu (List.not_mem_nil u)⟩⟩
  cases fl <;> exact key

/-- A `Send` on a video session keeps the link between the last reference
pts and the reference pictures encoded, and every unit it sends downstream
has its dts at or before its pts, as long as the reference pts are
increasing. -/
theorem send_pts (out : sout_out_t) (bld : build_t) (lib : libavcodec) (fuel : Nat)
    (sys : sout_stream_sys_t) (id : sout_stream_id_t) (u : sout_buffer_t) (tr : List Event)
    (s : reg_t) (hs : reg_inv id s) :
    (Send out bld lib fuel sys id u tr).id.i_buffer = id.i_buffer ∧
    ∃ new, (Send out bld lib fuel sys id u tr).tr = tr ++ new ∧
      ∀ evs, refs_increasing lib id.i_buffer (evs ++ new) →
        (sys.i_last_ref_pts = 0 ∨
          sys.i_last_ref_pts ∈ ref_pts lib (coded_frames lib id.i_buffer evs)) →
        ((Send out bld lib fuel sys id u tr).sys.i_last_ref_pts = 0 ∨
          (Send out bld lib fuel sys id u tr).sys.i_last_ref_pts ∈
            ref_pts lib (coded_frames lib id.i_buffer (evs ++ new))) ∧
        ∀ v ∈ sent_units new, v.i_dts ≤ v.i_pts := by
  have hdrop : id.b_transcode = false → id.id = none →
      (Send out bld lib fuel sys id u tr).id.i_buffer = id.i_buffer ∧
      ∃ new, (Send out bld lib fuel sys id u tr).tr = tr ++ new ∧
        ∀ evs, refs_increasing lib id.i_buffer (evs ++ new) →
          (sys.i_last_ref_pts = 0 ∨
            sys.i_last_ref_pts ∈ ref_pts lib (coded_frames lib id.i_buffer evs)) →
          ((Send out bld lib fuel sys id u tr).sys.i_last_ref_pts = 0 ∨
            (Send out bld lib fuel sys id u tr).sys.i_last_ref_pts ∈
              ref_pts lib (coded_frames lib id.i_buffer (evs ++ new))) ∧
          ∀ v ∈ sent_units new, v.i_dts ≤ v.i_pts := by
    intro hb hi
    unfold Send
    rw [if_neg (by rw [hb]; decide), if_neg (by rw [hi]; exact fun h => h rfl)]
    refine ⟨rfl, [Event.sout_BufferDelete u], rfl, ?_⟩
    intro evs _ hl
    have hc : coded_frames lib id.i_buffer (evs ++ [Event.sout_BufferDelete u]) =
        coded_frames lib id.i_buffer evs := by
      rw [coded_frames_append]; exact List.append_nil _
    rw [hc]
    exact ⟨hl, fun v hv => absurd hv (List.not_mem_nil v)⟩
  have hvideo : id.b_transcode = true → id.f_src.i_cat = VIDEO_ES →
      (Send out bld lib fuel sys id u tr).id.i_buffer = id.i_buffer ∧
      ∃ new, (Send out bld lib fuel sys id u tr).tr = tr ++ new ∧
        ∀ evs, refs_increasing lib id.i_buffer (evs ++ new) →
          (sys.i_last_ref_pts = 0 ∨
            sys.i_last_ref_pts ∈ ref_pts lib (coded_frames lib id.i_buffer evs)) →
          ((Send out bld lib fuel sys id u tr).sys.i_last_ref_pts = 0 ∨
            (Send out bld lib fuel sys id u tr).sys.i_last_ref_pts ∈
              ref_pts lib (coded_frames lib id.i_buffer (evs ++ new))) ∧
          ∀ v ∈ sent_units new, v.i_dts ≤ v.i_pts := by
    intro hb hc
    obtain ⟨pb, pn, pt, ps, pp⟩ := video_process_step lib out fuel sys id u tr
    unfold Send
    rw [if_pos hb, if_neg (by rw [hc]; decide), if_pos hc]
    cases hr : (transcode_video_ffmpeg_process lib out fuel sys id u tr).ret with
    | none =>
      refine ⟨pb, pn, pt, ?_⟩
      intro evs hinc hl
      refine ⟨(pp evs hinc hl).1, ?_⟩
      rw [ps]
      exact fun v hv => absurd hv (List.not_mem_nil v)
    | some status =>
      simp only
      generalize transcode_video_ffmpeg_process lib out fuel sys id u tr = R at pb pt pp
      unfold send_transcoded
      by_cases hne : R.out ≠ []
      · rw [if_pos hne]
        refine ⟨pb, pn ++ [Event.sout_BufferDelete u, Event.pf_send R.id.id R.out
          (out.pf_send (R.tr ++ [Event.sout_BufferDelete u]) R.id.id R.out)], ?_, ?_⟩
        · show R.tr ++ _ = _
          rw [pt, List.append_assoc]
        · intro evs hinc hl
          rw [← List.append_assoc] at hinc ⊢
          have hp := pp evs (refs_increasing_initial lib _ _ _ hinc) hl
          have hcf : coded_frames lib id.i_buffer
              (evs ++ pn ++ [Event.sout_BufferDelete u, Event.pf_send R.id.id R.out
                (out.pf_send (R.tr ++ [Event.sout_BufferDelete u]) R.id.id R.out)]) =
              coded_frames lib id.i_buffer (evs ++ pn) := by
            rw [coded_frames_append]; exact List.append_nil _
          rw [hcf]
          refine ⟨hp.1, ?_⟩
          intro v hv
          rw [sent_units_append, ps, List.nil_append] at hv
          have hsu : sent_units [Event.sout_BufferDelete u, Event.pf_send R.id.id R.out
              (out.pf_send (R.tr ++ [Event.sout_BufferDelete u]) R.id.id R.out)] = R.out := by
            show ([] ++ (R.out ++ [])) = R.out
            rw [List.append_nil, List.nil_append]
          rw [hsu] at hv
          exact hp.2 v hv
      · rw [if_neg hne]
        refine ⟨pb, pn ++ [Event.sout_BufferDelete u], ?_, ?_⟩
        · show R.tr ++ _ = _
          rw [pt, List.append_assoc]
        · intro evs hinc hl
          rw [← List.append_assoc] at hinc ⊢
          have hp := pp evs (refs_increasing_initial lib _ _ _ hinc) hl
          have hcf : coded_frames lib id.i_buffer (evs ++ pn ++ [Event.sout_BufferDelete u]) =
              coded_frames lib id.i_buffer (evs ++ pn) := by
            rw [coded_frames_append]; exact List.append_nil _
          rw [hcf]
          refine ⟨hp.1, ?_⟩
          intro v hv
          rw [sent_units_append, ps, List.nil_append] at hv
          exact absurd hv (List.not_mem_nil v)
  cases s with
  | bad => exact False.elim hs
  | refused => exact hdrop hs.1 hs.2
  | fresh b => exact hvideo hs.1 hs.2.1
  | added k => exact hvideo hs.1 hs.2.1

/-- A sequence of `Send` calls on a video session: every unit sent
downstream has its dts at or before its pts, as long as the reference pts are
increasing. -/
theorem send_all_pts (out : sout_out_t) (bld : build_t) (lib : libavcodec) (fuel : Nat)
    (units : List sout_buffer_t) :
    ∀ (sys : sout_stream_sys_t) (id : sout_stream_id_t) (tr : List Event) (s : reg_t),
      reg_inv id s →
      ∃ new, (send_all out bld lib fuel sys id tr units).tr = tr ++ new ∧
        ∀ evs, refs_increasing lib id.i_buffer (evs ++ new) →
          (sys.i_last_ref_pts = 0 ∨
            sys.i_last_ref_pts ∈ ref_pts lib (coded_frames lib id.i_buffer evs)) →
          ((send_all out bld lib fuel sys id tr units).sys.i_last_ref_pts = 0 ∨
            (send_all out bld lib fuel sys id tr units).sys.i_last_ref_pts ∈
              ref_pts lib (coded_frames lib id.i_buffer (evs ++ new))) ∧
          ∀ v ∈ sent_units new, v.i_dts ≤ v.i_pts := by
  induction units with
  | nil =>
    intro sys id tr s _
    refine ⟨[], (List.append_nil _).symm, ?_⟩
    intro evs _ hl
    rw [List.append_nil]
    exact ⟨hl, fun v hv => absurd hv (List.not_mem_nil v)⟩
  | cons u rest ih =>
    intro sys id tr s hs
    obtain ⟨sb, sn, st, sp⟩ := send_pts out bld lib fuel sys id u tr s hs
    cases rest with
    | nil => exact ⟨sn, st, sp⟩
    | cons v rest =>
      rw [send_all]
      cases hr : (Send out bld lib fuel sys id u tr).ret with
      | none => exact ⟨sn, st, sp⟩
      | some status =>
        simp only
        obtain ⟨evs1, -, hinv1⟩ := send_reg out bld lib fuel sys id u tr s hs
        obtain ⟨n2, t2, p2⟩ := ih (Send out bld lib fuel sys id u tr).sys
          (Send out bld lib fuel sys id u tr).id (Send out bld lib fuel sys id u tr).tr _ hinv1
        rw [sb] at p2
        refine ⟨sn ++ n2, by rw [t2, st, List.append_assoc], ?_⟩
        intro evs hinc hl
        rw [← List.append_assoc] at hinc ⊢
        have h1 := sp evs (refs_increasing_initial lib _ _ _ hinc) hl
        have h2 := p2 (evs ++ sn) hinc h1.1
        refine ⟨h2.1, ?_⟩
        intro w hw
        rw [sent_units_append] at hw
        rcases List.mem_append.mp hw with h | h
        · exact h1.2 w h
        · exact h2.2 w h

/-- C30: a pipeline with a single video session, from the creation of the
session by `Add`, which resets `i_last_ref_pts` and `i_buggy_pts_detect` to
0.  For every sequence of `Send` calls on the session, if the coded pts of
the I and P pictures among the encoded frames are strictly increasing, then
every unit sent downstream has `i_dts <= i_pts`, and the last reference pts
is 0 until a reference picture has been encoded.  A unit built in the
coded-pts branch has its dts equal to its pts when the coded picture is not a
reference picture and when the last reference pts is 0, which is the case of
the first reference picture; otherwise its dts is the last reference pts. -/
theorem dts_le_pts (lib : libavcodec) :
    (∀ (out : sout_out_t) (bld : build_t) (sys : sout_stream_sys_t) (mem : sout_stream_id_t)
        (stack : AVFrame) (p_fmt : sout_format_t) (tr : List Event) (id : sout_stream_id_t)
        (sys1 : sout_stream_sys_t) (tr1 : List Event) (fuel : Nat) (units : List sout_buffer_t),
      p_fmt.i_cat = VIDEO_ES → sys.i_vcodec ≠ 0 →
      Add out bld lib sys mem stack p_fmt tr = (some id, sys1, tr1) →
      sys1.i_last_ref_pts = 0 ∧ sys1.i_buggy_pts_detect = 0 ∧
      ∃ new, (send_all out bld lib fuel sys1 id tr1 units).tr = tr1 ++ new ∧
        (refs_increasing lib id.i_buffer new →
          (∀ v ∈ sent_units new, v.i_dts ≤ v.i_pts) ∧
          (ref_pts lib (coded_frames lib id.i_buffer new) = [] →
            (send_all out bld lib fuel sys1 id tr1 units).sys.i_last_ref_pts = 0))) ∧
    (∀ (inb : sout_buffer_t) (st : video_state_t),
      (video_encode_call lib st).coded_frame.pts ≠ 0 →
      st.sys.i_buggy_pts_detect ≠ (video_encode_call lib st).coded_frame.pts →
      (video_unit lib inb st).i_pts = (video_encode_call lib st).coded_frame.pts ∧
      (is_ref lib (video_encode_call lib st).coded_frame = false →
        (video_unit lib inb st).i_dts = (video_unit lib inb st).i_pts) ∧
      (st.sys.i_last_ref_pts = 0 →
        (video_unit lib inb st).i_dts = (video_unit lib inb st).i_pts) ∧
      ((video_unit lib inb st).i_dts = (video_unit lib inb st).i_pts ∨
        (video_unit lib inb st).i_dts = st.sys.i_last_ref_pts)) := by
  constructor
  · intro out bld sys mem stack p_fmt tr id sys1 tr1 fuel units hcat hcodec hadd
    obtain ⟨-, -, -, hl0, hb0⟩ := add_video_fourcc out bld lib sys mem stack p_fmt tr id sys1 tr1
      hcat hcodec hadd
    obtain ⟨hreg, -, -⟩ := add_video_reg out bld lib sys mem stack p_fmt tr id sys1 tr1
      hcat hcodec hadd
    obtain ⟨new, ht, hp⟩ := send_all_pts out bld lib fuel units sys1 id tr1 _ hreg
    refine ⟨hl0, hb0, new, ht, ?_⟩
    intro hinc
    have h := hp [] (by rw [List.nil_append]; exact hinc) (Or.inl hl0)
    rw [List.nil_append] at h
    refine ⟨h.2, fun he => ?_⟩
    rcases h.1 with h0 | hm
    · exact h0
    · rw [he] at hm
      exact absurd hm (List.not_mem_nil _)
  · intro inb st h1 h2
    have hpts : (video_unit lib inb st).i_pts = (video_encode_call lib st).coded_frame.pts := by
      unfold video_unit
      simp only
      rw [if_pos ⟨h1, h2⟩]
    refine ⟨hpts, ?_, ?_, ?_⟩
    · intro hr
      rcases video_unit_dts lib inb st with h | ⟨-, -, -, h4⟩
      · exact h
      · rw [hr] at h4
        exact Bool.noConfusion h4
    · intro h0
      rcases video_unit_dts lib inb st with h | ⟨-, -, h3, -⟩
      · exact h
      · exact absurd h0 h3
    · rcases video_unit_dts lib inb st with h | ⟨h, -, -, -⟩
      · exact Or.inl h
      · exact Or.inr h

/-- C30 on a raw 2x2 source transcoded to `mpgv` by an encoder with a
reordering delay that codes every picture as an I picture stamped 50000 after
the picture it was given: two pictures stamped 80000 and 120000 leave as
units with pts 130000 and 170000; the first has its dts equal to its pts,
the second has the dts 130000 of the previous reference picture. -/
theorem dts_le_pts_witness :
    Add out_ok bld_le lib_delay sys_mpgv id_zero frame_zero fmt_i420_small [] =
      (some (id_video_of lib_delay sys_mpgv fmt_i420_small), sys_mpgv, []) ∧
    ref_pts lib_delay (coded_frames lib_delay
      (id_video_of lib_delay sys_mpgv fmt_i420_small).i_buffer
      (send_all out_ok bld_le lib_delay 1 sys_mpgv
        (id_video_of lib_delay sys_mpgv fmt_i420_small) []
        [unit_small, unit_small_next]).tr) = [130000, 170000] ∧
    sent_units (send_all out_ok bld_le lib_delay 1 sys_mpgv
        (id_video_of lib_delay sys_mpgv fmt_i420_small) []
        [unit_small, unit_small_next]).tr =
      [{ p_buffer := [7], i_dts := 130000, i_pts := 130000, i_length := 40000 },
       { p_buffer := [7], i_dts := 130000, i_pts := 170000, i_length := 40000 }] ∧
    (∀ v ∈ sent_units (send_all out_ok bld_le lib_delay 1 sys_mpgv
        (id_video_of lib_delay sys_mpgv fmt_i420_small) []
        [unit_small, unit_small_next]).tr, v.i_dts ≤ v.i_pts) ∧
    (video_unit lib_coded unit_small (st_coded 1 0)).i_dts =
      (video_unit lib_coded unit_small (st_coded 1 0)).i_pts := by
  have hadd : Add out_ok bld_le lib_delay sys_mpgv id_zero frame_zero fmt_i420_small [] =
      (some (id_video_of lib_delay sys_mpgv fmt_i420_small), sys_mpgv, []) := rfl
  have href : ref_pts lib_delay (coded_frames lib_delay
      (id_video_of lib_delay sys_mpgv fmt_i420_small).i_buffer
      (send_all out_ok bld_le lib_delay 1 sys_mpgv
        (id_video_of lib_delay sys_mpgv fmt_i420_small) []
        [unit_small, unit_small_next]).tr) = [130000, 170000] := rfl
  obtain ⟨-, -, new, ht, hp⟩ := (dts_le_pts lib_delay).1 out_ok bld_le sys_mpgv id_zero
    frame_zero fmt_i420_small [] _ _ _ 1 [unit_small, unit_small_next] rfl (by decide) hadd
  rw [List.nil_append] at ht
  rw [← ht] at hp
  have hinc : refs_increasing lib_delay (id_video_of lib_delay sys_mpgv fmt_i420_small).i_buffer
      (send_all out_ok bld_le lib_delay 1 sys_mpgv
        (id_video_of lib_delay sys_mpgv fmt_i420_small) []
        [unit_small, unit_small_next]).tr := by
    unfold refs_increasing
    rw [href]
    decide
  have hc : (video_encode_call lib_coded (st_coded 1 0)).coded_frame.pts = 90000 := rfl
  have hb : (st_coded 1 0).sys.i_buggy_pts_detect = 0 := rfl
  exact ⟨hadd, href, rfl, (hp hinc).1,
    ((dts_le_pts lib_coded).2 unit_small (st_coded 1 0) (by rw [hc]; decide)
      (by rw [hc, hb]; decide)).2.2.1 rfl⟩

/-! ## The remainder of a call and the first frame of the next -/

/-- The first frame the encode loop hands to the encoder when the channel
counts agree: the first `i_frame_size` bytes of the decoded samples. -/
theorem first_frame_plain (lib : libavcodec) (s : sout_stream_id_t)
    (hch : s.ff_dec_c.channels = s.ff_enc_c.channels)
    (hF : (i_frame_size s).toNat ≤ s.i_buffer_pos) :
    audio_encode_call lib s.i_buffer_pos s =
      lib.avcodec_encode_audio s.ff_enc_c s.i_buffer_out
        ((decoded s).take (i_frame_size s).toNat) := by
  unfold audio_encode_call
  rw [audio_downmix_frame_eq _ s hch, Nat.sub_self, List.drop_zero]
  have e : (s.ff_enc_c.frame_size * 2 * s.ff_enc_c.channels).toNat = (i_frame_size s).toNat := by
    unfold i_frame_size; rw [hch]
  rw [e]
  unfold decoded
  rw [List.take_take, Nat.min_eq_left hF]

/-- The first frame the encode loop hands to the encoder when the frame is
downmixed from `c` to `d` channels, `1 <= d <= c`: its sample `i * d + j` is
sample `i * c + j` of the decoded samples. -/
theorem first_frame_downmix (lib : libavcodec) (s : sout_stream_id_t)
    (hne : s.ff_dec_c.channels ≠ s.ff_enc_c.channels)
    (hsrc : s.f_src.i_channels = s.ff_dec_c.channels)
    (hdst : s.ff_enc_c.channels = s.f_dst.i_channels)
    (hd : 1 ≤ s.f_dst.i_channels) (hdc : s.f_dst.i_channels ≤ s.ff_dec_c.channels)
    (hlen : s.i_buffer_pos ≤ s.p_buffer.length)
    (hF : (i_frame_size s).toNat ≤ s.i_buffer_pos) :
    ∃ frame, audio_encode_call lib s.i_buffer_pos s =
        lib.avcodec_encode_audio s.ff_enc_c s.i_buffer_out frame ∧
      ∀ i j : Nat, (i : Int) < s.ff_enc_c.frame_size → (j : Int) < s.f_dst.i_channels →
        sample_at frame 0 (i * s.f_dst.i_channels.toNat + j) =
          sample_at (decoded s) 0 (i * s.ff_dec_c.channels.toNat + j) := by
  generalize hfs : s.ff_enc_c.frame_size = fs
  generalize hdd : s.f_dst.i_channels = d at hd hdc hdst
  generalize hcc : s.ff_dec_c.channels = c at hdc hsrc hne
  have hD : d = ((d.toNat : Nat) : Int) := by omega
  have hC : c = ((c.toNat : Nat) : Int) := by omega
  have hDC : d.toNat ≤ c.toNat := by omega
  have hcall : audio_encode_call lib s.i_buffer_pos s =
      lib.avcodec_encode_audio s.ff_enc_c s.i_buffer_out
        ((downmix s.p_buffer 0 fs d c).take (fs * 2 * d).toNat) := by
    unfold audio_encode_call audio_downmix_frame
    rw [hcc, if_pos hne, Nat.sub_self, List.drop_zero, hfs, hdd, hsrc, hdst]
  refine ⟨_, hcall, ?_⟩
  intro i j hi hj
  have hF0 : 0 ≤ fs := by omega
  have hFS : fs = ((fs.toNat : Nat) : Int) := by omega
  have hFbytes : (i_frame_size s).toNat = 2 * (fs.toNat * c.toNat) := by
    unfold i_frame_size
    rw [hfs, hcc, hFS, hC]
    have : (((fs.toNat : Nat) : Int) * 2 * ((c.toNat : Nat) : Int)) =
        ((2 * (fs.toNat * c.toNat) : Nat) : Int) := by push_cast; ring
    rw [Int.toNat_ofNat, Int.toNat_ofNat, this, Int.toNat_ofNat]
  have hEbytes : (fs * 2 * d).toNat = 2 * (fs.toNat * d.toNat) := by
    rw [hFS, hD]
    have : (((fs.toNat : Nat) : Int) * 2 * ((d.toNat : Nat) : Int)) =
        ((2 * (fs.toNat * d.toNat) : Nat) : Int) := by push_cast; ring
    rw [Int.toNat_ofNat, Int.toNat_ofNat, this, Int.toNat_ofNat]
  rw [hFbytes] at hF
  have key := downmix_rows 0 d.toNat c.toNat hDC fs.toNat s.p_buffer
    (by rw [Nat.zero_add]; omega) fs.toNat (le_refl _)
  have hdm : downmix s.p_buffer 0 fs d c =
      (List.range fs.toNat).foldl (fun (m : List Nat) (i : Nat) =>
         (List.range d.toNat).foldl (fun (m : List Nat) (j : Nat) =>
           copy_sample m 0 ((i : Int) * ((d.toNat : Nat) : Int) + (j : Int))
             ((i : Int) * ((c.toNat : Nat) : Int) + (j : Int))) m) s.p_buffer := by
    unfold downmix
    rw [← hD, ← hC]
  obtain ⟨-, kb, -⟩ := key
  have hi' : i < fs.toNat := by omega
  have hj' : j < d.toNat := by omega
  have b1 : (i + 1) * d.toNat ≤ fs.toNat * d.toNat := Nat.mul_le_mul_right _ (by omega)
  have b2 : (i + 1) * c.toNat ≤ fs.toNat * c.toNat := Nat.mul_le_mul_right _ (by omega)
  rw [Nat.succ_mul] at b1 b2
  apply List.ext_getElem?
  intro n
  rw [sample_at_getElem, sample_at_getElem]
  by_cases hn : n < 2
  · rw [if_pos hn, if_pos hn, hEbytes, List.getElem?_take_of_lt (by omega), hdm]
    have := kb i j n hi' hj' hn
    rw [Nat.zero_add] at this ⊢
    rw [this]
    unfold decoded
    rw [Nat.zero_add, List.getElem?_take_of_lt (by omega)]
  · rw [if_neg hn, if_neg hn]

/-- C4 (amended): a raw 16-bit PCM session ('s16l' or 's16b'), encoder frame
byte size `F = frame_size * 2 * channels > 0`, nonzero divisors, an encoder
that returns a positive size for every frame, the input staging buffer empty,
prior fill level `r`, and a unit of `n` bytes, `n` even, `r + n` within the
decoded-samples capacity.  The call returns, emits exactly `(r + n) / F`
units and leaves `i_buffer_pos = (r + n) mod F`; the bytes left at the front
of the buffer are the last `(r + n) mod F` bytes of the sample stream (the
samples buffered before, followed by the converted unit).  At the next call
the newer samples are put behind them, and the first frame that call hands to
the encoder is taken at the front of the buffer: with equal channel counts it
is the first `F` bytes of the remainder followed by the newer samples; when
the frame is downmixed from `c` to `d` channels its sample `i * d + j` is
sample `i * c + j` of the remainder followed by the newer samples.  (The
frame is downmixed in place only inside its own bytes: the destination
channel count does not exceed the decoder's, as after the clamp at creation,
or no downmix takes place.) -/
theorem remainder_call (bld : build_t) (lib : libavcodec) (fuel : Nat)
    (s : sout_stream_id_t) (inb : sout_buffer_t)
    (hpos : ∀ (c : AVCodecContext) (n : Nat) (f : List Nat),
      0 < (lib.avcodec_encode_audio c n f).i_out_size)
    (h16 : is_raw16 s) (hdec : s.ff_dec = none) (hv : libavcodec_path bld s)
    (hF : 0 < i_frame_size s)
    (hch : s.ff_dec_c.channels = s.ff_enc_c.channels ∨ s.f_dst.i_channels ≤ s.ff_dec_c.channels)
    (hnz : divisors_nonzero bld s)
    (hw : wf_buffers s) (hin : s.i_buffer_in_pos = 0)
    (hn : inb.p_buffer.length % 2 = 0)
    (hfit : s.i_buffer_pos + inb.p_buffer.length ≤ s.i_buffer)
    (hfuel : (s.i_buffer_pos + inb.p_buffer.length) / (i_frame_size s).toNat < fuel) :
    ∃ s' out, transcode_audio_ffmpeg_process bld lib fuel s inb = some (VLC_SUCCESS, s', out) ∧
      out.length = (s.i_buffer_pos + inb.p_buffer.length) / (i_frame_size s).toNat ∧
      s'.i_buffer_pos = (s.i_buffer_pos + inb.p_buffer.length) % (i_frame_size s).toNat ∧
      s'.p_buffer.take s'.i_buffer_pos =
        (s.p_buffer.take s.i_buffer_pos ++ sample_conv bld s inb.p_buffer).drop
          (s.i_buffer_pos + inb.p_buffer.length -
            (s.i_buffer_pos + inb.p_buffer.length) % (i_frame_size s).toNat) ∧
      s'.i_buffer_in_pos = 0 ∧ wf_buffers s' ∧ same_setup s s' ∧
      ∀ (next : sout_buffer_t), next.p_buffer.length % 2 = 0 →
        s'.i_buffer_pos + next.p_buffer.length ≤ s'.i_buffer →
        (audio_raw_decode bld (audio_enter bld s' next)).p_buffer.take
            (s'.i_buffer_pos + next.p_buffer.length) =
          s'.p_buffer.take s'.i_buffer_pos ++ sample_conv bld s' next.p_buffer ∧
        ((i_frame_size s).toNat ≤ s'.i_buffer_pos + next.p_buffer.length →
          (s.ff_dec_c.channels = s.ff_enc_c.channels →
            audio_encode_call lib
                (audio_raw_decode bld (audio_enter bld s' next)).i_buffer_pos
                (audio_raw_decode bld (audio_enter bld s' next)) =
              lib.avcodec_encode_audio
                (audio_raw_decode bld (audio_enter bld s' next)).ff_enc_c
                (audio_raw_decode bld (audio_enter bld s' next)).i_buffer_out
                ((s'.p_buffer.take s'.i_buffer_pos ++ sample_conv bld s' next.p_buffer).take
                  (i_frame_size s).toNat)) ∧
          (s.ff_dec_c.channels ≠ s.ff_enc_c.channels →
            s.f_src.i_channels = s.ff_dec_c.channels →
            s.ff_enc_c.channels = s.f_dst.i_channels → 1 ≤ s.f_dst.i_channels →
            ∃ frame,
              audio_encode_call lib
                  (audio_raw_decode bld (audio_enter bld s' next)).i_buffer_pos
                  (audio_raw_decode bld (audio_enter bld s' next)) =
                lib.avcodec_encode_audio
                  (audio_raw_decode bld (audio_enter bld s' next)).ff_enc_c
                  (audio_raw_decode bld (audio_enter bld s' next)).i_buffer_out frame ∧
              ∀ i j : Nat, (i : Int) < s.ff_enc_c.frame_size → (j : Int) < s.f_dst.i_channels →
                sample_at frame 0 (i * s.f_dst.i_channels.toNat + j) =
                  sample_at (s'.p_buffer.take s'.i_buffer_pos ++
                    sample_conv bld s' next.p_buffer) 0
                    (i * s.ff_dec_c.channels.toNat + j))) := by
  obtain ⟨rw', rd, rpos, rin, rset⟩ := raw_fit_decode bld s inb h16 hw hin hn hfit
  obtain ⟨gset, _, _⟩ := audio_enter_frame bld s inb
  have hstage : audio_decode_stage bld lib fuel (audio_enter bld s inb) false =
      some (audio_raw_decode bld (audio_enter bld s inb), false) := by
    unfold audio_decode_stage
    rw [gset.2.2.1, hdec]
  generalize hR : audio_raw_decode bld (audio_enter bld s inb) = R at rw' rd rpos rin rset hstage
  obtain ⟨r1, r2, r3, r4⟩ := rw'
  have hFR : i_frame_size R = i_frame_size s := i_frame_size_of_same_setup rset
  generalize hFn : (i_frame_size s).toNat = Fn at *
  have hFn0 : 0 < Fn := by omega
  have hRch : R.ff_dec_c.channels = R.ff_enc_c.channels ∨
      R.f_dst.i_channels ≤ R.ff_dec_c.channels := by
    rw [rset.2.2.2.1, rset.2.2.2.2.2.2.1, rset.2.1]; exact hch
  -- the encode stage
  have henc : ∃ s2 out, audio_encode_stage bld lib fuel R [] = some (s2, out) ∧
      out.length = R.i_buffer_pos / Fn ∧ s2.i_buffer_pos = R.i_buffer_pos % Fn ∧
      s2.p_buffer.length = R.p_buffer.length ∧
      s2.p_buffer.drop (R.i_buffer_pos - R.i_buffer_pos % Fn) =
        R.p_buffer.drop (R.i_buffer_pos - R.i_buffer_pos % Fn) ∧
      s2.i_buffer_in_pos = R.i_buffer_in_pos ∧ s2.p_buffer_in = R.p_buffer_in ∧
      s2.i_buffer_in = R.i_buffer_in ∧ same_setup R s2 := by
    have hloop : ∃ s2 out, audio_encode_loop lib R.i_buffer_pos fuel R [] = some (s2, out) ∧
        out.length = R.i_buffer_pos / Fn ∧ s2.i_buffer_pos = R.i_buffer_pos % Fn ∧
        s2.p_buffer.length = R.p_buffer.length ∧
        s2.p_buffer.drop (R.i_buffer_pos - R.i_buffer_pos % Fn) =
          R.p_buffer.drop (R.i_buffer_pos - R.i_buffer_pos % Fn) ∧
        s2.i_buffer_in_pos = R.i_buffer_in_pos ∧ s2.p_buffer_in = R.p_buffer_in ∧
        s2.i_buffer_in = R.i_buffer_in ∧ same_setup R s2 := by
      obtain ⟨s2, out, hl, q1, q2, q3, q4, q5, q6, q7, q8⟩ :=
        audio_encode_loop_positive lib R.i_buffer_pos hpos fuel R []
          (by rw [rset.2.2.2.2.2.2.2.1]; exact divisors_nonzero_rate hnz hv)
          (by rw [hFR]; exact hF) hRch
          (by omega) (le_refl _) (by rw [hFR, hFn, rpos]; exact hfuel)
      rw [hFR, hFn] at q1 q2 q4
      exact ⟨s2, out, hl, by simpa using q1, q2, q3, q4, q5, q6, q7, q8⟩
    have hRv : ¬ (bld.HAVE_VORBIS_VORBISENC_H = true ∧
        R.f_dst.i_fourcc = VLC_FOURCC 'v' 'o' 'r' 'b') := by
      rw [rset.2.1]; exact hv
    unfold audio_encode_stage
    split_ifs with c1 c2 c3 c4
    · exact ⟨R, [], rfl, by simp [c2], by simp [c2], rfl, rfl, rfl, rfl, rfl, same_setup_refl R⟩
    · exact absurd ⟨c1, c3⟩ hRv
    · exact absurd ⟨c1, c3⟩ hRv
    · exact hloop
    · exact hloop
  obtain ⟨s2, out, he, q1, q2, q3, q4, q5, q6, q7, q8⟩ := henc
  have hmle : R.i_buffer_pos % Fn ≤ R.i_buffer_pos := Nat.mod_le _ _
  obtain ⟨k1, k2, k3, k4, k5, k6, k7⟩ := audio_compact_content R.i_buffer_pos s2
    (by rw [q3]; omega) (by rw [q2]; exact hmle)
  have hs' : same_setup s (audio_compact R.i_buffer_pos s2) :=
    same_setup_trans rset (same_setup_trans q8 k7)
  have hw' : wf_buffers (audio_compact R.i_buffer_pos s2) := by
    refine ⟨?_, ?_, ?_, ?_⟩
    · rw [k2, q3, r1, k7.2.2.2.2.2.2.2.2.1, q8.2.2.2.2.2.2.2.2.1]
    · rw [k3, q2, k7.2.2.2.2.2.2.2.2.1, q8.2.2.2.2.2.2.2.2.1]; omega
    · rw [k5, q6, k6, q7]; exact r3
    · rw [k4, q5, k6, q7]; exact r4
  have hin' : (audio_compact R.i_buffer_pos s2).i_buffer_in_pos = 0 := by rw [k4, q5, rin]
  refine ⟨audio_compact R.i_buffer_pos s2, out, ?_, ?_, ?_, ?_, hin', hw', hs', ?_⟩
  · exact process_of_stages bld lib fuel s R s2 inb out (divisors_nonzero_start hnz)
      (Nat.lt_of_le_of_lt (Nat.zero_le _) hfuel) hstage he
  · rw [q1, rpos]
  · rw [k3, q2, rpos]
  · have hk := k1
    unfold decoded at hk rd
    rw [hk, q2, q4, ← rd, ← rpos]
    rw [List.drop_take]
    congr 1
    omega
  · intro next hn2 hfit2
    have h16' : is_raw16 (audio_compact R.i_buffer_pos s2) := by
      unfold is_raw16 at h16 ⊢; rw [hs'.1]; exact h16
    obtain ⟨w2, d2, p2, _, set2⟩ := raw_fit_decode bld (audio_compact R.i_buffer_pos s2) next
      h16' hw' hin' hn2 hfit2
    have sN : same_setup s (audio_raw_decode bld (audio_enter bld
        (audio_compact R.i_buffer_pos s2) next)) := same_setup_trans hs' set2
    generalize hN : audio_raw_decode bld (audio_enter bld (audio_compact R.i_buffer_pos s2)
      next) = Nx at w2 d2 p2 set2 sN
    have hFN : i_frame_size Nx = i_frame_size s := i_frame_size_of_same_setup sN
    have d3 : decoded Nx = (audio_compact R.i_buffer_pos s2).p_buffer.take
        (audio_compact R.i_buffer_pos s2).i_buffer_pos ++
        sample_conv bld (audio_compact R.i_buffer_pos s2) next.p_buffer := d2
    refine ⟨?_, fun hfr => ⟨fun he => ?_, fun hne hsrc hdst hd1 => ?_⟩⟩
    · rw [← d3, ← p2]; rfl
    · have h := first_frame_plain lib Nx
        (by rw [sN.2.2.2.1, sN.2.2.2.2.2.2.1]; exact he)
        (by rw [hFN, hFn, p2]; exact hfr)
      rw [hFN, hFn, d3] at h
      exact h
    · have hdc : s.f_dst.i_channels ≤ s.ff_dec_c.channels := by
        rcases hch with h | h
        · exact absurd h hne
        · exact h
      obtain ⟨frame, hcall, hsm⟩ := first_frame_downmix lib Nx
        (by rw [sN.2.2.2.1, sN.2.2.2.2.2.2.1]; exact hne)
        (by rw [sN.1, sN.2.2.2.1]; exact hsrc)
        (by rw [sN.2.2.2.2.2.2.1, sN.2.1]; exact hdst)
        (by rw [sN.2.1]; exact hd1)
        (by rw [sN.2.1, sN.2.2.2.1]; exact hdc)
        (by rw [w2.1]; exact w2.2.1)
        (by rw [hFN, hFn, p2]; exact hfr)
      rw [sN.2.2.2.2.2.1, sN.2.1, sN.2.2.2.1, d3] at hsm
      exact ⟨frame, hcall, hsm⟩


/-- Witness for C4: the small PCM session (frames of four bytes) fed ten
bytes: two units, and the last two bytes at the front of the buffer. -/
theorem remainder_call_witness :
    ∃ s' out, transcode_audio_ffmpeg_process bld_le lib_full 4 id_pcm_small unit_ten =
        some (VLC_SUCCESS, s', out) ∧
      out.length = 2 ∧ s'.i_buffer_pos = 2 ∧ s'.p_buffer.take s'.i_buffer_pos = [9, 10] ∧
      audio_encode_call lib_full
          (audio_raw_decode bld_le (audio_enter bld_le s' (unit_of [11, 12]))).i_buffer_pos
          (audio_raw_decode bld_le (audio_enter bld_le s' (unit_of [11, 12]))) =
        lib_full.avcodec_encode_audio
          (audio_raw_decode bld_le (audio_enter bld_le s' (unit_of [11, 12]))).ff_enc_c
          (audio_raw_decode bld_le (audio_enter bld_le s' (unit_of [11, 12]))).i_buffer_out
          [9, 10, 11, 12] := by
  obtain ⟨s', out, h1, h2, h3, h4, _, hw', hs', hnext⟩ :=
    remainder_call bld_le lib_full 4 id_pcm_small unit_ten lib_full_positive
      (Or.inl (by decide)) rfl (by unfold libavcodec_path; decide) (by decide)
      (Or.inl (by decide)) (by unfold divisors_nonzero; decide)
      (by unfold wf_buffers; decide) rfl (by decide) (by decide) (by decide)
  have h3' : s'.i_buffer_pos = 2 := h3.trans (by decide)
  have h4' : s'.p_buffer.take s'.i_buffer_pos = [9, 10] := h4.trans (by decide)
  have hcap : s'.i_buffer = 16 := hs'.2.2.2.2.2.2.2.2.1
  have hfcc : s'.f_src.i_fourcc = VLC_FOURCC 's' '1' '6' 'l' := by rw [hs'.1]; rfl
  have hconv : sample_conv bld_le s' (unit_of [11, 12]).p_buffer = [11, 12] :=
    sample_conv_s16l_le bld_le s' _ hfcc rfl
  have hn := (hnext (unit_of [11, 12]) (by decide) (by rw [h3', hcap]; decide)).2
    (by rw [h3']; decide)
  have hcall := hn.1 (by decide)
  have htake : List.take (i_frame_size id_pcm_small).toNat (([9, 10] : List Nat) ++ [11, 12]) =
      [9, 10, 11, 12] := by decide
  rw [h4', hconv, htake] at hcall
  exact ⟨s', out, h1, h2.trans (by decide), h3', h4', hcall⟩

/-- Counterexample to C4 as stated, on the small PCM session (frames of
`F = 4` bytes, buffers of 16 bytes, encoder returning a positive size).  A
unit of 2 bytes and then one of 16 bytes leave the decoded-samples buffer
empty (`r = 0`) and two bytes in the input staging buffer, the second unit
not having fitted the decoded-samples buffer whole.  The next unit has
`n = 2` bytes, even, and `r + n = 2` is within the capacity: the call takes
the two staged bytes with it, emits one unit and leaves `i_buffer_pos = 0`,
not `(r + n) / F = 0` units and `(r + n) mod F = 2` bytes. -/
theorem remainder_with_staged_bytes :
    is_raw16 id_pcm_small ∧ i_frame_size id_pcm_small = 4 ∧
    (audio_feed bld_le lib_full 5 id_pcm_small
        [unit_of [1, 2], unit_of [3, 4, 5, 6, 7, 8, 9, 10, 11, 12, 13, 14, 15, 16, 17, 18]]).map
      (fun r => (r.1.i_buffer_pos, r.1.i_buffer_in_pos, r.1.i_buffer, r.2.length)) =
        some (0, 2, 16, 4) ∧
    ((audio_feed bld_le lib_full 5 id_pcm_small
        [unit_of [1, 2], unit_of [3, 4, 5, 6, 7, 8, 9, 10, 11, 12, 13, 14, 15, 16, 17, 18]]).bind
      (fun r => transcode_audio_ffmpeg_process bld_le lib_full 5 r.1 (unit_of [19, 20]))).map
      (fun q => (q.1, q.2.1.i_buffer_pos, q.2.2.length)) = some (VLC_SUCCESS, 0, 1) ∧
    (unit_of [19, 20]).p_buffer.length = 2 ∧ (0 + 2) / 4 = 0 ∧ (0 + 2) % 4 = 2 := by
  refine ⟨Or.inl rfl, by decide, by decide, by decide, rfl, rfl, rfl⟩

/-! ## What a returning call has consumed -/

/-- The lazy initialisation returns from the function only with
`VLC_EGENERIC`. -/
theorem video_lazy_init_status (lib : libavcodec) (out : sout_out_t) (st : video_state_t)
    (v : Int) (h : (video_lazy_init lib out st).1 = some v) : v = VLC_EGENERIC := by
  unfold video_lazy_init at h
  by_cases h1 : st.id.b_enc_inited = true
  · rw [if_pos h1] at h; exact Option.noConfusion h
  · rw [if_neg h1] at h
    by_cases h2 : (video_lazy_open lib st.sys st.id).ret ≠ 0
    · rw [if_pos h2] at h
      exact (Option.some.inj h).symm
    · rw [if_neg h2] at h
      simp only at h
      split_ifs at h
      · exact (Option.some.inj h).symm

/-- An iteration that returns `VLC_SUCCESS` has used up the unit, or its
decoder call gave no picture. -/
theorem video_iteration_success (lib : libavcodec) (out : sout_out_t) (inb : sout_buffer_t)
    (st st' : video_state_t)
    (h : video_iteration lib out inb st = (Flow.ret VLC_SUCCESS, st')) :
    st'.i_data ≤ 0 ∨
    ∃ ctx n used, st'.tr.getLast? = some (Event.avcodec_decode_video ctx n used false) := by
  unfold video_iteration at h
  cases hp : st.id.p_ff_pic with
  | none => rw [hp] at h; simp at h
  | some pic0 =>
    rw [hp] at h
    simp only at h
    by_cases h1 : (video_decode lib inb pic0 st).1 < 0
    · rw [if_pos h1] at h
      simp only [Prod.mk.injEq, Flow.ret.injEq] at h
      exact absurd h.1 egeneric_ne_success
    · rw [if_neg h1] at h
      by_cases h2 : (video_decode lib inb pic0 st).2.1 = false
      · rw [if_pos h2] at h
        simp only [Prod.mk.injEq, true_and] at h
        subst h
        right
        unfold video_decode at h2 ⊢
        by_cases hd : st.id.ff_dec ≠ none
        · rw [if_pos hd] at h2 ⊢
          simp only at h2
          refine ⟨st.id.ff_dec_c, st.i_data,
            (lib.avcodec_decode_video st.id.ff_dec_c pic0 st.p_data st.i_data inb.i_pts).i_used,
            ?_⟩
          show (st.tr ++ [Event.avcodec_decode_video st.id.ff_dec_c st.i_data
            (lib.avcodec_decode_video st.id.ff_dec_c pic0 st.p_data st.i_data inb.i_pts).i_used
            (lib.avcodec_decode_video st.id.ff_dec_c pic0 st.p_data st.i_data
              inb.i_pts).b_gotpicture]).getLast? = _
          rw [List.getLast?_append, List.getLast?_singleton, h2]
          rfl
        · rw [if_neg hd] at h2
          simp at h2
      · rw [if_neg h2] at h
        cases hl : video_lazy_init lib out (video_take_pts
            (video_advance (video_decode lib inb pic0 st).1
              (video_decode lib inb pic0 st).2.2)) with
        | mk o st1 =>
          rw [hl] at h
          cases o with
          | some v =>
            simp only [Prod.mk.injEq, Flow.ret.injEq] at h
            have hv := video_lazy_init_status lib out _ v (by rw [hl])
            rw [hv] at h
            exact absurd h.1 egeneric_ne_success
          | none =>
            simp only [Prod.mk.injEq] at h
            obtain ⟨hf, hs⟩ := h
            subst hs
            left
            by_contra hneg
            rw [if_neg hneg] at hf
            exact Flow.noConfusion hf

/-- A loop that returns `VLC_SUCCESS` has used up the unit, or its last
decoder call gave no picture. -/
theorem video_loop_success (lib : libavcodec) (out : sout_out_t) (inb : sout_buffer_t) :
    ∀ (fuel : Nat) (st st' : video_state_t),
      video_loop lib out inb fuel st = (Flow.ret VLC_SUCCESS, st') →
      st'.i_data ≤ 0 ∨
      ∃ ctx n used, st'.tr.getLast? = some (Event.avcodec_decode_video ctx n used false) := by
  intro fuel
  induction fuel with
  | zero =>
    intro st st' h
    unfold video_loop at h
    simp only [Prod.mk.injEq] at h
    exact Flow.noConfusion h.1
  | succ n ih =>
    intro st st' h
    unfold video_loop at h
    cases hit : video_iteration lib out inb st with
    | mk fl st1 =>
      rw [hit] at h
      cases fl with
      | next => exact ih st1 st' h
      | ret v =>
        simp only [Prod.mk.injEq, Flow.ret.injEq] at h
        obtain ⟨hv, hs⟩ := h
        subst hv
        subst hs
        exact video_iteration_success lib out inb st st1 hit
      | stuck =>
        simp only [Prod.mk.injEq] at h
        exact Flow.noConfusion h.1

/-- The pending byte count is touched by the decoding step only. -/
theorem video_after_decode_i_data (lib : libavcodec) (out : sout_out_t) (inb : sout_buffer_t)
    (st : video_state_t) :
    (video_picture lib inb (video_lazy_init lib out (video_take_pts st)).2).i_data = st.i_data := by
  have h1 : (video_take_pts st).i_data = st.i_data := by
    unfold video_take_pts; split_ifs <;> rfl
  have h2 : ∀ s : video_state_t, (video_lazy_init lib out s).2.i_data = s.i_data := by
    intro s
    unfold video_lazy_init
    by_cases a : s.id.b_enc_inited = true
    · rw [if_pos a]
    · rw [if_neg a]
      by_cases b : (video_lazy_open lib s.sys s.id).ret ≠ 0
      · rw [if_pos b]
      · rw [if_neg b]
        simp only
        split_ifs <;> rfl
  have h3 : ∀ s : video_state_t, (video_deinterlace lib s).i_data = s.i_data := by
    intro s; unfold video_deinterlace; split_ifs <;> rfl
  have h4 : ∀ s : video_state_t, (video_convert lib s).i_data = s.i_data := by
    intro s; unfold video_convert; split_ifs <;> rfl
  have h5 : ∀ s : video_state_t, (video_resize lib s).i_data = s.i_data := by
    intro s
    unfold video_resize
    by_cases c : s.id.ff_dec_c.width ≠ s.id.ff_enc_c.width ∨
       s.id.ff_dec_c.height ≠ s.id.ff_enc_c.height ∨
       s.sys.i_crop_top > 0 ∨ s.sys.i_crop_bottom > 0 ∨
       s.sys.i_crop_left > 0 ∨ s.sys.i_crop_right ≠ 0
    · rw [if_pos c]
    · rw [if_neg c]
  have h6 : ∀ s : video_state_t, (video_encode lib inb (video_stamp s)).i_data = s.i_data :=
    fun _ => rfl
  unfold video_picture
  rw [h6, h5, h4, h3, h2, h1]

/-- A raw picture is taken whole: the first iteration on a decoder-less
session ends the call, and when it ends it with `VLC_SUCCESS` no byte is left
and exactly one picture has been handed to the encoder. -/
theorem video_iteration_raw (lib : libavcodec) (out : sout_out_t) (inb : sout_buffer_t)
    (st : video_state_t) (pic0 : AVFrame) (hd : st.id.ff_dec = none)
    (hp : st.id.p_ff_pic = some pic0) (hn : 0 ≤ st.i_data) :
    ∃ v, (video_iteration lib out inb st).1 = Flow.ret v ∧
      (v = VLC_SUCCESS →
        (video_iteration lib out inb st).2.i_data = 0 ∧
        ∃ f, encoded_frames (video_iteration lib out inb st).2.tr = encoded_frames st.tr ++ [f]) := by
  have hdec1 : (video_decode lib inb pic0 st).1 = st.i_data := by
    unfold video_decode
    rw [if_neg (fun h => h hd)]
  have hdec2 : (video_decode lib inb pic0 st).2.1 = true := by
    unfold video_decode
    rw [if_neg (fun h => h hd)]
  have hdec3 : (video_decode lib inb pic0 st).2.2.i_data = st.i_data := by
    unfold video_decode
    rw [if_neg (fun h => h hd)]
  have hu : ¬ (video_decode lib inb pic0 st).1 < 0 := by rw [hdec1]; omega
  have henc := video_iteration_encoded lib out inb st pic0 hp
  cases hl : (video_lazy_init lib out (video_take_pts (video_advance
      (video_decode lib inb pic0 st).1 (video_decode lib inb pic0 st).2.2))).1 with
  | some v =>
    have hit := video_iteration_lazy_ret lib out inb st pic0 v hp hu hdec2 hl
    refine ⟨v, by rw [hit], fun hv => ?_⟩
    have := video_lazy_init_status lib out _ v hl
    rw [hv] at this
    exact absurd this.symm egeneric_ne_success
  | none =>
    have hid : (video_picture lib inb (video_lazy_init lib out (video_take_pts (video_advance
        (video_decode lib inb pic0 st).1 (video_decode lib inb pic0 st).2.2))).2).i_data = 0 := by
      rw [video_after_decode_i_data]
      show (video_decode lib inb pic0 st).2.2.i_data - (video_decode lib inb pic0 st).1 = 0
      rw [hdec1, hdec3]
      omega
    have hit : video_iteration lib out inb st =
        (Flow.ret VLC_SUCCESS, video_picture lib inb (video_lazy_init lib out (video_take_pts
          (video_advance (video_decode lib inb pic0 st).1
            (video_decode lib inb pic0 st).2.2))).2) := by
      unfold video_iteration
      rw [hp]
      simp only
      rw [if_neg hu, if_neg (by rw [hdec2]; decide)]
      cases hl2 : video_lazy_init lib out (video_take_pts (video_advance
          (video_decode lib inb pic0 st).1 (video_decode lib inb pic0 st).2.2)) with
      | mk o st1 =>
        rw [hl2] at hl hid
        simp only at hl hid
        subst hl
        simp only
        rw [if_pos (by rw [hid])]
    refine ⟨VLC_SUCCESS, by rw [hit], fun _ => ⟨?_, ?_⟩⟩
    · rw [hit]; exact hid
    · obtain ⟨f, hf, -⟩ := henc.1 ⟨hu, hdec2, hl⟩
      exact ⟨f, hf⟩

/-- C25 (amended): when `transcode_video_ffmpeg_process` returns
`VLC_SUCCESS` for a unit, either every byte of the unit has been consumed by
the decoding steps (the pending byte count is 0 or less on return), or the
last decoder call of the call gave no picture: the function then returns at
once (lines 1393-1396), whatever is left of the unit.  For a raw
(decoder-less) source the unit is taken whole as one picture: no byte is
pending on return and exactly one picture has been handed to the encoder. -/
theorem unit_consumed (lib : libavcodec) (out : sout_out_t) (inb : sout_buffer_t) (fuel : Nat)
    (sys : sout_stream_sys_t) (id : sout_stream_id_t) (tr : List Event)
    (h : (transcode_video_ffmpeg_process lib out fuel sys id inb tr).ret = some VLC_SUCCESS) :
    ((video_loop lib out inb fuel (video_entry lib sys id inb tr)).2.i_data ≤ 0 ∨
      ∃ ctx n used, (transcode_video_ffmpeg_process lib out fuel sys id inb tr).tr.getLast? =
        some (Event.avcodec_decode_video ctx n used false)) ∧
    (id.ff_dec = none →
      (video_loop lib out inb fuel (video_entry lib sys id inb tr)).2.i_data = 0 ∧
      ∃ f, encoded_frames (transcode_video_ffmpeg_process lib out fuel sys id inb tr).tr =
        encoded_frames tr ++ [f]) := by
  have hloop : ∃ st', video_loop lib out inb fuel (video_entry lib sys id inb tr) =
      (Flow.ret VLC_SUCCESS, st') := by
    unfold transcode_video_ffmpeg_process at h
    cases hl : video_loop lib out inb fuel (video_entry lib sys id inb tr) with
    | mk fl st' =>
      rw [hl] at h
      cases fl with
      | next => exact absurd h (by simp)
      | stuck => exact absurd h (by simp)
      | ret v =>
        simp only [Option.some.injEq] at h
        exact ⟨st', by rw [h]⟩
  obtain ⟨st', hl⟩ := hloop
  have hproc := video_process_of_loop lib out fuel sys id inb tr VLC_SUCCESS st' hl
  rw [hproc, hl]
  refine ⟨video_loop_success lib out inb fuel _ st' hl, fun hd => ?_⟩
  cases fuel with
  | zero =>
    unfold video_loop at hl
    simp only [Prod.mk.injEq] at hl
    exact Flow.noConfusion hl.1
  | succ n =>
    cases hp : id.p_ff_pic with
    | none =>
      have hit : video_iteration lib out inb (video_entry lib sys id inb tr) =
          (Flow.stuck, video_entry lib sys id inb tr) := by
        unfold video_iteration
        have : (video_entry lib sys id inb tr).id.p_ff_pic = none := hp
        rw [this]
      unfold video_loop at hl
      rw [hit] at hl
      simp only [Prod.mk.injEq] at hl
      exact Flow.noConfusion hl.1
    | some pic0 =>
      obtain ⟨v, hv1, hv2⟩ := video_iteration_raw lib out inb (video_entry lib sys id inb tr)
        pic0 hd hp (Int.ofNat_nonneg _)
      have hl2 : video_loop lib out inb (n + 1) (video_entry lib sys id inb tr) =
          (Flow.ret v, (video_iteration lib out inb (video_entry lib sys id inb tr)).2) :=
        video_loop_ret lib out inb n _ _ v (Prod.ext hv1 rfl)
      rw [hl2] at hl
      simp only [Prod.mk.injEq, Flow.ret.injEq] at hl
      obtain ⟨hv, hs⟩ := hl
      subst hs
      exact hv2 hv

/-- Witness for C25 (amended): one raw 2x2 picture is taken whole and coded
once. -/
theorem unit_consumed_witness :
    (transcode_video_ffmpeg_process lib_video out_ok 1 sys_mp4v
      (id_video_of lib_video sys_mp4v fmt_i420_small) unit_small []).ret = some VLC_SUCCESS ∧
    (id_video_of lib_video sys_mp4v fmt_i420_small).ff_dec = none ∧
    (video_loop lib_video out_ok unit_small 1 (video_entry lib_video sys_mp4v
      (id_video_of lib_video sys_mp4v fmt_i420_small) unit_small [])).2.i_data = 0 ∧
    ∃ f, encoded_frames (transcode_video_ffmpeg_process lib_video out_ok 1 sys_mp4v
        (id_video_of lib_video sys_mp4v fmt_i420_small) unit_small []).tr =
      encoded_frames [] ++ [f] :=
  ⟨rfl, rfl,
   ((unit_consumed lib_video out_ok unit_small 1 sys_mp4v
      (id_video_of lib_video sys_mp4v fmt_i420_small) [] rfl).2 rfl).1,
   ((unit_consumed lib_video out_ok unit_small 1 sys_mp4v
      (id_video_of lib_video sys_mp4v fmt_i420_small) [] rfl).2 rfl).2⟩

/-! ## Buffer safety of the decoder-less audio path -/

theorem store16_length (bld : build_t) (v : Int) : (store16 bld v).length = 2 := by
  unfold store16
  split_ifs <;> rfl

theorem pcm8_samples_length (bld : build_t) (l : List Nat) :
    (s8_samples bld l).length = 2 * l.length ∧ (u8_samples bld l).length = 2 * l.length := by
  induction l with
  | nil => exact ⟨rfl, rfl⟩
  | cons b t ih =>
    simp only [s8_samples, u8_samples, List.length_append, store16_length, List.length_cons,
      ih.1, ih.2]
    constructor <;> omega

theorem swab16_length_even (l : List Nat) (n : Nat) (h : l.length = 2 * n) :
    (swab16 l).length = 2 * n := by
  rw [swab16_length n l h, h]

/-- What the decoder-less branch stores fits behind the decoded samples, and
it uses no more bytes than are staged. -/
theorem raw_samples_bounds (bld : build_t) (s : sout_stream_id_t) (hw : wf_buffers s) :
    (raw_samples bld s).2.2.length = 2 * (raw_samples bld s).2.1 ∧
    2 * (raw_samples bld s).2.1 ≤ s.i_buffer - s.i_buffer_pos ∧
    (raw_samples bld s).1 ≤ s.i_buffer_in_pos := by
  obtain ⟨w1, w2, w3, w4⟩ := hw
  have hm8 : min ((s.i_buffer - s.i_buffer_pos) / 2) s.i_buffer_in_pos ≤ s.i_buffer_in_pos :=
    Nat.min_le_right _ _
  have hm8' : 2 * min ((s.i_buffer - s.i_buffer_pos) / 2) s.i_buffer_in_pos ≤
      s.i_buffer - s.i_buffer_pos := by
    have := Nat.min_le_left ((s.i_buffer - s.i_buffer_pos) / 2) s.i_buffer_in_pos
    omega
  have hl8 : (s.p_buffer_in.take (min ((s.i_buffer - s.i_buffer_pos) / 2)
      s.i_buffer_in_pos)).length = min ((s.i_buffer - s.i_buffer_pos) / 2) s.i_buffer_in_pos := by
    rw [List.length_take]; omega
  have hm16 : min ((s.i_buffer - s.i_buffer_pos) / 2) (s.i_buffer_in_pos / 2) * 2 ≤
      s.i_buffer_in_pos := by
    have := Nat.min_le_right ((s.i_buffer - s.i_buffer_pos) / 2) (s.i_buffer_in_pos / 2)
    omega
  have hm16' : 2 * min ((s.i_buffer - s.i_buffer_pos) / 2) (s.i_buffer_in_pos / 2) ≤
      s.i_buffer - s.i_buffer_pos := by
    have := Nat.min_le_left ((s.i_buffer - s.i_buffer_pos) / 2) (s.i_buffer_in_pos / 2)
    omega
  have hl16 : (s.p_buffer_in.take (min ((s.i_buffer - s.i_buffer_pos) / 2)
      (s.i_buffer_in_pos / 2) * 2)).length =
      2 * min ((s.i_buffer - s.i_buffer_pos) / 2) (s.i_buffer_in_pos / 2) := by
    rw [List.length_take]; omega
  unfold raw_samples
  by_cases h1 : s.f_src.i_fourcc = VLC_FOURCC 's' '8' ' ' ' '
  · rw [if_pos h1]
    exact ⟨by rw [(pcm8_samples_length bld _).1, hl8], hm8', hm8⟩
  · rw [if_neg h1]
    by_cases h2 : s.f_src.i_fourcc = VLC_FOURCC 'u' '8' ' ' ' '
    · rw [if_pos h2]
      exact ⟨by rw [(pcm8_samples_length bld _).2, hl8], hm8', hm8⟩
    · rw [if_neg h2]
      by_cases h3 : s.f_src.i_fourcc = VLC_FOURCC 's' '1' '6' 'l'
      · rw [if_pos h3]
        refine ⟨?_, hm16', hm16⟩
        show (if bld.WORDS_BIGENDIAN = true then _ else _ : List Nat).length = _
        split_ifs
        · exact swab16_length_even _ _ hl16
        · exact hl16
      · rw [if_neg h3]
        by_cases h4 : s.f_src.i_fourcc = VLC_FOURCC 's' '1' '6' 'b'
        · rw [if_pos h4]
          refine ⟨?_, hm16', hm16⟩
          show (if bld.WORDS_BIGENDIAN = true then _ else _ : List Nat).length = _
          split_ifs
          · exact hl16
          · exact swab16_length_even _ _ hl16
        · rw [if_neg h4]
          exact ⟨rfl, Nat.zero_le _, Nat.zero_le _⟩

/-- The decoder-less branch keeps the buffers well-formed and writes inside
them. -/
theorem audio_raw_decode_safe (bld : build_t) (s : sout_stream_id_t) (hw : wf_buffers s) :
    wf_buffers (audio_raw_decode bld s) ∧ same_setup s (audio_raw_decode bld s) ∧
    (audio_raw_decode bld s).i_buffer_in = s.i_buffer_in ∧
    (∀ w ∈ raw_decode_writes bld s, w.off + w.len ≤ w.cap) := by
  obtain ⟨b1, b2, b3⟩ := raw_samples_bounds bld s hw
  obtain ⟨w1, w2, w3, w4⟩ := hw
  refine ⟨⟨?_, ?_, ?_, ?_⟩, by simp [same_setup, audio_raw_decode], rfl, ?_⟩
  · show (memcpy s.p_buffer s.i_buffer_pos (raw_samples bld s).2.2).length = s.i_buffer
    rw [memcpy_length _ _ _ (by omega), w1]
  · show s.i_buffer_pos + 2 * (raw_samples bld s).2.1 ≤ s.i_buffer
    omega
  · show (if (raw_samples bld s).1 < s.i_buffer_in_pos then
        memmove s.p_buffer_in 0 (raw_samples bld s).1 (s.i_buffer_in - (raw_samples bld s).1)
      else s.p_buffer_in).length = s.i_buffer_in
    split_ifs
    · unfold memmove
      rw [memcpy_length _ _ _ (by rw [List.length_take, List.length_drop]; omega), w3]
    · exact w3
  · show s.i_buffer_in_pos - (raw_samples bld s).1 ≤ s.i_buffer_in
    omega
  · intro w hw'
    unfold raw_decode_writes at hw'
    rcases List.mem_append.mp hw' with h | h
    · rw [List.mem_singleton] at h
      subst h
      show s.i_buffer_pos + (raw_samples bld s).2.2.length ≤ s.i_buffer
      omega
    · split_ifs at h
      · rw [List.mem_singleton] at h
        subst h
        show 0 + (s.i_buffer_in - (raw_samples bld s).1) ≤ s.i_buffer_in
        omega
      · exact absurd h (List.not_mem_nil _)

/-- Gathering a unit keeps the buffers well-formed, never shrinks the input
staging buffer, and writes inside it. -/
theorem audio_enter_safe (bld : build_t) (s : sout_stream_id_t) (inb : sout_buffer_t)
    (hw : wf_buffers s) :
    wf_buffers (audio_enter bld s inb) ∧ s.i_buffer_in ≤ (audio_enter bld s inb).i_buffer_in ∧
    (∀ w ∈ gather_writes s inb, w.off + w.len ≤ w.cap) := by
  refine ⟨(audio_enter_content bld s inb hw).1, ?_, ?_⟩
  · unfold audio_enter audio_gather
    simp only [sout_buffer_t.i_size]
    split_ifs with hg
    · show s.i_buffer_in ≤ s.i_buffer_in_pos + inb.p_buffer.length + 1024
      omega
    · exact le_refl _
  · intro w hw'
    unfold gather_writes at hw'
    rw [List.mem_singleton] at hw'
    subst hw'
    show s.i_buffer_in_pos + inb.i_size ≤ (audio_gather s inb).i_buffer_in
    unfold audio_gather
    simp only [sout_buffer_t.i_size]
    split_ifs with hg
    · show s.i_buffer_in_pos + inb.p_buffer.length ≤ s.i_buffer_in_pos + inb.p_buffer.length + 1024
      omega
    · show s.i_buffer_in_pos + inb.p_buffer.length ≤ s.i_buffer_in
      omega

/-- The sample stores of the downmix loops stay inside the frame, hence
inside the buffer. -/
theorem downmix_writes_safe (base : Nat) (fs d c : Int) (cap : Nat) (hd : d ≤ c)
    (hn : base + (fs * 2 * c).toNat ≤ cap) :
    ∀ w ∈ downmix_writes base fs d cap, w.off + w.len ≤ w.cap := by
  intro w hw
  unfold downmix_writes at hw
  rw [List.mem_flatten] at hw
  obtain ⟨row, hrow, hwrow⟩ := hw
  rw [List.mem_map] at hrow
  obtain ⟨i, hi, rfl⟩ := hrow
  rw [List.mem_map] at hwrow
  obtain ⟨j, hj, rfl⟩ := hwrow
  have hi' : i < fs.toNat := List.mem_range.mp hi
  have hj' : j < d.toNat := List.mem_range.mp hj
  have hfs : fs = (fs.toNat : Int) := by omega
  have hdd : d = (d.toNat : Int) := by omega
  have hcc : c = (c.toNat : Int) := by omega
  have hdc : d.toNat ≤ c.toNat := by omega
  have e1 : ((i : Int) * d + (j : Int)).toNat = i * d.toNat + j := by
    rw [hdd]
    have : ((i : Int) * ((d.toNat : Nat) : Int) + (j : Int)) = ((i * d.toNat + j : Nat) : Int) := by
      push_cast; rfl
    rw [Int.toNat_ofNat, this, Int.toNat_ofNat]
  have e2 : (fs * 2 * c).toNat = fs.toNat * 2 * c.toNat := by
    rw [hfs, hcc]
    have : (((fs.toNat : Nat) : Int) * 2 * ((c.toNat : Nat) : Int)) =
        ((fs.toNat * 2 * c.toNat : Nat) : Int) := by push_cast; rfl
    rw [Int.toNat_ofNat, Int.toNat_ofNat, this, Int.toNat_ofNat]
  have b1 : (i + 1) * d.toNat ≤ fs.toNat * d.toNat := Nat.mul_le_mul_right _ (by omega)
  have b2 : fs.toNat * d.toNat ≤ fs.toNat * c.toNat := Nat.mul_le_mul_left _ hdc
  rw [Nat.succ_mul] at b1
  have b3 : fs.toNat * 2 * c.toNat = 2 * (fs.toNat * c.toNat) := by ring
  show base + 2 * ((i : Int) * d + (j : Int)).toNat + 2 ≤ cap
  rw [e1]
  rw [e2, b3] at hn
  omega

/-- The writes of one iteration of the encode loop stay inside the buffer. -/
theorem frame_writes_safe (i_buffer_pos : Nat) (s : sout_stream_id_t) (hch : channels_fit s)
    (hcap : s.p_buffer.length = s.i_buffer) (hlen : i_buffer_pos ≤ s.p_buffer.length)
    (hpl : s.i_buffer_pos ≤ i_buffer_pos) (hF : (i_frame_size s).toNat ≤ s.i_buffer_pos) :
    ∀ w ∈ frame_writes i_buffer_pos s, w.off + w.len ≤ w.cap := by
  unfold frame_writes
  split_ifs with hne
  · rcases hch with h | h
    · exact absurd h hne
    · apply downmix_writes_safe _ _ _ s.ff_dec_c.channels _ h
      simp only [i_frame_size] at hF
      omega
  · intro w hw
    exact absurd hw (List.not_mem_nil _)

/-- The encode loop on a well-formed session, whatever the encoder returns:
the buffer keeps its size, the fill level does not grow, the input staging
buffer is not touched, and every write stays inside the buffer. -/
theorem audio_encode_loop_safe (lib : libavcodec) (i_buffer_pos : Nat) :
    ∀ (fuel : Nat) (s : sout_stream_id_t) (out : List sout_buffer_t),
      0 < i_frame_size s → channels_fit s → s.p_buffer.length = s.i_buffer →
      i_buffer_pos ≤ s.p_buffer.length → s.i_buffer_pos ≤ i_buffer_pos →
      (∀ w ∈ audio_encode_loop_writes lib i_buffer_pos fuel s, w.off + w.len ≤ w.cap) ∧
      ∀ s' out', audio_encode_loop lib i_buffer_pos fuel s out = some (s', out') →
        s'.p_buffer.length = s.p_buffer.length ∧ s'.i_buffer_pos ≤ s.i_buffer_pos ∧
        same_setup s s' ∧ s'.i_buffer_in_pos = s.i_buffer_in_pos ∧
        s'.p_buffer_in = s.p_buffer_in ∧ s'.i_buffer_in = s.i_buffer_in := by
  intro fuel
  induction fuel with
  | zero =>
    intro s out _ _ _ _ _
    refine ⟨fun w hw => absurd hw (List.not_mem_nil _), ?_⟩
    intro s' out' h
    simp [audio_encode_loop] at h
  | succ n ih =>
    intro s out hF hch hcap hlen hpl
    unfold audio_encode_loop audio_encode_loop_writes
    by_cases h1 : (s.i_buffer_pos : Int) < i_frame_size s
    · rw [if_pos h1, if_pos h1]
      refine ⟨fun w hw => absurd hw (List.not_mem_nil _), ?_⟩
      intro s' out' h
      simp only [Option.some.injEq, Prod.mk.injEq] at h
      obtain ⟨rfl, -⟩ := h
      exact ⟨rfl, le_refl _, same_setup_refl _, rfl, rfl, rfl⟩
    · rw [if_neg h1, if_neg h1]
      have hFle : (i_frame_size s).toNat ≤ s.i_buffer_pos := by omega
      have hfw := frame_writes_safe i_buffer_pos s hch hcap hlen hpl hFle
      have hbuf := audio_emit_buffer lib i_buffer_pos s hch hlen hpl hFle
      by_cases h2 : (audio_encode_call lib i_buffer_pos s).i_out_size ≤ 0
      · rw [if_pos h2, if_pos h2]
        refine ⟨hfw, ?_⟩
        intro s' out' h
        simp only [Option.some.injEq, Prod.mk.injEq] at h
        obtain ⟨rfl, -⟩ := h
        obtain ⟨a1, a2, a3, a4, a5⟩ := audio_after_encode_frame lib i_buffer_pos s
        exact ⟨hbuf.1, le_of_eq a5, a1, a2, a3, a4⟩
      · rw [if_neg h2, if_neg h2]
        by_cases hR : s.ff_enc_c.sample_rate = 0
        · rw [if_pos hR, if_pos hR]
          exact ⟨hfw, fun s' out' h => Option.noConfusion h⟩
        rw [if_neg hR, if_neg hR]
        obtain ⟨e1, e2, e3, e4, e5⟩ := audio_emit_frame lib i_buffer_pos s
        have hpos : (audio_emit lib i_buffer_pos s).i_buffer_pos =
            ((s.i_buffer_pos : Int) - i_frame_size s).toNat := rfl
        have hle : (audio_emit lib i_buffer_pos s).i_buffer_pos ≤ s.i_buffer_pos := by
          rw [hpos]; omega
        have hch' : channels_fit (audio_emit lib i_buffer_pos s) := by
          unfold channels_fit at hch ⊢
          rw [e1.2.2.2.1, e1.2.2.2.2.2.2.1, e1.2.1]
          exact hch
        have hcap' : (audio_emit lib i_buffer_pos s).p_buffer.length =
            (audio_emit lib i_buffer_pos s).i_buffer := by
          rw [hbuf.1, e1.2.2.2.2.2.2.2.2.1]; exact hcap
        obtain ⟨iw, ir⟩ := ih (audio_emit lib i_buffer_pos s)
          (out ++ [audio_unit lib i_buffer_pos s]) (by rw [e5]; exact hF) hch' hcap'
          (by rw [hbuf.1]; exact hlen) (le_trans hle hpl)
        refine ⟨?_, ?_⟩
        · intro w hw
          rcases List.mem_append.mp hw with h | h
          · exact hfw w h
          · exact iw w h
        · intro s' out' h
          obtain ⟨r1, r2, r3, r4, r5, r6⟩ := ir s' out' h
          exact ⟨r1.trans hbuf.1, le_trans r2 hle, same_setup_trans e1 r3, r4.trans e2,
            r5.trans e3, r6.trans e4⟩

/-- A decoder-less session left by `audio_new_decoder` has the channel count
of the source in its decoder context. -/
theorem audio_new_decoder_raw (lib : libavcodec) (id : sout_stream_id_t) (tr : List Event)
    (h : (audio_new_decoder lib id tr).1 = VLC_SUCCESS)
    (hd : (audio_new_decoder lib id tr).2.1.ff_dec = none) :
    (audio_new_decoder lib id tr).2.1.ff_dec_c.channels = id.f_src.i_channels := by
  unfold audio_new_decoder at h hd ⊢
  by_cases h1 : id.f_src.i_fourcc = VLC_FOURCC 's' '1' '6' 'l' ∨
     id.f_src.i_fourcc = VLC_FOURCC 's' '1' '6' 'b' ∨
     id.f_src.i_fourcc = VLC_FOURCC 's' '8' ' ' ' ' ∨
     id.f_src.i_fourcc = VLC_FOURCC 'u' '8' ' ' ' '
  · rw [if_pos h1]; rfl
  · rw [if_neg h1] at h hd
    by_cases h2 : get_ff_codec lib id.f_src.i_fourcc = CODEC_ID_NONE
    · rw [if_pos h2] at h; exact absurd h egeneric_ne_success
    · rw [if_neg h2] at h hd
      cases hf : lib.avcodec_find_decoder (get_ff_codec lib id.f_src.i_fourcc) with
      | none => rw [hf] at h; exact absurd h egeneric_ne_success
      | some c => rw [hf] at hd; exact Option.noConfusion hd

theorem audio_new_encoder_open_dec (lib : libavcodec) (id : sout_stream_id_t)
    (tr : List Event) :
    (audio_new_encoder_open lib id tr).2.1.ff_dec = id.ff_dec ∧
    (audio_new_encoder_open lib id tr).2.1.ff_dec_c = id.ff_dec_c ∧
    (audio_new_encoder_open lib id tr).2.1.i_buffer = id.i_buffer ∧
    (audio_new_encoder_open lib id tr).2.1.i_buffer_pos = id.i_buffer_pos ∧
    (audio_new_encoder_open lib id tr).2.1.p_buffer = id.p_buffer ∧
    (audio_new_encoder_open lib id tr).2.1.i_buffer_in = id.i_buffer_in ∧
    (audio_new_encoder_open lib id tr).2.1.i_buffer_in_pos = id.i_buffer_in_pos ∧
    (audio_new_encoder_open lib id tr).2.1.p_buffer_in = id.p_buffer_in := by
  unfold audio_new_encoder_open
  split_ifs <;> exact ⟨rfl, rfl, rfl, rfl, rfl, rfl, rfl, rfl⟩

theorem audio_new_encoder_dec (lib : libavcodec) (id : sout_stream_id_t) (tr : List Event) :
    (audio_new_encoder lib id tr).2.1.ff_dec = id.ff_dec ∧
    (audio_new_encoder lib id tr).2.1.ff_dec_c = id.ff_dec_c ∧
    (audio_new_encoder lib id tr).2.1.i_buffer = id.i_buffer ∧
    (audio_new_encoder lib id tr).2.1.i_buffer_pos = id.i_buffer_pos ∧
    (audio_new_encoder lib id tr).2.1.p_buffer = id.p_buffer ∧
    (audio_new_encoder lib id tr).2.1.i_buffer_in = id.i_buffer_in ∧
    (audio_new_encoder lib id tr).2.1.i_buffer_in_pos = id.i_buffer_in_pos ∧
    (audio_new_encoder lib id tr).2.1.p_buffer_in = id.p_buffer_in := by
  unfold audio_new_encoder
  by_cases hc : get_ff_codec lib id.f_dst.i_fourcc = CODEC_ID_NONE
  · rw [if_pos hc]; exact ⟨rfl, rfl, rfl, rfl, rfl, rfl, rfl, rfl⟩
  · rw [if_neg hc]
    cases lib.avcodec_find_encoder (get_ff_codec lib id.f_dst.i_fourcc) with
    | none => exact ⟨rfl, rfl, rfl, rfl, rfl, rfl, rfl, rfl⟩
    | some c => exact audio_new_encoder_open_dec lib _ tr

/-- A decoder-less session that `transcode_audio_ffmpeg_new` leaves: the
decoder context has the channel count of the source, the destination has no
more channels, and the two buffers are empty and as large as their capacity
fields say. -/
theorem audio_new_raw (bld : build_t) (lib : libavcodec) (id : sout_stream_id_t)
    (tr : List Event) (h : (transcode_audio_ffmpeg_new bld lib id tr).1 = VLC_SUCCESS)
    (hd : (transcode_audio_ffmpeg_new bld lib id tr).2.1.ff_dec = none) :
    channels_fit (transcode_audio_ffmpeg_new bld lib id tr).2.1 ∧
    wf_buffers (transcode_audio_ffmpeg_new bld lib id tr).2.1 := by
  have hle := audio_new_channels bld lib id tr h
  have hsrc := audio_new_f_src bld lib id tr
  have hwb : wf_buffers (audio_new_buffers lib (audio_new_decoder lib id tr).2.1) := by
    refine ⟨?_, Nat.zero_le _, ?_, Nat.zero_le _⟩
    · show (malloc (2 * lib.AVCODEC_MAX_AUDIO_FRAME_SIZE)).length = _
      unfold malloc; rw [List.length_replicate]; rfl
    · show (malloc (2 * lib.AVCODEC_MAX_AUDIO_FRAME_SIZE)).length = _
      unfold malloc; rw [List.length_replicate]; rfl
  have key : (transcode_audio_ffmpeg_new bld lib id tr).2.1.ff_dec_c.channels = id.f_src.i_channels ∧
      wf_buffers (transcode_audio_ffmpeg_new bld lib id tr).2.1 := by
    unfold transcode_audio_ffmpeg_new at h hd ⊢
    by_cases h1 : (audio_new_decoder lib id tr).1 ≠ VLC_SUCCESS
    · rw [if_pos h1] at h; exact absurd h h1
    · rw [if_neg h1] at h hd ⊢
      by_cases h2 : bld.HAVE_VORBIS_VORBISENC_H = true ∧
          (audio_new_buffers lib (audio_new_decoder lib id tr).2.1).f_dst.i_fourcc =
            VLC_FOURCC 'v' 'o' 'r' 'b'
      · rw [if_pos h2] at hd ⊢
        exact ⟨audio_new_decoder_raw lib id tr (not_not.mp h1) hd, hwb⟩
      · rw [if_neg h2] at hd ⊢
        obtain ⟨e1, e2, e3, e4, e5, e6, e7, e8⟩ := audio_new_encoder_dec lib
          (audio_new_buffers lib (audio_new_decoder lib id tr).2.1)
          (audio_new_decoder lib id tr).2.2
        rw [e1] at hd
        refine ⟨?_, ?_⟩
        · rw [e2]
          exact audio_new_decoder_raw lib id tr (not_not.mp h1) hd
        · unfold wf_buffers
          rw [e3, e4, e5, e6, e7, e8]
          exact hwb
  refine ⟨Or.inr ?_, key.2⟩
  rw [key.1, ← hsrc]
  exact hle

/-- A decoder-less audio session that `Add` returns is well-formed, and its
downmix stays inside a frame. -/
theorem add_audio_raw (out : sout_out_t) (bld : build_t) (lib : libavcodec)
    (sys : sout_stream_sys_t) (mem : sout_stream_id_t) (stack : AVFrame)
    (p_fmt : sout_format_t) (tr : List Event) (id : sout_stream_id_t)
    (sys1 : sout_stream_sys_t) (tr1 : List Event)
    (hcat : p_fmt.i_cat = AUDIO_ES) (hcodec : sys.i_acodec ≠ 0)
    (hadd : Add out bld lib sys mem stack p_fmt tr = (some id, sys1, tr1))
    (hdec : id.ff_dec = none) :
    channels_fit id ∧ wf_buffers id := by
  have key := audio_new_raw bld lib (add_audio_session sys mem p_fmt) tr
  unfold Add at hadd
  rw [if_pos ⟨hcat, hcodec⟩] at hadd
  unfold add_audio at hadd
  generalize transcode_audio_ffmpeg_new bld lib (add_audio_session sys mem p_fmt) tr = r
    at hadd key
  obtain ⟨ret, id1, tr2⟩ := r
  simp only at hadd key
  split_ifs at hadd with h1 h2
  · simp at hadd
  · simp at hadd
  · simp only [Prod.mk.injEq, Option.some.injEq] at hadd
    obtain ⟨hid, -, -⟩ := hadd
    subst hid
    exact key (not_not.mp h1) hdec

theorem vorbis_packets_buffers (pkts : List VorbisPacket) :
    ∀ (acc : sout_stream_id_t × List sout_buffer_t),
      (pkts.foldl vorbis_packet_unit acc).1.p_buffer = acc.1.p_buffer ∧
      (pkts.foldl vorbis_packet_unit acc).1.i_buffer = acc.1.i_buffer ∧
      (pkts.foldl vorbis_packet_unit acc).1.p_buffer_in = acc.1.p_buffer_in ∧
      (pkts.foldl vorbis_packet_unit acc).1.i_buffer_in = acc.1.i_buffer_in ∧
      same_setup acc.1 (pkts.foldl vorbis_packet_unit acc).1 := by
  induction pkts with
  | nil => intro acc; exact ⟨rfl, rfl, rfl, rfl, same_setup_refl _⟩
  | cons p t ih =>
    intro acc
    rw [List.foldl_cons]
    obtain ⟨a, b, c, d, e⟩ := ih (vorbis_packet_unit acc p)
    have hs : same_setup acc.1 (vorbis_packet_unit acc p).1 := by
      simp [same_setup, vorbis_packet_unit]
    exact ⟨a.trans rfl, b.trans rfl, c.trans rfl, d.trans rfl, same_setup_trans hs e⟩

/-- The encode stage on a well-formed session, whatever the encoder returns
and whether or not it ends: every write stays inside the decoded-samples
buffer, and when the stage ends the buffers keep their sizes, the fill level
has not grown and the input staging buffer is untouched. -/
theorem audio_encode_stage_safe (bld : build_t) (lib : libavcodec) (fuel : Nat)
    (s : sout_stream_id_t) (hw : wf_buffers s) (hF : 0 < i_frame_size s)
    (hch : channels_fit s) :
    (∀ w ∈ audio_encode_stage_writes bld lib fuel s, w.off + w.len ≤ w.cap) ∧
    ∀ s2 out2, audio_encode_stage bld lib fuel s [] = some (s2, out2) →
      s2.p_buffer.length = s.p_buffer.length ∧ s2.i_buffer_pos ≤ s.i_buffer_pos ∧
      same_setup s s2 ∧ s2.i_buffer_in_pos = s.i_buffer_in_pos ∧
      s2.p_buffer_in = s.p_buffer_in ∧ s2.i_buffer_in = s.i_buffer_in := by
  obtain ⟨w1, w2, w3, w4⟩ := hw
  have hloop := audio_encode_loop_safe lib s.i_buffer_pos fuel s [] hF hch w1
    (by omega) (le_refl _)
  unfold audio_encode_stage audio_encode_stage_writes
  by_cases hv : bld.HAVE_VORBIS_VORBISENC_H = true
  · rw [if_pos hv, if_pos hv]
    by_cases h0 : s.i_buffer_pos = 0
    · rw [if_pos h0, if_pos h0]
      refine ⟨fun w hw => absurd hw (List.not_mem_nil _), ?_⟩
      intro s2 out2 h
      simp only [Option.some.injEq, Prod.mk.injEq] at h
      obtain ⟨rfl, -⟩ := h
      exact ⟨rfl, le_refl _, same_setup_refl _, rfl, rfl, rfl⟩
    · rw [if_neg h0, if_neg h0]
      by_cases hb : s.f_dst.i_fourcc = VLC_FOURCC 'v' 'o' 'r' 'b'
      · rw [if_pos hb, if_pos hb]
        refine ⟨fun w hw => absurd hw (List.not_mem_nil _), ?_⟩
        intro s2 out2 h
        by_cases ht : vorbis_traps lib s
        · rw [if_pos ht] at h; exact Option.noConfusion h
        rw [if_neg ht] at h
        simp only [Option.some.injEq] at h
        have h1 : s2 = (vorbis_encode lib s []).1 := by rw [h]
        subst h1
        unfold vorbis_encode
        obtain ⟨a, b, c, d, e⟩ := vorbis_packets_buffers
          (lib.vorbis_analysis s.vorbis_state (Int.tdiv (Int.tdiv (s.i_buffer_pos : Int)
            s.f_src.i_channels) 2) s.f_src.i_channels s.f_dst.i_channels
            (s.p_buffer.take s.i_buffer_pos)).1
          ({ s with
             b_headers_sent := true
             i_samples_delay := s.i_samples_delay + Int.tdiv (Int.tdiv (s.i_buffer_pos : Int)
               s.f_src.i_channels) 2
             i_buffer_pos := 0
             vorbis_state := (lib.vorbis_analysis s.vorbis_state (Int.tdiv (Int.tdiv
               (s.i_buffer_pos : Int) s.f_src.i_channels) 2) s.f_src.i_channels
               s.f_dst.i_channels (s.p_buffer.take s.i_buffer_pos)).2 },
           if s.b_headers_sent = true then []
           else [] ++ [vorbis_header_unit (lib.vorbis_analysis_headerout s.vorbis_state).1,
                 vorbis_header_unit (lib.vorbis_analysis_headerout s.vorbis_state).2.1,
                 vorbis_header_unit (lib.vorbis_analysis_headerout s.vorbis_state).2.2])
        obtain ⟨f1, f2⟩ := vorbis_packets_frame
          (lib.vorbis_analysis s.vorbis_state (Int.tdiv (Int.tdiv (s.i_buffer_pos : Int)
            s.f_src.i_channels) 2) s.f_src.i_channels s.f_dst.i_channels
            (s.p_buffer.take s.i_buffer_pos)).1
          ({ s with
             b_headers_sent := true
             i_samples_delay := s.i_samples_delay + Int.tdiv (Int.tdiv (s.i_buffer_pos : Int)
               s.f_src.i_channels) 2
             i_buffer_pos := 0
             vorbis_state := (lib.vorbis_analysis s.vorbis_state (Int.tdiv (Int.tdiv
               (s.i_buffer_pos : Int) s.f_src.i_channels) 2) s.f_src.i_channels
               s.f_dst.i_channels (s.p_buffer.take s.i_buffer_pos)).2 },
           if s.b_headers_sent = true then []
           else [] ++ [vorbis_header_unit (lib.vorbis_analysis_headerout s.vorbis_state).1,
                 vorbis_header_unit (lib.vorbis_analysis_headerout s.vorbis_state).2.1,
                 vorbis_header_unit (lib.vorbis_analysis_headerout s.vorbis_state).2.2])
        refine ⟨by rw [a], by rw [f2]; exact Nat.zero_le _, ?_, f1, c, d⟩
        exact same_setup_trans (by simp [same_setup]) e
      · rw [if_neg hb, if_neg hb]
        exact hloop
  · rw [if_neg hv, if_neg hv]
    exact hloop

/-- With nonzero divisors, a positive frame byte size and enough iterations
allowed, the encode stage ends. -/
theorem audio_encode_stage_returns (bld : build_t) (lib : libavcodec) (fuel : Nat)
    (s : sout_stream_id_t) (hw : wf_buffers s) (hF : 0 < i_frame_size s)
    (hnz : divisors_nonzero bld s) (hfuel : s.i_buffer / (i_frame_size s).toNat < fuel) :
    ∃ s2 out2, audio_encode_stage bld lib fuel s [] = some (s2, out2) := by
  obtain ⟨w1, w2, w3, w4⟩ := hw
  have hFn : 0 < (i_frame_size s).toNat := by omega
  have hfu : s.i_buffer_pos < fuel * (i_frame_size s).toNat := by
    have h1 := Nat.div_add_mod s.i_buffer (i_frame_size s).toNat
    have h2 := Nat.mod_lt s.i_buffer hFn
    have h3 : (s.i_buffer / (i_frame_size s).toNat + 1) * (i_frame_size s).toNat ≤
        fuel * (i_frame_size s).toNat := Nat.mul_le_mul_right _ hfuel
    rw [Nat.succ_mul, Nat.mul_comm] at h3
    omega
  have hloop : ¬ (bld.HAVE_VORBIS_VORBISENC_H = true ∧
        s.f_dst.i_fourcc = VLC_FOURCC 'v' 'o' 'r' 'b') →
      ∃ s2 out2, audio_encode_loop lib s.i_buffer_pos fuel s [] = some (s2, out2) := by
    intro hv
    obtain ⟨s2, out2, hl, -, -⟩ := audio_encode_loop_returns lib s.i_buffer_pos fuel s [] hF
      (divisors_nonzero_rate hnz hv) hfu
    exact ⟨s2, out2, hl⟩
  unfold audio_encode_stage
  by_cases hv : bld.HAVE_VORBIS_VORBISENC_H = true
  · rw [if_pos hv]
    by_cases h0 : s.i_buffer_pos = 0
    · rw [if_pos h0]; exact ⟨_, _, rfl⟩
    · rw [if_neg h0]
      by_cases hb : s.f_dst.i_fourcc = VLC_FOURCC 'v' 'o' 'r' 'b'
      · rw [if_pos hb, if_neg (divisors_nonzero_vorbis lib hnz ⟨hv, hb⟩)]
        exact ⟨_, _, rfl⟩
      · rw [if_neg hb]
        exact hloop (fun h => hb h.2)
  · rw [if_neg hv]
    exact hloop (fun h => hv h.1)

theorem channels_fit_of_same_setup {s s' : sout_stream_id_t} (h : same_setup s s')
    (hc : channels_fit s) : channels_fit s' := by
  unfold channels_fit at hc ⊢
  rw [h.2.2.2.1, h.2.2.2.2.2.2.1, h.2.1]
  exact hc

/-- A call of `transcode_audio_ffmpeg_process` on a well-formed decoder-less
session with a positive frame size and a downmix that fits.  Every write
into the two buffers ends within the capacity, and a call that returns
leaves the session well-formed, with an input staging capacity that has not
decreased; with nonzero divisors and enough iterations allowed the call
returns. -/
theorem audio_raw_call_safe (bld : build_t) (lib : libavcodec) (fuel : Nat)
    (s : sout_stream_id_t) (inb : sout_buffer_t) (hdec : s.ff_dec = none)
    (hw : wf_buffers s) (hF : 0 < i_frame_size s) (hch : channels_fit s) :
    (∀ w ∈ audio_raw_writes bld lib fuel s inb, w.off + w.len ≤ w.cap) ∧
    (∀ st s' out, transcode_audio_ffmpeg_process bld lib fuel s inb = some (st, s', out) →
      st = VLC_SUCCESS ∧ wf_buffers s' ∧ same_setup s s' ∧ s.i_buffer_in ≤ s'.i_buffer_in) ∧
    (divisors_nonzero bld s → s.i_buffer / (i_frame_size s).toNat < fuel →
      ∃ s' out, transcode_audio_ffmpeg_process bld lib fuel s inb =
        some (VLC_SUCCESS, s', out)) := by
  obtain ⟨gw, gcap, gwr⟩ := audio_enter_safe bld s inb hw
  obtain ⟨gset, _, _⟩ := audio_enter_frame bld s inb
  have hGd : (audio_enter bld s inb).ff_dec = none := by rw [gset.2.2.1]; exact hdec
  obtain ⟨rw1, rset, rcap, rwr⟩ := audio_raw_decode_safe bld (audio_enter bld s inb) gw
  have hstage : ∀ fu, audio_decode_stage bld lib fu (audio_enter bld s inb) false =
      some (audio_raw_decode bld (audio_enter bld s inb), false) := by
    intro fu
    unfold audio_decode_stage
    rw [hGd]
  generalize hR : audio_raw_decode bld (audio_enter bld s inb) = R at rw1 rset rcap hstage
  have sR : same_setup s R := same_setup_trans gset rset
  have hFR : 0 < i_frame_size R := by rw [i_frame_size_of_same_setup sR]; exact hF
  obtain ⟨ewr, eret⟩ :=
    audio_encode_stage_safe bld lib fuel R rw1 hFR (channels_fit_of_same_setup sR hch)
  have hafter : ∀ s2 out2, audio_encode_stage bld lib fuel R [] = some (s2, out2) →
      wf_buffers (audio_compact R.i_buffer_pos s2) ∧
      same_setup s (audio_compact R.i_buffer_pos s2) ∧
      s.i_buffer_in ≤ (audio_compact R.i_buffer_pos s2).i_buffer_in ∧
      s2.i_buffer_pos ≤ s2.i_buffer := by
    intro s2 out2 he
    obtain ⟨el, ep, eset, ein, ebuf, ecap⟩ := eret s2 out2 he
    obtain ⟨r1, r2, r3, r4⟩ := rw1
    obtain ⟨-, cl, cp, cin, cbuf, ccap, cset⟩ :=
      audio_compact_content R.i_buffer_pos s2 (by rw [el, r1]; exact r2) ep
    have s2cap : s2.i_buffer = R.i_buffer := eset.2.2.2.2.2.2.2.2.1
    refine ⟨⟨?_, ?_, ?_, ?_⟩, same_setup_trans sR (same_setup_trans eset cset), ?_, ?_⟩
    · rw [cl, el, r1, cset.2.2.2.2.2.2.2.2.1, s2cap]
    · rw [cp, cset.2.2.2.2.2.2.2.2.1, s2cap]; omega
    · rw [cbuf, ccap, ebuf, ecap]; exact r3
    · rw [cin, ccap, ein, ecap]; exact r4
    · rw [ccap, ecap, rcap]; exact gcap
    · rw [s2cap]; omega
  refine ⟨?_, ?_, ?_⟩
  · intro w hmem
    unfold audio_raw_writes at hmem
    by_cases ht : audio_dts_traps bld s
    · rw [if_pos ht] at hmem; exact absurd hmem (List.not_mem_nil _)
    rw [if_neg ht, hR] at hmem
    simp only [List.mem_append] at hmem
    rcases hmem with ((h1 | h2) | h3) | h4
    · exact gwr w h1
    · exact rwr w h2
    · exact ewr w h3
    · cases he : audio_encode_stage bld lib fuel R [] with
      | none => rw [he] at h4; exact absurd h4 (List.not_mem_nil _)
      | some r =>
        obtain ⟨s2, out2⟩ := r
        rw [he] at h4
        simp only at h4
        unfold compact_writes at h4
        split_ifs at h4 with h0
        · rw [List.mem_singleton] at h4
          subst h4
          show 0 + s2.i_buffer_pos ≤ s2.i_buffer
          have := (hafter s2 out2 he).2.2.2
          omega
        · exact absurd h4 (List.not_mem_nil _)
  · intro st s' out hp
    obtain ⟨hst, sd, s2, hd, he, hs'⟩ := process_some bld lib fuel s s' inb st out hp
    rw [hstage fuel] at hd
    simp only [Option.some.injEq, Prod.mk.injEq, and_true] at hd
    subst hd
    subst hs'
    obtain ⟨a, b, c, -⟩ := hafter s2 out he
    exact ⟨hst, a, b, c⟩
  · intro hnz hfuel
    have hfR : R.i_buffer / (i_frame_size R).toNat < fuel := by
      rw [i_frame_size_of_same_setup sR, sR.2.2.2.2.2.2.2.2.1]; exact hfuel
    obtain ⟨s2, out2, he⟩ := audio_encode_stage_returns bld lib fuel R rw1 hFR
      (divisors_nonzero_of_same_setup sR hnz) hfR
    exact ⟨_, _, process_of_stages bld lib fuel s R s2 inb out2 (divisors_nonzero_start hnz)
      (Nat.lt_of_le_of_lt (Nat.zero_le _) hfuel) (hstage fuel) he⟩

/-- C29: on a decoder-less (raw PCM) audio session that `Add` created, in any
later state `s` of it whose buffers are as large as their capacity fields and
whose cursors are within them, and with an encoder frame of a positive byte
size, for every input unit and every encoder behaviour: every write of a call
of `transcode_audio_ffmpeg_process` into the staging buffer and the
decoded-samples buffer falls at an index below the capacity of that buffer;
when the call returns, the buffers and cursors are again within their
capacities, the session parameters are those of `Add`, and the input staging
capacity `i_buffer_in` has not decreased.  The call returns `VLC_SUCCESS`
when no divisor of its integer divisions is 0 (otherwise it stops on
SIGFPE, having made only writes of the kind above). -/
theorem raw_call_safe (out : sout_out_t) (bld : build_t) (lib : libavcodec)
    (sys : sout_stream_sys_t) (mem : sout_stream_id_t) (stack : AVFrame)
    (p_fmt : sout_format_t) (tr : List Event) (id0 : sout_stream_id_t) (fuel : Nat)
    (s : sout_stream_id_t) (inb : sout_buffer_t)
    (hcat : p_fmt.i_cat = AUDIO_ES) (hcodec : sys.i_acodec ≠ 0)
    (hadd : (Add out bld lib sys mem stack p_fmt tr).1 = some id0)
    (hdec : id0.ff_dec = none) (hset : same_setup id0 s) (hw : wf_buffers s)
    (hF : 0 < i_frame_size s) :
    wf_buffers id0 ∧
    (∀ w ∈ audio_raw_writes bld lib fuel s inb,
      ∀ i, w.off ≤ i → i < w.off + w.len → i < w.cap) ∧
    (∀ st s' chain, transcode_audio_ffmpeg_process bld lib fuel s inb = some (st, s', chain) →
      st = VLC_SUCCESS ∧ wf_buffers s' ∧ same_setup id0 s' ∧ s.i_buffer_in ≤ s'.i_buffer_in) ∧
    (divisors_nonzero bld s → s.i_buffer / (i_frame_size s).toNat < fuel →
      ∃ s' chain, transcode_audio_ffmpeg_process bld lib fuel s inb =
        some (VLC_SUCCESS, s', chain)) := by
  obtain ⟨hch, hw0⟩ := add_audio_raw out bld lib sys mem stack p_fmt tr id0
    (Add out bld lib sys mem stack p_fmt tr).2.1 (Add out bld lib sys mem stack p_fmt tr).2.2
    hcat hcodec (Prod.ext hadd rfl) hdec
  obtain ⟨wr, ret, term⟩ := audio_raw_call_safe bld lib fuel s inb
    (by rw [hset.2.2.1]; exact hdec) hw hF (channels_fit_of_same_setup hset hch)
  refine ⟨hw0, fun w hmem i _ hi => Nat.lt_of_lt_of_le hi (wr w hmem), ?_, term⟩
  intro st s' chain hp
  obtain ⟨a, b, c, d⟩ := ret st s' chain hp
  exact ⟨a, b, same_setup_trans hset c, d⟩

theorem raw_call_safe_witness :
    (Add out_ok bld_le lib_frames3 sys_alaw_mono id_zero frame_zero fmt_pcm_stereo []).1 =
      some id_stereo_small ∧
    wf_buffers id_stereo_small ∧
    (∀ w ∈ audio_raw_writes bld_le lib_frames3 2 id_stereo_small unit_stereo,
      ∀ i, w.off ≤ i → i < w.off + w.len → i < w.cap) ∧
    audio_raw_writes bld_le lib_frames3 2 id_stereo_small unit_stereo ≠ [] ∧
    ∃ s' chain, transcode_audio_ffmpeg_process bld_le lib_frames3 2 id_stereo_small
        unit_stereo = some (VLC_SUCCESS, s', chain) ∧
      wf_buffers s' ∧ same_setup id_stereo_small s' ∧
      id_stereo_small.i_buffer_in ≤ s'.i_buffer_in := by
  have h := raw_call_safe out_ok bld_le lib_frames3 sys_alaw_mono id_zero frame_zero
    fmt_pcm_stereo [] id_stereo_small 2 id_stereo_small unit_stereo (by decide) (by decide)
    (by decide) (by decide) (same_setup_refl _) ⟨by decide, by decide, by decide, by decide⟩
    (by decide)
  obtain ⟨h0, hwr, hret, hterm⟩ := h
  obtain ⟨s', chain, hp⟩ := hterm (by unfold divisors_nonzero; decide) (by decide)
  obtain ⟨-, a, b, c⟩ := hret _ _ _ hp
  exact ⟨by decide, h0, hwr, by decide, s', chain, hp, a, b, c⟩

end Transcode
